import Mathlib

/-!
aria2 `MultiDiskAdaptor`: shallow embedding and verified properties

The development embeds `src/MultiDiskAdaptor.cc`.

* `off_t` values are `Int` (64-bit signed), `uint64_t` / `size_t` values are `Nat`
  reduced modulo `2 ^ 64` wherever the C++ arithmetic is unsigned (LP64 data model).
* A `SharedHandle<DiskWriterEntry>` is a natural number (the address of the object); the entry objects live
  in `MultiDiskAdaptor.heap`, so that the entry sequence and the cache of opened
  entries may alias the same object, and objects of an earlier build stay alive while
  the cache still refers to them.
* The collaborators that are not part of the file (the `DiskWriter` backend, the
  directory set-up of `FileEntry`, `File::exists`, `SimpleRandomizer`) are a parameter
  `Ext W` acting on an external world `W`.
* Operations that may throw return `Except Failure α × state`: the state component is
  what the object looks like when the exception leaves the function.
  `Failure.invalidAccess` stands for undefined behaviour of the C++ code
  (dereferencing an iterator that is outside its container).
-/

namespace aria2

/-- One byte of file content. -/
abbrev Byte := UInt8

/-- The C cast `(uint64_t)x` of an `off_t` value. -/
def toU64 (x : Int) : Nat := (x % (2 ^ 64 : Int)).toNat

/-- The interface of `FileEntry` used by the adaptor: `getPath`, `getOffset` (`off_t`),
`getLength` (`uint64_t`) and `isRequested`. -/
structure FileEntry where
  path : String
  offset : Int
  length : Nat
  requested : Bool
deriving DecidableEq, Repr, Inhabited

/-- The data members of `DiskWriterEntry`. The owned `diskWriter` is the backend object
addressed, in the external world, by the handle of the entry. -/
structure DiskWriterEntry where
  fileEntry : FileEntry
  _open : Bool
  _directIO : Bool
deriving DecidableEq, Repr, Inhabited

/-- What a call may end with instead of returning. -/
inductive Failure where
  /-- `DlAbortEx(EX_FILE_OFFSET_OUT_OF_RANGE, offset)`. -/
  | offsetOutOfRange (offset : Int)
  /-- An exception raised by a collaborator, passed through unchanged. -/
  | backend (msg : String)
  /-- Undefined behaviour: an iterator outside its container is dereferenced. -/
  | invalidAccess
deriving DecidableEq, Repr

deriving instance DecidableEq for Except

/-- `DiskWriterEntry::isOpen`. -/
def DiskWriterEntry.isOpen (e : DiskWriterEntry) : Bool := e._open

/-- `DiskWriterEntry::getFilePath`. -/
def DiskWriterEntry.getFilePath (e : DiskWriterEntry) (topDir : String) : String :=
  topDir ++ "/" ++ e.fileEntry.path

/-- `isInRange`: `getOffset() <= offset && (uint64_t)offset < getOffset()+getLength()`,
the sum being computed in `uint64_t`. -/
def isInRange (entry : DiskWriterEntry) (offset : Int) : Bool :=
  decide (entry.fileEntry.offset ≤ offset) &&
    decide (toU64 offset < (toU64 entry.fileEntry.offset + entry.fileEntry.length) % 2 ^ 64)

/-- `calculateLength`: the comparison and the subtraction are `uint64_t` arithmetic. -/
def calculateLength (entry : DiskWriterEntry) (fileOffset : Int) (rem : Nat) : Nat :=
  if entry.fileEntry.length < (toU64 fileOffset + rem) % 2 ^ 64 then
    (entry.fileEntry.length + 2 ^ 64 - toU64 fileOffset) % 2 ^ 64
  else
    rem

/-- `OffsetCompare::operator()`. -/
def OffsetCompare (offset : Int) (dwe : DiskWriterEntry) : Bool :=
  decide (offset < dwe.fileEntry.offset)

/-- The loop of `std::upper_bound` over the positions `[first, first + len)`:
`half = len >> 1; middle = first + half;` then either `len = half` or
`first = middle + 1; len = len - half - 1`. The first argument bounds the number of
iterations; `len` iterations always suffice. -/
def upperBoundLoop {α β : Type} (comp : α → β → Bool) (value : α) (xs : List β) :
    Nat → Nat → Nat → Nat
  | 0, first, _ => first
  | fuel + 1, first, len =>
    if len = 0 then first
    else
      match xs[first + len / 2]? with
      | none => first
      | some x =>
        if comp value x then upperBoundLoop comp value xs fuel first (len / 2)
        else upperBoundLoop comp value xs fuel (first + len / 2 + 1) (len - len / 2 - 1)

/-- `std::upper_bound(begin, end, value, comp)`, as a position counted from `begin`. -/
def upper_bound {α β : Type} (comp : α → β → Bool) (value : α) (xs : List β) : Nat :=
  upperBoundLoop comp value xs xs.length 0 xs.length

/-- `findFirstDiskWriterEntry`: the position of the located entry. Stepping back from
`begin()` and dereferencing the result is undefined behaviour. -/
def findFirstDiskWriterEntry (diskWriterEntries : List DiskWriterEntry) (offset : Int) :
    Except Failure Nat :=
  let first := upper_bound OffsetCompare offset diskWriterEntries
  if first = 0 then .error .invalidAccess
  else
    match diskWriterEntries[first - 1]? with
    | none => .error .invalidAccess
    | some entry =>
      if !isInRange entry offset then .error (.offsetOutOfRange offset)
      else .ok (first - 1)

/-- The conversion of a `size_t` value to `ssize_t`. -/
def toSsize (n : Nat) : Int :=
  if n % 2 ^ 64 < 2 ^ 63 then ((n % 2 ^ 64 : Nat) : Int) else ((n % 2 ^ 64 : Nat) : Int) - 2 ^ 64

/-- The calls the adaptor makes to its collaborators. `MultiDiskAdaptor.calls` records
them in the order in which they are made; the record is not a member of the C++ object. -/
inductive Call where
  | newDiskWriter (h : Nat) (requested : Bool)
  | setDirectIOAllowed (h : Nat) (allowed : Bool)
  | initAndOpenFile (h : Nat) (path : String) (length : Nat)
  | openFile (h : Nat) (path : String) (length : Nat)
  | openExistingFile (h : Nat) (path : String) (length : Nat)
  | closeFile (h : Nat)
  | writeData (h : Nat) (data : List Byte) (len : Nat) (offset : Int)
  | readData (h : Nat) (len : Nat) (offset : Int)
  | enableDirectIO (h : Nat)
  | disableDirectIO (h : Nat)
  | setupDir (fileEntry : FileEntry) (topDirPath : String)
  | fileExists (path : String)
  | getRandomNumber (bound : Nat)
deriving DecidableEq, Repr

/-- The collaborators of the adaptor, acting on an external world `W`. The backend
object (`DiskWriter`) owned by an entry is addressed by the handle of that entry.

Modelled from the spec: the classes `DiskWriter`, `DefaultDiskWriterFactory`, `File`,
`FileEntry::setupDir` and `SimpleRandomizer` are not part of the source file. Following
the spec, opening, directory set-up, writing and reading may fail with an error that
the adaptor passes on; closing, the direct-I/O switches and the existence check do not
fail; a read returns the bytes actually read. -/
structure Ext (W : Type) where
  /-- `DefaultDiskWriterFactory().newDiskWriter()` for a requested file, otherwise
  `new DefaultDiskWriter()`. -/
  newDiskWriter : W → Nat → Bool → W
  setDirectIOAllowed : W → Nat → Bool → W
  initAndOpenFile : W → Nat → String → Nat → Except String Unit × W
  openFile : W → Nat → String → Nat → Except String Unit × W
  openExistingFile : W → Nat → String → Nat → Except String Unit × W
  closeFile : W → Nat → W
  writeData : W → Nat → List Byte → Nat → Int → Except String Unit × W
  readData : W → Nat → Nat → Int → Except String (List Byte) × W
  size : W → Nat → Nat
  enableDirectIO : W → Nat → W
  disableDirectIO : W → Nat → W
  setupDir : W → FileEntry → String → Except String Unit × W
  fileExists : W → String → Bool
  /-- `SimpleRandomizer::getInstance()->getRandomNumber(to)`. -/
  getRandomNumber : W → Nat → Nat × W

/-- The state of a `MultiDiskAdaptor` together with the objects it refers to. -/
structure MultiDiskAdaptor (W : Type) where
  /-- Member of the base class `DiskAdaptor`. -/
  fileEntries : List FileEntry
  /-- Member of the base class `DiskAdaptor`. -/
  storeDir : String
  /-- Member of the base class `DiskAdaptor`. -/
  topDir : String
  _cachedTopDirPath : String
  _directIOAllowed : Bool
  _maxOpenFiles : Nat
  diskWriterEntries : List Nat
  _openedDiskWriterEntries : List Nat
  /-- The `DiskWriterEntry` objects, by address. Objects are never reclaimed: an entry
  that the C++ code destroys is closed or unreachable. -/
  heap : Nat → DiskWriterEntry
  /-- The address the next `new DiskWriterEntry` gets. -/
  nextHandle : Nat
  /-- The external world the collaborators act on. -/
  world : W
  /-- The collaborator calls made so far, oldest first. -/
  calls : List Call

variable {W : Type}

/-- `MultiDiskAdaptor::MultiDiskAdaptor()` followed by the setters of the base class:
no entries, nothing opened, `_maxOpenFiles = DEFAULT_MAX_OPEN_FILES` (a constant of the
header, taken as a parameter). -/
def MultiDiskAdaptor.create (DEFAULT_MAX_OPEN_FILES : Nat) (fileEntries : List FileEntry)
    (storeDir topDir : String) (directIOAllowed : Bool) (world : W) : MultiDiskAdaptor W :=
  { fileEntries := fileEntries, storeDir := storeDir, topDir := topDir,
    _cachedTopDirPath := "", _directIOAllowed := directIOAllowed,
    _maxOpenFiles := DEFAULT_MAX_OPEN_FILES, diskWriterEntries := [],
    _openedDiskWriterEntries := [], heap := fun _ => default, nextHandle := 0,
    world := world, calls := [] }

/-- The entry sequence with every handle dereferenced. -/
def MultiDiskAdaptor.entries (s : MultiDiskAdaptor W) : List DiskWriterEntry :=
  s.diskWriterEntries.map s.heap

/-- The member-function pointer `void (DiskWriterEntry::*open)(const std::string&)`. -/
inductive OpenMethod where
  | initAndOpenFile
  | openFile
  | openExistingFile
deriving DecidableEq, Repr

/-- The backend call behind each open method. -/
def OpenMethod.backend (X : Ext W) : OpenMethod → W → Nat → String → Nat →
    Except String Unit × W
  | .initAndOpenFile => X.initAndOpenFile
  | .openFile => X.openFile
  | .openExistingFile => X.openExistingFile

/-- The record of the backend call behind each open method. -/
def OpenMethod.call : OpenMethod → Nat → String → Nat → Call
  | .initAndOpenFile => Call.initAndOpenFile
  | .openFile => Call.openFile
  | .openExistingFile => Call.openExistingFile

/-- The common body of `DiskWriterEntry::initAndOpenFile`, `::openFile` and
`::openExistingFile`: the backend call on `getFilePath(topDir)` and `getLength()`,
then `if(_directIO) diskWriter->enableDirectIO();` and `_open = true`. -/
def DiskWriterEntry.openWith (X : Ext W) (m : OpenMethod) (h : Nat) (topDir : String)
    (s : MultiDiskAdaptor W) : Except Failure Unit × MultiDiskAdaptor W :=
  let e := s.heap h
  let path := e.getFilePath topDir
  let s1 := { s with calls := s.calls ++ [m.call h path e.fileEntry.length] }
  match m.backend X s.world h path e.fileEntry.length with
  | (.error msg, w) => (.error (.backend msg), { s1 with world := w })
  | (.ok _, w) =>
    let s2 := { s1 with world := w }
    let s3 := if e._directIO then
        { s2 with world := X.enableDirectIO w h, calls := s2.calls ++ [Call.enableDirectIO h] }
      else s2
    (.ok (), { s3 with heap := Function.update s3.heap h { e with _open := true } })

/-- `DiskWriterEntry::initAndOpenFile`. -/
def DiskWriterEntry.initAndOpenFile (X : Ext W) (h : Nat) (topDir : String)
    (s : MultiDiskAdaptor W) : Except Failure Unit × MultiDiskAdaptor W :=
  DiskWriterEntry.openWith X .initAndOpenFile h topDir s

/-- `DiskWriterEntry::openFile`. -/
def DiskWriterEntry.openFile (X : Ext W) (h : Nat) (topDir : String)
    (s : MultiDiskAdaptor W) : Except Failure Unit × MultiDiskAdaptor W :=
  DiskWriterEntry.openWith X .openFile h topDir s

/-- `DiskWriterEntry::openExistingFile`. -/
def DiskWriterEntry.openExistingFile (X : Ext W) (h : Nat) (topDir : String)
    (s : MultiDiskAdaptor W) : Except Failure Unit × MultiDiskAdaptor W :=
  DiskWriterEntry.openWith X .openExistingFile h topDir s

/-- Calling through the member-function pointer. -/
def OpenMethod.run (X : Ext W) : OpenMethod → Nat → String → MultiDiskAdaptor W →
    Except Failure Unit × MultiDiskAdaptor W
  | .initAndOpenFile => DiskWriterEntry.initAndOpenFile X
  | .openFile => DiskWriterEntry.openFile X
  | .openExistingFile => DiskWriterEntry.openExistingFile X

/-- `DiskWriterEntry::closeFile`. -/
def DiskWriterEntry.closeFile (X : Ext W) (h : Nat) (s : MultiDiskAdaptor W) :
    MultiDiskAdaptor W :=
  if (s.heap h)._open then
    { s with
      world := X.closeFile s.world h
      calls := s.calls ++ [Call.closeFile h]
      heap := Function.update s.heap h { s.heap h with _open := false } }
  else s

/-- `DiskWriterEntry::enableDirectIO`. -/
def DiskWriterEntry.enableDirectIO (X : Ext W) (h : Nat) (s : MultiDiskAdaptor W) :
    MultiDiskAdaptor W :=
  let s1 := if (s.heap h)._open then
      { s with world := X.enableDirectIO s.world h, calls := s.calls ++ [Call.enableDirectIO h] }
    else s
  { s1 with heap := Function.update s1.heap h { s1.heap h with _directIO := true } }

/-- `DiskWriterEntry::disableDirectIO`. -/
def DiskWriterEntry.disableDirectIO (X : Ext W) (h : Nat) (s : MultiDiskAdaptor W) :
    MultiDiskAdaptor W :=
  let s1 := if (s.heap h)._open then
      { s with world := X.disableDirectIO s.world h, calls := s.calls ++ [Call.disableDirectIO h] }
    else s
  { s1 with heap := Function.update s1.heap h { s1.heap h with _directIO := false } }

namespace MultiDiskAdaptor

/-- One round of the loop of `resetDiskWriterEntries`: a new entry for `fileEntry`
(closed, no direct I/O), its backend object, `setDirectIOAllowed`, `push_back`. -/
def pushNewEntry (X : Ext W) (s : MultiDiskAdaptor W) (fileEntry : FileEntry) :
    MultiDiskAdaptor W :=
  let h := s.nextHandle
  { s with
    heap := Function.update s.heap h
      { fileEntry := fileEntry, _open := false, _directIO := false }
    nextHandle := h + 1
    world := X.setDirectIOAllowed (X.newDiskWriter s.world h fileEntry.requested) h
      s._directIOAllowed
    calls := s.calls ++
      [Call.newDiskWriter h fileEntry.requested, Call.setDirectIOAllowed h s._directIOAllowed]
    diskWriterEntries := s.diskWriterEntries ++ [h] }

/-- `MultiDiskAdaptor::resetDiskWriterEntries`. -/
def resetDiskWriterEntries (X : Ext W) (s : MultiDiskAdaptor W) : MultiDiskAdaptor W :=
  s.fileEntries.foldl (pushNewEntry X) { s with diskWriterEntries := [] }

/-- `MultiDiskAdaptor::getTopDirPath`. -/
def getTopDirPath (s : MultiDiskAdaptor W) : String :=
  s.storeDir ++ "/" ++ s.topDir

/-- The loop of `MultiDiskAdaptor::mkdir` over the file entries still to be visited. -/
def mkdirLoop (X : Ext W) (topDirPath : String) :
    List FileEntry → MultiDiskAdaptor W → Except Failure Unit × MultiDiskAdaptor W
  | [], s => (.ok (), s)
  | fe :: rest, s =>
    let s1 := { s with calls := s.calls ++ [Call.setupDir fe topDirPath] }
    match X.setupDir s.world fe topDirPath with
    | (.error msg, w) => (.error (.backend msg), { s1 with world := w })
    | (.ok _, w) => mkdirLoop X topDirPath rest { s1 with world := w }

/-- `MultiDiskAdaptor::mkdir`. -/
def mkdir (X : Ext W) (topDirPath : String) (s : MultiDiskAdaptor W) :
    Except Failure Unit × MultiDiskAdaptor W :=
  mkdirLoop X topDirPath s.fileEntries s

/-- `MultiDiskAdaptor::openIfNot`. The open method runs before the cache is looked at;
`numOpened` is the size of the cache before it. A random index that is not a position
of the cache makes `(*i)->closeFile()` undefined behaviour. -/
def openIfNot (X : Ext W) (entry : Nat) (openMethod : OpenMethod) (topDirPath : String)
    (s : MultiDiskAdaptor W) : Except Failure Unit × MultiDiskAdaptor W :=
  if !(s.heap entry).isOpen then
    let numOpened := s._openedDiskWriterEntries.length
    match openMethod.run X entry topDirPath s with
    | (.error e, s1) => (.error e, s1)
    | (.ok _, s1) =>
      if numOpened ≥ s1._maxOpenFiles then
        let r := X.getRandomNumber s1.world numOpened
        let s2 := { s1 with world := r.2, calls := s1.calls ++ [Call.getRandomNumber numOpened] }
        match s2._openedDiskWriterEntries[r.1]? with
        | none => (.error .invalidAccess, s2)
        | some victim =>
          let s3 := DiskWriterEntry.closeFile X victim s2
          (.ok (), { s3 with
            _openedDiskWriterEntries := s3._openedDiskWriterEntries.set r.1 entry })
      else
        (.ok (), { s1 with _openedDiskWriterEntries := s1._openedDiskWriterEntries ++ [entry] })
  else
    (.ok (), s)

/-- `MultiDiskAdaptor::openFile`. -/
def openFile (X : Ext W) (s : MultiDiskAdaptor W) : Except Failure Unit × MultiDiskAdaptor W :=
  let s1 := { s with _cachedTopDirPath := s.getTopDirPath }
  match mkdir X s1._cachedTopDirPath s1 with
  | (.error e, s2) => (.error e, s2)
  | (.ok _, s2) => (.ok (), resetDiskWriterEntries X s2)

/-- The loop of `MultiDiskAdaptor::initAndOpenFile` over the entries still to be opened. -/
def initAndOpenLoop (X : Ext W) :
    List Nat → MultiDiskAdaptor W → Except Failure Unit × MultiDiskAdaptor W
  | [], s => (.ok (), s)
  | h :: rest, s =>
    match openIfNot X h .initAndOpenFile s._cachedTopDirPath s with
    | (.error e, s1) => (.error e, s1)
    | (.ok _, s1) => initAndOpenLoop X rest s1

/-- `MultiDiskAdaptor::initAndOpenFile`. -/
def initAndOpenFile (X : Ext W) (s : MultiDiskAdaptor W) :
    Except Failure Unit × MultiDiskAdaptor W :=
  let s1 := { s with _cachedTopDirPath := s.getTopDirPath }
  match mkdir X s1._cachedTopDirPath s1 with
  | (.error e, s2) => (.error e, s2)
  | (.ok _, s2) =>
    let s3 := resetDiskWriterEntries X s2
    initAndOpenLoop X s3.diskWriterEntries s3

/-- `MultiDiskAdaptor::openExistingFile`. -/
def openExistingFile (X : Ext W) (s : MultiDiskAdaptor W) :
    Except Failure Unit × MultiDiskAdaptor W :=
  (.ok (), resetDiskWriterEntries X { s with _cachedTopDirPath := s.getTopDirPath })

/-- `MultiDiskAdaptor::closeFile`. -/
def closeFile (X : Ext W) (s : MultiDiskAdaptor W) : MultiDiskAdaptor W :=
  s.diskWriterEntries.foldl (fun st h => DiskWriterEntry.closeFile X h st) s

/-- `MultiDiskAdaptor::onDownloadComplete`. -/
def onDownloadComplete (X : Ext W) (s : MultiDiskAdaptor W) :
    Except Failure Unit × MultiDiskAdaptor W :=
  openFile X (closeFile X s)

/-- The loop of `MultiDiskAdaptor::writeData` over the entries from the current one on.
`rem -= writeLength` and `len - rem` are `size_t` arithmetic; the bytes handed to the
backend are the `writeLength` bytes at `data + (len - rem)`. -/
def writeLoop (X : Ext W) (data : List Byte) (len : Nat) :
    List Nat → Nat → Int → MultiDiskAdaptor W → Except Failure Unit × MultiDiskAdaptor W
  | [], _, _, s => (.ok (), s)
  | i :: rest, rem, fileOffset, s =>
    let writeLength := calculateLength (s.heap i) fileOffset rem
    match openIfNot X i .openFile s._cachedTopDirPath s with
    | (.error e, s1) => (.error e, s1)
    | (.ok _, s1) =>
      let chunk := (data.drop ((len + 2 ^ 64 - rem) % 2 ^ 64)).take writeLength
      let s2 := { s1 with calls := s1.calls ++ [Call.writeData i chunk writeLength fileOffset] }
      match X.writeData s1.world i chunk writeLength fileOffset with
      | (.error msg, w) => (.error (.backend msg), { s2 with world := w })
      | (.ok _, w) =>
        if (rem + 2 ^ 64 - writeLength) % 2 ^ 64 = 0 then (.ok (), { s2 with world := w })
        else writeLoop X data len rest ((rem + 2 ^ 64 - writeLength) % 2 ^ 64) 0
          { s2 with world := w }

/-- `MultiDiskAdaptor::writeData`. -/
def writeData (X : Ext W) (data : List Byte) (len : Nat) (offset : Int)
    (s : MultiDiskAdaptor W) : Except Failure Unit × MultiDiskAdaptor W :=
  match findFirstDiskWriterEntry s.entries offset with
  | .error e => (.error e, s)
  | .ok first =>
    match s.diskWriterEntries[first]? with
    | none => (.error .invalidAccess, s)
    | some h =>
      writeLoop X data len (s.diskWriterEntries.drop first) len
        (offset - (s.heap h).fileEntry.offset) s

/-- The caller's buffer after `bytes` have been stored from position `pos` on. -/
def storeAt (buf : List Byte) (pos : Nat) (bytes : List Byte) : List Byte :=
  buf.take pos ++ bytes ++ buf.drop (pos + bytes.length)

/-- The loop of `MultiDiskAdaptor::readData`; `data` is the caller's buffer and
`totalReadLength` the bytes counted so far (`size_t`). -/
def readLoop (X : Ext W) (len : Nat) :
    List Nat → Nat → Int → List Byte → Nat → MultiDiskAdaptor W →
      Except Failure (Nat × List Byte) × MultiDiskAdaptor W
  | [], _, _, data, totalReadLength, s => (.ok (totalReadLength, data), s)
  | i :: rest, rem, fileOffset, data, totalReadLength, s =>
    let readLength := calculateLength (s.heap i) fileOffset rem
    match openIfNot X i .openFile s._cachedTopDirPath s with
    | (.error e, s1) => (.error e, s1)
    | (.ok _, s1) =>
      let s2 := { s1 with calls := s1.calls ++ [Call.readData i readLength fileOffset] }
      match X.readData s1.world i readLength fileOffset with
      | (.error msg, w) => (.error (.backend msg), { s2 with world := w })
      | (.ok bytes, w) =>
        let data1 := storeAt data ((len + 2 ^ 64 - rem) % 2 ^ 64) bytes
        let total1 := (totalReadLength + bytes.length) % 2 ^ 64
        if (rem + 2 ^ 64 - readLength) % 2 ^ 64 = 0 then
          (.ok (total1, data1), { s2 with world := w })
        else readLoop X len rest ((rem + 2 ^ 64 - readLength) % 2 ^ 64) 0 data1 total1
          { s2 with world := w }

/-- `MultiDiskAdaptor::readData`: the returned `ssize_t` and the caller's buffer. -/
def readData (X : Ext W) (data : List Byte) (len : Nat) (offset : Int)
    (s : MultiDiskAdaptor W) : Except Failure (Int × List Byte) × MultiDiskAdaptor W :=
  match findFirstDiskWriterEntry s.entries offset with
  | .error e => (.error e, s)
  | .ok first =>
    match s.diskWriterEntries[first]? with
    | none => (.error .invalidAccess, s)
    | some h =>
      match readLoop X len (s.diskWriterEntries.drop first) len
          (offset - (s.heap h).fileEntry.offset) data 0 s with
      | (.error e, s1) => (.error e, s1)
      | (.ok r, s1) => (.ok (toSsize r.1, r.2), s1)

/-- The loop of `MultiDiskAdaptor::fileExists` over the entries still to be checked. -/
def fileExistsLoop (X : Ext W) (topDirPath : String) :
    List Nat → MultiDiskAdaptor W → Bool × MultiDiskAdaptor W
  | [], s => (false, s)
  | h :: rest, s =>
    let path := (s.heap h).getFilePath topDirPath
    let s1 := { s with calls := s.calls ++ [Call.fileExists path] }
    if X.fileExists s.world path then (true, s1) else fileExistsLoop X topDirPath rest s1

/-- `MultiDiskAdaptor::fileExists`. -/
def fileExists (X : Ext W) (s : MultiDiskAdaptor W) : Bool × MultiDiskAdaptor W :=
  let s1 := if s.diskWriterEntries.isEmpty then resetDiskWriterEntries X s else s
  fileExistsLoop X s1.getTopDirPath s1.diskWriterEntries s1

/-- `MultiDiskAdaptor::size`: the sum is `uint64_t` arithmetic. -/
def size (X : Ext W) (s : MultiDiskAdaptor W) : Nat :=
  s.diskWriterEntries.foldl (fun acc h => (acc + X.size s.world h) % 2 ^ 64) 0

/-- `MultiDiskAdaptor::enableDirectIO`. -/
def enableDirectIO (X : Ext W) (s : MultiDiskAdaptor W) : MultiDiskAdaptor W :=
  s.diskWriterEntries.foldl (fun st h => DiskWriterEntry.enableDirectIO X h st) s

/-- `MultiDiskAdaptor::disableDirectIO`. -/
def disableDirectIO (X : Ext W) (s : MultiDiskAdaptor W) : MultiDiskAdaptor W :=
  s.diskWriterEntries.foldl (fun st h => DiskWriterEntry.disableDirectIO X h st) s

/-- `MultiDiskAdaptor::setMaxOpenFiles`. -/
def setMaxOpenFiles (maxOpenFiles : Nat) (s : MultiDiskAdaptor W) : MultiDiskAdaptor W :=
  { s with _maxOpenFiles := maxOpenFiles }

end MultiDiskAdaptor

/-! ## The file system behind the backend -/

/-- The world of the faithful backend: the files by path, the path each backend object
has open, and the number of random numbers drawn so far. -/
structure Disk where
  files : String → Option (List Byte)
  opened : Nat → Option String
  draws : Nat

/-- The empty disk: no file, nothing open. -/
def Disk.empty : Disk := { files := fun _ => none, opened := fun _ => none, draws := 0 }

/-- A file cut or zero-filled to `length` bytes. -/
def resizeFile (content : List Byte) (length : Nat) : List Byte :=
  content.take length ++ List.replicate (length - content.length) 0

/-- The content of a file after `bytes` are written at position `pos`; a gap between
the old end of the file and `pos` reads as zero. -/
def writeFileAt (content : List Byte) (pos : Nat) (bytes : List Byte) : List Byte :=
  (content ++ List.replicate (pos - content.length) 0).take pos ++ bytes ++
    content.drop (pos + bytes.length)

/-- Modelled from the spec: the `DiskWriter` backend, `File::exists`,
`FileEntry::setupDir` and the randomizer, which are not part of the source file.
Each file is a byte array stored under its path, and a read returns what was last
written. Create-and-open cuts or fills the file to the given length, open creates the
file only if it is absent, open-existing fails on an absent file; close always
succeeds; reading and writing need an open backend object and a non-negative offset;
a read stops at the end of the file. The randomizer is the parameter `rnd`: the `k`-th
draw with bound `n` yields `rnd k n`. -/
def faithful (rnd : Nat → Nat → Nat) : Ext Disk where
  newDiskWriter w h _ := { w with opened := Function.update w.opened h none }
  setDirectIOAllowed w _ _ := w
  initAndOpenFile w h path length :=
    (.ok (), { w with
      files := Function.update w.files path (some (resizeFile ((w.files path).getD []) length))
      opened := Function.update w.opened h (some path) })
  openFile w h path _ :=
    (.ok (), { w with
      files := Function.update w.files path (some ((w.files path).getD []))
      opened := Function.update w.opened h (some path) })
  openExistingFile w h path _ :=
    match w.files path with
    | none => (.error "file not found", w)
    | some _ => (.ok (), { w with opened := Function.update w.opened h (some path) })
  closeFile w h := { w with opened := Function.update w.opened h none }
  writeData w h data len offset :=
    match w.opened h with
    | none => (.error "file not opened", w)
    | some path =>
      if offset < 0 then (.error "invalid offset", w)
      else (.ok (), { w with
        files := Function.update w.files path
          (some (writeFileAt ((w.files path).getD []) offset.toNat (data.take len))) })
  readData w h len offset :=
    match w.opened h with
    | none => (.error "file not opened", w)
    | some path =>
      if offset < 0 then (.error "invalid offset", w)
      else (.ok ((((w.files path).getD []).drop offset.toNat).take len), w)
  size w h :=
    match w.opened h with
    | none => 0
    | some path => ((w.files path).getD []).length
  enableDirectIO w _ := w
  disableDirectIO w _ := w
  setupDir w _ _ := (.ok (), w)
  fileExists w path := (w.files path).isSome
  getRandomNumber w n := (rnd w.draws n, { w with draws := w.draws + 1 })

/-! ## Sequences of calls -/

/-- The operations of the adaptor; `openIfNot i m` is the private helper applied to the
`i`-th entry of the entry sequence with `_cachedTopDirPath`. -/
inductive Op where
  | openFile
  | initAndOpenFile
  | openExistingFile
  | closeFile
  | onDownloadComplete
  | writeData (data : List Byte) (len : Nat) (offset : Int)
  | readData (data : List Byte) (len : Nat) (offset : Int)
  | setMaxOpenFiles (maxOpenFiles : Nat)
  | openIfNot (i : Nat) (openMethod : OpenMethod)
deriving DecidableEq, Repr

/-- How a call ended, without the value it returned. -/
def outcome {α : Type} : Except Failure α → Option Failure
  | .ok _ => none
  | .error e => some e

/-- One call: how it ended (`none`: it returned) and the state it left. -/
def step (X : Ext W) : Op → MultiDiskAdaptor W → Option Failure × MultiDiskAdaptor W
  | .openFile, s => let r := MultiDiskAdaptor.openFile X s; (outcome r.1, r.2)
  | .initAndOpenFile, s => let r := MultiDiskAdaptor.initAndOpenFile X s; (outcome r.1, r.2)
  | .openExistingFile, s => let r := MultiDiskAdaptor.openExistingFile X s; (outcome r.1, r.2)
  | .closeFile, s => (none, MultiDiskAdaptor.closeFile X s)
  | .onDownloadComplete, s =>
    let r := MultiDiskAdaptor.onDownloadComplete X s; (outcome r.1, r.2)
  | .writeData data len offset, s =>
    let r := MultiDiskAdaptor.writeData X data len offset s; (outcome r.1, r.2)
  | .readData data len offset, s =>
    let r := MultiDiskAdaptor.readData X data len offset s; (outcome r.1, r.2)
  | .setMaxOpenFiles n, s => (none, MultiDiskAdaptor.setMaxOpenFiles n s)
  | .openIfNot i m, s =>
    match s.diskWriterEntries[i]? with
    | none => (none, s)
    | some h =>
      let r := MultiDiskAdaptor.openIfNot X h m s._cachedTopDirPath s; (outcome r.1, r.2)

/-- A sequence of calls, each on the state the previous one left (also when it threw).
The result is `none` when a call ran into undefined behaviour. -/
def run (X : Ext W) : List Op → MultiDiskAdaptor W → Option (MultiDiskAdaptor W)
  | [], s => some s
  | op :: ops, s =>
    match step X op s with
    | (some .invalidAccess, _) => none
    | (_, s1) => run X ops s1

/-! ## Tilings -/

/-- The ranges tile the virtual space from `start` on: every range starts where the one
before it ends, the first one at `start`, and every length is positive. -/
def Tiling : Int → List FileEntry → Prop
  | _, [] => True
  | start, fe :: rest => fe.offset = start ∧ 0 < fe.length ∧ Tiling (start + fe.length) rest

instance Tiling.decide : (start : Int) → (fes : List FileEntry) → Decidable (Tiling start fes)
  | _, [] => isTrue trivial
  | start, fe :: rest =>
    have := Tiling.decide (start + fe.length) rest
    inferInstanceAs (Decidable (fe.offset = start ∧ 0 < fe.length ∧ _))

/-- The length of the virtual space: the sum of the lengths of the files. -/
def totalLength (fes : List FileEntry) : Nat := (fes.map (·.length)).sum

/-- The range of `fe` contains `offset`, in exact arithmetic. -/
def FileEntry.contains (fe : FileEntry) (offset : Int) : Bool :=
  decide (fe.offset ≤ offset ∧ offset < fe.offset + fe.length)

/-- The position of the first entry whose range contains `offset`, found by a scan from
the left. -/
def locateLinear (es : List DiskWriterEntry) (offset : Int) : Option Nat :=
  es.findIdx? (fun e => e.fileEntry.contains offset)

/-- The file entries of a sequence of entries. -/
def fileEntriesOf (es : List DiskWriterEntry) : List FileEntry := es.map (·.fileEntry)

/-- The three files of lengths 10, 20 and 5 at offsets 0, 10 and 30, as closed entries. -/
def threeEntries : List DiskWriterEntry :=
  [ { fileEntry := { path := "a", offset := 0, length := 10, requested := true },
      _open := false, _directIO := false },
    { fileEntry := { path := "b", offset := 10, length := 20, requested := true },
      _open := false, _directIO := false },
    { fileEntry := { path := "c", offset := 30, length := 5, requested := false },
      _open := false, _directIO := false } ]

/-! ## Properties of adaptor states -/

/-- Every entry whose open flag is set is referenced by the cache. -/
def OpenInCache (s : MultiDiskAdaptor W) : Prop :=
  ∀ h, (s.heap h)._open = true → h ∈ s._openedDiskWriterEntries

/-- The cache has at most `_maxOpenFiles` slots. -/
def WithinCapacity (s : MultiDiskAdaptor W) : Prop :=
  s._openedDiskWriterEntries.length ≤ s._maxOpenFiles

/-- The slots of the cache refer to distinct entries, each with its open flag set. -/
def CacheOpen (s : MultiDiskAdaptor W) : Prop :=
  s._openedDiskWriterEntries.Nodup ∧
    ∀ h ∈ s._openedDiskWriterEntries, (s.heap h)._open = true

/-- The handles held by the adaptor are addresses of allocated entries, and the entry
sequence holds no entry twice. -/
def Allocated (s : MultiDiskAdaptor W) : Prop :=
  (∀ h ∈ s.diskWriterEntries, h < s.nextHandle) ∧
    (∀ h ∈ s._openedDiskWriterEntries, h < s.nextHandle) ∧ s.diskWriterEntries.Nodup

/-- The allocated entries whose open flag is set. -/
def openEntries (s : MultiDiskAdaptor W) : List Nat :=
  (List.range s.nextHandle).filter (fun h => (s.heap h)._open)

/-- The number of entries of the entry sequence whose open flag is set. -/
def openCount (s : MultiDiskAdaptor W) : Nat :=
  s.diskWriterEntries.countP (fun h => (s.heap h)._open)

/-- The operation is `readData`, `writeData` or `openIfNot`. -/
def Op.isAccess : Op → Bool
  | .writeData _ _ _ => true
  | .readData _ _ _ => true
  | .openIfNot _ _ => true
  | _ => false

/-- The operation builds the entry sequence: `openFile`, `initAndOpenFile` or
`openExistingFile`. -/
def Op.isBuild : Op → Bool
  | .openFile => true
  | .initAndOpenFile => true
  | .openExistingFile => true
  | _ => false

/-- The operation closes the entries of the sequence: `closeFile` or
`onDownloadComplete`. -/
def Op.isClose : Op → Bool
  | .closeFile => true
  | .onDownloadComplete => true
  | _ => false

namespace MultiDiskAdaptor

/-- The heap after the entry at `h` got its open flag set. -/
def heapOpened (s : MultiDiskAdaptor W) (h : Nat) : Nat → DiskWriterEntry :=
  Function.update s.heap h { s.heap h with _open := true }

/-- The heap after the entry at `h` got its open flag set and then the entry at `v` got
its open flag cleared. -/
def heapEvicted (s : MultiDiskAdaptor W) (h v : Nat) : Nat → DiskWriterEntry :=
  Function.update (heapOpened s h) v { heapOpened s h v with _open := false }

/-- From `s` to `s'` nothing changed but open flags, the cache, the external world and
the record of calls. -/
structure SameConfig (s s' : MultiDiskAdaptor W) : Prop where
  fileEntries : s'.fileEntries = s.fileEntries
  storeDir : s'.storeDir = s.storeDir
  topDir : s'.topDir = s.topDir
  cachedTopDirPath : s'._cachedTopDirPath = s._cachedTopDirPath
  directIOAllowed : s'._directIOAllowed = s._directIOAllowed
  maxOpenFiles : s'._maxOpenFiles = s._maxOpenFiles
  diskWriterEntries : s'.diskWriterEntries = s.diskWriterEntries
  nextHandle : s'.nextHandle = s.nextHandle
  fileEntry : ∀ h, (s'.heap h).fileEntry = (s.heap h).fileEntry
  directIO : ∀ h, DiskWriterEntry._directIO (s'.heap h) = DiskWriterEntry._directIO (s.heap h)

/-- The property does not depend on the external world nor on the record of calls. -/
def Internal (P : MultiDiskAdaptor W → Prop) : Prop :=
  ∀ s w c, P s → P { s with world := w, calls := c }

/-- The state after the backend write of `writeLoop`. -/
def afterWrite (s1 : MultiDiskAdaptor W) (i : Nat) (chunk : List Byte) (writeLength : Nat)
    (fileOffset : Int) (w : W) : MultiDiskAdaptor W :=
  { s1 with calls := s1.calls ++ [Call.writeData i chunk writeLength fileOffset], world := w }

/-- The state after the backend read of `readLoop`. -/
def afterRead (s1 : MultiDiskAdaptor W) (i : Nat) (readLength : Nat) (fileOffset : Int)
    (w : W) : MultiDiskAdaptor W :=
  { s1 with calls := s1.calls ++ [Call.readData i readLength fileOffset], world := w }

/-- The property is kept by the steps the operations are made of: changes of the
external world, `_cachedTopDirPath = ...`, `diskWriterEntries.clear()`, one round of
`resetDiskWriterEntries`, and a call of `openIfNot` on an entry of the sequence that
does not run into undefined behaviour. -/
structure Stable (X : Ext W) (P : MultiDiskAdaptor W → Prop) : Prop where
  internal : Internal P
  cached : ∀ s t, P s → P { s with _cachedTopDirPath := t }
  clear : ∀ s, P s → P { s with diskWriterEntries := [] }
  push : ∀ s fe, P s → P (pushNewEntry X s fe)
  access : ∀ s h m t, P s → h ∈ s.diskWriterEntries →
    (openIfNot X h m t s).1 ≠ .error .invalidAccess → P (openIfNot X h m t s).2

end MultiDiskAdaptor

open MultiDiskAdaptor

/-- The file entries of the three files of lengths 10, 20 and 5. -/
def threeFiles : List FileEntry := fileEntriesOf threeEntries

/-- A randomizer: the `k`-th draw with bound `n` yields `k % n`. -/
def sampleRandom (k n : Nat) : Nat := k % n

/-- A newly constructed adaptor over the three files on an empty disk, with the given
capacity. -/
def sampleAdaptor (maxOpenFiles : Nat) : MultiDiskAdaptor Disk :=
  setMaxOpenFiles maxOpenFiles
    (MultiDiskAdaptor.create 100 threeFiles "/dl" "top" false Disk.empty)

/-- Fifteen bytes of data. -/
def sampleData : List Byte := [65, 66, 67, 68, 69, 70, 71, 72, 73, 74, 75, 76, 77, 78, 79]

/-- The state after the given calls on `sampleAdaptor`, with the faithful backend. -/
def sampleRun (maxOpenFiles : Nat) (ops : List Op) : MultiDiskAdaptor Disk :=
  (run (faithful sampleRandom) ops (sampleAdaptor maxOpenFiles)).getD
    (sampleAdaptor maxOpenFiles)

/-- The consistency of the cache as the spec states it: at most `maxOpenFiles` slots,
every entry referenced by a slot is open, every open entry is referenced by a slot. -/
def CacheConsistent (s : MultiDiskAdaptor W) : Prop :=
  s._openedDiskWriterEntries.length ≤ s._maxOpenFiles ∧
    (∀ h ∈ s._openedDiskWriterEntries, (s.heap h)._open = true) ∧
    (∀ h, (s.heap h)._open = true → h ∈ s._openedDiskWriterEntries)

/-- The capacities that the `setMaxOpenFiles` calls of a sequence configure, in order. -/
def capacityChanges : List Op → List Nat
  | [] => []
  | .setMaxOpenFiles n :: ops => n :: capacityChanges ops
  | _ :: ops => capacityChanges ops

/-- The call hands data to a backend write. -/
def Call.isWrite : Call → Bool
  | .writeData _ _ _ _ => true
  | _ => false

/-- The call is a backend read. -/
def Call.isRead : Call → Bool
  | .readData _ _ _ => true
  | _ => false

/-- The number of bytes a backend write is given; zero for other calls. -/
def Call.writeLength : Call → Nat
  | .writeData _ _ len _ => len
  | _ => 0

/-- The backend writes among the calls, in order. -/
def writesOf (calls : List Call) : List Call := calls.filter Call.isWrite

/-- The backend writes that the loop of `writeData` issues when no call fails: for each
entry the chunk computed by `calculateLength`, until nothing remains. -/
def writePlan (data : List Byte) (len : Nat) (heap : Nat → DiskWriterEntry) :
    List Nat → Nat → Int → List Call
  | [], _, _ => []
  | i :: rest, rem, fileOffset =>
    Call.writeData i
        ((data.drop ((len + 2 ^ 64 - rem) % 2 ^ 64)).take
          (calculateLength (heap i) fileOffset rem))
        (calculateLength (heap i) fileOffset rem) fileOffset ::
      (if (rem + 2 ^ 64 - calculateLength (heap i) fileOffset rem) % 2 ^ 64 = 0 then []
       else writePlan data len heap rest
         ((rem + 2 ^ 64 - calculateLength (heap i) fileOffset rem) % 2 ^ 64) 0)

/-- The write that the spec expects for the file `fe` behind the entry `h`, for a request
of `len` bytes at `offset`: none if the range of the file does not meet
`[offset, offset + len)`; otherwise the bytes of `data` that fall into the file, at the
place in the file where they belong. -/
def expectedWrite (data : List Byte) (len : Nat) (offset : Int) (h : Nat) (fe : FileEntry) :
    Option Call :=
  if fe.offset < offset + len ∧ offset < fe.offset + fe.length then
    some (Call.writeData h
      ((data.drop (max fe.offset offset - offset).toNat).take
        (min (fe.offset + fe.length) (offset + len) - max fe.offset offset).toNat)
      (min (fe.offset + fe.length) (offset + len) - max fe.offset offset).toNat
      (max fe.offset offset - fe.offset))
  else none

/-- The writes that the spec expects for a request: one per file that meets the
requested range, in the order of the entry sequence. -/
def expectedWrites (data : List Byte) (len : Nat) (offset : Int)
    (heap : Nat → DiskWriterEntry) (entries : List Nat) : List Call :=
  entries.filterMap (fun h => expectedWrite data len offset h (heap h).fileEntry)

/-! ## The calls of `openIfNot` -/

/-- None of the calls is a backend write or a backend read. -/
def NoTransfer (cs : List Call) : Prop := ∀ c ∈ cs, c.isWrite = false ∧ c.isRead = false

/-- The file entries behind a list of handles. -/
def filesOf (heap : Nat → DiskWriterEntry) (l : List Nat) : List FileEntry :=
  l.map (fun h => (heap h).fileEntry)

/-! ## The faithful backend -/

/-- The bytes of the file at `path`; an absent file has none. -/
def Disk.content (w : Disk) (path : String) : List Byte := (w.files path).getD []

/-- The path under which the adaptor opens the entry at `h`. -/
def pathOf (s : MultiDiskAdaptor Disk) (h : Nat) : String :=
  (s.heap h).getFilePath s._cachedTopDirPath

/-- The backend object of every open entry has the file of that entry open. -/
def Coupled (s : MultiDiskAdaptor Disk) : Prop :=
  ∀ h, (s.heap h)._open = true → s.world.opened h = some (pathOf s h)

/-- The state in which reads and writes through the faithful backend succeed: the cache
holds distinct open entries, the backend has their files open, and the capacity is at
least one. -/
def Ready (s : MultiDiskAdaptor Disk) : Prop :=
  CacheOpen s ∧ Coupled s ∧ 1 ≤ s._maxOpenFiles

/-- Every chunk of the plan is stored in the file of its entry, at its local offset. -/
def PlanStored (path : Nat → String) (content : String → List Byte) (plan : List Call) :
    Prop :=
  ∀ i chunk n fo, Call.writeData i chunk n fo ∈ plan →
    ((content (path i)).drop fo.toNat).take n = chunk

/-- The randomizer keeps its contract: a draw with a positive bound is below the bound. -/
def ValidRandom (rnd : Nat → Nat → Nat) : Prop := ∀ k n, 0 < n → rnd k n < n

/-- No entry is open and the cache is empty. -/
def AllClosed (s : MultiDiskAdaptor Disk) : Prop :=
  (∀ h, (s.heap h)._open = false) ∧ s._openedDiskWriterEntries = []

/-- The entry sequence is empty, or it holds one entry per file entry, in the same order. -/
def Built (s : MultiDiskAdaptor W) : Prop :=
  s.diskWriterEntries = [] ∨ filesOf s.heap s.diskWriterEntries = s.fileEntries

/-- The file entries and the directories the adaptor was configured with. -/
def Configured (fileEntries : List FileEntry) (storeDir topDir : String)
    (s : MultiDiskAdaptor W) : Prop :=
  s.fileEntries = fileEntries ∧ s.storeDir = storeDir ∧ s.topDir = topDir

/-- One round of the loop shared by `writeData` and `readData`: the entry, the offset in
its file (`fileOffset`), the length handed to the backend (`writeLength` / `readLength`) and
the position `len - rem` in the caller's buffer. -/
structure Chunk where
  entry : Nat
  fileOffset : Int
  length : Nat
  position : Nat
deriving DecidableEq, Repr

/-- The rounds of the loop of `writeData` / `readData` over the entries from the current
one on, when no call fails: `calculateLength`, then `rem -= length; fileOffset = 0` and the
loop ends when `rem == 0` or the entries run out. Nothing a backend returns enters. -/
def chunkPlan (len : Nat) (heap : Nat → DiskWriterEntry) : List Nat → Nat → Int → List Chunk
  | [], _, _ => []
  | i :: rest, rem, fileOffset =>
    { entry := i, fileOffset := fileOffset, length := calculateLength (heap i) fileOffset rem,
      position := (len + 2 ^ 64 - rem) % 2 ^ 64 } ::
      (if (rem + 2 ^ 64 - calculateLength (heap i) fileOffset rem) % 2 ^ 64 = 0 then []
       else chunkPlan len heap rest
         ((rem + 2 ^ 64 - calculateLength (heap i) fileOffset rem) % 2 ^ 64) 0)

/-- The rounds of a request of `len` bytes at `offset`: the common beginning of `writeData`
and `readData` (`findFirstDiskWriterEntry`, `rem = len`,
`fileOffset = offset - (*first)->getFileEntry()->getOffset()`), then the loop. -/
def chunksFor (s : MultiDiskAdaptor W) (len : Nat) (offset : Int) : List Chunk :=
  match findFirstDiskWriterEntry s.entries offset with
  | .error _ => []
  | .ok first =>
    match s.diskWriterEntries[first]? with
    | none => []
    | some h =>
      chunkPlan len s.heap (s.diskWriterEntries.drop first) len
        (offset - (s.heap h).fileEntry.offset)

/-- The backend write of a round: the `length` bytes at `data + position`. -/
def Chunk.write (data : List Byte) (c : Chunk) : Call :=
  Call.writeData c.entry ((data.drop c.position).take c.length) c.length c.fileOffset

/-- The backend read of a round. -/
def Chunk.read (c : Chunk) : Call := Call.readData c.entry c.length c.fileOffset

/-- The backend reads among the calls, in order. -/
def readsOf (calls : List Call) : List Call := calls.filter Call.isRead

/-- The bytes are what the backend returned to the read of the round, in some state of the
external world. -/
def Answered (X : Ext W) (c : Chunk) (bytes : List Byte) : Prop :=
  ∃ w w', X.readData w c.entry c.length c.fileOffset = (.ok bytes, w')

/-- The caller's buffer after the bytes returned to each round have been stored at the
position of the round. -/
def storeAll : List Byte → List Chunk → List (List Byte) → List Byte
  | buf, c :: plan, bytes :: rest => storeAll (storeAt buf c.position bytes) plan rest
  | buf, _, _ => buf

/-- The randomizer of the backend keeps its contract: a draw with a positive bound is below
the bound. -/
def RandomInRange (X : Ext W) : Prop := ∀ w n, 0 < n → (X.getRandomNumber w n).1 < n

/-- The call is the create-and-truncate open of a backend object. -/
def Call.isInit : Call → Bool
  | .initAndOpenFile _ _ _ => true
  | _ => false

/-- The call closes a backend object. -/
def Call.isCloseFile : Call → Bool
  | .closeFile _ => true
  | _ => false

/-- The create-and-truncate opens among the calls, in order. -/
def initsOf (calls : List Call) : List Call := calls.filter Call.isInit

/-- The backend closes among the calls, in order. -/
def closesOf (calls : List Call) : List Call := calls.filter Call.isCloseFile

/-- Modelled from the spec: the direct-I/O mode of the backend objects, which belongs to the
`DiskWriter` classes and is not part of the source file. `mode w h` is the mode of the
backend object of the entry at `h` in the world `w`. A successful open leaves the object
with direct I/O disabled; `enableDirectIO` / `disableDirectIO` switch the mode of their
object; no call changes the mode of another object, and a failed open changes no mode. -/
structure DirectIOBackend (X : Ext W) (mode : W → Nat → Bool) : Prop where
  opened : ∀ (m : OpenMethod) (w : W) (h : Nat) (p : String) (n : Nat) (w' : W) (u : Unit),
    m.backend X w h p n = (.ok u, w') →
      mode w' h = false ∧ ∀ h', h' ≠ h → mode w' h' = mode w h'
  failed : ∀ (m : OpenMethod) (w : W) (h : Nat) (p : String) (n : Nat) (w' : W) (msg : String),
    m.backend X w h p n = (.error msg, w') → ∀ h', mode w' h' = mode w h'
  enabled : ∀ (w : W) (h : Nat), mode (X.enableDirectIO w h) h = true ∧
    ∀ h', h' ≠ h → mode (X.enableDirectIO w h) h' = mode w h'
  disabled : ∀ (w : W) (h : Nat), mode (X.disableDirectIO w h) h = false ∧
    ∀ h', h' ≠ h → mode (X.disableDirectIO w h) h' = mode w h'
  closed : ∀ (w : W) (h : Nat), ∀ h', h' ≠ h → mode (X.closeFile w h) h' = mode w h'

/-- The operations of an entry, and the two operations of the adaptor that apply
`enableDirectIO` / `disableDirectIO` to every entry of the sequence. -/
inductive DirectOp where
  | openWith (m : OpenMethod) (h : Nat) (topDir : String)
  | closeFile (h : Nat)
  | enable (h : Nat)
  | disable (h : Nat)
  | enableAll
  | disableAll
deriving DecidableEq, Repr

/-- One operation; an open method that throws leaves the state it had reached. -/
def directStep (X : Ext W) : DirectOp → MultiDiskAdaptor W → MultiDiskAdaptor W
  | .openWith m h t, s => (m.run X h t s).2
  | .closeFile h, s => DiskWriterEntry.closeFile X h s
  | .enable h, s => DiskWriterEntry.enableDirectIO X h s
  | .disable h, s => DiskWriterEntry.disableDirectIO X h s
  | .enableAll, s => MultiDiskAdaptor.enableDirectIO X s
  | .disableAll, s => MultiDiskAdaptor.disableDirectIO X s

/-- A sequence of operations, each on the state the previous one left. -/
def directRun (X : Ext W) (ops : List DirectOp) (s : MultiDiskAdaptor W) : MultiDiskAdaptor W :=
  ops.foldl (fun st op => directStep X op st) s

/-- The direct-I/O mode of the backend object of every open entry is the sticky flag of the
entry. -/
def InSync (mode : W → Nat → Bool) (s : MultiDiskAdaptor W) : Prop :=
  ∀ h, (s.heap h)._open = true → mode s.world h = DiskWriterEntry._directIO (s.heap h)

/-- The argument of the most recent `enableDirectIO` (`true`) / `disableDirectIO` (`false`)
that reached the entry at `h`, directly or through the adaptor (which reaches the entries
of the sequence); `flag` if there was none. -/
def requested (entries : List Nat) (h : Nat) : List DirectOp → Bool → Bool
  | [], flag => flag
  | .enable h' :: ops, flag => requested entries h ops (if h' = h then true else flag)
  | .disable h' :: ops, flag => requested entries h ops (if h' = h then false else flag)
  | .enableAll :: ops, flag => requested entries h ops (if h ∈ entries then true else flag)
  | .disableAll :: ops, flag => requested entries h ops (if h ∈ entries then false else flag)
  | _ :: ops, flag => requested entries h ops flag

/-- Modelled from the spec: a backend that keeps nothing but the direct-I/O mode of every
backend object; every open succeeds and leaves direct I/O disabled. -/
def modeBackend : Ext (Nat → Bool) where
  newDiskWriter w _ _ := w
  setDirectIOAllowed w _ _ := w
  initAndOpenFile w h _ _ := (.ok (), Function.update w h false)
  openFile w h _ _ := (.ok (), Function.update w h false)
  openExistingFile w h _ _ := (.ok (), Function.update w h false)
  closeFile w _ := w
  writeData w _ _ _ _ := (.ok (), w)
  readData w _ _ _ := (.ok [], w)
  size _ _ := 0
  enableDirectIO w h := Function.update w h true
  disableDirectIO w h := Function.update w h false
  setupDir w _ _ := (.ok (), w)
  fileExists _ _ := false
  getRandomNumber w _ := (0, w)

/-- A request to the adaptor: `writeData(data, len, offset)` or `readData(data, len, offset)`
with the caller's buffer `data`. -/
inductive Request where
  | write (data : List Byte) (len : Nat) (offset : Int)
  | read (data : List Byte) (len : Nat) (offset : Int)
deriving DecidableEq, Repr

/-- What the caller gets back from a request: nothing from a write, the returned count and
the buffer from a read, or the exception. -/
def serve {W : Type} (X : Ext W) :
    Request → MultiDiskAdaptor W → Except Failure (Option (Int × List Byte)) × MultiDiskAdaptor W
  | .write data len offset, s =>
    match writeData X data len offset s with
    | (.error e, s1) => (.error e, s1)
    | (.ok _, s1) => (.ok none, s1)
  | .read data len offset, s =>
    match readData X data len offset s with
    | (.error e, s1) => (.error e, s1)
    | (.ok r, s1) => (.ok (some r), s1)

/-- A sequence of requests, each on the state the previous one left (also when it threw):
what the caller got back from each, and the final state. -/
def serveAll {W : Type} (X : Ext W) :
    List Request → MultiDiskAdaptor W →
      List (Except Failure (Option (Int × List Byte))) × MultiDiskAdaptor W
  | [], s => ([], s)
  | q :: qs, s => ((serve X q s).1 :: (serveAll X qs (serve X q s).2).1,
      (serveAll X qs (serve X q s).2).2)

/-- The file of every open entry exists. -/
def Present (s : MultiDiskAdaptor Disk) : Prop :=
  ∀ h, (s.heap h)._open = true → (s.world.files (pathOf s h)).isSome = true

/-- Two states of one adaptor that differ at most in which entries are open: the same
configuration and entries, the same files with the same content, and both ready with the
files of their open entries in place. -/
def Twin (sA sB : MultiDiskAdaptor Disk) : Prop :=
  SameConfig sA sB ∧ sA.world.files = sB.world.files ∧ (Ready sA ∧ Present sA) ∧
    (Ready sB ∧ Present sB)

/-- Scenario B before the third file is touched: `maxOpenFiles = 2`, the three files built
by `openFile()`, then the first and the second file touched. -/
def scenarioB : MultiDiskAdaptor Disk :=
  sampleRun 2 [.openFile, .openIfNot 0 .openFile, .openIfNot 1 .openFile]

/-- The three files built by `openExistingFile()` over the backend that keeps the
direct-I/O modes, all modes off. -/
def directSample : MultiDiskAdaptor (Nat → Bool) :=
  (openExistingFile modeBackend
    (MultiDiskAdaptor.create 100 threeFiles "/dl" "top" true (fun _ => false))).2

/-! ## The binary search -/

theorem upperBoundLoop_spec {α β : Type} (comp : α → β → Bool) (value : α) (xs : List β)
    (hmono : ∀ (i j : Nat) (x y : β), i ≤ j → xs[i]? = some x → xs[j]? = some y →
      comp value x = true → comp value y = true) :
    ∀ fuel first len, len ≤ fuel → first + len ≤ xs.length →
      (∀ (i : Nat) (x : β), i < first → xs[i]? = some x → comp value x = false) →
      (∀ (i : Nat) (x : β), first + len ≤ i → xs[i]? = some x → comp value x = true) →
      let r := upperBoundLoop comp value xs fuel first len
      r ≤ xs.length ∧ (∀ (i : Nat) (x : β), i < r → xs[i]? = some x → comp value x = false) ∧
        (∀ (i : Nat) (x : β), r ≤ i → xs[i]? = some x → comp value x = true) := by
  intro fuel
  induction fuel with
  | zero =>
    intro first len hlen hbound hlo hhi
    have : len = 0 := by omega
    subst this
    simp only [upperBoundLoop]
    exact ⟨by omega, hlo, fun i x hi => hhi i x (by omega)⟩
  | succ fuel ih =>
    intro first len hlen hbound hlo hhi
    simp only [upperBoundLoop]
    by_cases h0 : len = 0
    · subst h0
      simp only [if_true]
      exact ⟨by omega, hlo, fun i x hi => hhi i x (by omega)⟩
    · simp only [h0, if_false]
      have hmid : first + len / 2 < xs.length := by
        have : len / 2 < len := Nat.div_lt_self (by omega) (by decide)
        omega
      obtain ⟨m, hm⟩ : ∃ m, xs[first + len / 2]? = some m :=
        ⟨xs[first + len / 2], List.getElem?_eq_getElem hmid⟩
      rw [hm]
      simp only
      have hhalf : len / 2 < len := Nat.div_lt_self (by omega) (by decide)
      by_cases hc : comp value m = true
      · simp only [hc, if_true]
        refine ih first (len / 2) (by omega) (by omega) hlo ?_
        intro i x hi hx
        exact hmono (first + len / 2) i m x hi hm hx hc
      · simp only [hc]
        refine ih (first + len / 2 + 1) (len - len / 2 - 1) (by omega) (by omega) ?_ ?_
        · intro i x hi hx
          by_contra hx'
          have hxt : comp value x = true := by simpa using hx'
          exact hc (hmono i (first + len / 2) x m (by omega) hx hm hxt)
        · intro i x hi hx
          exact hhi i x (by omega) hx

theorem upper_bound_spec {α β : Type} (comp : α → β → Bool) (value : α) (xs : List β)
    (hmono : ∀ (i j : Nat) (x y : β), i ≤ j → xs[i]? = some x → xs[j]? = some y →
      comp value x = true → comp value y = true) :
    upper_bound comp value xs ≤ xs.length ∧
      (∀ (i : Nat) (x : β), i < upper_bound comp value xs → xs[i]? = some x → comp value x = false) ∧
      (∀ (i : Nat) (x : β), upper_bound comp value xs ≤ i → xs[i]? = some x → comp value x = true) := by
  refine upperBoundLoop_spec comp value xs hmono xs.length 0 xs.length (le_refl _) (by omega)
    (fun i x hi => absurd hi (by omega)) ?_
  intro i x hi hx
  have := List.getElem?_eq_some_iff.mp hx
  obtain ⟨h, _⟩ := this
  omega

/-! ## Tilings by position -/

theorem totalLength_cons (fe : FileEntry) (fes : List FileEntry) :
    totalLength (fe :: fes) = fe.length + totalLength fes := by
  simp [totalLength]

theorem totalLength_take_le (fes : List FileEntry) (i : Nat) :
    totalLength (fes.take i) ≤ totalLength fes := by
  induction fes generalizing i with
  | nil => simp
  | cons fe fes ih =>
    cases i with
    | zero => simp [totalLength]
    | succ i =>
      simp only [List.take_succ_cons, totalLength_cons]
      have := ih i
      omega

theorem totalLength_take_succ (fes : List FileEntry) (i : Nat) (a : FileEntry)
    (h : fes[i]? = some a) :
    totalLength (fes.take (i + 1)) = totalLength (fes.take i) + a.length := by
  induction fes generalizing i with
  | nil => simp at h
  | cons fe fes ih =>
    cases i with
    | zero =>
      simp at h
      subst h
      simp [totalLength]
    | succ i =>
      simp only [List.getElem?_cons_succ] at h
      simp only [List.take_succ_cons, totalLength_cons]
      have := ih i h
      omega

theorem totalLength_take_mono (fes : List FileEntry) (i j : Nat) (hij : i ≤ j) :
    totalLength (fes.take i) ≤ totalLength (fes.take j) := by
  have h : fes.take i = (fes.take j).take i := by
    rw [List.take_take, Nat.min_eq_left hij]
  rw [h]
  exact totalLength_take_le _ _

theorem totalLength_take_length (fes : List FileEntry) (n : Nat) (h : fes.length ≤ n) :
    totalLength (fes.take n) = totalLength fes := by
  rw [List.take_of_length_le h]

/-- In a tiling the entry at position `i` starts at `start` plus the lengths before
it, and has a positive length. -/
theorem Tiling.offset_eq {start : Int} {fes : List FileEntry} (ht : Tiling start fes)
    {i : Nat} {a : FileEntry} (h : fes[i]? = some a) :
    a.offset = start + totalLength (fes.take i) ∧ 0 < a.length := by
  induction fes generalizing start i with
  | nil => simp at h
  | cons fe fes ih =>
    obtain ⟨h1, h2, h3⟩ := ht
    cases i with
    | zero =>
      simp at h
      subst h
      simp [totalLength, h1, h2]
    | succ i =>
      simp only [List.getElem?_cons_succ] at h
      obtain ⟨e1, e2⟩ := ih h3 h
      refine ⟨?_, e2⟩
      simp only [List.take_succ_cons, totalLength_cons]
      rw [e1]
      push_cast
      ring

theorem Tiling.end_le_offset {start : Int} {fes : List FileEntry} (ht : Tiling start fes)
    {i j : Nat} {a b : FileEntry} (hij : i < j) (ha : fes[i]? = some a)
    (hb : fes[j]? = some b) : a.offset + a.length ≤ b.offset := by
  have h1 := (ht.offset_eq ha).1
  have h2 := (ht.offset_eq hb).1
  have h3 := totalLength_take_succ fes i a ha
  have h4 := totalLength_take_mono fes (i + 1) j hij
  omega

theorem Tiling.end_le_total {start : Int} {fes : List FileEntry} (ht : Tiling start fes)
    {i : Nat} {a : FileEntry} (ha : fes[i]? = some a) :
    a.offset + a.length ≤ start + totalLength fes := by
  have h1 := (ht.offset_eq ha).1
  have h3 := totalLength_take_succ fes i a ha
  have h4 := totalLength_take_le fes (i + 1)
  omega

theorem Tiling.last_end {start : Int} {fes : List FileEntry} (ht : Tiling start fes)
    {i : Nat} {a : FileEntry} (ha : fes[i]? = some a) (hi : i + 1 = fes.length) :
    a.offset + a.length = start + totalLength fes := by
  have h1 := (ht.offset_eq ha).1
  have h3 := totalLength_take_succ fes i a ha
  have h4 := totalLength_take_length fes (i + 1) (by omega)
  omega

theorem Tiling.next_offset {start : Int} {fes : List FileEntry} (ht : Tiling start fes)
    {i : Nat} {a b : FileEntry} (ha : fes[i]? = some a) (hb : fes[i + 1]? = some b) :
    b.offset = a.offset + a.length := by
  have h1 := (ht.offset_eq ha).1
  have h2 := (ht.offset_eq hb).1
  have h3 := totalLength_take_succ fes i a ha
  omega

theorem fileEntriesOf_getElem? (es : List DiskWriterEntry) (i : Nat) (e : DiskWriterEntry)
    (h : es[i]? = some e) : (fileEntriesOf es)[i]? = some e.fileEntry := by
  simp [fileEntriesOf, h]

theorem fileEntriesOf_length (es : List DiskWriterEntry) :
    (fileEntriesOf es).length = es.length := by
  simp [fileEntriesOf]

theorem toU64_of_nonneg (x : Int) (h0 : 0 ≤ x) (h1 : x < 2 ^ 64) : (toU64 x : Int) = x := by
  unfold toU64
  rw [Int.emod_eq_of_lt h0 h1]
  exact Int.toNat_of_nonneg h0

/-- Sorted offsets make `OffsetCompare` monotone along the sequence. -/
theorem OffsetCompare_mono {es : List DiskWriterEntry}
    (ht : Tiling 0 (fileEntriesOf es)) (offset : Int) :
    ∀ (i j : Nat) (x y : DiskWriterEntry), i ≤ j → es[i]? = some x → es[j]? = some y →
      OffsetCompare offset x = true → OffsetCompare offset y = true := by
  intro i j x y hij hx hy hc
  rcases Nat.eq_or_lt_of_le hij with h | h
  · subst h
    rw [hx] at hy
    cases hy
    exact hc
  · have := ht.end_le_offset h (fileEntriesOf_getElem? es i x hx) (fileEntriesOf_getElem? es j y hy)
    simp only [OffsetCompare, decide_eq_true_eq] at hc ⊢
    omega

/-! ## Locating an offset -/

theorem isInRange_of_contains (e : DiskWriterEntry) (offset : Int)
    (he0 : 0 ≤ e.fileEntry.offset) (hend : e.fileEntry.offset + e.fileEntry.length < 2 ^ 64)
    (h1 : e.fileEntry.offset ≤ offset) (h2 : offset < e.fileEntry.offset + e.fileEntry.length) :
    isInRange e offset = true := by
  have a1 := toU64_of_nonneg offset (by omega) (by omega)
  have a2 := toU64_of_nonneg e.fileEntry.offset he0 (by omega)
  have a3 : (toU64 e.fileEntry.offset + e.fileEntry.length) % 2 ^ 64 =
      toU64 e.fileEntry.offset + e.fileEntry.length := Nat.mod_eq_of_lt (by omega)
  simp only [isInRange, Bool.and_eq_true, decide_eq_true_eq]
  refine ⟨h1, ?_⟩
  rw [a3]
  omega

/-- On a tiling the search of `upper_bound` stops right after the entry whose range
contains the offset. -/
theorem upper_bound_tiling (es : List DiskWriterEntry) (offset : Int)
    (ht : Tiling 0 (fileEntriesOf es)) (h0 : 0 ≤ offset)
    (h1 : offset < totalLength (fileEntriesOf es)) :
    ∃ i e, upper_bound OffsetCompare offset es = i + 1 ∧ es[i]? = some e ∧
      e.fileEntry.offset ≤ offset ∧ offset < e.fileEntry.offset + e.fileEntry.length := by
  obtain ⟨hr, hlo, hhi⟩ := upper_bound_spec OffsetCompare offset es (OffsetCompare_mono ht offset)
  have hne : es ≠ [] := by
    rintro rfl
    simp [fileEntriesOf, totalLength] at h1
    omega
  obtain ⟨e0, rest, rfl⟩ := List.exists_cons_of_ne_nil hne
  have he0 : e0.fileEntry.offset = 0 := ht.1
  have hr0 : upper_bound OffsetCompare offset (e0 :: rest) ≠ 0 := by
    intro h
    have := hhi 0 e0 (by omega) (by simp)
    simp only [OffsetCompare, decide_eq_true_eq] at this
    omega
  obtain ⟨i, hi⟩ := Nat.exists_eq_succ_of_ne_zero hr0
  have hilt : i < (e0 :: rest).length := by omega
  refine ⟨i, (e0 :: rest)[i], hi, List.getElem?_eq_getElem hilt, ?_, ?_⟩
  · have := hlo i _ (by omega) (List.getElem?_eq_getElem hilt)
    simpa [OffsetCompare] using this
  · have hfi := fileEntriesOf_getElem? _ i _ (List.getElem?_eq_getElem hilt)
    by_cases hlast : i + 1 < (e0 :: rest).length
    · have hb := hhi (i + 1) _ (by omega) (List.getElem?_eq_getElem hlast)
      have hfb := fileEntriesOf_getElem? _ (i + 1) _ (List.getElem?_eq_getElem hlast)
      have := ht.next_offset hfi hfb
      simp only [OffsetCompare, decide_eq_true_eq] at hb
      omega
    · have := ht.last_end hfi (by rw [fileEntriesOf_length]; omega)
      omega

/-- In a tiling at most one range contains a given offset. -/
theorem Tiling.contains_unique {start : Int} {fes : List FileEntry} (ht : Tiling start fes)
    {i j : Nat} {a b : FileEntry} (ha : fes[i]? = some a) (hb : fes[j]? = some b)
    (offset : Int) (ha1 : a.offset ≤ offset) (ha2 : offset < a.offset + a.length)
    (hb1 : b.offset ≤ offset) (hb2 : offset < b.offset + b.length) : i = j := by
  rcases Nat.lt_trichotomy i j with h | h | h
  · have := ht.end_le_offset h ha hb
    omega
  · exact h
  · have := ht.end_le_offset h hb ha
    omega

/-- On a tiling, `findFirstDiskWriterEntry` returns the position of the one entry whose
range holds the offset. -/
theorem findFirstDiskWriterEntry_tiling (es : List DiskWriterEntry) (offset : Int)
    (ht : Tiling 0 (fileEntriesOf es)) (hfit : totalLength (fileEntriesOf es) < 2 ^ 64)
    (h0 : 0 ≤ offset) (h1 : offset < totalLength (fileEntriesOf es)) :
    ∃ i e, findFirstDiskWriterEntry es offset = .ok i ∧ es[i]? = some e ∧
      e.fileEntry.offset ≤ offset ∧ offset < e.fileEntry.offset + e.fileEntry.length ∧
      (∀ (j : Nat) (e' : DiskWriterEntry), es[j]? = some e' → e'.fileEntry.offset ≤ offset →
        offset < e'.fileEntry.offset + e'.fileEntry.length → j = i) := by
  obtain ⟨i, e, hub, hi, hlo, hhi⟩ := upper_bound_tiling es offset ht h0 h1
  have hfi := fileEntriesOf_getElem? es i e hi
  have hoff := (ht.offset_eq hfi).1
  have hend := ht.end_le_total hfi
  have hin : isInRange e offset = true :=
    isInRange_of_contains e offset (by omega) (by omega) hlo hhi
  have huniq : ∀ (j : Nat) (e' : DiskWriterEntry), es[j]? = some e' →
      e'.fileEntry.offset ≤ offset →
      offset < e'.fileEntry.offset + e'.fileEntry.length → j = i := by
    intro j e' hj hj1 hj2
    exact ht.contains_unique (fileEntriesOf_getElem? es j e' hj) hfi offset hj1 hj2 hlo hhi
  refine ⟨i, e, ?_, hi, hlo, hhi, huniq⟩
  simp [findFirstDiskWriterEntry, hub, hi, hin]

/-- Claim C1. On every entry sequence whose ranges tile `[0, totalLength)` (sorted by
offset, positive lengths, contiguous; `totalLength` a `uint64_t` value) and for every
offset with `0 ≤ offset < totalLength`, `findFirstDiskWriterEntry` returns without error
the position of an entry `e` with `e.offset ≤ offset < e.offset + e.length`; no other
position holds such an entry, and a scan from the left finds the same position. -/
theorem findFirstDiskWriterEntry_locates (es : List DiskWriterEntry) (offset : Int)
    (ht : Tiling 0 (fileEntriesOf es)) (hfit : totalLength (fileEntriesOf es) < 2 ^ 64)
    (h0 : 0 ≤ offset) (h1 : offset < totalLength (fileEntriesOf es)) :
    ∃ i e, findFirstDiskWriterEntry es offset = .ok i ∧ es[i]? = some e ∧
      e.fileEntry.offset ≤ offset ∧ offset < e.fileEntry.offset + e.fileEntry.length ∧
      (∀ (j : Nat) (e' : DiskWriterEntry), es[j]? = some e' → e'.fileEntry.offset ≤ offset →
        offset < e'.fileEntry.offset + e'.fileEntry.length → j = i) ∧
      locateLinear es offset = some i := by
  obtain ⟨i, e, hf, hi, hlo, hhi, huniq⟩ :=
    findFirstDiskWriterEntry_tiling es offset ht hfit h0 h1
  refine ⟨i, e, hf, hi, hlo, hhi, huniq, ?_⟩
  obtain ⟨hilt, hie⟩ := List.getElem?_eq_some_iff.mp hi
  rw [locateLinear, List.findIdx?_eq_some_iff_getElem]
  refine ⟨hilt, ?_, ?_⟩
  · rw [hie]
    simp [FileEntry.contains, hlo, hhi]
  · intro j hji hc
    simp only [FileEntry.contains, decide_eq_true_eq] at hc
    have := huniq j _ (List.getElem?_eq_getElem (Nat.lt_trans hji hilt)) hc.1 hc.2
    omega

/-- Claim C1 at the three files of lengths 10, 20, 5 and the offset 12. -/
theorem findFirstDiskWriterEntry_locates_witness :
    ∃ i e, findFirstDiskWriterEntry threeEntries 12 = .ok i ∧ threeEntries[i]? = some e ∧
      e.fileEntry.offset ≤ 12 ∧ (12 : Int) < e.fileEntry.offset + e.fileEntry.length ∧
      (∀ (j : Nat) (e' : DiskWriterEntry), threeEntries[j]? = some e' →
        e'.fileEntry.offset ≤ 12 →
        (12 : Int) < e'.fileEntry.offset + e'.fileEntry.length → j = i) ∧
      locateLinear threeEntries 12 = some i :=
  findFirstDiskWriterEntry_locates threeEntries 12 (by decide) (by decide) (by decide)
    (by decide)

/-! ## Offsets outside the virtual space -/

/-- For an offset at or past the end of a tiling the search of `upper_bound` runs to the
end of the sequence and the last entry does not contain the offset:
`OffsetOutOfRange` is raised. -/
theorem findFirstDiskWriterEntry_past_end (es : List DiskWriterEntry) (offset : Int)
    (hne : es ≠ []) (ht : Tiling 0 (fileEntriesOf es))
    (hfit : totalLength (fileEntriesOf es) < 2 ^ 64)
    (h1 : (totalLength (fileEntriesOf es) : Int) ≤ offset) (hoff : offset < 2 ^ 63) :
    findFirstDiskWriterEntry es offset = .error (.offsetOutOfRange offset) := by
  obtain ⟨hr, hlo, hhi⟩ := upper_bound_spec OffsetCompare offset es (OffsetCompare_mono ht offset)
  have hlen : 0 < es.length := List.length_pos.mpr hne
  have hrn : upper_bound OffsetCompare offset es = es.length := by
    by_contra hcon
    have hlt : upper_bound OffsetCompare offset es < es.length := by omega
    have hc := hhi _ _ (le_refl _) (List.getElem?_eq_getElem hlt)
    have hfi := fileEntriesOf_getElem? es _ _ (List.getElem?_eq_getElem hlt)
    have := ht.end_le_total hfi
    simp only [OffsetCompare, decide_eq_true_eq] at hc
    omega
  have hlast : es.length - 1 < es.length := by omega
  have hfi := fileEntriesOf_getElem? es _ _ (List.getElem?_eq_getElem hlast)
  have hend := ht.last_end hfi (by rw [fileEntriesOf_length]; omega)
  have hoffs := (ht.offset_eq hfi).1
  have hnot : isInRange es[es.length - 1] offset = false := by
    have a1 := toU64_of_nonneg offset (by omega) (by omega)
    have a2 := toU64_of_nonneg es[es.length - 1].fileEntry.offset (by omega) (by omega)
    have a3 : (toU64 es[es.length - 1].fileEntry.offset + es[es.length - 1].fileEntry.length)
        % 2 ^ 64 = toU64 es[es.length - 1].fileEntry.offset
          + es[es.length - 1].fileEntry.length := Nat.mod_eq_of_lt (by omega)
    simp only [isInRange, Bool.and_eq_false_iff, decide_eq_false_iff_not]
    right
    rw [a3]
    omega
  have hr0 : es.length ≠ 0 := by omega
  simp [findFirstDiskWriterEntry, hrn, hr0, List.getElem?_eq_getElem hlast, hnot]

/-- Claim C2, the behaviour of the code. For a negative offset every entry of a tiling
compares greater, `upper_bound` returns `begin()`, and `--first` leaves the container:
the code dereferences an iterator before the first entry instead of raising
`OffsetOutOfRange`. -/
theorem findFirstDiskWriterEntry_negative (es : List DiskWriterEntry) (offset : Int)
    (ht : Tiling 0 (fileEntriesOf es)) (hneg : offset < 0) :
    findFirstDiskWriterEntry es offset = .error .invalidAccess := by
  obtain ⟨hr, hlo, hhi⟩ := upper_bound_spec OffsetCompare offset es (OffsetCompare_mono ht offset)
  have hr0 : upper_bound OffsetCompare offset es = 0 := by
    by_contra hcon
    have hlt : 0 < es.length := by omega
    have hc := hlo 0 _ (by omega) (List.getElem?_eq_getElem hlt)
    have hfi := fileEntriesOf_getElem? es _ _ (List.getElem?_eq_getElem hlt)
    have := (ht.offset_eq hfi).1
    simp only [OffsetCompare, decide_eq_false_iff_not] at hc
    simp at this
    omega
  simp [findFirstDiskWriterEntry, hr0]

/-- Claim C2 at the three files of lengths 10, 20, 5: `locate(-1)` is undefined
behaviour, not `OffsetOutOfRange`. -/
theorem findFirstDiskWriterEntry_negative_witness :
    findFirstDiskWriterEntry threeEntries (-1) = .error .invalidAccess :=
  findFirstDiskWriterEntry_negative threeEntries (-1) (by decide) (by decide)

namespace MultiDiskAdaptor

theorem closeFile_entry_shape (X : Ext W) (h : Nat) (s : MultiDiskAdaptor W) :
    ∃ w c, DiskWriterEntry.closeFile X h s =
      { s with world := w, calls := c,
               heap := Function.update s.heap h { s.heap h with _open := false } } := by
  unfold DiskWriterEntry.closeFile
  by_cases ho : (s.heap h)._open = true
  · simp only [ho, if_true]
    exact ⟨_, _, rfl⟩
  · simp only [ho]
    refine ⟨s.world, s.calls, ?_⟩
    have : Function.update s.heap h { s.heap h with _open := false } = s.heap := by
      apply Function.update_eq_self_iff.mpr
      cases hh : s.heap h
      simp_all
    rw [this]
    rfl

theorem openWith_shape (X : Ext W) (m : OpenMethod) (h : Nat) (t : String)
    (s : MultiDiskAdaptor W) :
    (∃ msg w c, DiskWriterEntry.openWith X m h t s =
        (.error (.backend msg), { s with world := w, calls := c })) ∨
    (∃ w c, DiskWriterEntry.openWith X m h t s =
        (.ok (), { s with world := w, calls := c,
                          heap := Function.update s.heap h { s.heap h with _open := true } })) := by
  simp only [DiskWriterEntry.openWith]
  split
  · next msg w hb =>
    left
    exact ⟨msg, w, _, rfl⟩
  · next u w hb =>
    right
    by_cases hd : DiskWriterEntry._directIO (s.heap h) = true
    · simp only [hd, if_true]
      exact ⟨_, _, rfl⟩
    · simp only [hd]
      exact ⟨_, _, rfl⟩

theorem run_shape (X : Ext W) (m : OpenMethod) (h : Nat) (t : String)
    (s : MultiDiskAdaptor W) :
    (∃ msg w c, m.run X h t s = (.error (.backend msg), { s with world := w, calls := c })) ∨
    (∃ w c, m.run X h t s =
        (.ok (), { s with world := w, calls := c,
                          heap := Function.update s.heap h { s.heap h with _open := true } })) := by
  cases m <;> exact openWith_shape X _ h t s

/-- The ways a call of `openIfNot` can go: a hit; a failed open; undefined behaviour at
the choice of the victim; a new slot; a replaced slot. -/
theorem openIfNot_cases (X : Ext W) (entry : Nat) (m : OpenMethod) (t : String)
    (s : MultiDiskAdaptor W) :
    ((s.heap entry)._open = true ∧ openIfNot X entry m t s = (.ok (), s)) ∨
    ((s.heap entry)._open = false ∧
      ((∃ msg w c, openIfNot X entry m t s =
          (.error (.backend msg), { s with world := w, calls := c })) ∨
       (∃ w c, s._maxOpenFiles ≤ s._openedDiskWriterEntries.length ∧
          openIfNot X entry m t s =
            (.error .invalidAccess,
              { s with world := w, calls := c, heap := heapOpened s entry })) ∨
       (∃ w c, s._openedDiskWriterEntries.length < s._maxOpenFiles ∧
          openIfNot X entry m t s =
            (.ok (), { s with world := w, calls := c, heap := heapOpened s entry,
                              _openedDiskWriterEntries :=
                                s._openedDiskWriterEntries ++ [entry] })) ∨
       (∃ w c idx victim, s._maxOpenFiles ≤ s._openedDiskWriterEntries.length ∧
          s._openedDiskWriterEntries[idx]? = some victim ∧
          openIfNot X entry m t s =
            (.ok (), { s with world := w, calls := c, heap := heapEvicted s entry victim,
                              _openedDiskWriterEntries :=
                                s._openedDiskWriterEntries.set idx entry })))) := by
  by_cases ho : (s.heap entry)._open = true
  · left
    refine ⟨ho, ?_⟩
    simp [openIfNot, DiskWriterEntry.isOpen, ho]
  · right
    have ho' : (s.heap entry)._open = false := by simpa using ho
    refine ⟨ho', ?_⟩
    rcases run_shape X m entry t s with ⟨msg, w, c, hr⟩ | ⟨w, c, hr⟩
    · left
      refine ⟨msg, w, c, ?_⟩
      simp [openIfNot, DiskWriterEntry.isOpen, ho', hr]
    · right
      by_cases hcap : s._maxOpenFiles ≤ s._openedDiskWriterEntries.length
      · rcases hv : s._openedDiskWriterEntries[(X.getRandomNumber w
            s._openedDiskWriterEntries.length).1]? with _ | victim
        · left
          refine ⟨(X.getRandomNumber w s._openedDiskWriterEntries.length).2,
            c ++ [Call.getRandomNumber s._openedDiskWriterEntries.length], hcap, ?_⟩
          simp only [openIfNot, DiskWriterEntry.isOpen, ho', hr, Bool.not_false, if_true,
            ge_iff_le, hcap, hv]
          rfl
        · right; right
          obtain ⟨w', c', hc⟩ := closeFile_entry_shape X victim
            { s with world := (X.getRandomNumber w s._openedDiskWriterEntries.length).2,
                     calls := c ++ [Call.getRandomNumber s._openedDiskWriterEntries.length],
                     heap := heapOpened s entry }
          refine ⟨w', c', (X.getRandomNumber w s._openedDiskWriterEntries.length).1, victim,
            hcap, hv, ?_⟩
          simp only [openIfNot, DiskWriterEntry.isOpen, ho', hr, Bool.not_false, if_true,
            ge_iff_le, hcap, hv]
          simp only [heapOpened] at hc
          rw [hc]
          rfl
      · right; left
        refine ⟨w, c, by omega, ?_⟩
        simp only [openIfNot, DiskWriterEntry.isOpen, ho', hr, Bool.not_false, if_true,
          ge_iff_le, hcap, if_false]
        rfl

theorem heapOpened_open (s : MultiDiskAdaptor W) (h h' : Nat) :
    (heapOpened s h h')._open = true ↔ h' = h ∨ (s.heap h')._open = true := by
  unfold heapOpened
  by_cases e : h' = h
  · subst e; simp
  · simp [Function.update_noteq e, e]

theorem heapEvicted_open (s : MultiDiskAdaptor W) (h v h' : Nat) :
    (heapEvicted s h v h')._open = true ↔
      h' ≠ v ∧ (h' = h ∨ (s.heap h')._open = true) := by
  unfold heapEvicted
  by_cases e : h' = v
  · subst e; simp
  · simp [Function.update_noteq e, e, heapOpened_open]

theorem heapOpened_fileEntry (s : MultiDiskAdaptor W) (h h' : Nat) :
    (heapOpened s h h').fileEntry = (s.heap h').fileEntry ∧
      DiskWriterEntry._directIO (heapOpened s h h') = DiskWriterEntry._directIO (s.heap h') := by
  unfold heapOpened
  by_cases e : h' = h
  · subst e; simp
  · simp [Function.update_noteq e]

theorem heapEvicted_fileEntry (s : MultiDiskAdaptor W) (h v h' : Nat) :
    (heapEvicted s h v h').fileEntry = (s.heap h').fileEntry ∧
      DiskWriterEntry._directIO (heapEvicted s h v h') = DiskWriterEntry._directIO (s.heap h') := by
  unfold heapEvicted
  by_cases e : h' = v
  · subst e; simp [heapOpened_fileEntry]
  · simp [Function.update_noteq e, heapOpened_fileEntry]

theorem openIfNot_openInCache (X : Ext W) (entry : Nat) (m : OpenMethod) (t : String)
    (s : MultiDiskAdaptor W) (hs : OpenInCache s)
    (hub : (openIfNot X entry m t s).1 ≠ .error .invalidAccess) :
    OpenInCache (openIfNot X entry m t s).2 := by
  rcases openIfNot_cases X entry m t s with ⟨_, hr⟩ | ⟨ho, ⟨msg, w, c, hr⟩ | ⟨w, c, _, hr⟩ |
    ⟨w, c, _, hr⟩ | ⟨w, c, idx, victim, _, hv, hr⟩⟩
  · rw [hr]; exact hs
  · rw [hr]; exact hs
  · rw [hr] at hub; exact absurd rfl hub
  · rw [hr]
    intro h hh
    have := (heapOpened_open s entry h).mp hh
    simp only [List.mem_append, List.mem_singleton]
    rcases this with e | e
    · exact Or.inr e
    · exact Or.inl (hs h e)
  · rw [hr]
    intro h hh
    obtain ⟨hne, hor⟩ := (heapEvicted_open s entry victim h).mp hh
    obtain ⟨hidx, hget⟩ := List.getElem?_eq_some_iff.mp hv
    rcases hor with e | e
    · subst e
      exact List.mem_iff_getElem.mpr ⟨idx, by simpa using hidx, by simp⟩
    · have hmem := hs h e
      obtain ⟨j, hj, hjh⟩ := List.mem_iff_getElem.mp hmem
      have hji : j ≠ idx := by
        rintro rfl
        exact hne (by rw [← hjh, hget])
      refine List.mem_iff_getElem.mpr ⟨j, by simpa using hj, ?_⟩
      simp only [List.getElem_set]
      rw [if_neg (Ne.symm hji)]
      exact hjh

theorem openIfNot_withinCapacity (X : Ext W) (entry : Nat) (m : OpenMethod) (t : String)
    (s : MultiDiskAdaptor W) (hs : WithinCapacity s) :
    WithinCapacity (openIfNot X entry m t s).2 := by
  rcases openIfNot_cases X entry m t s with ⟨_, hr⟩ | ⟨ho, ⟨msg, w, c, hr⟩ | ⟨w, c, _, hr⟩ |
    ⟨w, c, hlt, hr⟩ | ⟨w, c, idx, victim, _, hv, hr⟩⟩
  · rw [hr]; exact hs
  · rw [hr]; exact hs
  · rw [hr]; exact hs
  · rw [hr]
    simp only [WithinCapacity, List.length_append, List.length_singleton]
    omega
  · rw [hr]
    simpa [WithinCapacity] using hs

theorem openIfNot_allocated (X : Ext W) (entry : Nat) (m : OpenMethod) (t : String)
    (s : MultiDiskAdaptor W) (hs : Allocated s) (he : entry < s.nextHandle) :
    Allocated (openIfNot X entry m t s).2 := by
  obtain ⟨h1, h2, h3⟩ := hs
  rcases openIfNot_cases X entry m t s with ⟨_, hr⟩ | ⟨ho, ⟨msg, w, c, hr⟩ | ⟨w, c, _, hr⟩ |
    ⟨w, c, hlt, hr⟩ | ⟨w, c, idx, victim, _, hv, hr⟩⟩
  · rw [hr]; exact ⟨h1, h2, h3⟩
  · rw [hr]; exact ⟨h1, h2, h3⟩
  · rw [hr]; exact ⟨h1, h2, h3⟩
  · rw [hr]
    refine ⟨h1, ?_, h3⟩
    intro h hh
    simp only [List.mem_append, List.mem_singleton] at hh
    rcases hh with e | e
    · exact h2 h e
    · rw [e]; exact he
  · rw [hr]
    refine ⟨h1, ?_, h3⟩
    intro h hh
    rcases List.mem_or_eq_of_mem_set hh with e | e
    · exact h2 h e
    · rw [e]; exact he

/-- With a cache of distinct open entries, a call of `openIfNot` that returns leaves the
entry open, and the cache again holds distinct open entries. -/
theorem openIfNot_cacheOpen (X : Ext W) (entry : Nat) (m : OpenMethod) (t : String)
    (s : MultiDiskAdaptor W) (hs : CacheOpen s)
    (hub : (openIfNot X entry m t s).1 ≠ .error .invalidAccess) :
    CacheOpen (openIfNot X entry m t s).2 ∧
      ((openIfNot X entry m t s).1 = .ok () →
        ((openIfNot X entry m t s).2.heap entry)._open = true) := by
  obtain ⟨hnd, hop⟩ := hs
  rcases openIfNot_cases X entry m t s with ⟨ho, hr⟩ | ⟨ho, ⟨msg, w, c, hr⟩ | ⟨w, c, _, hr⟩ |
    ⟨w, c, hlt, hr⟩ | ⟨w, c, idx, victim, _, hv, hr⟩⟩
  · rw [hr]; exact ⟨⟨hnd, hop⟩, fun _ => ho⟩
  · rw [hr]; exact ⟨⟨hnd, hop⟩, fun h => by cases h⟩
  · rw [hr] at hub; exact absurd rfl hub
  · have hnot : entry ∉ s._openedDiskWriterEntries := by
      intro hmem
      have := hop entry hmem
      rw [ho] at this
      cases this
    rw [hr]
    refine ⟨⟨?_, ?_⟩, fun _ => (heapOpened_open s entry entry).mpr (Or.inl rfl)⟩
    · exact List.Nodup.append hnd (List.nodup_singleton _) (by simpa using hnot)
    · intro h hh
      simp only [List.mem_append, List.mem_singleton] at hh
      refine (heapOpened_open s entry h).mpr ?_
      rcases hh with e | e
      · exact Or.inr (hop h e)
      · exact Or.inl e
  · have hnot : entry ∉ s._openedDiskWriterEntries := by
      intro hmem
      have := hop entry hmem
      rw [ho] at this
      cases this
    obtain ⟨hidx, hget⟩ := List.getElem?_eq_some_iff.mp hv
    have hvm : victim ∈ s._openedDiskWriterEntries := List.getElem?_mem hv
    have hne : entry ≠ victim := fun e => hnot (e ▸ hvm)
    rw [hr]
    refine ⟨⟨?_, ?_⟩, fun _ => (heapEvicted_open s entry victim entry).mpr ⟨hne, Or.inl rfl⟩⟩
    · exact List.Nodup.set hnd hnot
    · intro h hh
      refine (heapEvicted_open s entry victim h).mpr ?_
      obtain ⟨j, hj, hjh⟩ := List.mem_iff_getElem.mp hh
      simp only [List.getElem_set] at hjh
      by_cases hji : idx = j
      · rw [if_pos hji] at hjh
        subst hjh
        exact ⟨hne, Or.inl rfl⟩
      · rw [if_neg hji] at hjh
        have hj' : j < s._openedDiskWriterEntries.length := by simpa using hj
        have hmem : h ∈ s._openedDiskWriterEntries := by
          rw [← hjh]; exact List.getElem_mem _
        refine ⟨?_, Or.inr (hop h hmem)⟩
        intro e
        apply hji
        have := (@List.Nodup.getElem_inj_iff _ _ hnd idx hidx j hj').mp
          (by rw [hget, hjh, e])
        exact this

theorem SameConfig.refl (s : MultiDiskAdaptor W) : SameConfig s s :=
  ⟨rfl, rfl, rfl, rfl, rfl, rfl, rfl, rfl, fun _ => rfl, fun _ => rfl⟩

theorem SameConfig.trans {s1 s2 s3 : MultiDiskAdaptor W} (h12 : SameConfig s1 s2)
    (h23 : SameConfig s2 s3) : SameConfig s1 s3 :=
  ⟨h23.1.trans h12.1, h23.2.trans h12.2, h23.3.trans h12.3, h23.4.trans h12.4,
    h23.5.trans h12.5, h23.6.trans h12.6, h23.7.trans h12.7, h23.8.trans h12.8,
    fun h => (h23.9 h).trans (h12.9 h), fun h => (h23.10 h).trans (h12.10 h)⟩

theorem openIfNot_sameConfig (X : Ext W) (entry : Nat) (m : OpenMethod) (t : String)
    (s : MultiDiskAdaptor W) : SameConfig s (openIfNot X entry m t s).2 := by
  rcases openIfNot_cases X entry m t s with ⟨_, hr⟩ | ⟨ho, ⟨msg, w, c, hr⟩ | ⟨w, c, _, hr⟩ |
    ⟨w, c, hlt, hr⟩ | ⟨w, c, idx, victim, _, hv, hr⟩⟩
  · rw [hr]; exact SameConfig.refl s
  · rw [hr]; exact ⟨rfl, rfl, rfl, rfl, rfl, rfl, rfl, rfl, fun _ => rfl, fun _ => rfl⟩
  · rw [hr]
    exact ⟨rfl, rfl, rfl, rfl, rfl, rfl, rfl, rfl, fun h => (heapOpened_fileEntry s entry h).1,
      fun h => (heapOpened_fileEntry s entry h).2⟩
  · rw [hr]
    exact ⟨rfl, rfl, rfl, rfl, rfl, rfl, rfl, rfl, fun h => (heapOpened_fileEntry s entry h).1,
      fun h => (heapOpened_fileEntry s entry h).2⟩
  · rw [hr]
    exact ⟨rfl, rfl, rfl, rfl, rfl, rfl, rfl, rfl,
      fun h => (heapEvicted_fileEntry s entry victim h).1,
      fun h => (heapEvicted_fileEntry s entry victim h).2⟩

theorem internal_sameConfig (s0 : MultiDiskAdaptor W) : Internal (SameConfig s0) :=
  fun _ _ _ h => ⟨h.1, h.2, h.3, h.4, h.5, h.6, h.7, h.8, h.9, h.10⟩

theorem internal_openInCache : @Internal W OpenInCache := fun _ _ _ h => h

theorem internal_withinCapacity : @Internal W WithinCapacity := fun _ _ _ h => h

theorem internal_allocated : @Internal W Allocated := fun _ _ _ h => h

theorem internal_cacheOpen : @Internal W CacheOpen := fun _ _ _ h => h

theorem Internal.and_internal {P Q : MultiDiskAdaptor W → Prop} (hP : Internal P) (hQ : Internal Q) :
    Internal (fun s => P s ∧ Q s) :=
  fun s w c h => ⟨hP s w c h.1, hQ s w c h.2⟩

theorem writeLoop_open_error (X : Ext W) (data : List Byte) (len : Nat) (i : Nat)
    (rest : List Nat) (rem : Nat) (fo : Int) (s s1 : MultiDiskAdaptor W) (e : Failure)
    (ho : openIfNot X i .openFile s._cachedTopDirPath s = (.error e, s1)) :
    writeLoop X data len (i :: rest) rem fo s = (.error e, s1) := by
  simp only [writeLoop, ho]

theorem writeLoop_write_error (X : Ext W) (data : List Byte) (len : Nat) (i : Nat)
    (rest : List Nat) (rem : Nat) (fo : Int) (s s1 : MultiDiskAdaptor W) (u : Unit)
    (msg : String) (w : W)
    (ho : openIfNot X i .openFile s._cachedTopDirPath s = (.ok u, s1))
    (hw : X.writeData s1.world i
      ((data.drop ((len + 2 ^ 64 - rem) % 2 ^ 64)).take (calculateLength (s.heap i) fo rem))
      (calculateLength (s.heap i) fo rem) fo = (.error msg, w)) :
    writeLoop X data len (i :: rest) rem fo s =
      (.error (.backend msg), afterWrite s1 i
        ((data.drop ((len + 2 ^ 64 - rem) % 2 ^ 64)).take (calculateLength (s.heap i) fo rem))
        (calculateLength (s.heap i) fo rem) fo w) := by
  simp only [writeLoop, ho, hw, afterWrite]

theorem writeLoop_last (X : Ext W) (data : List Byte) (len : Nat) (i : Nat)
    (rest : List Nat) (rem : Nat) (fo : Int) (s s1 : MultiDiskAdaptor W) (u u' : Unit)
    (w : W)
    (ho : openIfNot X i .openFile s._cachedTopDirPath s = (.ok u, s1))
    (hw : X.writeData s1.world i
      ((data.drop ((len + 2 ^ 64 - rem) % 2 ^ 64)).take (calculateLength (s.heap i) fo rem))
      (calculateLength (s.heap i) fo rem) fo = (.ok u', w))
    (hrem : (rem + 2 ^ 64 - calculateLength (s.heap i) fo rem) % 2 ^ 64 = 0) :
    writeLoop X data len (i :: rest) rem fo s =
      (.ok (), afterWrite s1 i
        ((data.drop ((len + 2 ^ 64 - rem) % 2 ^ 64)).take (calculateLength (s.heap i) fo rem))
        (calculateLength (s.heap i) fo rem) fo w) := by
  simp only [writeLoop, ho, hw, hrem, afterWrite, if_true]

theorem writeLoop_next (X : Ext W) (data : List Byte) (len : Nat) (i : Nat)
    (rest : List Nat) (rem : Nat) (fo : Int) (s s1 : MultiDiskAdaptor W) (u u' : Unit)
    (w : W)
    (ho : openIfNot X i .openFile s._cachedTopDirPath s = (.ok u, s1))
    (hw : X.writeData s1.world i
      ((data.drop ((len + 2 ^ 64 - rem) % 2 ^ 64)).take (calculateLength (s.heap i) fo rem))
      (calculateLength (s.heap i) fo rem) fo = (.ok u', w))
    (hrem : (rem + 2 ^ 64 - calculateLength (s.heap i) fo rem) % 2 ^ 64 ≠ 0) :
    writeLoop X data len (i :: rest) rem fo s =
      writeLoop X data len rest
        ((rem + 2 ^ 64 - calculateLength (s.heap i) fo rem) % 2 ^ 64) 0
        (afterWrite s1 i
          ((data.drop ((len + 2 ^ 64 - rem) % 2 ^ 64)).take (calculateLength (s.heap i) fo rem))
          (calculateLength (s.heap i) fo rem) fo w) := by
  simp only [writeLoop, ho, hw, hrem, afterWrite, if_false]

/-- A property that every returning `openIfNot` on the entries of the list keeps is kept
by the loop of `writeData`. -/
theorem writeLoop_preserves (X : Ext W) (P : MultiDiskAdaptor W → Prop) (hP : Internal P)
    (data : List Byte) (len : Nat) :
    ∀ (l : List Nat) (rem : Nat) (fo : Int) (s : MultiDiskAdaptor W),
      (∀ h ∈ l, ∀ s', P s' →
        (openIfNot X h .openFile s'._cachedTopDirPath s').1 ≠ .error .invalidAccess →
        P (openIfNot X h .openFile s'._cachedTopDirPath s').2) →
      P s → (writeLoop X data len l rem fo s).1 ≠ .error .invalidAccess →
      P (writeLoop X data len l rem fo s).2 := by
  intro l
  induction l with
  | nil => intro rem fo s _ hs _; exact hs
  | cons i rest ih =>
    intro rem fo s hopen hs hub
    have hs1 := hopen i (List.mem_cons_self _ _) s hs
    rcases ho : openIfNot X i .openFile s._cachedTopDirPath s with ⟨r, s1⟩
    rw [ho] at hs1
    cases r with
    | error e =>
      rw [writeLoop_open_error X data len i rest rem fo s s1 e ho] at hub ⊢
      exact hs1 hub
    | ok u =>
      have hs1' : P s1 := hs1 (by simp)
      rcases hw : X.writeData s1.world i
        ((data.drop ((len + 2 ^ 64 - rem) % 2 ^ 64)).take (calculateLength (s.heap i) fo rem))
        (calculateLength (s.heap i) fo rem) fo with ⟨r, w⟩
      cases r with
      | error msg =>
        rw [writeLoop_write_error X data len i rest rem fo s s1 u msg w ho hw]
        exact hP s1 w _ hs1'
      | ok u' =>
        by_cases hrem : (rem + 2 ^ 64 - calculateLength (s.heap i) fo rem) % 2 ^ 64 = 0
        · rw [writeLoop_last X data len i rest rem fo s s1 u u' w ho hw hrem]
          exact hP s1 w _ hs1'
        · rw [writeLoop_next X data len i rest rem fo s s1 u u' w ho hw hrem] at hub ⊢
          exact ih _ _ _ (fun h hh => hopen h (List.mem_cons_of_mem _ hh)) (hP s1 w _ hs1') hub

theorem readLoop_open_error (X : Ext W) (len : Nat) (i : Nat)
    (rest : List Nat) (rem : Nat) (fo : Int) (data : List Byte) (total : Nat)
    (s s1 : MultiDiskAdaptor W) (e : Failure)
    (ho : openIfNot X i .openFile s._cachedTopDirPath s = (.error e, s1)) :
    readLoop X len (i :: rest) rem fo data total s = (.error e, s1) := by
  simp only [readLoop, ho]

theorem readLoop_read_error (X : Ext W) (len : Nat) (i : Nat)
    (rest : List Nat) (rem : Nat) (fo : Int) (data : List Byte) (total : Nat)
    (s s1 : MultiDiskAdaptor W) (u : Unit) (msg : String) (w : W)
    (ho : openIfNot X i .openFile s._cachedTopDirPath s = (.ok u, s1))
    (hw : X.readData s1.world i (calculateLength (s.heap i) fo rem) fo = (.error msg, w)) :
    readLoop X len (i :: rest) rem fo data total s =
      (.error (.backend msg), afterRead s1 i (calculateLength (s.heap i) fo rem) fo w) := by
  simp only [readLoop, ho, hw, afterRead]

theorem readLoop_last (X : Ext W) (len : Nat) (i : Nat)
    (rest : List Nat) (rem : Nat) (fo : Int) (data : List Byte) (total : Nat)
    (s s1 : MultiDiskAdaptor W) (u : Unit) (bytes : List Byte) (w : W)
    (ho : openIfNot X i .openFile s._cachedTopDirPath s = (.ok u, s1))
    (hw : X.readData s1.world i (calculateLength (s.heap i) fo rem) fo = (.ok bytes, w))
    (hrem : (rem + 2 ^ 64 - calculateLength (s.heap i) fo rem) % 2 ^ 64 = 0) :
    readLoop X len (i :: rest) rem fo data total s =
      (.ok ((total + bytes.length) % 2 ^ 64,
          storeAt data ((len + 2 ^ 64 - rem) % 2 ^ 64) bytes),
        afterRead s1 i (calculateLength (s.heap i) fo rem) fo w) := by
  simp only [readLoop, ho, hw, hrem, afterRead, if_true]

theorem readLoop_next (X : Ext W) (len : Nat) (i : Nat)
    (rest : List Nat) (rem : Nat) (fo : Int) (data : List Byte) (total : Nat)
    (s s1 : MultiDiskAdaptor W) (u : Unit) (bytes : List Byte) (w : W)
    (ho : openIfNot X i .openFile s._cachedTopDirPath s = (.ok u, s1))
    (hw : X.readData s1.world i (calculateLength (s.heap i) fo rem) fo = (.ok bytes, w))
    (hrem : (rem + 2 ^ 64 - calculateLength (s.heap i) fo rem) % 2 ^ 64 ≠ 0) :
    readLoop X len (i :: rest) rem fo data total s =
      readLoop X len rest ((rem + 2 ^ 64 - calculateLength (s.heap i) fo rem) % 2 ^ 64) 0
        (storeAt data ((len + 2 ^ 64 - rem) % 2 ^ 64) bytes)
        ((total + bytes.length) % 2 ^ 64)
        (afterRead s1 i (calculateLength (s.heap i) fo rem) fo w) := by
  simp only [readLoop, ho, hw, hrem, afterRead, if_false]

/-- A property that every returning `openIfNot` on the entries of the list keeps is kept
by the loop of `readData`. -/
theorem readLoop_preserves (X : Ext W) (P : MultiDiskAdaptor W → Prop) (hP : Internal P)
    (len : Nat) :
    ∀ (l : List Nat) (rem : Nat) (fo : Int) (data : List Byte) (total : Nat)
      (s : MultiDiskAdaptor W),
      (∀ h ∈ l, ∀ s', P s' →
        (openIfNot X h .openFile s'._cachedTopDirPath s').1 ≠ .error .invalidAccess →
        P (openIfNot X h .openFile s'._cachedTopDirPath s').2) →
      P s → (readLoop X len l rem fo data total s).1 ≠ .error .invalidAccess →
      P (readLoop X len l rem fo data total s).2 := by
  intro l
  induction l with
  | nil => intro rem fo data total s _ hs _; exact hs
  | cons i rest ih =>
    intro rem fo data total s hopen hs hub
    have hs1 := hopen i (List.mem_cons_self _ _) s hs
    rcases ho : openIfNot X i .openFile s._cachedTopDirPath s with ⟨r, s1⟩
    rw [ho] at hs1
    cases r with
    | error e =>
      rw [readLoop_open_error X len i rest rem fo data total s s1 e ho] at hub ⊢
      exact hs1 (fun h => hub (by simp only [Except.error.injEq] at h ⊢; exact h))
    | ok u =>
      have hs1' : P s1 := hs1 (by simp)
      rcases hw : X.readData s1.world i (calculateLength (s.heap i) fo rem) fo with ⟨r, w⟩
      cases r with
      | error msg =>
        rw [readLoop_read_error X len i rest rem fo data total s s1 u msg w ho hw]
        exact hP s1 w _ hs1'
      | ok bytes =>
        by_cases hrem : (rem + 2 ^ 64 - calculateLength (s.heap i) fo rem) % 2 ^ 64 = 0
        · rw [readLoop_last X len i rest rem fo data total s s1 u bytes w ho hw hrem]
          exact hP s1 w _ hs1'
        · rw [readLoop_next X len i rest rem fo data total s s1 u bytes w ho hw hrem] at hub ⊢
          exact ih _ _ _ _ _ (fun h hh => hopen h (List.mem_cons_of_mem _ hh))
            (hP s1 w _ hs1') hub

/-- A property that every returning `openIfNot` on the entries of the list keeps is kept
by the loop of `initAndOpenFile`. -/
theorem initAndOpenLoop_preserves (X : Ext W) (P : MultiDiskAdaptor W → Prop) :
    ∀ (l : List Nat) (s : MultiDiskAdaptor W),
      (∀ h ∈ l, ∀ s', P s' →
        (openIfNot X h .initAndOpenFile s'._cachedTopDirPath s').1 ≠ .error .invalidAccess →
        P (openIfNot X h .initAndOpenFile s'._cachedTopDirPath s').2) →
      P s → (initAndOpenLoop X l s).1 ≠ .error .invalidAccess →
      P (initAndOpenLoop X l s).2 := by
  intro l
  induction l with
  | nil => intro s _ hs _; exact hs
  | cons i rest ih =>
    intro s hopen hs hub
    have hs1 := hopen i (List.mem_cons_self _ _) s hs
    rcases ho : openIfNot X i .initAndOpenFile s._cachedTopDirPath s with ⟨r, s1⟩
    rw [ho] at hs1
    cases r with
    | error e =>
      simp only [initAndOpenLoop, ho] at hub ⊢
      exact hs1 hub
    | ok u =>
      simp only [initAndOpenLoop, ho] at hub ⊢
      exact ih s1 (fun h hh => hopen h (List.mem_cons_of_mem _ hh)) (hs1 (by simp)) hub

/-- The directory set-up changes the external world and the record of calls only, and
either returns or passes on an error of the collaborator. -/
theorem mkdirLoop_shape (X : Ext W) (t : String) :
    ∀ (l : List FileEntry) (s : MultiDiskAdaptor W),
      ∃ w c, (mkdirLoop X t l s).2 = { s with world := w, calls := c } ∧
        ((mkdirLoop X t l s).1 = .ok () ∨ ∃ msg, (mkdirLoop X t l s).1 = .error (.backend msg)) := by
  intro l
  induction l with
  | nil => intro s; exact ⟨s.world, s.calls, rfl, Or.inl rfl⟩
  | cons fe rest ih =>
    intro s
    rcases hd : X.setupDir s.world fe t with ⟨r, w⟩
    cases r with
    | error msg =>
      simp only [mkdirLoop, hd]
      exact ⟨_, _, rfl, Or.inr ⟨msg, rfl⟩⟩
    | ok u =>
      simp only [mkdirLoop, hd]
      obtain ⟨w', c', h1, h2⟩ := ih
        { s with calls := s.calls ++ [Call.setupDir fe t], world := w }
      exact ⟨w', c', by rw [h1], h2⟩

theorem resetDiskWriterEntries_preserves (X : Ext W) (P : MultiDiskAdaptor W → Prop)
    (hclear : ∀ s, P s → P { s with diskWriterEntries := [] })
    (hpush : ∀ s fe, P s → P (pushNewEntry X s fe)) (s : MultiDiskAdaptor W) (hs : P s) :
    P (resetDiskWriterEntries X s) := by
  unfold resetDiskWriterEntries
  have key : ∀ (l : List FileEntry) (s' : MultiDiskAdaptor W), P s' →
      P (l.foldl (pushNewEntry X) s') := by
    intro l
    induction l with
    | nil => intro s' h; exact h
    | cons fe rest ih => intro s' h; exact ih _ (hpush s' fe h)
  exact key _ _ (hclear s hs)

theorem closeFile_preserves (X : Ext W) (P : MultiDiskAdaptor W → Prop)
    (hclose : ∀ s h, P s → P (DiskWriterEntry.closeFile X h s)) (s : MultiDiskAdaptor W)
    (hs : P s) : P (closeFile X s) := by
  unfold closeFile
  have key : ∀ (l : List Nat) (s' : MultiDiskAdaptor W), P s' →
      P (l.foldl (fun st h => DiskWriterEntry.closeFile X h st) s') := by
    intro l
    induction l with
    | nil => intro s' h; exact h
    | cons h rest ih => intro s' hs'; exact ih _ (hclose s' h hs')
  exact key _ _ hs

theorem Stable.loop {X : Ext W} {P : MultiDiskAdaptor W → Prop} (hst : Stable X P)
    (s0 : MultiDiskAdaptor W) (m : OpenMethod) (l : List Nat)
    (hl : ∀ h ∈ l, h ∈ s0.diskWriterEntries) :
    ∀ h ∈ l, ∀ s', (P s' ∧ SameConfig s0 s') →
      (openIfNot X h m s'._cachedTopDirPath s').1 ≠ .error .invalidAccess →
      (P (openIfNot X h m s'._cachedTopDirPath s').2 ∧
        SameConfig s0 (openIfNot X h m s'._cachedTopDirPath s').2) := by
  intro h hh s' hs' hub
  refine ⟨hst.access s' h m _ hs'.1 ?_ hub, hs'.2.trans (openIfNot_sameConfig X h m _ s')⟩
  rw [hs'.2.diskWriterEntries]
  exact hl h hh

theorem writeData_preserves (X : Ext W) (P : MultiDiskAdaptor W → Prop) (hst : Stable X P)
    (data : List Byte) (len : Nat) (offset : Int) (s : MultiDiskAdaptor W) (hs : P s)
    (hub : (writeData X data len offset s).1 ≠ .error .invalidAccess) :
    P (writeData X data len offset s).2 ∧ SameConfig s (writeData X data len offset s).2 := by
  unfold writeData at hub ⊢
  split
  · exact ⟨hs, SameConfig.refl s⟩
  · next first hf =>
    rw [hf] at hub
    split
    · exact ⟨hs, SameConfig.refl s⟩
    · next h hh =>
      simp only [hh] at hub
      exact writeLoop_preserves X (fun s' => P s' ∧ SameConfig s s')
        (hst.internal.and_internal (internal_sameConfig s)) data len _ _ _ s
        (hst.loop s .openFile _ (fun h hh => List.mem_of_mem_drop hh)) ⟨hs, SameConfig.refl s⟩ hub

theorem readData_preserves (X : Ext W) (P : MultiDiskAdaptor W → Prop) (hst : Stable X P)
    (data : List Byte) (len : Nat) (offset : Int) (s : MultiDiskAdaptor W) (hs : P s)
    (hub : (readData X data len offset s).1 ≠ .error .invalidAccess) :
    P (readData X data len offset s).2 ∧ SameConfig s (readData X data len offset s).2 := by
  unfold readData at hub ⊢
  split
  · exact ⟨hs, SameConfig.refl s⟩
  · next first hf =>
    rw [hf] at hub
    split
    · exact ⟨hs, SameConfig.refl s⟩
    · next h hh =>
      simp only [hh] at hub
      have key := readLoop_preserves X (fun s' => P s' ∧ SameConfig s s')
        (hst.internal.and_internal (internal_sameConfig s)) len (s.diskWriterEntries.drop first) len
        (offset - (s.heap h).fileEntry.offset) data 0 s
        (hst.loop s .openFile _ (fun h hh => List.mem_of_mem_drop hh)) ⟨hs, SameConfig.refl s⟩
      rcases hr : readLoop X len (s.diskWriterEntries.drop first) len
        (offset - (s.heap h).fileEntry.offset) data 0 s with ⟨r, s1⟩
      rw [hr] at key hub
      cases r with
      | error e =>
        simp only at hub ⊢
        exact key (fun h => hub (by simp only [Except.error.injEq] at h ⊢; exact h))
      | ok v =>
        simp only
        exact key (by simp)

theorem openFile_preserves (X : Ext W) (P : MultiDiskAdaptor W → Prop) (hst : Stable X P)
    (s : MultiDiskAdaptor W) (hs : P s) :
    P (openFile X s).2 ∧ (openFile X s).1 ≠ .error .invalidAccess := by
  unfold openFile
  obtain ⟨w, c, h1, h2⟩ := mkdirLoop_shape X s.getTopDirPath s.fileEntries
    { s with _cachedTopDirPath := s.getTopDirPath }
  have hP1 : P (mkdirLoop X s.getTopDirPath s.fileEntries
      { s with _cachedTopDirPath := s.getTopDirPath }).2 := by
    rw [h1]
    exact hst.internal _ w c (hst.cached s _ hs)
  simp only [mkdir]
  rcases hm : mkdirLoop X s.getTopDirPath s.fileEntries
    { s with _cachedTopDirPath := s.getTopDirPath } with ⟨r, s2⟩
  rw [hm] at hP1 h2
  cases r with
  | error e =>
    simp only
    refine ⟨hP1, ?_⟩
    rcases h2 with h2 | ⟨msg, h2⟩
    · cases h2
    · simp only [Except.error.injEq] at h2
      simp [h2]
  | ok u =>
    simp only
    exact ⟨resetDiskWriterEntries_preserves X P hst.clear hst.push s2 hP1, by simp⟩

theorem openExistingFile_preserves (X : Ext W) (P : MultiDiskAdaptor W → Prop)
    (hst : Stable X P) (s : MultiDiskAdaptor W) (hs : P s) :
    P (openExistingFile X s).2 ∧ (openExistingFile X s).1 = .ok () := by
  unfold openExistingFile
  exact ⟨resetDiskWriterEntries_preserves X P hst.clear hst.push _ (hst.cached s _ hs), rfl⟩

theorem initAndOpenFile_preserves (X : Ext W) (P : MultiDiskAdaptor W → Prop)
    (hst : Stable X P) (s : MultiDiskAdaptor W) (hs : P s)
    (hub : (initAndOpenFile X s).1 ≠ .error .invalidAccess) :
    P (initAndOpenFile X s).2 := by
  unfold initAndOpenFile at hub ⊢
  obtain ⟨w, c, h1, h2⟩ := mkdirLoop_shape X s.getTopDirPath s.fileEntries
    { s with _cachedTopDirPath := s.getTopDirPath }
  have hP1 : P (mkdirLoop X s.getTopDirPath s.fileEntries
      { s with _cachedTopDirPath := s.getTopDirPath }).2 := by
    rw [h1]
    exact hst.internal _ w c (hst.cached s _ hs)
  simp only [mkdir] at hub ⊢
  rcases hm : mkdirLoop X s.getTopDirPath s.fileEntries
    { s with _cachedTopDirPath := s.getTopDirPath } with ⟨r, s2⟩
  rw [hm] at hP1 h2 hub
  cases r with
  | error e => exact hP1
  | ok u =>
    simp only at hub ⊢
    have hP3 := resetDiskWriterEntries_preserves X P hst.clear hst.push s2 hP1
    exact (initAndOpenLoop_preserves X
      (fun s' => P s' ∧ SameConfig (resetDiskWriterEntries X s2) s') _ _
      (hst.loop _ .initAndOpenFile _ (fun h hh => hh)) ⟨hP3, SameConfig.refl _⟩ hub).1

theorem closeFile_entry_open (X : Ext W) (h h' : Nat) (s : MultiDiskAdaptor W) :
    ((DiskWriterEntry.closeFile X h s).heap h')._open = true ↔
      h' ≠ h ∧ (s.heap h')._open = true := by
  obtain ⟨w, c, hc⟩ := closeFile_entry_shape X h s
  rw [hc]
  by_cases e : h' = h
  · subst e; simp
  · simp [Function.update_noteq e, e]

theorem closeFile_entry_lists (X : Ext W) (h : Nat) (s : MultiDiskAdaptor W) :
    (DiskWriterEntry.closeFile X h s)._openedDiskWriterEntries = s._openedDiskWriterEntries ∧
    (DiskWriterEntry.closeFile X h s).diskWriterEntries = s.diskWriterEntries ∧
    (DiskWriterEntry.closeFile X h s).nextHandle = s.nextHandle ∧
    (DiskWriterEntry.closeFile X h s)._maxOpenFiles = s._maxOpenFiles := by
  obtain ⟨w, c, hc⟩ := closeFile_entry_shape X h s
  rw [hc]
  exact ⟨rfl, rfl, rfl, rfl⟩

theorem closeFile_entry_openInCache (X : Ext W) (h : Nat) (s : MultiDiskAdaptor W)
    (hs : OpenInCache s) : OpenInCache (DiskWriterEntry.closeFile X h s) := by
  intro h' hh
  rw [(closeFile_entry_lists X h s).1]
  exact hs h' ((closeFile_entry_open X h h' s).mp hh).2

theorem closeFile_entry_allocated (X : Ext W) (h : Nat) (s : MultiDiskAdaptor W)
    (hs : Allocated s) : Allocated (DiskWriterEntry.closeFile X h s) := by
  obtain ⟨e1, e2, e3, _⟩ := closeFile_entry_lists X h s
  unfold Allocated
  rw [e1, e2, e3]
  exact hs

theorem closeFile_entry_withinCapacity (X : Ext W) (h : Nat) (s : MultiDiskAdaptor W)
    (hs : WithinCapacity s) : WithinCapacity (DiskWriterEntry.closeFile X h s) := by
  obtain ⟨e1, _, _, e4⟩ := closeFile_entry_lists X h s
  unfold WithinCapacity
  rw [e1, e4]
  exact hs

theorem pushNewEntry_open (X : Ext W) (s : MultiDiskAdaptor W) (fe : FileEntry) (h : Nat) :
    ((pushNewEntry X s fe).heap h)._open = true ↔
      h ≠ s.nextHandle ∧ (s.heap h)._open = true := by
  unfold pushNewEntry
  by_cases e : h = s.nextHandle
  · subst e; simp
  · simp [Function.update_noteq e, e]

theorem pushNewEntry_allocated (X : Ext W) (s : MultiDiskAdaptor W) (fe : FileEntry)
    (hs : Allocated s) : Allocated (pushNewEntry X s fe) := by
  obtain ⟨h1, h2, h3⟩ := hs
  refine ⟨?_, ?_, ?_⟩
  · intro h hh
    simp only [pushNewEntry, List.mem_append, List.mem_singleton] at hh ⊢
    rcases hh with e | e
    · have := h1 h e; omega
    · omega
  · intro h hh
    have := h2 h hh
    simp only [pushNewEntry]
    omega
  · simp only [pushNewEntry]
    refine List.Nodup.append h3 (List.nodup_singleton _) ?_
    rw [List.disjoint_singleton]
    intro hmem
    have := h1 _ hmem
    omega

theorem stable_safe (X : Ext W) : Stable X (fun s => OpenInCache s ∧ Allocated s) where
  internal := fun _ _ _ h => h
  cached := fun _ _ h => h
  clear := fun s h =>
    And.intro h.1 (And.intro (fun _ hh => by cases hh) (And.intro h.2.2.1 List.nodup_nil))
  push := by
    intro s fe hs
    refine ⟨?_, pushNewEntry_allocated X s fe hs.2⟩
    intro h hh
    exact hs.1 h ((pushNewEntry_open X s fe h).mp hh).2
  access := by
    intro s h m t hs hmem hub
    exact ⟨openIfNot_openInCache X h m t s hs.1 hub,
      openIfNot_allocated X h m t s hs.2 (hs.2.1 h hmem)⟩

theorem stable_withinCapacity (X : Ext W) : Stable X (@WithinCapacity W) where
  internal := fun _ _ _ h => h
  cached := fun _ _ h => h
  clear := fun _ h => h
  push := fun _ _ h => h
  access := fun s h m t hs _ _ => openIfNot_withinCapacity X h m t s hs

theorem stable_cacheOpen (X : Ext W) : Stable X (fun s => CacheOpen s ∧ Allocated s) where
  internal := fun _ _ _ h => h
  cached := fun _ _ h => h
  clear := fun s h =>
    And.intro h.1 (And.intro (fun _ hh => by cases hh) (And.intro h.2.2.1 List.nodup_nil))
  push := by
    intro s fe hs
    refine ⟨⟨hs.1.1, ?_⟩, pushNewEntry_allocated X s fe hs.2⟩
    intro h hh
    have hlt := hs.2.2.1 h hh
    exact (pushNewEntry_open X s fe h).mpr ⟨by omega, hs.1.2 h hh⟩
  access := by
    intro s h m t hs hmem hub
    exact ⟨(openIfNot_cacheOpen X h m t s hs.1 hub).1,
      openIfNot_allocated X h m t s hs.2 (hs.2.1 h hmem)⟩

theorem Stable.and_stable {X : Ext W} {P Q : MultiDiskAdaptor W → Prop} (hP : Stable X P)
    (hQ : Stable X Q) : Stable X (fun s => P s ∧ Q s) where
  internal := hP.internal.and_internal hQ.internal
  cached := fun s t h => ⟨hP.cached s t h.1, hQ.cached s t h.2⟩
  clear := fun s h => ⟨hP.clear s h.1, hQ.clear s h.2⟩
  push := fun s fe h => ⟨hP.push s fe h.1, hQ.push s fe h.2⟩
  access := fun s h m t hs hmem hub =>
    ⟨hP.access s h m t hs.1 hmem hub, hQ.access s h m t hs.2 hmem hub⟩

/-- A stable property is kept by every call that does not run into undefined behaviour,
given that it is kept by `DiskWriterEntry::closeFile` when the call closes entries and by
the new capacity when the call is `setMaxOpenFiles`. -/
theorem step_preserves (X : Ext W) (P : MultiDiskAdaptor W → Prop) (hst : Stable X P)
    (op : Op) (s : MultiDiskAdaptor W)
    (hclose : op.isClose = true → ∀ s h, P s → P (DiskWriterEntry.closeFile X h s))
    (hmax : ∀ n, op = .setMaxOpenFiles n → P (setMaxOpenFiles n s))
    (hs : P s) (hub : (step X op s).1 ≠ some .invalidAccess) : P (step X op s).2 := by
  have conv : ∀ {α : Type} (r : Except Failure α), outcome r ≠ some .invalidAccess →
      r ≠ .error .invalidAccess := by
    intro α r h1 h2
    rw [h2] at h1
    exact h1 rfl
  cases op with
  | openFile => exact (openFile_preserves X P hst s hs).1
  | initAndOpenFile => exact initAndOpenFile_preserves X P hst s hs (conv _ hub)
  | openExistingFile => exact (openExistingFile_preserves X P hst s hs).1
  | closeFile => exact closeFile_preserves X P (hclose rfl) s hs
  | onDownloadComplete =>
    exact (openFile_preserves X P hst _ (closeFile_preserves X P (hclose rfl) s hs)).1
  | writeData data len offset => exact (writeData_preserves X P hst data len offset s hs (conv _ hub)).1
  | readData data len offset => exact (readData_preserves X P hst data len offset s hs (conv _ hub)).1
  | setMaxOpenFiles n => exact hmax n rfl
  | openIfNot i m =>
    simp only [step] at hub ⊢
    split
    · exact hs
    · next h hh =>
      simp only [hh] at hub
      exact hst.access s h m _ hs (List.getElem?_mem hh) (conv _ hub)

theorem stable_maxOpenFiles (X : Ext W) (m : Nat) :
    Stable X (fun s : MultiDiskAdaptor W => s._maxOpenFiles = m) where
  internal := fun _ _ _ h => h
  cached := fun _ _ h => h
  clear := fun _ h => h
  push := fun _ _ h => h
  access := fun s h mth t hs _ _ => (openIfNot_sameConfig X h mth t s).maxOpenFiles.trans hs

end MultiDiskAdaptor

/-- A property kept by every call of the sequence holds after the sequence. -/
theorem run_preserves (X : Ext W) (P : MultiDiskAdaptor W → Prop) :
    ∀ (ops : List Op) (s s' : MultiDiskAdaptor W),
      (∀ op ∈ ops, ∀ s, P s → (step X op s).1 ≠ some .invalidAccess → P (step X op s).2) →
      P s → run X ops s = some s' → P s' := by
  intro ops
  induction ops with
  | nil =>
    intro s s' _ hs hr
    simp only [run, Option.some.injEq] at hr
    exact hr ▸ hs
  | cons op rest ih =>
    intro s s' hstep hs hr
    have h1 := hstep op (List.mem_cons_self _ _) s hs
    rcases hst : step X op s with ⟨o, s1⟩
    rw [hst] at h1
    have hnext := ih s1 s' (fun op' h' => hstep op' (List.mem_cons_of_mem _ h'))
    rcases o with _ | e
    · simp only [run, hst] at hr
      exact hnext (h1 (by simp)) hr
    · cases e with
      | invalidAccess => simp [run, hst] at hr
      | offsetOutOfRange o =>
        simp only [run, hst] at hr
        exact hnext (h1 (by simp)) hr
      | backend msg =>
        simp only [run, hst] at hr
        exact hnext (h1 (by simp)) hr

/-- With every open entry referenced by a cache of at most `m` slots, at most `m`
entries are open. -/
theorem openCount_le (s : MultiDiskAdaptor W) (m : Nat) (h1 : OpenInCache s)
    (h2 : Allocated s) (h3 : s._openedDiskWriterEntries.length ≤ m) :
    openCount s ≤ m ∧ (openEntries s).length ≤ m := by
  constructor
  · rw [openCount, List.countP_eq_length_filter]
    have hnd : (s.diskWriterEntries.filter (fun h => (s.heap h)._open)).Nodup :=
      List.Nodup.filter _ h2.2.2
    have hsub : s.diskWriterEntries.filter (fun h => (s.heap h)._open) ⊆
        s._openedDiskWriterEntries := by
      intro h hh
      exact h1 h (List.mem_filter.mp hh).2
    exact le_trans (List.subperm_of_subset hnd hsub).length_le h3
  · have hnd : (openEntries s).Nodup := List.Nodup.filter _ (List.nodup_range _)
    have hsub : openEntries s ⊆ s._openedDiskWriterEntries := by
      intro h hh
      exact h1 h (List.mem_filter.mp hh).2
    exact le_trans (List.subperm_of_subset hnd hsub).length_le h3

/-- Claim C4. Cache bound: an adaptor is constructed, `maxOpenFiles` is configured to
any `m`, the entry sequence is built (`openFile`, `initAndOpenFile` or
`openExistingFile`), and then any finite sequence of `readData`, `writeData` and
`openIfNot` calls is made, each on the state the previous call left (also when it threw).
Unless a call ran into undefined behaviour, at most `m` entries of the entry sequence,
and at most `m` of all allocated entries, have their open flag set. -/
theorem cache_bound (X : Ext W) (DEFAULT_MAX_OPEN_FILES m : Nat) (fileEntries : List FileEntry)
    (storeDir topDir : String) (directIOAllowed : Bool) (world : W) (build : Op)
    (hbuild : build.isBuild = true) (ops : List Op) (hops : ∀ op ∈ ops, op.isAccess = true)
    (s : MultiDiskAdaptor W)
    (hrun : run X (build :: ops) (setMaxOpenFiles m (MultiDiskAdaptor.create
      DEFAULT_MAX_OPEN_FILES fileEntries storeDir topDir directIOAllowed world)) = some s) :
    openCount s ≤ m ∧ (openEntries s).length ≤ m := by
  have hst := ((stable_safe X).and_stable (stable_withinCapacity X)).and_stable (stable_maxOpenFiles X m)
  have hinv := run_preserves X _ (build :: ops) _ s (fun op hop s' hs' hub =>
    step_preserves X _ hst op s'
      (by
        intro hc
        rcases List.mem_cons.mp hop with e | e
        · subst e
          cases op <;> simp_all [Op.isBuild, Op.isClose]
        · have := hops op e
          cases op <;> simp_all [Op.isAccess, Op.isClose])
      (by
        intro n hn
        rcases List.mem_cons.mp hop with e | e
        · subst e
          rw [hn] at hbuild
          simp [Op.isBuild] at hbuild
        · have := hops op e
          rw [hn] at this
          simp [Op.isAccess] at this)
      hs' hub)
    (by
      refine ⟨⟨⟨?_, ?_⟩, ?_⟩, rfl⟩
      · intro h hh
        simp [setMaxOpenFiles, MultiDiskAdaptor.create] at hh
      · exact And.intro (fun _ hh => by cases hh)
          (And.intro (fun _ hh => by cases hh) List.nodup_nil)
      · simp [WithinCapacity, setMaxOpenFiles, MultiDiskAdaptor.create])
    hrun
  obtain ⟨⟨⟨h1, h2⟩, h3⟩, h4⟩ := hinv
  exact openCount_le s m h1 h2 (by rw [← h4]; exact h3)

theorem cache_bound_witness :
    openCount (sampleRun 1 [.openFile, .writeData sampleData 15 8,
        .readData (List.replicate 15 0) 15 8, .openIfNot 2 .openFile]) ≤ 1 ∧
      (openEntries (sampleRun 1 [.openFile, .writeData sampleData 15 8,
        .readData (List.replicate 15 0) 15 8, .openIfNot 2 .openFile])).length ≤ 1 :=
  cache_bound (faithful sampleRandom) 100 1 threeFiles "/dl" "top" false Disk.empty .openFile rfl
    [.writeData sampleData 15 8, .readData (List.replicate 15 0) 15 8, .openIfNot 2 .openFile]
    (by decide) _ rfl

/-! ## A failed open -/

/-- Claim C9. A failed open is atomic for the cache: when `openIfNot` is called on a
closed entry and the open method fails with `e`, then `openIfNot` fails with the same
`e`, and the state it leaves differs from the state before the call only in the external
world, which is as the failing backend call left it, and in the record of calls, which
has grown by that one backend call. So the cache is what it was, no entry has changed
(no victim was closed, the entry is still closed), and the randomizer was not called. -/
theorem openIfNot_failed_open (X : Ext W) (entry : Nat) (m : OpenMethod) (t : String)
    (s : MultiDiskAdaptor W) (e : Failure) (hclosed : (s.heap entry)._open = false)
    (hfail : (m.run X entry t s).1 = .error e) :
    openIfNot X entry m t s =
      (.error e, { s with
        world := (m.backend X s.world entry ((s.heap entry).getFilePath t)
          (s.heap entry).fileEntry.length).2
        calls := s.calls ++ [m.call entry ((s.heap entry).getFilePath t)
          (s.heap entry).fileEntry.length] }) ∧
    (openIfNot X entry m t s).2._openedDiskWriterEntries = s._openedDiskWriterEntries ∧
    (openIfNot X entry m t s).2.heap = s.heap ∧
    ((openIfNot X entry m t s).2.heap entry)._open = false ∧
    (∀ n, Call.getRandomNumber n ∉ (openIfNot X entry m t s).2.calls.drop s.calls.length) ∧
    (∀ h, Call.closeFile h ∉ (openIfNot X entry m t s).2.calls.drop s.calls.length) := by
  have hrun : m.run X entry t s = DiskWriterEntry.openWith X m entry t s := by
    cases m <;> rfl
  have key : openIfNot X entry m t s =
      (.error e, { s with
        world := (m.backend X s.world entry ((s.heap entry).getFilePath t)
          (s.heap entry).fileEntry.length).2
        calls := s.calls ++ [m.call entry ((s.heap entry).getFilePath t)
          (s.heap entry).fileEntry.length] }) := by
    rw [hrun] at hfail
    simp only [openIfNot, DiskWriterEntry.isOpen, hclosed, Bool.not_false, if_true, hrun]
    simp only [DiskWriterEntry.openWith] at hfail ⊢
    rcases hb : m.backend X s.world entry ((s.heap entry).getFilePath t)
      (s.heap entry).fileEntry.length with ⟨r, w⟩
    rw [hb] at hfail
    cases r with
    | error msg =>
      simp only [Except.error.injEq] at hfail
      subst hfail
      rfl
    | ok u => simp at hfail
  rw [key]
  refine ⟨rfl, rfl, rfl, hclosed, ?_, ?_⟩
  · intro n hn
    simp only [List.drop_left, List.mem_singleton] at hn
    cases m <;> simp [OpenMethod.call] at hn
  · intro h hn
    simp only [List.drop_left, List.mem_singleton] at hn
    cases m <;> simp [OpenMethod.call] at hn

/-! ## Closing all entries -/

theorem closeFile_entry_closed (X : Ext W) (h : Nat) (s : MultiDiskAdaptor W)
    (hc : (s.heap h)._open = false) : DiskWriterEntry.closeFile X h s = s := by
  simp [DiskWriterEntry.closeFile, hc]

theorem closeFile_loop_open (X : Ext W) (l : List Nat) (s : MultiDiskAdaptor W) (h : Nat) :
    ((l.foldl (fun st h => DiskWriterEntry.closeFile X h st) s).heap h)._open = true ↔
      h ∉ l ∧ (s.heap h)._open = true := by
  induction l generalizing s with
  | nil => simp
  | cons a rest ih =>
    simp only [List.foldl_cons, ih, closeFile_entry_open, List.mem_cons, not_or]
    constructor
    · rintro ⟨h1, h2, h3⟩; exact ⟨⟨h2, h1⟩, h3⟩
    · rintro ⟨⟨h2, h1⟩, h3⟩; exact ⟨h1, h2, h3⟩

theorem closeFile_loop_lists (X : Ext W) (l : List Nat) (s : MultiDiskAdaptor W) :
    (l.foldl (fun st h => DiskWriterEntry.closeFile X h st) s)._openedDiskWriterEntries =
      s._openedDiskWriterEntries ∧
    (l.foldl (fun st h => DiskWriterEntry.closeFile X h st) s).diskWriterEntries =
      s.diskWriterEntries := by
  induction l generalizing s with
  | nil => exact ⟨rfl, rfl⟩
  | cons a rest ih =>
    simp only [List.foldl_cons]
    obtain ⟨e1, e2⟩ := ih (DiskWriterEntry.closeFile X a s)
    obtain ⟨f1, f2, _⟩ := closeFile_entry_lists X a s
    exact ⟨e1.trans f1, e2.trans f2⟩

theorem closeFile_loop_closed (X : Ext W) (l : List Nat) (s : MultiDiskAdaptor W)
    (hc : ∀ h ∈ l, (s.heap h)._open = false) :
    l.foldl (fun st h => DiskWriterEntry.closeFile X h st) s = s := by
  induction l with
  | nil => rfl
  | cons a rest ih =>
    simp only [List.foldl_cons]
    rw [closeFile_entry_closed X a s (hc a (List.mem_cons_self _ _))]
    exact ih (fun h hh => hc h (List.mem_cons_of_mem _ hh))

/-- Claim C10. Idempotent close: after `closeFile()` no entry of the entry sequence is
open, and a second `closeFile()` right afterwards leaves the state, including the
external world and the record of backend calls, exactly as the first call left it. -/
theorem closeFile_idempotent (X : Ext W) (s : MultiDiskAdaptor W) :
    (∀ h ∈ (closeFile X s).diskWriterEntries, ((closeFile X s).heap h)._open = false) ∧
      closeFile X (closeFile X s) = closeFile X s ∧
      (closeFile X (closeFile X s)).calls = (closeFile X s).calls := by
  have hd : (closeFile X s).diskWriterEntries = s.diskWriterEntries :=
    (closeFile_loop_lists X s.diskWriterEntries s).2
  have hclosed : ∀ h ∈ (closeFile X s).diskWriterEntries,
      ((closeFile X s).heap h)._open = false := by
    intro h hh
    rw [hd] at hh
    have := (closeFile_loop_open X s.diskWriterEntries s h).not.mpr (fun hcon => hcon.1 hh)
    simpa [closeFile] using this
  have hid : closeFile X (closeFile X s) = closeFile X s := by
    conv_lhs => unfold closeFile
    exact closeFile_loop_closed X _ _ hclosed
  exact ⟨hclosed, hid, by rw [hid]⟩

/-- Claim C9 at the three files, none of them on the disk: the open-existing method
fails on the first entry, and `openIfNot` leaves the cache and the entries untouched. -/
theorem openIfNot_failed_open_witness :
    (((sampleRun 1 [.openExistingFile]).heap 0)._open = false ∧
      (OpenMethod.openExistingFile.run (faithful sampleRandom) 0 "/dl/top"
        (sampleRun 1 [.openExistingFile])).1 = .error (.backend "file not found")) ∧
    (openIfNot (faithful sampleRandom) 0 .openExistingFile "/dl/top"
        (sampleRun 1 [.openExistingFile])).1 = .error (.backend "file not found") ∧
    (openIfNot (faithful sampleRandom) 0 .openExistingFile "/dl/top"
        (sampleRun 1 [.openExistingFile])).2._openedDiskWriterEntries =
      (sampleRun 1 [.openExistingFile])._openedDiskWriterEntries :=
  ⟨⟨by decide, by decide⟩,
    congrArg Prod.fst (openIfNot_failed_open (faithful sampleRandom) 0 .openExistingFile "/dl/top"
      (sampleRun 1 [.openExistingFile]) (.backend "file not found") (by decide) (by decide)).1,
    (openIfNot_failed_open (faithful sampleRandom) 0 .openExistingFile "/dl/top"
      (sampleRun 1 [.openExistingFile]) (.backend "file not found") (by decide) (by decide)).2.1⟩

/-! ## Self-eviction after `closeFile` -/

/-- Claim C5, the behaviour of the code. With `maxOpenFiles = 1` the three files are
built, a write opens the second entry, and `closeFile()` closes it but leaves it in the
cache. The next `openIfNot` on that entry opens it, finds the cache full, draws the slot
that holds the same entry and closes it again: `openIfNot` returns with the entry
closed, and the `writeData` that needs it fails in the backend. -/
theorem openIfNot_evicts_opened_entry :
    ((sampleRun 1 [.openFile, .writeData sampleData 15 8, .closeFile]).heap 1)._open = false ∧
    (sampleRun 1 [.openFile, .writeData sampleData 15 8, .closeFile])._openedDiskWriterEntries
      = [1] ∧
    (openIfNot (faithful sampleRandom) 1 .openFile "/dl/top"
      (sampleRun 1 [.openFile, .writeData sampleData 15 8, .closeFile])).1 = .ok () ∧
    ((openIfNot (faithful sampleRandom) 1 .openFile "/dl/top"
      (sampleRun 1 [.openFile, .writeData sampleData 15 8, .closeFile])).2.heap 1)._open
      = false ∧
    (openIfNot (faithful sampleRandom) 1 .openFile "/dl/top"
      (sampleRun 1 [.openFile, .writeData sampleData 15 8, .closeFile])).2.calls.drop
        (sampleRun 1 [.openFile, .writeData sampleData 15 8, .closeFile]).calls.length
      = [Call.openFile 1 "/dl/top/b" 20, Call.getRandomNumber 1, Call.closeFile 1] ∧
    (writeData (faithful sampleRandom) sampleData 15 10
      (sampleRun 1 [.openFile, .writeData sampleData 15 8, .closeFile])).1
      = .error (.backend "file not opened") := by
  decide

/-! ## Consistency of the cache -/

/-- Claim C8 as stated fails. After `openFile`, a write over two files and
`setMaxOpenFiles(1)` the cache holds two slots; after `openFile`, the same write and
`closeFile()` the cache refers to entries that are closed. -/
theorem cache_consistency_counterexample :
    (run (faithful sampleRandom) [.openFile, .writeData sampleData 15 8, .setMaxOpenFiles 1]
        (sampleAdaptor 2) =
      some (sampleRun 2 [.openFile, .writeData sampleData 15 8, .setMaxOpenFiles 1]) ∧
      ¬ CacheConsistent
        (sampleRun 2 [.openFile, .writeData sampleData 15 8, .setMaxOpenFiles 1])) ∧
    (run (faithful sampleRandom) [.openFile, .writeData sampleData 15 8, .closeFile]
        (sampleAdaptor 2) =
      some (sampleRun 2 [.openFile, .writeData sampleData 15 8, .closeFile]) ∧
      ¬ CacheConsistent (sampleRun 2 [.openFile, .writeData sampleData 15 8, .closeFile])) := by
  refine ⟨⟨rfl, ?_⟩, ⟨rfl, ?_⟩⟩
  · intro h
    have := h.1
    revert this
    decide
  · intro h
    have := h.2.1 0
    revert this
    decide

theorem step_maxOpenFiles (X : Ext W) (op : Op) (s : MultiDiskAdaptor W)
    (hop : ∀ n, op ≠ .setMaxOpenFiles n) (hub : (step X op s).1 ≠ some .invalidAccess) :
    (step X op s).2._maxOpenFiles = s._maxOpenFiles := by
  refine step_preserves X (fun s' => s'._maxOpenFiles = s._maxOpenFiles)
    (stable_maxOpenFiles X _) op s ?_ ?_ rfl hub
  · intro _ s' h hs'
    rw [(closeFile_entry_lists X h s').2.2.2]
    exact hs'
  · intro n hn
    exact absurd hn (hop n)

theorem run_withinCapacity (X : Ext W) :
    ∀ (ops : List Op) (s s' : MultiDiskAdaptor W), WithinCapacity s →
      List.Chain (· ≤ ·) s._maxOpenFiles (capacityChanges ops) →
      run X ops s = some s' → WithinCapacity s' := by
  intro ops
  induction ops with
  | nil =>
    intro s s' hs _ hr
    simp only [run, Option.some.injEq] at hr
    exact hr ▸ hs
  | cons op rest ih =>
    intro s s' hs hch hr
    have hstep : (step X op s).1 ≠ some .invalidAccess →
        WithinCapacity (step X op s).2 ∧
          List.Chain (· ≤ ·) (step X op s).2._maxOpenFiles (capacityChanges rest) := by
      intro hub
      by_cases hm : ∃ n, op = .setMaxOpenFiles n
      · obtain ⟨n, rfl⟩ := hm
        simp only [capacityChanges, List.chain_cons] at hch
        refine ⟨?_, hch.2⟩
        simp only [step, setMaxOpenFiles, WithinCapacity]
        exact le_trans hs hch.1
      · have hm' : ∀ n, op ≠ .setMaxOpenFiles n := fun n e => hm ⟨n, e⟩
        refine ⟨?_, ?_⟩
        · exact step_preserves X _ (stable_withinCapacity X) op s
            (fun _ s' h hs' => closeFile_entry_withinCapacity X h s' hs')
            (fun n hn => absurd hn (hm' n)) hs hub
        · rw [step_maxOpenFiles X op s hm' hub]
          cases op <;> first | exact hch | exact absurd rfl (hm' _)
    rcases hst : step X op s with ⟨o, s1⟩
    rw [hst] at hstep
    rcases o with _ | e
    · simp only [run, hst] at hr
      obtain ⟨h1, h2⟩ := hstep (by simp)
      exact ih s1 s' h1 h2 hr
    · cases e with
      | invalidAccess => simp [run, hst] at hr
      | offsetOutOfRange o =>
        simp only [run, hst] at hr
        obtain ⟨h1, h2⟩ := hstep (by simp)
        exact ih s1 s' h1 h2 hr
      | backend msg =>
        simp only [run, hst] at hr
        obtain ⟨h1, h2⟩ := hstep (by simp)
        exact ih s1 s' h1 h2 hr

/-- Claim C8, amended. In every state that a sequence of operations (`openFile`,
`initAndOpenFile`, `openExistingFile`, `closeFile`, `onDownloadComplete`, `writeData`,
`readData`, `setMaxOpenFiles`, and `openIfNot` on an entry of the sequence) reaches from a
newly constructed adaptor without undefined behaviour: every entry whose open flag is set
is referenced by the cache; the cache has at most `maxOpenFiles` slots provided that no
`setMaxOpenFiles` lowered the capacity; and every entry referenced by the cache is open
provided that neither `closeFile` nor `onDownloadComplete` was called. -/
theorem cache_consistency (X : Ext W) (DEFAULT_MAX_OPEN_FILES : Nat)
    (fileEntries : List FileEntry) (storeDir topDir : String) (directIOAllowed : Bool)
    (world : W) (ops : List Op) (s : MultiDiskAdaptor W)
    (hrun : run X ops (MultiDiskAdaptor.create DEFAULT_MAX_OPEN_FILES fileEntries storeDir
      topDir directIOAllowed world) = some s) :
    (∀ h, (s.heap h)._open = true → h ∈ s._openedDiskWriterEntries) ∧
    (List.Chain (· ≤ ·) DEFAULT_MAX_OPEN_FILES (capacityChanges ops) →
      s._openedDiskWriterEntries.length ≤ s._maxOpenFiles) ∧
    ((∀ op ∈ ops, op.isClose = false) →
      ∀ h ∈ s._openedDiskWriterEntries, (s.heap h)._open = true) := by
  have halloc : Allocated (MultiDiskAdaptor.create DEFAULT_MAX_OPEN_FILES fileEntries storeDir
      topDir directIOAllowed world) :=
    And.intro (fun _ hh => by cases hh) (And.intro (fun _ hh => by cases hh) List.nodup_nil)
  refine ⟨?_, ?_, ?_⟩
  · have := run_preserves X _ ops _ s (fun op _ s' hs' hub =>
      step_preserves X _ (stable_safe X) op s'
        (fun _ s'' h hs'' =>
          ⟨closeFile_entry_openInCache X h s'' hs''.1, closeFile_entry_allocated X h s'' hs''.2⟩)
        (fun n _ => hs') hs' hub)
      ⟨fun h hh => by simp [MultiDiskAdaptor.create] at hh, halloc⟩ hrun
    exact this.1
  · intro hch
    exact run_withinCapacity X ops _ s (by simp [WithinCapacity, MultiDiskAdaptor.create]) hch hrun
  · intro hno
    have := run_preserves X _ ops _ s (fun op hop s' hs' hub =>
      step_preserves X _ (stable_cacheOpen X) op s'
        (fun hc => by rw [hno op hop] at hc; cases hc)
        (fun n _ => hs') hs' hub)
      ⟨⟨List.nodup_nil, fun h hh => by simp [MultiDiskAdaptor.create] at hh⟩, halloc⟩ hrun
    exact this.1.2

/-- Claim C8, amended, at a write over two of the three files with two slots. -/
theorem cache_consistency_witness :
    (∀ h, ((sampleRun 2 [.openFile, .setMaxOpenFiles 2, .writeData sampleData 15 8]).heap
        h)._open = true →
      h ∈ (sampleRun 2 [.openFile, .setMaxOpenFiles 2, .writeData sampleData 15 8]
        )._openedDiskWriterEntries) ∧
    (List.Chain (· ≤ ·) 2
        (capacityChanges [.openFile, .setMaxOpenFiles 2, .writeData sampleData 15 8]) →
      (sampleRun 2 [.openFile, .setMaxOpenFiles 2, .writeData sampleData 15 8]
        )._openedDiskWriterEntries.length ≤
      (sampleRun 2 [.openFile, .setMaxOpenFiles 2, .writeData sampleData 15 8])._maxOpenFiles) ∧
    ((∀ op ∈ [Op.openFile, .setMaxOpenFiles 2, .writeData sampleData 15 8],
        op.isClose = false) →
      ∀ h ∈ (sampleRun 2 [.openFile, .setMaxOpenFiles 2, .writeData sampleData 15 8]
        )._openedDiskWriterEntries,
      ((sampleRun 2 [.openFile, .setMaxOpenFiles 2, .writeData sampleData 15 8]).heap
        h)._open = true) :=
  cache_consistency (faithful sampleRandom) 2 threeFiles "/dl" "top" false Disk.empty
    [.openFile, .setMaxOpenFiles 2, .writeData sampleData 15 8] _ rfl

/-! ## The calls of `openIfNot` -/

theorem NoTransfer.append {a b : List Call} (ha : NoTransfer a) (hb : NoTransfer b) :
    NoTransfer (a ++ b) := by
  intro c hc
  rcases List.mem_append.mp hc with h | h
  · exact ha c h
  · exact hb c h

theorem closeFile_entry_calls (X : Ext W) (h : Nat) (s : MultiDiskAdaptor W) :
    ∃ cs, (DiskWriterEntry.closeFile X h s).calls = s.calls ++ cs ∧ NoTransfer cs := by
  unfold DiskWriterEntry.closeFile
  split
  · exact ⟨[Call.closeFile h], rfl, by intro c hc; simp at hc; subst hc; exact ⟨rfl, rfl⟩⟩
  · exact ⟨[], by simp, by intro c hc; cases hc⟩

theorem run_calls (X : Ext W) (m : OpenMethod) (h : Nat) (t : String)
    (s : MultiDiskAdaptor W) :
    ∃ cs, (m.run X h t s).2.calls = s.calls ++ cs ∧ NoTransfer cs := by
  have hcall : ∀ p n, NoTransfer [m.call h p n] := by
    intro p n c hc
    simp only [List.mem_singleton] at hc
    subst hc
    cases m <;> exact ⟨rfl, rfl⟩
  have hrun : m.run X h t s = DiskWriterEntry.openWith X m h t s := by
    cases m <;> rfl
  rw [hrun]
  simp only [DiskWriterEntry.openWith]
  split
  · exact ⟨_, rfl, hcall _ _⟩
  · split
    · refine ⟨_, List.append_assoc _ _ _, (hcall _ _).append ?_⟩
      intro c hc
      simp only [List.mem_singleton] at hc
      subst hc
      exact ⟨rfl, rfl⟩
    · exact ⟨_, rfl, hcall _ _⟩

/-- A call of `openIfNot` adds neither a backend write nor a backend read to the record
of calls. -/
theorem openIfNot_calls (X : Ext W) (entry : Nat) (m : OpenMethod) (t : String)
    (s : MultiDiskAdaptor W) :
    ∃ cs, (openIfNot X entry m t s).2.calls = s.calls ++ cs ∧ NoTransfer cs := by
  unfold openIfNot
  by_cases ho : (s.heap entry)._open = true
  · refine ⟨[], ?_, by intro c hc; cases hc⟩
    simp [DiskWriterEntry.isOpen, ho]
  · obtain ⟨cs1, hc1, hn1⟩ := run_calls X m entry t s
    rcases hr : m.run X entry t s with ⟨r, s1⟩
    rw [hr] at hc1
    simp only at hc1
    cases r with
    | error e =>
      simp only [DiskWriterEntry.isOpen, ho, Bool.not_false, if_true, Bool.false_eq_true,
        not_false_eq_true]
      exact ⟨cs1, hc1, hn1⟩
    | ok u =>
      simp only [DiskWriterEntry.isOpen, ho, Bool.not_false, if_true, Bool.false_eq_true,
        not_false_eq_true]
      have hrnd : NoTransfer [Call.getRandomNumber s._openedDiskWriterEntries.length] := by
        intro c hc
        simp only [List.mem_singleton] at hc
        subst hc
        exact ⟨rfl, rfl⟩
      split
      · split
        · refine ⟨cs1 ++ [Call.getRandomNumber s._openedDiskWriterEntries.length], ?_,
            hn1.append hrnd⟩
          simp only [hc1, List.append_assoc]
        · next victim hv =>
          obtain ⟨cs2, hc2, hn2⟩ := closeFile_entry_calls X victim
            { s1 with
              world := (X.getRandomNumber s1.world s._openedDiskWriterEntries.length).2
              calls := s1.calls ++ [Call.getRandomNumber s._openedDiskWriterEntries.length] }
          refine ⟨cs1 ++ [Call.getRandomNumber s._openedDiskWriterEntries.length] ++ cs2, ?_,
            (hn1.append hrnd).append hn2⟩
          show (DiskWriterEntry.closeFile X victim _).calls = _
          rw [hc2]
          simp only [hc1, List.append_assoc]
      · exact ⟨cs1, hc1, hn1⟩

theorem openIfNot_writesOf (X : Ext W) (entry : Nat) (m : OpenMethod) (t : String)
    (s : MultiDiskAdaptor W) :
    writesOf (openIfNot X entry m t s).2.calls = writesOf s.calls := by
  obtain ⟨cs, h1, h2⟩ := openIfNot_calls X entry m t s
  rw [h1, writesOf, List.filter_append]
  have : cs.filter Call.isWrite = [] := by
    rw [List.filter_eq_nil_iff]
    intro c hc
    simp [(h2 c hc).1]
  rw [this, List.append_nil]
  rfl

/-! ## The writes of `writeData` -/

theorem calculateLength_congr (e e' : DiskWriterEntry) (h : e'.fileEntry = e.fileEntry)
    (fo : Int) (rem : Nat) : calculateLength e' fo rem = calculateLength e fo rem := by
  simp only [calculateLength, h]

theorem writePlan_congr (data : List Byte) (len : Nat) (heap heap' : Nat → DiskWriterEntry)
    (hh : ∀ h, (heap' h).fileEntry = (heap h).fileEntry) :
    ∀ (l : List Nat) (rem : Nat) (fo : Int),
      writePlan data len heap' l rem fo = writePlan data len heap l rem fo := by
  intro l
  induction l with
  | nil => intro rem fo; rfl
  | cons i rest ih =>
    intro rem fo
    simp only [writePlan, calculateLength_congr _ _ (hh i), ih]

theorem writesOf_append (a b : List Call) : writesOf (a ++ b) = writesOf a ++ writesOf b := by
  simp [writesOf]

/-- When the loop of `writeData` returns, the backend writes it has issued are those of
`writePlan`. -/
theorem writeLoop_writes (X : Ext W) (data : List Byte) (len : Nat) :
    ∀ (l : List Nat) (rem : Nat) (fo : Int) (s : MultiDiskAdaptor W),
      (writeLoop X data len l rem fo s).1 = .ok () →
      writesOf (writeLoop X data len l rem fo s).2.calls =
        writesOf s.calls ++ writePlan data len s.heap l rem fo := by
  intro l
  induction l with
  | nil => intro rem fo s _; simp [writeLoop, writePlan]
  | cons i rest ih =>
    intro rem fo s hok
    rcases ho : openIfNot X i .openFile s._cachedTopDirPath s with ⟨r, s1⟩
    have hw1 : writesOf s1.calls = writesOf s.calls := by
      have := openIfNot_writesOf X i .openFile s._cachedTopDirPath s
      rw [ho] at this
      exact this
    have hcfg : ∀ h, (s1.heap h).fileEntry = (s.heap h).fileEntry := by
      have := (openIfNot_sameConfig X i .openFile s._cachedTopDirPath s).fileEntry
      rw [ho] at this
      exact this
    cases r with
    | error e =>
      rw [writeLoop_open_error X data len i rest rem fo s s1 e ho] at hok
      cases hok
    | ok u =>
      rcases hw : X.writeData s1.world i
        ((data.drop ((len + 2 ^ 64 - rem) % 2 ^ 64)).take (calculateLength (s.heap i) fo rem))
        (calculateLength (s.heap i) fo rem) fo with ⟨r, w⟩
      cases r with
      | error msg =>
        rw [writeLoop_write_error X data len i rest rem fo s s1 u msg w ho hw] at hok
        cases hok
      | ok u' =>
        by_cases hrem : (rem + 2 ^ 64 - calculateLength (s.heap i) fo rem) % 2 ^ 64 = 0
        · rw [writeLoop_last X data len i rest rem fo s s1 u u' w ho hw hrem]
          simp only [afterWrite, writesOf_append, hw1, writePlan, hrem, if_true]
          rfl
        · rw [writeLoop_next X data len i rest rem fo s s1 u u' w ho hw hrem] at hok ⊢
          rw [ih _ _ _ hok]
          simp only [afterWrite, writesOf_append, hw1]
          rw [writePlan_congr data len s.heap s1.heap hcfg]
          conv_rhs => rw [writePlan]
          simp only [hrem, if_false, List.append_assoc]
          rfl

/-- Without wrap-around `calculateLength` is the smaller of what remains of the request
and what remains of the file. -/
theorem calculateLength_eq (e : DiskWriterEntry) (k rem : Nat) (hk : k ≤ e.fileEntry.length)
    (hfit : k + rem < 2 ^ 64) :
    calculateLength e (k : Int) rem = min rem (e.fileEntry.length - k) := by
  have hu : toU64 (k : Int) = k := by
    have := toU64_of_nonneg (k : Int) (by omega) (by omega)
    exact_mod_cast this
  unfold calculateLength
  rw [hu, Nat.mod_eq_of_lt hfit]
  split
  · next h =>
    have : (e.fileEntry.length + 2 ^ 64 - k) % 2 ^ 64 = e.fileEntry.length - k := by omega
    rw [this]
    omega
  · omega

theorem Tiling.offset_ge {start : Int} {fes : List FileEntry} (ht : Tiling start fes)
    {fe : FileEntry} (h : fe ∈ fes) : start ≤ fe.offset := by
  obtain ⟨i, hi, rfl⟩ := List.mem_iff_getElem.mp h
  have := (ht.offset_eq (List.getElem?_eq_getElem hi)).1
  omega

theorem expectedWrites_none (data : List Byte) (len : Nat) (offset : Int)
    (heap : Nat → DiskWriterEntry) (l : List Nat)
    (h : ∀ i ∈ l, ¬ ((heap i).fileEntry.offset < offset + len ∧
      offset < (heap i).fileEntry.offset + (heap i).fileEntry.length)) :
    expectedWrites data len offset heap l = [] := by
  unfold expectedWrites
  rw [List.filterMap_eq_nil_iff]
  intro i hi
  simp only [expectedWrite, h i hi, if_false]

/-- On a tiling, from a position `p` inside the first range on, the chunks of the loop
of `writeData` are the writes the spec expects. -/
theorem writePlan_eq_expected (data : List Byte) (len : Nat) (offset : Int)
    (heap : Nat → DiskWriterEntry) :
    ∀ (l : List Nat) (S p : Int) (rem : Nat), Tiling S (filesOf heap l) → 0 ≤ S → S ≤ p →
      0 ≤ offset → offset ≤ p → (p = offset ∨ p = S) → 0 < rem → p + rem = offset + len →
      offset + len < 2 ^ 64 →
      (∀ i rest, l = i :: rest → p < S + (heap i).fileEntry.length) →
      writePlan data len heap l rem (p - S) = expectedWrites data len offset heap l := by
  intro l
  induction l with
  | nil => intro S p rem _ _ _ _ _ _ _ _ _ _; rfl
  | cons i rest ih =>
    intro S p rem ht hS hSp ho0 hop hmax hrem hsum hfit hin
    obtain ⟨hoff, hpos, htail⟩ := ht
    simp only at hoff hpos
    change Tiling (S + ((heap i).fileEntry.length : Int)) (filesOf heap rest) at htail
    have hin' := hin i rest rfl
    obtain ⟨k, hk⟩ := Int.eq_ofNat_of_zero_le (show 0 ≤ p - S by omega)
    have hcalc := calculateLength_eq (heap i) k rem (by omega) (by omega)
    rw [hk]
    have hdrop : (len + 2 ^ 64 - rem) % 2 ^ 64 = len - rem := by omega
    have hlo : max (heap i).fileEntry.offset offset = p := by
      rcases hmax with h | h <;> omega
    have hcond : (heap i).fileEntry.offset < offset + len ∧
        offset < (heap i).fileEntry.offset + (heap i).fileEntry.length := by
      constructor <;> omega
    have hexp : expectedWrite data len offset i (heap i).fileEntry =
        some (Call.writeData i
          ((data.drop (len - rem)).take (min rem ((heap i).fileEntry.length - k)))
          (min rem ((heap i).fileEntry.length - k)) (k : Int)) := by
      simp only [expectedWrite, hcond, and_self, if_true, hlo]
      have e1 : (p - offset).toNat = len - rem := by omega
      have e2 : (min ((heap i).fileEntry.offset + ((heap i).fileEntry.length : Int))
          (offset + (len : Int)) - p).toNat = min rem ((heap i).fileEntry.length - k) := by
        omega
      have e3 : p - (heap i).fileEntry.offset = (k : Int) := by omega
      rw [e1, e2, e3]
    simp only [writePlan, hcalc, hdrop]
    simp only [expectedWrites, List.filterMap_cons, hexp]
    congr 1
    by_cases hlast : rem ≤ (heap i).fileEntry.length - k
    · have hrem' : (rem + 2 ^ 64 - min rem ((heap i).fileEntry.length - k)) % 2 ^ 64 = 0 := by
        omega
      rw [if_pos hrem']
      symm
      apply expectedWrites_none
      intro j hj
      have hge := htail.offset_ge (List.mem_map_of_mem (fun h => (heap h).fileEntry) hj)
      simp only at hge
      intro hc
      omega
    · have hrem' : (rem + 2 ^ 64 - min rem ((heap i).fileEntry.length - k)) % 2 ^ 64 =
          rem - ((heap i).fileEntry.length - k) := by omega
      have hne : rem - ((heap i).fileEntry.length - k) ≠ 0 := by omega
      rw [hrem', if_neg hne]
      have := ih (S + (heap i).fileEntry.length) (S + (heap i).fileEntry.length)
        (rem - ((heap i).fileEntry.length - k)) htail (by omega) (le_refl _) ho0 (by omega)
        (Or.inr rfl) (by omega) (by omega) hfit
        (by
          intro j rest' hj
          subst hj
          have := htail.2.1
          simp only at this
          omega)
      simp only [sub_self] at this
      exact this

/-- The number of bytes that the chunks of the loop of `writeData` hand to the backend:
what is requested, or what is left of the files when that is less. -/
theorem writePlan_length_sum (data : List Byte) (len : Nat) (heap : Nat → DiskWriterEntry) :
    ∀ (l : List Nat) (S p : Int) (rem : Nat), Tiling S (filesOf heap l) → 0 ≤ S → S ≤ p →
      p + rem < 2 ^ 64 → (∀ i rest, l = i :: rest → p < S + (heap i).fileEntry.length) →
      ((writePlan data len heap l rem (p - S)).map Call.writeLength).sum =
        min rem (S + totalLength (filesOf heap l) - p).toNat := by
  intro l
  induction l with
  | nil =>
    intro S p rem _ _ hSp _ _
    simp only [writePlan, List.map_nil, List.sum_nil, filesOf, totalLength]
    omega
  | cons i rest ih =>
    intro S p rem ht hS hSp hfit hin
    obtain ⟨hoff, hpos, htail⟩ := ht
    simp only at hoff hpos
    change Tiling (S + ((heap i).fileEntry.length : Int)) (filesOf heap rest) at htail
    have hin' := hin i rest rfl
    obtain ⟨k, hk⟩ := Int.eq_ofNat_of_zero_le (show 0 ≤ p - S by omega)
    have hcalc := calculateLength_eq (heap i) k rem (by omega) (by omega)
    have htot : totalLength (filesOf heap (i :: rest)) =
        (heap i).fileEntry.length + totalLength (filesOf heap rest) := by
      simp [filesOf, totalLength]
    rw [hk, htot]
    simp only [writePlan, hcalc, List.map_cons, List.sum_cons, Call.writeLength]
    by_cases hlast : rem ≤ (heap i).fileEntry.length - k
    · have hrem' : (rem + 2 ^ 64 - min rem ((heap i).fileEntry.length - k)) % 2 ^ 64 = 0 := by
        omega
      rw [if_pos hrem']
      simp only [List.map_nil, List.sum_nil]
      omega
    · have hrem' : (rem + 2 ^ 64 - min rem ((heap i).fileEntry.length - k)) % 2 ^ 64 =
          rem - ((heap i).fileEntry.length - k) := by omega
      have hne : rem - ((heap i).fileEntry.length - k) ≠ 0 := by omega
      rw [hrem', if_neg hne]
      have := ih (S + (heap i).fileEntry.length) (S + (heap i).fileEntry.length)
        (rem - ((heap i).fileEntry.length - k)) htail (by omega) (le_refl _) (by omega)
        (by
          intro j rest' hj
          subst hj
          have := htail.2.1
          simp only at this
          omega)
      simp only [sub_self] at this
      rw [this]
      omega

theorem fileEntriesOf_entries (s : MultiDiskAdaptor W) :
    fileEntriesOf s.entries = filesOf s.heap s.diskWriterEntries := by
  simp [fileEntriesOf, MultiDiskAdaptor.entries, filesOf]

theorem Tiling.drop {start : Int} {fes : List FileEntry} (ht : Tiling start fes) (i : Nat) :
    Tiling (start + totalLength (fes.take i)) (fes.drop i) := by
  induction fes generalizing start i with
  | nil => simp [Tiling]
  | cons fe rest ih =>
    cases i with
    | zero => simp [totalLength]; exact ht
    | succ i =>
      obtain ⟨_, _, h3⟩ := ht
      have := ih h3 i
      simp only [List.take_succ_cons, List.drop_succ_cons, totalLength_cons]
      have e : start + ((fe.length + totalLength (List.take i rest) : Nat) : Int) =
          start + (fe.length : Int) + (totalLength (List.take i rest) : Int) := by
        push_cast; ring
      rw [e]
      exact this

theorem filesOf_drop (heap : Nat → DiskWriterEntry) (l : List Nat) (i : Nat) :
    filesOf heap (l.drop i) = (filesOf heap l).drop i := by
  simp [filesOf, List.map_drop]

theorem totalLength_take_add_drop (fes : List FileEntry) (i : Nat) :
    totalLength (fes.take i) + totalLength (fes.drop i) = totalLength fes := by
  have h := congrArg totalLength (List.take_append_drop i fes)
  rw [← h]
  simp [totalLength, List.map_append, List.sum_append]

/-- What `writeData` does once the offset is located on a tiling: the loop over the
entries from the located one on, its local offset being the offset of the request in
that file. -/
theorem writeData_located (X : Ext W) (s : MultiDiskAdaptor W) (data : List Byte) (len : Nat)
    (offset : Int) (ht : Tiling 0 (fileEntriesOf s.entries))
    (hfit : totalLength (fileEntriesOf s.entries) < 2 ^ 64) (h0 : 0 ≤ offset)
    (h1 : offset < totalLength (fileEntriesOf s.entries)) :
    ∃ i h, s.diskWriterEntries[i]? = some h ∧
      (s.heap h).fileEntry.offset ≤ offset ∧
      offset < (s.heap h).fileEntry.offset + (s.heap h).fileEntry.length ∧
      findFirstDiskWriterEntry s.entries offset = .ok i ∧
      writeData X data len offset s =
        writeLoop X data len (s.diskWriterEntries.drop i) len
          (offset - (s.heap h).fileEntry.offset) s := by
  obtain ⟨i, e, hf, hi, hlo, hhi, _⟩ :=
    findFirstDiskWriterEntry_tiling s.entries offset ht hfit h0 h1
  simp only [MultiDiskAdaptor.entries, List.getElem?_map, Option.map_eq_some'] at hi
  obtain ⟨h, hh, rfl⟩ := hi
  refine ⟨i, h, hh, hlo, hhi, hf, ?_⟩
  simp only [writeData, hf, hh]

/-- Claim C6. Write splitting: on a tiling (total length a `uint64_t` value), for every
`offset ≥ 0` and `len > 0` with `offset + len ≤ totalLength`, a `writeData` that returns
has issued exactly the backend writes that the spec expects, in the order of the entry
sequence and after the writes recorded before: one write for each file whose range meets
`[offset, offset + len)` and none for any other file; the file receives the bytes of the
data that fall into its range, at the local offset where they belong (the first file
`min(len, length - localOffset)` bytes at `offset - file.offset`, each later file
`min(remaining, length)` bytes at local offset `0`). -/
theorem writeData_splits (X : Ext W) (s : MultiDiskAdaptor W) (data : List Byte) (len : Nat)
    (offset : Int) (ht : Tiling 0 (fileEntriesOf s.entries))
    (hfit : totalLength (fileEntriesOf s.entries) < 2 ^ 64) (h0 : 0 ≤ offset)
    (hlen : 0 < len) (hend : offset + len ≤ totalLength (fileEntriesOf s.entries))
    (hok : (writeData X data len offset s).1 = .ok ()) :
    writesOf (writeData X data len offset s).2.calls =
      writesOf s.calls ++ expectedWrites data len offset s.heap s.diskWriterEntries := by
  obtain ⟨i, h, hh, hlo, hhi, _, hw⟩ :=
    writeData_located X s data len offset ht hfit h0 (by omega)
  rw [hw] at hok ⊢
  rw [writeLoop_writes X data len _ _ _ s hok]
  congr 1
  rw [fileEntriesOf_entries] at ht
  have hfh : (filesOf s.heap s.diskWriterEntries)[i]? = some (s.heap h).fileEntry := by
    simp [filesOf, hh]
  have hoff := (ht.offset_eq hfh).1
  have htd := ht.drop i
  rw [zero_add] at hoff htd
  rw [← hoff, ← filesOf_drop] at htd
  have hplan := writePlan_eq_expected data len offset s.heap (s.diskWriterEntries.drop i)
    (s.heap h).fileEntry.offset offset len htd (by omega) hlo h0 (le_refl _) (Or.inl rfl)
    hlen rfl (by rw [fileEntriesOf_entries] at hfit hend; omega)
    (by
      intro j rest hj
      have : (s.diskWriterEntries.drop i)[0]? = some j := by rw [hj]; simp
      rw [List.getElem?_drop, Nat.add_zero, hh] at this
      cases this
      exact hhi)
  rw [hplan]
  have hsplit : expectedWrites data len offset s.heap s.diskWriterEntries =
      expectedWrites data len offset s.heap (s.diskWriterEntries.take i) ++
        expectedWrites data len offset s.heap (s.diskWriterEntries.drop i) := by
    unfold expectedWrites
    rw [← List.filterMap_append, List.take_append_drop]
  rw [hsplit, expectedWrites_none data len offset s.heap (s.diskWriterEntries.take i),
    List.nil_append]
  intro j hj hc
  obtain ⟨n, hn, hjn⟩ := List.mem_iff_getElem.mp hj
  have hni : n < i := by
    have := hn
    simp only [List.length_take] at this
    omega
  have hjn' : s.diskWriterEntries[n]? = some j := by
    rw [← hjn, List.getElem_take]
    exact List.getElem?_eq_getElem _
  have hfj : (filesOf s.heap s.diskWriterEntries)[n]? = some (s.heap j).fileEntry := by
    simp [filesOf, hjn']
  have := ht.end_le_offset hni hfj hfh
  omega

/-- Claim C6 at scenario A: files of lengths 10, 20, 5; `write(offset=8, len=15, D)`
writes `D[0:2]` at local offset 8 of the first file and `D[2:15]` at local offset 0 of
the second, and nothing to the third. -/
theorem writeData_splits_witness :
    (writeData (faithful sampleRandom) sampleData 15 8 (sampleRun 2 [.openFile])).1 = .ok () ∧
    writesOf (writeData (faithful sampleRandom) sampleData 15 8
        (sampleRun 2 [.openFile])).2.calls =
      [Call.writeData 0 [65, 66] 2 8,
        Call.writeData 1 [67, 68, 69, 70, 71, 72, 73, 74, 75, 76, 77, 78, 79] 13 0] :=
  ⟨by decide,
    (writeData_splits (faithful sampleRandom) (sampleRun 2 [.openFile]) sampleData 15 8
      (by decide) (by decide) (by decide) (by decide) (by decide) (by decide)).trans
      (by decide)⟩

/-- Claim C7 as stated fails. Over the three files (total length 35) a write of 15 bytes
at offset 30 returns normally after handing 5 bytes to the backend: the entries ran
out. -/
theorem writeData_short_counterexample :
    (writeData (faithful sampleRandom) sampleData 15 30 (sampleRun 2 [.openFile])).1 = .ok () ∧
    ((writesOf (writeData (faithful sampleRandom) sampleData 15 30
        (sampleRun 2 [.openFile])).2.calls).map Call.writeLength).sum = 5 := by
  decide

/-- The bytes `writeData` has handed to the backend when it returns, on a tiling: the
lengths of its chunks sum to `min(len, totalLength - offset)`. -/
theorem writeData_sum (X : Ext W) (s : MultiDiskAdaptor W) (data : List Byte) (len : Nat)
    (offset : Int) (ht : Tiling 0 (fileEntriesOf s.entries))
    (hfit : totalLength (fileEntriesOf s.entries) < 2 ^ 64) (h0 : 0 ≤ offset)
    (h1 : offset < totalLength (fileEntriesOf s.entries)) (hfit2 : offset + len < 2 ^ 64)
    (hok : (writeData X data len offset s).1 = .ok ()) :
    ((writesOf (writeData X data len offset s).2.calls).map Call.writeLength).sum =
        ((writesOf s.calls).map Call.writeLength).sum +
          min len (totalLength (fileEntriesOf s.entries) - offset).toNat ∧
      (offset + len ≤ totalLength (fileEntriesOf s.entries) →
        ((writesOf (writeData X data len offset s).2.calls).map Call.writeLength).sum =
          ((writesOf s.calls).map Call.writeLength).sum + len) := by
  obtain ⟨i, h, hh, hlo, hhi, _, hw⟩ := writeData_located X s data len offset ht hfit h0 h1
  rw [hw] at hok ⊢
  rw [writeLoop_writes X data len _ _ _ s hok]
  rw [fileEntriesOf_entries] at ht ⊢
  have hfh : (filesOf s.heap s.diskWriterEntries)[i]? = some (s.heap h).fileEntry := by
    simp [filesOf, hh]
  have hoff := (ht.offset_eq hfh).1
  have htd := ht.drop i
  rw [zero_add] at hoff htd
  rw [← hoff, ← filesOf_drop] at htd
  have hsum := writePlan_length_sum data len s.heap (s.diskWriterEntries.drop i)
    (s.heap h).fileEntry.offset offset len htd (by omega) hlo hfit2
    (by
      intro j rest hj
      have : (s.diskWriterEntries.drop i)[0]? = some j := by rw [hj]; simp
      rw [List.getElem?_drop, Nat.add_zero, hh] at this
      cases this
      exact hhi)
  have htot := totalLength_take_add_drop (filesOf s.heap s.diskWriterEntries) i
  rw [← filesOf_drop] at htot
  have hkey : ((writesOf s.calls ++ writePlan data len s.heap (s.diskWriterEntries.drop i) len
      (offset - (s.heap h).fileEntry.offset)).map Call.writeLength).sum =
      ((writesOf s.calls).map Call.writeLength).sum +
        min len (totalLength (filesOf s.heap s.diskWriterEntries) - offset).toNat := by
    rw [List.map_append, List.sum_append, hsum]
    congr 2
    omega
  refine ⟨hkey, ?_⟩
  intro hend
  rw [hkey]
  congr 1
  omega

/-! ## The faithful backend -/

theorem closeFile_entry_faithful (rnd : Nat → Nat → Nat) (v : Nat) (s : MultiDiskAdaptor Disk) :
    (DiskWriterEntry.closeFile (faithful rnd) v s).world.files = s.world.files ∧
    (∀ h, h ≠ v → (DiskWriterEntry.closeFile (faithful rnd) v s).world.opened h =
      s.world.opened h) ∧
    (DiskWriterEntry.closeFile (faithful rnd) v s)._cachedTopDirPath = s._cachedTopDirPath ∧
    (∀ h, ((DiskWriterEntry.closeFile (faithful rnd) v s).heap h).fileEntry =
      (s.heap h).fileEntry) := by
  unfold DiskWriterEntry.closeFile
  split
  · refine ⟨rfl, ?_, rfl, ?_⟩
    · intro h hne
      simp [faithful, Function.update_noteq hne]
    · intro h
      by_cases e : h = v
      · subst e; simp
      · simp [Function.update_noteq e]
  · exact ⟨rfl, fun _ _ => rfl, rfl, fun _ => rfl⟩

/-- What an open method does through the faithful backend. -/
theorem run_faithful (rnd : Nat → Nat → Nat) (m : OpenMethod) (h : Nat) (t : String)
    (s : MultiDiskAdaptor Disk) :
    (m.run (faithful rnd) h t s).2._openedDiskWriterEntries = s._openedDiskWriterEntries ∧
    (m.run (faithful rnd) h t s).2._maxOpenFiles = s._maxOpenFiles ∧
    (m.run (faithful rnd) h t s).2._cachedTopDirPath = s._cachedTopDirPath ∧
    ((m.run (faithful rnd) h t s).1 = .ok () →
      (m.run (faithful rnd) h t s).2.heap = heapOpened s h ∧
      (m.run (faithful rnd) h t s).2.world.opened =
        Function.update s.world.opened h (some ((s.heap h).getFilePath t))) ∧
    ((m.run (faithful rnd) h t s).1 ≠ .ok () →
      (m.run (faithful rnd) h t s).2.heap = s.heap ∧
      (m.run (faithful rnd) h t s).2.world = s.world) ∧
    (m ≠ .initAndOpenFile →
      ∀ q, (m.run (faithful rnd) h t s).2.world.content q = s.world.content q) ∧
    (m ≠ .openExistingFile → (m.run (faithful rnd) h t s).1 = .ok ()) := by
  have hupd : ∀ (f : String → Option (List Byte)) (p q : String),
      (Function.update f p (some ((f p).getD [])) q).getD [] = (f q).getD [] := by
    intro f p q
    by_cases e : q = p
    · subst e; simp
    · simp [Function.update_noteq e]
  cases m with
  | initAndOpenFile =>
    by_cases hd : DiskWriterEntry._directIO (s.heap h) = true <;>
      simp [OpenMethod.run, DiskWriterEntry.initAndOpenFile, DiskWriterEntry.openWith,
        OpenMethod.backend, faithful, hd, heapOpened]
  | openFile =>
    by_cases hd : DiskWriterEntry._directIO (s.heap h) = true <;>
      simp [OpenMethod.run, DiskWriterEntry.openFile, DiskWriterEntry.openWith,
        OpenMethod.backend, faithful, hd, heapOpened, Disk.content, hupd]
  | openExistingFile =>
    rcases hf : s.world.files ((s.heap h).getFilePath t) with _ | c
    · simp [OpenMethod.run, DiskWriterEntry.openExistingFile, DiskWriterEntry.openWith,
        OpenMethod.backend, faithful, hf]
    · by_cases hd : DiskWriterEntry._directIO (s.heap h) = true <;>
        simp [OpenMethod.run, DiskWriterEntry.openExistingFile, DiskWriterEntry.openWith,
          OpenMethod.backend, faithful, hf, hd, heapOpened, Disk.content]

theorem run_error_backend (rnd : Nat → Nat → Nat) (m : OpenMethod) (h : Nat) (t : String)
    (s : MultiDiskAdaptor Disk) (e : Failure)
    (he : (m.run (faithful rnd) h t s).1 = .error e) : e ≠ .invalidAccess := by
  rcases run_shape (faithful rnd) m h t s with ⟨msg, w, c, hr⟩ | ⟨w, c, hr⟩
  · rw [hr] at he
    simp only [Except.error.injEq] at he
    subst he
    simp
  · rw [hr] at he
    cases he

theorem faithful_getRandomNumber (rnd : Nat → Nat → Nat) (w : Disk) (n : Nat) :
    (faithful rnd).getRandomNumber w n = (rnd w.draws n, { w with draws := w.draws + 1 }) :=
  rfl

/-- What `openIfNot` does to the world of the faithful backend: the backend object of an
entry that is open afterwards has open what it had open before, or the file of the entry
if the call has just opened it; file contents change only by a create-and-truncate open;
with a valid randomizer and a capacity of at least one the choice of the victim stays
inside the cache. -/
theorem openIfNot_faithful_world (rnd : Nat → Nat → Nat) (entry : Nat) (m : OpenMethod)
    (t : String) (s : MultiDiskAdaptor Disk) :
    (∀ h, ((openIfNot (faithful rnd) entry m t s).2.heap h)._open = true →
      (openIfNot (faithful rnd) entry m t s).2.world.opened h =
        if h = entry ∧ (s.heap entry)._open = false then some ((s.heap entry).getFilePath t)
        else s.world.opened h) ∧
    (m ≠ .initAndOpenFile →
      ∀ q, (openIfNot (faithful rnd) entry m t s).2.world.content q = s.world.content q) ∧
    (ValidRandom rnd → 1 ≤ s._maxOpenFiles →
      (openIfNot (faithful rnd) entry m t s).1 ≠ .error .invalidAccess ∧
      (m ≠ .openExistingFile → (openIfNot (faithful rnd) entry m t s).1 = .ok ())) := by
  by_cases ho : (s.heap entry)._open = true
  · have hr : openIfNot (faithful rnd) entry m t s = (.ok (), s) := by
      simp [openIfNot, DiskWriterEntry.isOpen, ho]
    rw [hr]
    refine ⟨?_, fun _ _ => rfl, fun _ _ => ⟨by simp, fun _ => rfl⟩⟩
    intro h _
    simp [ho]
  · have ho' : (s.heap entry)._open = false := by simpa using ho
    obtain ⟨f1, f2, f3, f4, f5, f6, f7⟩ := run_faithful rnd m entry t s
    have ferr := run_error_backend rnd m entry t s
    rcases hr : m.run (faithful rnd) entry t s with ⟨r0, s1⟩
    rw [hr] at f1 f2 f3 f4 f5 f6 f7 ferr
    simp only at f1 f2 f3 f4 f5 f6 f7 ferr
    cases r0 with
    | error e =>
      have hres : openIfNot (faithful rnd) entry m t s = (.error e, s1) := by
        simp only [openIfNot, DiskWriterEntry.isOpen, ho', hr, Bool.not_false, if_true]
      obtain ⟨g1, g2⟩ := f5 (by simp)
      rw [hres]
      refine ⟨?_, f6, fun _ _ => ⟨?_, fun hm => absurd (f7 hm) (by simp)⟩⟩
      · intro h hh
        simp only [g1] at hh
        have hne : h ≠ entry := by
          rintro rfl
          rw [ho'] at hh
          cases hh
        simp [g2, hne]
      · have := ferr e rfl
        simpa using this
    | ok u =>
      obtain ⟨g1, g2⟩ := f4 rfl
      have hopened : ∀ h, (heapOpened s entry h)._open = true →
          Function.update s.world.opened entry (some ((s.heap entry).getFilePath t)) h =
            if h = entry ∧ (s.heap entry)._open = false then
              some ((s.heap entry).getFilePath t)
            else s.world.opened h := by
        intro h _
        by_cases e : h = entry
        · subst e; simp [ho']
        · simp [Function.update_noteq e, e]
      by_cases hcap : s._maxOpenFiles ≤ s._openedDiskWriterEntries.length
      · rcases hv : s._openedDiskWriterEntries[(rnd s1.world.draws
            s._openedDiskWriterEntries.length)]? with _ | victim
        · have hres : openIfNot (faithful rnd) entry m t s =
              (.error .invalidAccess,
                { s1 with
                  world := { s1.world with draws := s1.world.draws + 1 }
                  calls := s1.calls ++
                    [Call.getRandomNumber s._openedDiskWriterEntries.length] }) := by
            simp only [openIfNot, DiskWriterEntry.isOpen, ho', hr, f2, hcap, f1,
              faithful_getRandomNumber, hv, Bool.not_false, if_true, ge_iff_le]
          rw [hres]
          refine ⟨?_, f6, ?_⟩
          · intro h hh
            simp only [g1] at hh
            simp only [g2]
            exact hopened h hh
          · intro hvalid hmax
            exfalso
            have hlt := hvalid s1.world.draws s._openedDiskWriterEntries.length (by omega)
            rw [List.getElem?_eq_getElem hlt] at hv
            cases hv
        · have hres : openIfNot (faithful rnd) entry m t s =
              (.ok (),
                { DiskWriterEntry.closeFile (faithful rnd) victim
                    { s1 with
                      world := { s1.world with draws := s1.world.draws + 1 }
                      calls := s1.calls ++
                        [Call.getRandomNumber s._openedDiskWriterEntries.length] } with
                  _openedDiskWriterEntries :=
                    (DiskWriterEntry.closeFile (faithful rnd) victim
                      { s1 with
                        world := { s1.world with draws := s1.world.draws + 1 }
                        calls := s1.calls ++
                          [Call.getRandomNumber s._openedDiskWriterEntries.length]
                      })._openedDiskWriterEntries.set
                      (rnd s1.world.draws s._openedDiskWriterEntries.length) entry }) := by
            simp only [openIfNot, DiskWriterEntry.isOpen, ho', hr, f2, hcap, f1,
              faithful_getRandomNumber, hv, Bool.not_false, if_true, ge_iff_le]
          rw [hres]
          obtain ⟨c1, c2, _, _⟩ := closeFile_entry_faithful rnd victim
            { s1 with
              world := { s1.world with draws := s1.world.draws + 1 }
              calls := s1.calls ++ [Call.getRandomNumber s._openedDiskWriterEntries.length] }
          refine ⟨?_, ?_, fun _ _ => ⟨by simp, fun _ => rfl⟩⟩
          · intro h hh
            simp only at hh
            obtain ⟨hne, hh2⟩ := (closeFile_entry_open (faithful rnd) victim h _).mp hh
            simp only [g1] at hh2
            simp only
            rw [c2 h hne]
            simp only [g2]
            exact hopened h hh2
          · intro hm q
            have := f6 hm q
            simp only [Disk.content] at this ⊢
            rw [c1]
            exact this
      · have hres : openIfNot (faithful rnd) entry m t s =
            (.ok (), { s1 with
              _openedDiskWriterEntries := s1._openedDiskWriterEntries ++ [entry] }) := by
          simp only [openIfNot, DiskWriterEntry.isOpen, ho', hr, f2, hcap, Bool.not_false,
            if_true, ge_iff_le, if_false]
        rw [hres]
        refine ⟨?_, f6, fun _ _ => ⟨by simp, fun _ => rfl⟩⟩
        intro h hh
        simp only [g1] at hh
        simp only [g2]
        exact hopened h hh

theorem pathOf_sameConfig {s s' : MultiDiskAdaptor Disk} (h : SameConfig s s') :
    pathOf s' = pathOf s := by
  funext i
  simp only [pathOf, DiskWriterEntry.getFilePath, h.fileEntry, h.cachedTopDirPath]

/-- A call of `openIfNot` with `_cachedTopDirPath` through the faithful backend keeps the
adaptor ready; the open-or-create method succeeds, leaves the entry open and changes no
file content. -/
theorem openIfNot_ready (rnd : Nat → Nat → Nat) (hv : ValidRandom rnd) (entry : Nat)
    (m : OpenMethod) (s : MultiDiskAdaptor Disk) (hs : Ready s) :
    (openIfNot (faithful rnd) entry m s._cachedTopDirPath s).1 ≠ .error .invalidAccess ∧
    Ready (openIfNot (faithful rnd) entry m s._cachedTopDirPath s).2 ∧
    SameConfig s (openIfNot (faithful rnd) entry m s._cachedTopDirPath s).2 ∧
    (m ≠ .initAndOpenFile → ∀ q,
      (openIfNot (faithful rnd) entry m s._cachedTopDirPath s).2.world.content q =
        s.world.content q) ∧
    (m ≠ .openExistingFile →
      (openIfNot (faithful rnd) entry m s._cachedTopDirPath s).1 = .ok () ∧
      ((openIfNot (faithful rnd) entry m s._cachedTopDirPath s).2.heap entry)._open = true) := by
  obtain ⟨hco, hcp, hmax⟩ := hs
  obtain ⟨w1, w2, w3⟩ := openIfNot_faithful_world rnd entry m s._cachedTopDirPath s
  obtain ⟨hub, hok⟩ := w3 hv hmax
  have hcfg := openIfNot_sameConfig (faithful rnd) entry m s._cachedTopDirPath s
  obtain ⟨hco', hopen⟩ := openIfNot_cacheOpen (faithful rnd) entry m s._cachedTopDirPath s hco hub
  refine ⟨hub, ⟨hco', ?_, by rw [hcfg.maxOpenFiles]; exact hmax⟩, hcfg, w2,
    fun hm => ⟨hok hm, hopen (hok hm)⟩⟩
  intro h hh
  rw [w1 h hh, pathOf_sameConfig hcfg]
  split
  · next hc =>
    rw [hc.1]
    rfl
  · next hc =>
    apply hcp
    by_contra hcl
    have hcl' : (s.heap h)._open = false := by simpa using hcl
    have hmiss : (s.heap entry)._open = false := by
      by_contra hopen'
      have hopen'' : (s.heap entry)._open = true := by simpa using hopen'
      have hr : openIfNot (faithful rnd) entry m s._cachedTopDirPath s = (.ok (), s) := by
        simp [openIfNot, DiskWriterEntry.isOpen, hopen'']
      rw [hr] at hh
      simp only at hh
      rw [hcl'] at hh
      cases hh
    have hne : h ≠ entry := fun e => hc ⟨e, hmiss⟩
    rcases openIfNot_cases (faithful rnd) entry m s._cachedTopDirPath s with
      ⟨ho, _⟩ | ⟨_, ⟨msg, w, c, hr⟩ | ⟨w, c, _, hr⟩ | ⟨w, c, _, hr⟩ | ⟨w, c, idx, v, _, _, hr⟩⟩
    · rw [hmiss] at ho; cases ho
    · rw [hr] at hh; simp only at hh; rw [hcl'] at hh; cases hh
    · rw [hr] at hh
      rcases (heapOpened_open s entry h).mp hh with e | e
      · exact hne e
      · rw [hcl'] at e; cases e
    · rw [hr] at hh
      rcases (heapOpened_open s entry h).mp hh with e | e
      · exact hne e
      · rw [hcl'] at e; cases e
    · rw [hr] at hh
      rcases ((heapEvicted_open s entry v h).mp hh).2 with e | e
      · exact hne e
      · rw [hcl'] at e; cases e

theorem faithful_writeData (rnd : Nat → Nat → Nat) (w : Disk) (h : Nat) (p : String)
    (chunk : List Byte) (n : Nat) (fo : Int) (hopen : w.opened h = some p) (hfo : 0 ≤ fo) :
    (faithful rnd).writeData w h chunk n fo =
      (.ok (), { w with
        files := Function.update w.files p
          (some (writeFileAt (w.content p) fo.toNat (chunk.take n))) }) := by
  have : ¬ fo < 0 := by omega
  simp [faithful, hopen, this, Disk.content]

theorem faithful_writeData_facts (rnd : Nat → Nat → Nat) (w : Disk) (h : Nat) (p : String)
    (chunk : List Byte) (n : Nat) (fo : Int) (hopen : w.opened h = some p) (hfo : 0 ≤ fo) :
    ((faithful rnd).writeData w h chunk n fo).1 = .ok () ∧
    ((faithful rnd).writeData w h chunk n fo).2.opened = w.opened ∧
    ∀ q, ((faithful rnd).writeData w h chunk n fo).2.content q =
      if q = p then writeFileAt (w.content p) fo.toNat (chunk.take n) else w.content q := by
  rw [faithful_writeData rnd w h p chunk n fo hopen hfo]
  refine ⟨rfl, rfl, ?_⟩
  intro q
  by_cases e : q = p
  · subst e; simp [Disk.content]
  · simp [Disk.content, Function.update_noteq e, e]

theorem faithful_readData (rnd : Nat → Nat → Nat) (w : Disk) (h : Nat) (p : String)
    (n : Nat) (fo : Int) (hopen : w.opened h = some p) (hfo : 0 ≤ fo) :
    (faithful rnd).readData w h n fo = (.ok (((w.content p).drop fo.toNat).take n), w) := by
  have : ¬ fo < 0 := by omega
  simp [faithful, hopen, this, Disk.content]

/-- Reading back what was written: the bytes are where they were put. -/
theorem writeFileAt_read (content : List Byte) (pos : Nat) (bytes : List Byte) :
    ((writeFileAt content pos bytes).drop pos).take bytes.length = bytes := by
  have hlen : ((content ++ List.replicate (pos - content.length) 0).take pos).length = pos := by
    simp only [List.length_take, List.length_append, List.length_replicate]
    omega
  unfold writeFileAt
  rw [List.append_assoc, List.drop_append_eq_append_drop, hlen]
  simp only [Nat.sub_self, List.drop_zero]
  rw [List.drop_eq_nil_of_le (by rw [hlen]), List.nil_append, List.take_left']
  rfl

theorem content_update (w : Disk) (p q : String) (c : List Byte) :
    ({ w with files := Function.update w.files p (some c) } : Disk).content q =
      if q = p then c else w.content q := by
  by_cases e : q = p
  · subst e; simp [Disk.content]
  · simp [Disk.content, Function.update_noteq e, e]

theorem PlanStored.congr {path path' : Nat → String} {c c' : String → List Byte}
    {plan : List Call} (h : PlanStored path c plan) (hp : path' = path)
    (hc : ∀ i chunk n fo, Call.writeData i chunk n fo ∈ plan → c' (path i) = c (path i)) :
    PlanStored path' c' plan := by
  subst hp
  intro i chunk n fo hmem
  rw [hc i chunk n fo hmem]
  exact h i chunk n fo hmem

/-- The entries of the calls of a plan are entries of the list the plan is made for. -/
theorem writePlan_mem (data : List Byte) (len : Nat) (heap : Nat → DiskWriterEntry) :
    ∀ (l : List Nat) (rem : Nat) (fo : Int) (i : Nat) (chunk : List Byte) (n : Nat) (fo' : Int),
      Call.writeData i chunk n fo' ∈ writePlan data len heap l rem fo → i ∈ l := by
  intro l
  induction l with
  | nil => intro rem fo i chunk n fo' h; simp [writePlan] at h
  | cons j rest ih =>
    intro rem fo i chunk n fo' h
    simp only [writePlan, List.mem_cons] at h
    rcases h with h | h
    · simp only [Call.writeData.injEq] at h
      exact List.mem_cons.mpr (Or.inl h.1)
    · split at h
      · cases h
      · exact List.mem_cons_of_mem _ (ih _ _ _ _ _ _ h)

/-- The loop of `writeData` through the faithful backend, started in a ready state on
entries with distinct files: it returns, the state is ready again, only the files of the
entries have changed, and every chunk of the plan is stored in its file. -/
theorem writeLoop_faithful (rnd : Nat → Nat → Nat) (hv : ValidRandom rnd) (data : List Byte)
    (len : Nat) (hdata : data.length = len) (hlen : len < 2 ^ 64) :
    ∀ (l : List Nat) (rem k : Nat) (s : MultiDiskAdaptor Disk), Ready s →
      (l.map (pathOf s)).Nodup →
      (∀ i rest, l = i :: rest → k ≤ (s.heap i).fileEntry.length) →
      k + rem < 2 ^ 64 → rem ≤ len →
      (writeLoop (faithful rnd) data len l rem (k : Int) s).1 = .ok () ∧
      Ready (writeLoop (faithful rnd) data len l rem (k : Int) s).2 ∧
      SameConfig s (writeLoop (faithful rnd) data len l rem (k : Int) s).2 ∧
      (∀ q, q ∉ l.map (pathOf s) →
        (writeLoop (faithful rnd) data len l rem (k : Int) s).2.world.content q =
          s.world.content q) ∧
      PlanStored (pathOf s)
        (writeLoop (faithful rnd) data len l rem (k : Int) s).2.world.content
        (writePlan data len s.heap l rem (k : Int)) := by
  intro l
  induction l with
  | nil =>
    intro rem k s hs _ _ _ _
    refine ⟨rfl, hs, SameConfig.refl s, fun _ _ => rfl, ?_⟩
    intro i chunk n fo h
    simp [writePlan] at h
  | cons i rest ih =>
    intro rem k s hs hnd hk hfit hrem
    obtain ⟨_, hr1, hcfg1, hcont1, hok1⟩ := openIfNot_ready rnd hv i .openFile s hs
    obtain ⟨hok1, hopen1⟩ := hok1 (by simp)
    have hcont1 := hcont1 (by simp)
    rcases ho : openIfNot (faithful rnd) i .openFile s._cachedTopDirPath s with ⟨r, s1⟩
    rw [ho] at hr1 hcfg1 hcont1 hok1 hopen1
    simp only at hr1 hcfg1 hcont1 hok1 hopen1
    subst hok1
    have hk' := hk i rest rfl
    have hcalc := calculateLength_eq (s.heap i) k rem hk' hfit
    have hpos : (len + 2 ^ 64 - rem) % 2 ^ 64 = len - rem := by omega
    have hp1 : pathOf s1 = pathOf s := pathOf_sameConfig hcfg1
    have hopened : s1.world.opened i = some (pathOf s i) := by
      rw [← hp1]
      exact hr1.2.1 i hopen1
    have hchunk : ((data.drop (len - rem)).take (min rem ((s.heap i).fileEntry.length - k))
        ).length = min rem ((s.heap i).fileEntry.length - k) := by
      simp only [List.length_take, List.length_drop, hdata]
      omega
    obtain ⟨f1, f2, f3⟩ := faithful_writeData_facts rnd s1.world i (pathOf s i)
      ((data.drop ((len + 2 ^ 64 - rem) % 2 ^ 64)).take
        (calculateLength (s.heap i) (k : Int) rem))
      (calculateLength (s.heap i) (k : Int) rem) (k : Int) hopened (by omega)
    rcases hw : (faithful rnd).writeData s1.world i
      ((data.drop ((len + 2 ^ 64 - rem) % 2 ^ 64)).take
        (calculateLength (s.heap i) (k : Int) rem))
      (calculateLength (s.heap i) (k : Int) rem) (k : Int) with ⟨r2, w2⟩
    rw [hw] at f1 f2 f3
    simp only at f1 f2 f3
    subst f1
    rw [hcalc, hpos, List.take_take, Nat.min_self, Int.toNat_ofNat] at f3
    have hready2 : Ready (afterWrite s1 i
        ((data.drop ((len + 2 ^ 64 - rem) % 2 ^ 64)).take
          (calculateLength (s.heap i) (k : Int) rem))
        (calculateLength (s.heap i) (k : Int) rem) (k : Int) w2) := by
      refine ⟨hr1.1, ?_, hr1.2.2⟩
      intro h hh
      show w2.opened h = _
      rw [f2]
      exact hr1.2.1 h hh
    have hcfg2 : SameConfig s (afterWrite s1 i
        ((data.drop ((len + 2 ^ 64 - rem) % 2 ^ 64)).take
          (calculateLength (s.heap i) (k : Int) rem))
        (calculateLength (s.heap i) (k : Int) rem) (k : Int) w2) :=
      ⟨hcfg1.1, hcfg1.2, hcfg1.3, hcfg1.4, hcfg1.5, hcfg1.6, hcfg1.7, hcfg1.8, hcfg1.9,
        hcfg1.10⟩
    have hhead : ((w2.content (pathOf s i)).drop (k : Int).toNat).take
        (min rem ((s.heap i).fileEntry.length - k)) =
        (data.drop (len - rem)).take (min rem ((s.heap i).fileEntry.length - k)) := by
      have := writeFileAt_read (s1.world.content (pathOf s i)) k
        ((data.drop (len - rem)).take (min rem ((s.heap i).fileEntry.length - k)))
      rw [hchunk] at this
      rw [Int.toNat_ofNat, f3, if_pos rfl]
      exact this
    have hother : ∀ q, q ≠ pathOf s i → w2.content q = s.world.content q := by
      intro q hq
      rw [f3, if_neg hq]
      exact hcont1 q
    simp only [List.map_cons, List.nodup_cons] at hnd
    by_cases hlast : (rem + 2 ^ 64 - calculateLength (s.heap i) (k : Int) rem) % 2 ^ 64 = 0
    · rw [writeLoop_last (faithful rnd) data len i rest rem (k : Int) s s1 () () _ ho hw hlast]
      refine ⟨rfl, hready2, hcfg2, ?_, ?_⟩
      · intro q hq
        simp only [List.map_cons, List.mem_cons, not_or] at hq
        exact hother q hq.1
      · intro j chunk n fo hmem
        simp only [writePlan, hlast, if_true, List.mem_singleton, Call.writeData.injEq] at hmem
        obtain ⟨rfl, rfl, rfl, rfl⟩ := hmem
        rw [hcalc, hpos]
        exact hhead
    · rw [writeLoop_next (faithful rnd) data len i rest rem (k : Int) s s1 () () _ ho hw hlast]
      have hrem' : (rem + 2 ^ 64 - calculateLength (s.heap i) (k : Int) rem) % 2 ^ 64 =
          rem - min rem ((s.heap i).fileEntry.length - k) := by
        rw [hcalc]; omega
      have hp2 := pathOf_sameConfig hcfg2
      obtain ⟨i1, i2, i3, i4, i5⟩ := ih
        ((rem + 2 ^ 64 - calculateLength (s.heap i) (k : Int) rem) % 2 ^ 64) 0
        (afterWrite s1 i
          ((data.drop ((len + 2 ^ 64 - rem) % 2 ^ 64)).take
            (calculateLength (s.heap i) (k : Int) rem))
          (calculateLength (s.heap i) (k : Int) rem) (k : Int) w2)
        hready2 (by rw [hp2]; exact hnd.2) (fun _ _ _ => Nat.zero_le _)
        (by rw [hrem']; omega) (by rw [hrem']; omega)
      simp only [Nat.cast_zero] at i1 i2 i3 i4 i5
      rw [hp2] at i4 i5
      refine ⟨i1, i2, hcfg2.trans i3, ?_, ?_⟩
      · intro q hq
        simp only [List.map_cons, List.mem_cons, not_or] at hq
        rw [i4 q hq.2]
        exact hother q hq.1
      · intro j chunk n fo hmem
        simp only [writePlan, hlast, if_false, List.mem_cons] at hmem
        rcases hmem with hmem | hmem
        · simp only [Call.writeData.injEq] at hmem
          obtain ⟨rfl, rfl, rfl, rfl⟩ := hmem
          rw [i4 _ hnd.1, hcalc, hpos]
          exact hhead
        · refine i5 j chunk n fo ?_
          rw [writePlan_congr data len s.heap _ (fun h => hcfg2.fileEntry h)]
          exact hmem

/-- Storing the next slice of `data` into a buffer that agrees with `data` up to `pos`
makes it agree up to the end of the slice. -/
theorem storeAt_slice (buf data : List Byte) (len pos n : Nat)
    (hdata : data.length = len) (hpos : pos + n ≤ len)
    (hpre : buf.take pos = data.take pos) :
    storeAt buf pos ((data.drop pos).take n) = data.take (pos + n) ++ buf.drop (pos + n) := by
  have hl : ((data.drop pos).take n).length = n := by
    simp only [List.length_take, List.length_drop, hdata]
    omega
  unfold storeAt
  rw [hl, hpre, List.take_add]

theorem take_append_drop_take (buf data : List Byte) (len a : Nat) (hdata : data.length = len)
    (ha : a ≤ len) : (data.take a ++ buf.drop a).take a = data.take a := by
  have : (data.take a).length = a := by
    simp only [List.length_take, hdata]; omega
  rw [List.take_append_of_le_length (by omega), List.take_of_length_le (by omega)]

theorem drop_append_drop (buf data : List Byte) (len a b : Nat) (hdata : data.length = len)
    (ha : a ≤ len) (hab : a ≤ b) : (data.take a ++ buf.drop a).drop b = buf.drop b := by
  have hl : (data.take a).length = a := by
    simp only [List.length_take, hdata]; omega
  rw [List.drop_append_eq_append_drop, hl, List.drop_eq_nil_of_le (by omega), List.nil_append,
    List.drop_drop]
  congr 1
  omega

/-- The loop of `readData` through the faithful backend, started in a ready state whose
files store the chunks of the plan: it returns the number of bytes of the plan, and the
buffer holds the data up to the end of the last chunk. -/
theorem readLoop_faithful (rnd : Nat → Nat → Nat) (hv : ValidRandom rnd) (data : List Byte)
    (len : Nat) (hdata : data.length = len) (hlen : len < 2 ^ 64) :
    ∀ (l : List Nat) (rem k : Nat) (buf : List Byte) (total : Nat) (s : MultiDiskAdaptor Disk),
      Ready s → (∀ i rest, l = i :: rest → k ≤ (s.heap i).fileEntry.length) →
      k + rem < 2 ^ 64 → rem ≤ len → buf.length = len →
      buf.take (len - rem) = data.take (len - rem) → total + rem < 2 ^ 64 →
      PlanStored (pathOf s) s.world.content (writePlan data len s.heap l rem (k : Int)) →
      ((writePlan data len s.heap l rem (k : Int)).map Call.writeLength).sum ≤ rem ∧
      (readLoop (faithful rnd) len l rem (k : Int) buf total s).1 =
        .ok (total + ((writePlan data len s.heap l rem (k : Int)).map Call.writeLength).sum,
          data.take (len - rem +
              ((writePlan data len s.heap l rem (k : Int)).map Call.writeLength).sum) ++
            buf.drop (len - rem +
              ((writePlan data len s.heap l rem (k : Int)).map Call.writeLength).sum)) := by
  intro l
  induction l with
  | nil =>
    intro rem k buf total s _ _ _ _ _ hpre _ _
    simp only [writePlan, List.map_nil, List.sum_nil, Nat.add_zero, readLoop, Nat.zero_le,
      true_and]
    rw [← hpre, List.take_append_drop]
  | cons i rest ih =>
    intro rem k buf total s hs hk hfit hrem hbuf hpre htot hst
    obtain ⟨_, hr1, hcfg1, hcont1, hok1⟩ := openIfNot_ready rnd hv i .openFile s hs
    obtain ⟨hok1, hopen1⟩ := hok1 (by simp)
    have hcont1 := hcont1 (by simp)
    rcases ho : openIfNot (faithful rnd) i .openFile s._cachedTopDirPath s with ⟨r, s1⟩
    rw [ho] at hr1 hcfg1 hcont1 hok1 hopen1
    simp only at hr1 hcfg1 hcont1 hok1 hopen1
    subst hok1
    have hk' := hk i rest rfl
    have hcalc := calculateLength_eq (s.heap i) k rem hk' hfit
    have hpos : (len + 2 ^ 64 - rem) % 2 ^ 64 = len - rem := by omega
    have hp1 : pathOf s1 = pathOf s := pathOf_sameConfig hcfg1
    have hopened : s1.world.opened i = some (pathOf s i) := by
      rw [← hp1]
      exact hr1.2.1 i hopen1
    have hhead := hst i ((data.drop ((len + 2 ^ 64 - rem) % 2 ^ 64)).take
        (calculateLength (s.heap i) (k : Int) rem))
      (calculateLength (s.heap i) (k : Int) rem) (k : Int)
      (by simp only [writePlan]; exact List.mem_cons_self _ _)
    have hrd := faithful_readData rnd s1.world i (pathOf s i)
      (calculateLength (s.heap i) (k : Int) rem) (k : Int) hopened (by omega)
    rw [hcont1, hhead] at hrd
    have hready2 : Ready (afterRead s1 i (calculateLength (s.heap i) (k : Int) rem) (k : Int)
        s1.world) := ⟨hr1.1, hr1.2.1, hr1.2.2⟩
    have hcfg2 : SameConfig s (afterRead s1 i (calculateLength (s.heap i) (k : Int) rem)
        (k : Int) s1.world) :=
      ⟨hcfg1.1, hcfg1.2, hcfg1.3, hcfg1.4, hcfg1.5, hcfg1.6, hcfg1.7, hcfg1.8, hcfg1.9,
        hcfg1.10⟩
    have hwl : min rem ((s.heap i).fileEntry.length - k) ≤ rem := Nat.min_le_left _ _
    have hl : ((data.drop (len - rem)).take (min rem ((s.heap i).fileEntry.length - k))
        ).length = min rem ((s.heap i).fileEntry.length - k) := by
      simp only [List.length_take, List.length_drop, hdata]
      omega
    have hstore := storeAt_slice buf data len (len - rem)
      (min rem ((s.heap i).fileEntry.length - k)) hdata (by omega) hpre
    by_cases hlast : (rem + 2 ^ 64 - calculateLength (s.heap i) (k : Int) rem) % 2 ^ 64 = 0
    · rw [readLoop_last (faithful rnd) len i rest rem (k : Int) buf total s s1 () _ _ ho hrd
        hlast]
      simp only [writePlan, hlast, if_true, List.map_cons, List.map_nil, List.sum_cons,
        List.sum_nil, Nat.add_zero, Call.writeLength]
      rw [hcalc, hpos, hl, hstore]
      refine ⟨hwl, ?_⟩
      rw [Nat.mod_eq_of_lt (by omega)]
    · rw [readLoop_next (faithful rnd) len i rest rem (k : Int) buf total s s1 () _ _ ho hrd
        hlast]
      have hrem' : (rem + 2 ^ 64 - min rem ((s.heap i).fileEntry.length - k)) % 2 ^ 64 =
          rem - min rem ((s.heap i).fileEntry.length - k) := by omega
      have hne : rem - min rem ((s.heap i).fileEntry.length - k) ≠ 0 := by
        rw [hcalc, hrem'] at hlast; exact hlast
      rw [hcalc] at hready2 hcfg2
      have hp2 := pathOf_sameConfig hcfg2
      have hplan2 : writePlan data len (afterRead s1 i
          (min rem ((s.heap i).fileEntry.length - k)) (k : Int) s1.world).heap rest
          (rem - min rem ((s.heap i).fileEntry.length - k)) 0 =
          writePlan data len s.heap rest (rem - min rem ((s.heap i).fileEntry.length - k)) 0 :=
        writePlan_congr data len s.heap _ (fun h => hcfg2.fileEntry h) _ _ _
      have hbuf1 : (data.take (len - rem + min rem ((s.heap i).fileEntry.length - k)) ++
          buf.drop (len - rem + min rem ((s.heap i).fileEntry.length - k))).length = len := by
        simp only [List.length_append, List.length_take, List.length_drop, hdata, hbuf]
        omega
      have hidx : len - (rem - min rem ((s.heap i).fileEntry.length - k)) =
          len - rem + min rem ((s.heap i).fileEntry.length - k) := by omega
      have htot1 : (total + min rem ((s.heap i).fileEntry.length - k)) % 2 ^ 64 =
          total + min rem ((s.heap i).fileEntry.length - k) := Nat.mod_eq_of_lt (by omega)
      obtain ⟨j1, j2⟩ := ih (rem - min rem ((s.heap i).fileEntry.length - k)) 0
        (data.take (len - rem + min rem ((s.heap i).fileEntry.length - k)) ++
          buf.drop (len - rem + min rem ((s.heap i).fileEntry.length - k)))
        (total + min rem ((s.heap i).fileEntry.length - k))
        (afterRead s1 i (min rem ((s.heap i).fileEntry.length - k)) (k : Int) s1.world)
        hready2 (fun _ _ _ => Nat.zero_le _) (by omega) (by omega) hbuf1
        (by
          rw [hidx]
          exact take_append_drop_take buf data len _ hdata (by omega))
        (by omega)
        (by
          simp only [Nat.cast_zero]
          rw [hplan2, hp2]
          refine @PlanStored.congr (pathOf s) _ s.world.content _ _ ?_ rfl ?_
          · intro j chunk n fo hmem
            apply hst
            simp only [writePlan, hcalc, hrem', if_neg hne]
            exact List.mem_cons_of_mem _ hmem
          · intro j chunk n fo _
            exact hcont1 _)
      simp only [Nat.cast_zero] at j1 j2
      rw [hplan2] at j1 j2
      simp only [writePlan, hlast, if_false, List.map_cons, List.sum_cons, Call.writeLength]
      simp only [hcalc, hpos, hl, hstore, hrem', htot1]
      rw [j2]
      refine ⟨by omega, ?_⟩
      congr 1
      refine Prod.ext (by simp only; omega) ?_
      simp only
      rw [drop_append_drop buf data len _ _ hdata (by omega) (by omega), hidx]
      congr 2 <;> omega

theorem pushNewEntry_filesOf {W : Type} (X : Ext W) (s : MultiDiskAdaptor W) (fe : FileEntry)
    (hs : ∀ h ∈ s.diskWriterEntries, h < s.nextHandle) :
    filesOf (pushNewEntry X s fe).heap (pushNewEntry X s fe).diskWriterEntries =
      filesOf s.heap s.diskWriterEntries ++ [fe] ∧
    (∀ h ∈ (pushNewEntry X s fe).diskWriterEntries, h < (pushNewEntry X s fe).nextHandle) := by
  constructor
  · simp only [pushNewEntry, filesOf, List.map_append, List.map_cons, List.map_nil,
      Function.update_same]
    congr 1
    apply List.map_congr_left
    intro h hh
    have := hs h hh
    rw [Function.update_noteq (by omega)]
  · intro h hh
    simp only [pushNewEntry, List.mem_append, List.mem_singleton] at hh ⊢
    rcases hh with e | e
    · have := hs h e; omega
    · omega

/-- After `resetDiskWriterEntries` the entry sequence has one entry per file entry, in
the same order. -/
theorem resetDiskWriterEntries_filesOf {W : Type} (X : Ext W) (s : MultiDiskAdaptor W) :
    filesOf (resetDiskWriterEntries X s).heap (resetDiskWriterEntries X s).diskWriterEntries =
      s.fileEntries := by
  have key : ∀ (l : List FileEntry) (s' : MultiDiskAdaptor W),
      (∀ h ∈ s'.diskWriterEntries, h < s'.nextHandle) →
      filesOf (l.foldl (pushNewEntry X) s').heap (l.foldl (pushNewEntry X) s').diskWriterEntries =
        filesOf s'.heap s'.diskWriterEntries ++ l := by
    intro l
    induction l with
    | nil => intro s' _; simp
    | cons fe rest ih =>
      intro s' hs'
      obtain ⟨h1, h2⟩ := pushNewEntry_filesOf X s' fe hs'
      rw [List.foldl_cons, ih _ h2, h1, List.append_assoc]
      rfl
  unfold resetDiskWriterEntries
  rw [key _ _ (fun _ hh => by cases hh)]
  simp [filesOf]

theorem resetDiskWriterEntries_cached {W : Type} (X : Ext W) (s : MultiDiskAdaptor W) :
    (resetDiskWriterEntries X s)._cachedTopDirPath = s._cachedTopDirPath ∧
    (resetDiskWriterEntries X s)._maxOpenFiles = s._maxOpenFiles := by
  exact resetDiskWriterEntries_preserves X
    (fun s' => s'._cachedTopDirPath = s._cachedTopDirPath ∧ s'._maxOpenFiles = s._maxOpenFiles)
    (fun _ h => h) (fun _ _ h => h) s ⟨rfl, rfl⟩

theorem resetDiskWriterEntries_allClosed (rnd : Nat → Nat → Nat) (s : MultiDiskAdaptor Disk)
    (hs : AllClosed s) : AllClosed (resetDiskWriterEntries (faithful rnd) s) := by
  refine resetDiskWriterEntries_preserves (faithful rnd) AllClosed (fun _ h => h) ?_ s hs
  intro s' fe hs'
  refine ⟨?_, hs'.2⟩
  intro h
  by_contra hc
  have hc' : ((pushNewEntry (faithful rnd) s' fe).heap h)._open = true := by simpa using hc
  have := ((pushNewEntry_open (faithful rnd) s' fe h).mp hc').2
  rw [hs'.1 h] at this
  cases this

theorem AllClosed.ready {s : MultiDiskAdaptor Disk} (hs : AllClosed s)
    (hm : 1 ≤ s._maxOpenFiles) : Ready s := by
  refine ⟨⟨?_, ?_⟩, ?_, hm⟩
  · rw [hs.2]; exact List.nodup_nil
  · intro h hh; rw [hs.2] at hh; cases hh
  · intro h hh; rw [hs.1 h] at hh; cases hh

theorem mkdirLoop_faithful (rnd : Nat → Nat → Nat) (t : String) :
    ∀ (l : List FileEntry) (s : MultiDiskAdaptor Disk),
      (mkdirLoop (faithful rnd) t l s).1 = .ok () := by
  intro l
  induction l with
  | nil => intro s; rfl
  | cons fe rest ih =>
    intro s
    have hd : (faithful rnd).setupDir s.world fe t = (.ok (), s.world) := rfl
    simp only [mkdirLoop, hd]
    exact ih _

/-- The state a build leaves on a newly constructed adaptor with the faithful backend:
ready, one entry per file entry in the same order, and the files are opened below
`storeDir/topDir`. -/
theorem build_ready (rnd : Nat → Nat → Nat) (hv : ValidRandom rnd) (build : Op)
    (hb : build.isBuild = true) (s : MultiDiskAdaptor Disk) (hs : AllClosed s)
    (hm : 1 ≤ s._maxOpenFiles) :
    Ready (step (faithful rnd) build s).2 ∧
    filesOf (step (faithful rnd) build s).2.heap (step (faithful rnd) build s).2.diskWriterEntries
      = s.fileEntries ∧
    (step (faithful rnd) build s).2._cachedTopDirPath = s.storeDir ++ "/" ++ s.topDir := by
  obtain ⟨w, c, hsh, _⟩ := mkdirLoop_shape (faithful rnd) s.getTopDirPath s.fileEntries
    { s with _cachedTopDirPath := s.getTopDirPath }
  have hmok := mkdirLoop_faithful rnd s.getTopDirPath s.fileEntries
    { s with _cachedTopDirPath := s.getTopDirPath }
  rcases hmk : mkdirLoop (faithful rnd) s.getTopDirPath s.fileEntries
    { s with _cachedTopDirPath := s.getTopDirPath } with ⟨r, s2⟩
  rw [hmk] at hsh hmok
  simp only at hsh hmok
  subst hmok
  have hclosed2 : AllClosed s2 := by rw [hsh]; exact hs
  have hfe2 : s2.fileEntries = s.fileEntries := by rw [hsh]
  have hc2 : s2._cachedTopDirPath = s.getTopDirPath := by rw [hsh]
  have hm2 : s2._maxOpenFiles = s._maxOpenFiles := by rw [hsh]
  obtain ⟨c1, c2⟩ := resetDiskWriterEntries_cached (faithful rnd) s2
  have hr3 : Ready (resetDiskWriterEntries (faithful rnd) s2) :=
    (resetDiskWriterEntries_allClosed rnd _ hclosed2).ready (by rw [c2, hm2]; exact hm)
  have hf3 := resetDiskWriterEntries_filesOf (faithful rnd) s2
  cases build with
  | openFile =>
    simp only [step, openFile, mkdir, hmk]
    exact ⟨hr3, hf3.trans hfe2, c1.trans hc2⟩
  | openExistingFile =>
    simp only [step, openExistingFile]
    obtain ⟨d1, d2⟩ := resetDiskWriterEntries_cached (faithful rnd)
      ({ s with _cachedTopDirPath := s.getTopDirPath })
    have hcl : AllClosed ({ s with _cachedTopDirPath := s.getTopDirPath } :
        MultiDiskAdaptor Disk) := hs
    exact ⟨(resetDiskWriterEntries_allClosed rnd _ hcl).ready (by rw [d2]; exact hm),
      resetDiskWriterEntries_filesOf _ _, d1⟩
  | initAndOpenFile =>
    simp only [step, initAndOpenFile, mkdir, hmk]
    have key : ∀ (l : List Nat) (s' : MultiDiskAdaptor Disk) (s0 : MultiDiskAdaptor Disk),
        Ready s' → SameConfig s0 s' →
        Ready (initAndOpenLoop (faithful rnd) l s').2 ∧
          SameConfig s0 (initAndOpenLoop (faithful rnd) l s').2 := by
      intro l
      induction l with
      | nil => intro s' s0 h1 h2; exact ⟨h1, h2⟩
      | cons i rest ih =>
        intro s' s0 h1 h2
        obtain ⟨_, g1, g2, _, _⟩ := openIfNot_ready rnd hv i .initAndOpenFile s' h1
        rcases ho : openIfNot (faithful rnd) i .initAndOpenFile s'._cachedTopDirPath s' with
          ⟨r, s1⟩
        rw [ho] at g1 g2
        cases r with
        | error e =>
          simp only [initAndOpenLoop, ho]
          exact ⟨g1, h2.trans g2⟩
        | ok u =>
          simp only [initAndOpenLoop, ho]
          exact ih s1 s0 g1 (h2.trans g2)
    obtain ⟨k1, k2⟩ := key _ _ _ hr3 (SameConfig.refl _)
    refine ⟨k1, ?_, (k2.cachedTopDirPath.trans c1).trans hc2⟩
    rw [← hfe2, ← hf3]
    simp only [filesOf, k2.diskWriterEntries, k2.fileEntry]
  | closeFile => cases hb
  | onDownloadComplete => cases hb
  | writeData _ _ _ => cases hb
  | readData _ _ _ => cases hb
  | setMaxOpenFiles _ => cases hb
  | openIfNot _ _ => cases hb

theorem string_append_left_cancel (t a b : String) (h : t ++ a = t ++ b) : a = b := by
  have h' := congrArg String.data h
  simp only [String.data_append] at h'
  exact String.ext (List.append_cancel_left h')

/-- Distinct paths of the file entries give distinct paths of the files. -/
theorem pathOf_nodup (s : MultiDiskAdaptor Disk)
    (hp : ((filesOf s.heap s.diskWriterEntries).map (·.path)).Nodup) :
    (s.diskWriterEntries.map (pathOf s)).Nodup := by
  have e : s.diskWriterEntries.map (pathOf s) =
      ((filesOf s.heap s.diskWriterEntries).map (·.path)).map
        (fun p => s._cachedTopDirPath ++ "/" ++ p) := by
    simp [filesOf, pathOf, DiskWriterEntry.getFilePath, Function.comp_def]
  rw [e]
  refine List.Nodup.map ?_ hp
  intro a b hab
  exact string_append_left_cancel _ a b hab

theorem filesOf_sameConfig {W : Type} {s s' : MultiDiskAdaptor W} (h : SameConfig s s') :
    filesOf s'.heap s'.diskWriterEntries = filesOf s.heap s.diskWriterEntries := by
  simp only [filesOf, h.diskWriterEntries, h.fileEntry]

theorem toSsize_of_lt (n : Nat) (h : n < 2 ^ 63) : toSsize n = (n : Int) := by
  unfold toSsize
  have h1 : n % 2 ^ 64 = n := Nat.mod_eq_of_lt (by omega)
  rw [h1, if_pos h]

/-- What `readData` does once the offset is located on a tiling. -/
theorem readData_located {W : Type} (X : Ext W) (s : MultiDiskAdaptor W) (data : List Byte)
    (len : Nat) (offset : Int) (ht : Tiling 0 (fileEntriesOf s.entries))
    (hfit : totalLength (fileEntriesOf s.entries) < 2 ^ 64) (h0 : 0 ≤ offset)
    (h1 : offset < totalLength (fileEntriesOf s.entries)) (i h : Nat)
    (hh : s.diskWriterEntries[i]? = some h)
    (hlo : (s.heap h).fileEntry.offset ≤ offset)
    (hhi : offset < (s.heap h).fileEntry.offset + (s.heap h).fileEntry.length) :
    readData X data len offset s =
      match readLoop X len (s.diskWriterEntries.drop i) len
          (offset - (s.heap h).fileEntry.offset) data 0 s with
      | (.error e, s1) => (.error e, s1)
      | (.ok r, s1) => (.ok (toSsize r.1, r.2), s1) := by
  obtain ⟨i', e, hf, hi, _, _, huniq⟩ :=
    findFirstDiskWriterEntry_tiling s.entries offset ht hfit h0 h1
  have hent : s.entries[i]? = some (s.heap h) := by
    simp [MultiDiskAdaptor.entries, hh]
  have hii : i = i' := huniq i (s.heap h) hent hlo hhi
  subst hii
  simp only [readData, hf, hh]

/-- Round trip through the loops: from a ready state over a tiling with distinct files,
a write followed by a read of the same range returns the data written. -/
theorem write_then_read_ready (rnd : Nat → Nat → Nat) (hv : ValidRandom rnd)
    (s : MultiDiskAdaptor Disk) (hs : Ready s) (ht : Tiling 0 (fileEntriesOf s.entries))
    (hfit : totalLength (fileEntriesOf s.entries) < 2 ^ 63)
    (hpaths : ((fileEntriesOf s.entries).map (·.path)).Nodup)
    (data buf : List Byte) (len : Nat) (offset : Int) (hdata : data.length = len)
    (hbuf : buf.length = len) (h0 : 0 ≤ offset)
    (h1 : offset < totalLength (fileEntriesOf s.entries))
    (hend : offset + len ≤ totalLength (fileEntriesOf s.entries)) :
    (writeData (faithful rnd) data len offset s).1 = .ok () ∧
    (readData (faithful rnd) buf len offset (writeData (faithful rnd) data len offset s).2).1 =
      .ok ((len : Int), data) := by
  obtain ⟨i, h, hh, hlo, hhi, _, hw⟩ :=
    writeData_located (faithful rnd) s data len offset ht (by omega) h0 h1
  obtain ⟨k, hk⟩ := Int.eq_ofNat_of_zero_le (show 0 ≤ offset - (s.heap h).fileEntry.offset by omega)
  have hfs := fileEntriesOf_entries s
  have hfh : (filesOf s.heap s.diskWriterEntries)[i]? = some (s.heap h).fileEntry := by
    simp [filesOf, hh]
  have hoff := ((hfs ▸ ht : Tiling 0 (filesOf s.heap s.diskWriterEntries)).offset_eq hfh).1
  have hoff0 : 0 ≤ (s.heap h).fileEntry.offset := by rw [hoff]; omega
  have hnd := pathOf_nodup s (by rw [← hfs]; exact hpaths)
  have hhead : ∀ j rest, s.diskWriterEntries.drop i = j :: rest →
      k ≤ (s.heap j).fileEntry.length := by
    intro j rest hj
    have : (s.diskWriterEntries.drop i)[0]? = some j := by rw [hj]; simp
    rw [List.getElem?_drop, Nat.add_zero, hh] at this
    cases this
    omega
  have hlen63 : len < 2 ^ 63 := by omega
  obtain ⟨e1, e2, e3, _, e5⟩ := writeLoop_faithful rnd hv data len hdata (by omega)
    (s.diskWriterEntries.drop i) len k s hs
    ((List.drop_sublist i _).map (pathOf s) |>.nodup hnd) hhead (by omega) (le_refl _)
  rw [hw, hk]
  refine ⟨e1, ?_⟩
  have hfe1 : fileEntriesOf (writeLoop (faithful rnd) data len (s.diskWriterEntries.drop i) len
      (k : Int) s).2.entries = fileEntriesOf s.entries := by
    rw [fileEntriesOf_entries, fileEntriesOf_entries, filesOf_sameConfig e3]
  rw [readData_located (faithful rnd) _ buf len offset (by rw [hfe1]; exact ht)
    (by rw [hfe1]; omega) h0 (by rw [hfe1]; exact h1) i h (by rw [e3.diskWriterEntries]; exact hh)
    (by rw [e3.fileEntry]; exact hlo) (by rw [e3.fileEntry]; exact hhi)]
  rw [e3.diskWriterEntries, e3.fileEntry, hk]
  have hplan : writePlan data len (writeLoop (faithful rnd) data len
      (s.diskWriterEntries.drop i) len (k : Int) s).2.heap (s.diskWriterEntries.drop i) len
      (k : Int) = writePlan data len s.heap (s.diskWriterEntries.drop i) len (k : Int) :=
    writePlan_congr data len s.heap _ (fun h => e3.fileEntry h) _ _ _
  obtain ⟨_, j2⟩ := readLoop_faithful rnd hv data len hdata (by omega)
    (s.diskWriterEntries.drop i) len k buf 0 _ e2
    (by intro j rest hj; rw [e3.fileEntry]; exact hhead j rest hj) (by omega) (le_refl _) hbuf
    (by simp) (by omega)
    (by rw [hplan, pathOf_sameConfig e3]; exact e5)
  rw [hplan] at j2
  -- the chunks of the plan add up to `len`
  rw [hfs] at ht hend h1 hfit
  have htd := ht.drop i
  rw [zero_add] at hoff htd
  rw [← hoff, ← filesOf_drop] at htd
  have hsum := writePlan_length_sum data len s.heap (s.diskWriterEntries.drop i)
    (s.heap h).fileEntry.offset offset len htd (by omega) hlo (by omega)
    (by
      intro j rest hj
      have : (s.diskWriterEntries.drop i)[0]? = some j := by rw [hj]; simp
      rw [List.getElem?_drop, Nat.add_zero, hh] at this
      cases this
      exact hhi)
  have htot := totalLength_take_add_drop (filesOf s.heap s.diskWriterEntries) i
  rw [← filesOf_drop] at htot
  rw [hk] at hsum
  have hn : ((writePlan data len s.heap (s.diskWriterEntries.drop i) len (k : Int)).map
      Call.writeLength).sum = len := by
    rw [hsum]; omega
  rw [hn] at j2
  rcases hr : readLoop (faithful rnd) len (s.diskWriterEntries.drop i) len (k : Int) buf 0
    (writeLoop (faithful rnd) data len (s.diskWriterEntries.drop i) len (k : Int) s).2 with
    ⟨r, s2⟩
  rw [hr] at j2
  simp only at j2
  subst j2
  simp only [Nat.zero_add, Nat.sub_self, toSsize_of_lt len hlen63]
  congr 2
  rw [List.take_of_length_le (by omega), List.drop_eq_nil_of_le (by omega), List.append_nil]

/-- Claim C3, as stated, fails at the end of the address space: on the adaptor over the
three files of lengths 10, 20 and 5 (total 35, `maxOpenFiles = 1`, built by `openFile()`),
the offset 35 and `len = 0` satisfy `0 ≤ offset` and `offset + len ≤ totalLength`, the
empty byte string has length `len`, yet `writeData` throws `OffsetOutOfRange` instead of
returning. -/
theorem write_then_read_counterexample :
    Tiling 0 threeFiles ∧ totalLength threeFiles = 35 ∧ (0 : Int) ≤ 35 ∧
    (35 : Int) + (0 : Nat) ≤ totalLength threeFiles ∧ ([] : List Byte).length = 0 ∧
    (writeData (faithful sampleRandom) [] 0 35 (sampleRun 1 [.openFile])).1 =
      .error (.offsetOutOfRange 35) := by
  decide

/-- Claim C11 fails on the code. With `maxOpenFiles = 2` over the three files, after
`openFile()`, a write of fifteen bytes at offset 8 (which opens the first two entries) and
`closeFile()`, every entry is closed but the cache still holds its two slots. The next
`openIfNot` on the third entry finds the cache full: it draws a random slot and replaces
it, instead of appending. -/
theorem closeFile_keeps_cache :
    (∀ h ∈ (sampleRun 2 [.openFile, .writeData sampleData 15 8, .closeFile]).diskWriterEntries,
      ((sampleRun 2 [.openFile, .writeData sampleData 15 8, .closeFile]).heap h)._open
        = false) ∧
    (sampleRun 2 [.openFile, .writeData sampleData 15 8])._openedDiskWriterEntries = [0, 1] ∧
    (sampleRun 2 [.openFile, .writeData sampleData 15 8, .closeFile])._openedDiskWriterEntries
      = [0, 1] ∧
    (sampleRun 2 [.openFile, .writeData sampleData 15 8, .closeFile])._maxOpenFiles = 2 ∧
    (openIfNot (faithful sampleRandom) 2 .openFile "/dl/top"
      (sampleRun 2 [.openFile, .writeData sampleData 15 8, .closeFile])).1 = .ok () ∧
    (openIfNot (faithful sampleRandom) 2 .openFile "/dl/top"
      (sampleRun 2 [.openFile, .writeData sampleData 15 8, .closeFile])).2.calls.drop
        (sampleRun 2 [.openFile, .writeData sampleData 15 8, .closeFile]).calls.length
      = [Call.openFile 2 "/dl/top/c" 5, Call.getRandomNumber 2] ∧
    (openIfNot (faithful sampleRandom) 2 .openFile "/dl/top"
      (sampleRun 2 [.openFile, .writeData sampleData 15 8, .closeFile])).2._openedDiskWriterEntries
      = [2, 1] := by
  decide

/-- Claim C12 fails on the code. With `maxOpenFiles = 2` over the three files: `openFile()`,
a write of fifteen bytes at offset 8 (which opens the first two entries), `openFile()` again
(a rebuild: the two open entries leave the entry sequence but stay in the cache) and then
`onDownloadComplete()`. The call returns and the new entry sequence has one closed entry per
file, in order; but the two entries of the first build are still referenced by the cache,
still flagged open, and their backend objects still have their files open. -/
theorem onDownloadComplete_keeps_handles :
    (run (faithful sampleRandom)
        [.openFile, .writeData sampleData 15 8, .openFile, .onDownloadComplete]
        (sampleAdaptor 2)).isSome = true ∧
    (onDownloadComplete (faithful sampleRandom)
      (sampleRun 2 [.openFile, .writeData sampleData 15 8, .openFile])).1 = .ok () ∧
    (sampleRun 2 [.openFile, .writeData sampleData 15 8, .openFile,
      .onDownloadComplete]).diskWriterEntries = [6, 7, 8] ∧
    filesOf (sampleRun 2 [.openFile, .writeData sampleData 15 8, .openFile,
        .onDownloadComplete]).heap [6, 7, 8] = threeFiles ∧
    (∀ h ∈ [6, 7, 8], ((sampleRun 2 [.openFile, .writeData sampleData 15 8, .openFile,
      .onDownloadComplete]).heap h)._open = false) ∧
    (sampleRun 2 [.openFile, .writeData sampleData 15 8, .openFile,
      .onDownloadComplete])._openedDiskWriterEntries = [0, 1] ∧
    (∀ h ∈ [0, 1], ((sampleRun 2 [.openFile, .writeData sampleData 15 8, .openFile,
      .onDownloadComplete]).heap h)._open = true) ∧
    (sampleRun 2 [.openFile, .writeData sampleData 15 8, .openFile,
      .onDownloadComplete]).world.opened 0 = some "/dl/top/a" ∧
    (sampleRun 2 [.openFile, .writeData sampleData 15 8, .openFile,
      .onDownloadComplete]).world.opened 1 = some "/dl/top/b" := by
  decide

theorem fileExistsLoop_spec (X : Ext W) (t : String) :
    ∀ (l : List Nat) (s : MultiDiskAdaptor W),
      ((fileExistsLoop X t l s).1 = true ↔
        ∃ h ∈ l, X.fileExists s.world ((s.heap h).getFilePath t) = true) ∧
      ∃ c, (fileExistsLoop X t l s).2 = { s with calls := c } := by
  intro l
  induction l with
  | nil =>
    intro s
    exact ⟨by simp [fileExistsLoop], s.calls, rfl⟩
  | cons h rest ih =>
    intro s
    by_cases hx : X.fileExists s.world ((s.heap h).getFilePath t) = true
    · simp only [fileExistsLoop, hx, if_true]
      exact ⟨⟨fun _ => ⟨h, List.mem_cons_self _ _, hx⟩, fun _ => trivial⟩, _, rfl⟩
    · simp only [fileExistsLoop, hx]
      obtain ⟨h1, c, h2⟩ := ih
        { s with calls := s.calls ++ [Call.fileExists ((s.heap h).getFilePath t)] }
      refine ⟨?_, c, ?_⟩
      · simp only [if_false, Bool.false_eq_true] 
        rw [h1]
        constructor
        · rintro ⟨h', hm, he⟩
          exact ⟨h', List.mem_cons_of_mem _ hm, he⟩
        · rintro ⟨h', hm, he⟩
          rcases List.mem_cons.mp hm with rfl | hm
          · exact absurd he hx
          · exact ⟨h', hm, he⟩
      · simp only [if_false, Bool.false_eq_true]
        rw [h2]

theorem resetDiskWriterEntries_config (X : Ext W) (s : MultiDiskAdaptor W) :
    (resetDiskWriterEntries X s).fileEntries = s.fileEntries ∧
    (resetDiskWriterEntries X s).storeDir = s.storeDir ∧
    (resetDiskWriterEntries X s).topDir = s.topDir ∧
    (resetDiskWriterEntries X s)._openedDiskWriterEntries = s._openedDiskWriterEntries := by
  exact resetDiskWriterEntries_preserves X
    (fun s' => s'.fileEntries = s.fileEntries ∧ s'.storeDir = s.storeDir ∧
      s'.topDir = s.topDir ∧ s'._openedDiskWriterEntries = s._openedDiskWriterEntries)
    (fun _ h => h) (fun _ _ h => h) s ⟨rfl, rfl, rfl, rfl⟩

/-- The rebuild opens no entry, and the entries it creates are closed. -/
theorem resetDiskWriterEntries_closed (X : Ext W) (s : MultiDiskAdaptor W) :
    (∀ h, ((resetDiskWriterEntries X s).heap h)._open = true → (s.heap h)._open = true) ∧
    (∀ h ∈ (resetDiskWriterEntries X s).diskWriterEntries,
      ((resetDiskWriterEntries X s).heap h)._open = false) := by
  have key := resetDiskWriterEntries_preserves X
    (fun s' => (∀ h, (s'.heap h)._open = true → (s.heap h)._open = true) ∧
      (∀ h ∈ s'.diskWriterEntries, (s'.heap h)._open = false ∧ h < s'.nextHandle))
    (fun s' h => ⟨h.1, fun _ hh => by cases hh⟩)
    (fun s' fe h => by
      refine ⟨fun x hx => h.1 x ((pushNewEntry_open X s' fe x).mp hx).2, ?_⟩
      intro x hx
      have hx' : x ∈ s'.diskWriterEntries ∨ x = s'.nextHandle := by
        simpa [pushNewEntry] using hx
      have hn : (pushNewEntry X s' fe).nextHandle = s'.nextHandle + 1 := rfl
      have hcl : ((pushNewEntry X s' fe).heap x)._open = false := by
        by_contra hc
        have hc' : ((pushNewEntry X s' fe).heap x)._open = true := by simpa using hc
        obtain ⟨h1, h2⟩ := (pushNewEntry_open X s' fe x).mp hc'
        rcases hx' with hx' | hx'
        · rw [(h.2 x hx').1] at h2; cases h2
        · exact h1 hx'
      refine ⟨hcl, ?_⟩
      rw [hn]
      rcases hx' with hx' | hx'
      · have := (h.2 x hx').2; omega
      · omega)
    { s with diskWriterEntries := [] } ⟨fun _ h => h, fun _ hh => by cases hh⟩
  have e : resetDiskWriterEntries X s =
      resetDiskWriterEntries X { s with diskWriterEntries := [] } := rfl
  rw [e]
  exact ⟨key.1, fun h hh => (key.2 h hh).1⟩

theorem resetDiskWriterEntries_world (X : Ext W) (P : W → Prop)
    (hnew : ∀ w h r, P w → P (X.newDiskWriter w h r))
    (hallow : ∀ w h a, P w → P (X.setDirectIOAllowed w h a)) (s : MultiDiskAdaptor W)
    (hs : P s.world) : P (resetDiskWriterEntries X s).world :=
  resetDiskWriterEntries_preserves X (fun s' => P s'.world) (fun _ h => h)
    (fun _ _ h => hallow _ _ _ (hnew _ _ _ h)) s hs

/-- What `fileExists` returns and leaves behind, on a state whose entry sequence is empty or
built from the file entries; the existence check of the backend is assumed not to depend on
the creation of backend objects. -/
theorem fileExists_built (X : Ext W)
    (hnew : ∀ w h r p, X.fileExists (X.newDiskWriter w h r) p = X.fileExists w p)
    (hallow : ∀ w h a p, X.fileExists (X.setDirectIOAllowed w h a) p = X.fileExists w p)
    (s : MultiDiskAdaptor W) (hb : Built s) :
    ((fileExists X s).1 = true ↔ ∃ fe ∈ s.fileEntries,
      X.fileExists s.world (s.storeDir ++ "/" ++ s.topDir ++ "/" ++ fe.path) = true) ∧
    filesOf (fileExists X s).2.heap (fileExists X s).2.diskWriterEntries = s.fileEntries ∧
    (s.diskWriterEntries = [] → ∀ h ∈ (fileExists X s).2.diskWriterEntries,
      ((fileExists X s).2.heap h)._open = false) ∧
    (∀ h, ((fileExists X s).2.heap h)._open = true → (s.heap h)._open = true) ∧
    (fileExists X s).2._openedDiskWriterEntries = s._openedDiskWriterEntries ∧
    (∀ p, X.fileExists (fileExists X s).2.world p = X.fileExists s.world p) := by
  -- the state on which the loop runs
  have main : ∀ s1 : MultiDiskAdaptor W,
      filesOf s1.heap s1.diskWriterEntries = s.fileEntries →
      s1.storeDir = s.storeDir → s1.topDir = s.topDir →
      (∀ p, X.fileExists s1.world p = X.fileExists s.world p) →
      ((fileExistsLoop X s1.getTopDirPath s1.diskWriterEntries s1).1 = true ↔
        ∃ fe ∈ s.fileEntries,
          X.fileExists s.world (s.storeDir ++ "/" ++ s.topDir ++ "/" ++ fe.path) = true) ∧
      ∃ c, (fileExistsLoop X s1.getTopDirPath s1.diskWriterEntries s1).2 =
        { s1 with calls := c } := by
    intro s1 hf hsd htd hw
    obtain ⟨h1, h2⟩ := fileExistsLoop_spec X s1.getTopDirPath s1.diskWriterEntries s1
    refine ⟨?_, h2⟩
    rw [h1, ← hf]
    simp only [filesOf, List.mem_map, exists_exists_and_eq_and, DiskWriterEntry.getFilePath,
      getTopDirPath, hsd, htd, hw]
  by_cases he : s.diskWriterEntries = []
  · have hs1 : (if s.diskWriterEntries.isEmpty then resetDiskWriterEntries X s else s) =
        resetDiskWriterEntries X s := by simp [he]
    obtain ⟨c1, c2, c3, c4⟩ := resetDiskWriterEntries_config X s
    have hw := resetDiskWriterEntries_world X
      (fun w => ∀ p, X.fileExists w p = X.fileExists s.world p)
      (fun w h r hP p => (hnew w h r p).trans (hP p))
      (fun w h a hP p => (hallow w h a p).trans (hP p)) s (fun _ => rfl)
    obtain ⟨m1, c, m2⟩ := main (resetDiskWriterEntries X s)
      (resetDiskWriterEntries_filesOf X s) c2 c3 hw
    obtain ⟨r1, r2⟩ := resetDiskWriterEntries_closed X s
    unfold fileExists
    simp only [hs1]
    rw [m2]
    exact ⟨m1, resetDiskWriterEntries_filesOf X s, fun _ => r2, r1, c4, hw⟩
  · have hs1 : (if s.diskWriterEntries.isEmpty then resetDiskWriterEntries X s else s) = s := by
      simp [he]
    have hf : filesOf s.heap s.diskWriterEntries = s.fileEntries := by
      rcases hb with hb | hb
      · exact absurd hb he
      · exact hb
    obtain ⟨m1, c, m2⟩ := main s hf rfl rfl (fun _ => rfl)
    unfold fileExists
    simp only [hs1]
    rw [m2]
    exact ⟨m1, hf, fun h => absurd h he, fun _ h => h, rfl, fun _ => rfl⟩

theorem Built.of_sameConfig {s s' : MultiDiskAdaptor W} (h : SameConfig s s') (hb : Built s) :
    Built s' := by
  rcases hb with hb | hb
  · exact Or.inl (h.diskWriterEntries.trans hb)
  · exact Or.inr ((filesOf_sameConfig h).trans (hb.trans h.fileEntries.symm))

theorem resetDiskWriterEntries_built (X : Ext W) (s : MultiDiskAdaptor W) :
    Built (resetDiskWriterEntries X s) :=
  Or.inr ((resetDiskWriterEntries_filesOf X s).trans (resetDiskWriterEntries_config X s).1.symm)

theorem closeFile_entry_sameConfig (X : Ext W) (h : Nat) (s : MultiDiskAdaptor W) :
    SameConfig s (DiskWriterEntry.closeFile X h s) := by
  obtain ⟨w, c, e⟩ := closeFile_entry_shape X h s
  rw [e]
  refine ⟨rfl, rfl, rfl, rfl, rfl, rfl, rfl, rfl, ?_, ?_⟩
  · intro x
    by_cases hx : x = h
    · subst hx; simp
    · simp [Function.update_noteq hx]
  · intro x
    by_cases hx : x = h
    · subst hx; simp
    · simp [Function.update_noteq hx]

theorem closeFile_sameConfig (X : Ext W) (s : MultiDiskAdaptor W) :
    SameConfig s (closeFile X s) :=
  closeFile_preserves X (SameConfig s)
    (fun s' h hs' => hs'.trans (closeFile_entry_sameConfig X h s')) s (SameConfig.refl s)

theorem stable_true (X : Ext W) : Stable X (fun _ : MultiDiskAdaptor W => True) where
  internal := fun _ _ _ _ => trivial
  cached := fun _ _ _ => trivial
  clear := fun _ _ => trivial
  push := fun _ _ _ => trivial
  access := fun _ _ _ _ _ _ _ => trivial

theorem stable_configured (X : Ext W) (fes : List FileEntry) (sd td : String) :
    Stable X (@Configured W fes sd td) where
  internal := fun _ _ _ h => h
  cached := fun _ _ h => h
  clear := fun _ h => h
  push := fun _ _ h => h
  access := fun s h m t hs _ _ =>
    ⟨(openIfNot_sameConfig X h m t s).fileEntries.trans hs.1,
      (openIfNot_sameConfig X h m t s).storeDir.trans hs.2.1,
      (openIfNot_sameConfig X h m t s).topDir.trans hs.2.2⟩

theorem openFile_built (X : Ext W) (s : MultiDiskAdaptor W) (hb : Built s) :
    Built (openFile X s).2 := by
  obtain ⟨w, c, hsh, _⟩ := mkdirLoop_shape X s.getTopDirPath s.fileEntries
    { s with _cachedTopDirPath := s.getTopDirPath }
  rcases hmk : mkdirLoop X s.getTopDirPath s.fileEntries
    { s with _cachedTopDirPath := s.getTopDirPath } with ⟨r, s2⟩
  rw [hmk] at hsh
  cases r with
  | error e =>
    have : (openFile X s).2 = s2 := by simp only [openFile, mkdir, hmk]
    rw [this]
    simp only at hsh
    rw [hsh]
    exact hb
  | ok u =>
    have : (openFile X s).2 = resetDiskWriterEntries X s2 := by simp only [openFile, mkdir, hmk]
    rw [this]
    exact resetDiskWriterEntries_built X s2

theorem initAndOpenFile_built (X : Ext W) (s : MultiDiskAdaptor W) (hb : Built s)
    (hub : (initAndOpenFile X s).1 ≠ .error .invalidAccess) :
    Built (initAndOpenFile X s).2 := by
  obtain ⟨w, c, hsh, _⟩ := mkdirLoop_shape X s.getTopDirPath s.fileEntries
    { s with _cachedTopDirPath := s.getTopDirPath }
  rcases hmk : mkdirLoop X s.getTopDirPath s.fileEntries
    { s with _cachedTopDirPath := s.getTopDirPath } with ⟨r, s2⟩
  rw [hmk] at hsh
  cases r with
  | error e =>
    have : (initAndOpenFile X s).2 = s2 := by simp only [initAndOpenFile, mkdir, hmk]
    rw [this]
    simp only at hsh
    rw [hsh]
    exact hb
  | ok u =>
    have e : initAndOpenFile X s = initAndOpenLoop X (resetDiskWriterEntries X s2).diskWriterEntries
        (resetDiskWriterEntries X s2) := by simp only [initAndOpenFile, mkdir, hmk]
    rw [e] at hub ⊢
    refine Built.of_sameConfig ?_ (resetDiskWriterEntries_built X s2)
    exact initAndOpenLoop_preserves X (SameConfig (resetDiskWriterEntries X s2)) _ _
      (fun h _ s' hs' _ => hs'.trans (openIfNot_sameConfig X h _ _ s')) (SameConfig.refl _) hub

/-- Every call keeps the entry sequence empty or built from the file entries. -/
theorem step_built (X : Ext W) (op : Op) (s : MultiDiskAdaptor W) (hb : Built s)
    (hub : (step X op s).1 ≠ some .invalidAccess) : Built (step X op s).2 := by
  have conv : ∀ {α : Type} (r : Except Failure α), outcome r ≠ some .invalidAccess →
      r ≠ .error .invalidAccess := by
    intro α r h1 h2
    rw [h2] at h1
    exact h1 rfl
  cases op with
  | openFile => exact openFile_built X s hb
  | initAndOpenFile => exact initAndOpenFile_built X s hb (conv _ hub)
  | openExistingFile => exact resetDiskWriterEntries_built X _
  | closeFile => exact Built.of_sameConfig (closeFile_sameConfig X s) hb
  | onDownloadComplete =>
    exact openFile_built X _ (Built.of_sameConfig (closeFile_sameConfig X s) hb)
  | writeData data len offset =>
    exact Built.of_sameConfig
      (writeData_preserves X _ (stable_true X) data len offset s trivial (conv _ hub)).2 hb
  | readData data len offset =>
    exact Built.of_sameConfig
      (readData_preserves X _ (stable_true X) data len offset s trivial (conv _ hub)).2 hb
  | setMaxOpenFiles n => exact hb
  | openIfNot i m =>
    simp only [step] at hub ⊢
    split
    · exact hb
    · exact Built.of_sameConfig (openIfNot_sameConfig X _ m _ s) hb

theorem run_built (X : Ext W) (fes : List FileEntry) (sd td : String) (ops : List Op)
    (s s' : MultiDiskAdaptor W) (hb : Built s) (hc : Configured fes sd td s)
    (hrun : run X ops s = some s') : Built s' ∧ Configured fes sd td s' := by
  refine run_preserves X (fun s => Built s ∧ Configured fes sd td s) ops s s' ?_ ⟨hb, hc⟩ hrun
  intro op _ s1 hs1 hub
  refine ⟨step_built X op s1 hs1.1 hub, ?_⟩
  exact step_preserves X _ (stable_configured X fes sd td) op s1
    (fun _ s2 h hs2 => by
      obtain ⟨w, c, e⟩ := closeFile_entry_shape X h s2
      rw [e]; exact hs2)
    (fun _ _ => hs1.2) hs1.2 hub

/-- What `onDownloadComplete()` does when it returns: the new entry sequence has one closed
entry per file entry, in order, and an entry that is open afterwards was open before and
was not in the entry sequence. -/
theorem onDownloadComplete_closes (X : Ext W) (s : MultiDiskAdaptor W)
    (hok : (onDownloadComplete X s).1 = .ok ()) :
    filesOf (onDownloadComplete X s).2.heap (onDownloadComplete X s).2.diskWriterEntries =
      s.fileEntries ∧
    (∀ h ∈ (onDownloadComplete X s).2.diskWriterEntries,
      ((onDownloadComplete X s).2.heap h)._open = false) ∧
    (∀ h, ((onDownloadComplete X s).2.heap h)._open = true →
      (s.heap h)._open = true ∧ h ∉ s.diskWriterEntries) := by
  have hcfg := closeFile_sameConfig X s
  have hop : ∀ h, ((closeFile X s).heap h)._open = true →
      (s.heap h)._open = true ∧ h ∉ s.diskWriterEntries := by
    intro h hh
    have := (closeFile_loop_open X s.diskWriterEntries s h).mp hh
    exact ⟨this.2, this.1⟩
  unfold onDownloadComplete at hok ⊢
  generalize closeFile X s = s1 at hcfg hop hok ⊢
  obtain ⟨w, c, hsh, _⟩ := mkdirLoop_shape X s1.getTopDirPath s1.fileEntries
    { s1 with _cachedTopDirPath := s1.getTopDirPath }
  rcases hmk : mkdirLoop X s1.getTopDirPath s1.fileEntries
    { s1 with _cachedTopDirPath := s1.getTopDirPath } with ⟨r, s2⟩
  rw [hmk] at hsh
  simp only at hsh
  cases r with
  | error e =>
    simp only [openFile, mkdir, hmk] at hok
    cases hok
  | ok u =>
    have e : (openFile X s1).2 = resetDiskWriterEntries X s2 := by
      simp only [openFile, mkdir, hmk]
    rw [e]
    obtain ⟨r1, r2⟩ := resetDiskWriterEntries_closed X s2
    refine ⟨?_, r2, ?_⟩
    · rw [resetDiskWriterEntries_filesOf, hsh]
      exact hcfg.fileEntries
    · intro h hh
      have := r1 h hh
      rw [hsh] at this
      exact hop h this

/-- Claim C13. In every state reached from a newly constructed adaptor by the public
operations (none at all included: the unbuilt adaptor), with a backend whose existence check
looks at the file system only (creating a backend object does not change it):
`fileExists()` returns `true` if and only if some file entry has an existing file at
`storeDir + "/" + topDir + "/" + path`; afterwards the entry sequence holds one entry per
file entry, in order, all of them closed if the sequence was empty before; the call opens
no entry, leaves the cache alone and does not change which files exist. The function is
total: a missing file yields `false`, there is no error result. -/
theorem fileExists_iff (X : Ext W)
    (hnew : ∀ w h r p, X.fileExists (X.newDiskWriter w h r) p = X.fileExists w p)
    (hallow : ∀ w h a p, X.fileExists (X.setDirectIOAllowed w h a) p = X.fileExists w p)
    (DEFAULT_MAX_OPEN_FILES : Nat) (fileEntries : List FileEntry) (storeDir topDir : String)
    (directIOAllowed : Bool) (world : W) (ops : List Op) (s : MultiDiskAdaptor W)
    (hrun : run X ops (MultiDiskAdaptor.create DEFAULT_MAX_OPEN_FILES fileEntries storeDir
      topDir directIOAllowed world) = some s) :
    ((fileExists X s).1 = true ↔ ∃ fe ∈ fileEntries,
      X.fileExists s.world (storeDir ++ "/" ++ topDir ++ "/" ++ fe.path) = true) ∧
    filesOf (fileExists X s).2.heap (fileExists X s).2.diskWriterEntries = fileEntries ∧
    (s.diskWriterEntries = [] → ∀ h ∈ (fileExists X s).2.diskWriterEntries,
      ((fileExists X s).2.heap h)._open = false) ∧
    (∀ h, ((fileExists X s).2.heap h)._open = true → (s.heap h)._open = true) ∧
    (fileExists X s).2._openedDiskWriterEntries = s._openedDiskWriterEntries ∧
    (∀ p, X.fileExists (fileExists X s).2.world p = X.fileExists s.world p) := by
  obtain ⟨hb, hc1, hc2, hc3⟩ := run_built X fileEntries storeDir topDir ops _ s
    (Or.inl rfl) ⟨rfl, rfl, rfl⟩ hrun
  have := fileExists_built X hnew hallow s hb
  rw [hc1, hc2, hc3] at this
  exact this

/-- Claim C13 on the unbuilt adaptor over the three files, on a disk that holds the second
file only: `fileExists()` returns `true` and builds three closed entries. -/
theorem fileExists_iff_witness :
    ((fileExists (faithful sampleRandom) (MultiDiskAdaptor.create 100 threeFiles "/dl" "top"
        false { Disk.empty with files := fun p => if p = "/dl/top/b" then some [] else none })).1
        = true ↔
      ∃ fe ∈ threeFiles, (faithful sampleRandom).fileExists
        { Disk.empty with files := fun p => if p = "/dl/top/b" then some [] else none }
        ("/dl" ++ "/" ++ "top" ++ "/" ++ fe.path) = true) ∧
    (fileExists (faithful sampleRandom) (MultiDiskAdaptor.create 100 threeFiles "/dl" "top"
        false { Disk.empty with files := fun p => if p = "/dl/top/b" then some [] else none })).1
      = true ∧
    (fileExists (faithful sampleRandom) (MultiDiskAdaptor.create 100 threeFiles "/dl" "top"
        false Disk.empty)).1 = false ∧
    (fileExists (faithful sampleRandom) (MultiDiskAdaptor.create 100 threeFiles "/dl" "top"
        false Disk.empty)).2.diskWriterEntries = [0, 1, 2] :=
  ⟨(fileExists_iff (faithful sampleRandom) (fun _ _ _ _ => rfl) (fun _ _ _ _ => rfl) 100
      threeFiles "/dl" "top" false
      { Disk.empty with files := fun p => if p = "/dl/top/b" then some [] else none }
      [] _ rfl).1, by decide, by decide, by decide⟩

theorem writePlan_eq_chunkPlan (data : List Byte) (len : Nat) (heap : Nat → DiskWriterEntry) :
    ∀ (l : List Nat) (rem : Nat) (fo : Int),
      writePlan data len heap l rem fo = (chunkPlan len heap l rem fo).map (Chunk.write data) := by
  intro l
  induction l with
  | nil => intro rem fo; rfl
  | cons i rest ih =>
    intro rem fo
    rw [writePlan, chunkPlan]
    by_cases hrem : (rem + 2 ^ 64 - calculateLength (heap i) fo rem) % 2 ^ 64 = 0
    · simp only [hrem, if_true, List.map_cons, List.map_nil, Chunk.write]
    · simp only [hrem, if_false, List.map_cons, Chunk.write, ih]

theorem chunkPlan_congr (len : Nat) (heap heap' : Nat → DiskWriterEntry)
    (hh : ∀ h, (heap' h).fileEntry = (heap h).fileEntry) :
    ∀ (l : List Nat) (rem : Nat) (fo : Int),
      chunkPlan len heap' l rem fo = chunkPlan len heap l rem fo := by
  intro l
  induction l with
  | nil => intro rem fo; rfl
  | cons i rest ih =>
    intro rem fo
    rw [chunkPlan, chunkPlan, calculateLength_congr (heap i) (heap' i) (hh i), ih]

theorem readsOf_append (a b : List Call) : readsOf (a ++ b) = readsOf a ++ readsOf b := by
  simp [readsOf]

theorem openIfNot_readsOf (X : Ext W) (entry : Nat) (m : OpenMethod) (t : String)
    (s : MultiDiskAdaptor W) :
    readsOf (openIfNot X entry m t s).2.calls = readsOf s.calls := by
  obtain ⟨cs, h1, h2⟩ := openIfNot_calls X entry m t s
  rw [h1, readsOf_append]
  have : readsOf cs = [] := by
    simp only [readsOf, List.filter_eq_nil_iff]
    intro c hc
    simp [(h2 c hc).2]
  rw [this, List.append_nil]

/-- What the loop of `readData` returns, in terms of the rounds of `chunkPlan`: it reads
round by round, stores what each read returned at the position of the round, and counts
the bytes returned. -/
theorem readLoop_chunks (X : Ext W) (len : Nat) :
    ∀ (l : List Nat) (rem : Nat) (fo : Int) (buf : List Byte) (total : Nat)
      (s : MultiDiskAdaptor W) (r : Nat) (buf' : List Byte), total < 2 ^ 64 →
      (readLoop X len l rem fo buf total s).1 = .ok (r, buf') →
      ∃ responses : List (List Byte),
        List.Forall₂ (Answered X) (chunkPlan len s.heap l rem fo) responses ∧
        r = (total + (responses.map List.length).sum) % 2 ^ 64 ∧
        buf' = storeAll buf (chunkPlan len s.heap l rem fo) responses ∧
        readsOf (readLoop X len l rem fo buf total s).2.calls =
          readsOf s.calls ++ (chunkPlan len s.heap l rem fo).map Chunk.read := by
  intro l
  induction l with
  | nil =>
    intro rem fo buf total s r buf' ht hok
    simp only [readLoop, Except.ok.injEq, Prod.mk.injEq] at hok
    refine ⟨[], ?_, ?_, ?_, ?_⟩
    · simp [chunkPlan]
    · simp only [List.map_nil, List.sum_nil, Nat.add_zero]
      rw [Nat.mod_eq_of_lt ht]; exact hok.1.symm
    · simp only [chunkPlan, storeAll]; exact hok.2.symm
    · simp [readLoop, chunkPlan]
  | cons i rest ih =>
    intro rem fo buf total s r buf' ht hok
    rcases ho : openIfNot X i .openFile s._cachedTopDirPath s with ⟨ro, s1⟩
    have hr1 : readsOf s1.calls = readsOf s.calls := by
      have := openIfNot_readsOf X i .openFile s._cachedTopDirPath s
      rw [ho] at this
      exact this
    have hcfg : ∀ h, (s1.heap h).fileEntry = (s.heap h).fileEntry := by
      have := (openIfNot_sameConfig X i .openFile s._cachedTopDirPath s).fileEntry
      rw [ho] at this
      exact this
    cases ro with
    | error e =>
      rw [readLoop_open_error X len i rest rem fo buf total s s1 e ho] at hok
      cases hok
    | ok u =>
      rcases hw : X.readData s1.world i (calculateLength (s.heap i) fo rem) fo with ⟨rr, w⟩
      cases rr with
      | error msg =>
        rw [readLoop_read_error X len i rest rem fo buf total s s1 u msg w ho hw] at hok
        cases hok
      | ok bytes =>
        by_cases hrem : (rem + 2 ^ 64 - calculateLength (s.heap i) fo rem) % 2 ^ 64 = 0
        · rw [readLoop_last X len i rest rem fo buf total s s1 u bytes w ho hw hrem] at hok ⊢
          simp only [Except.ok.injEq, Prod.mk.injEq] at hok
          refine ⟨[bytes], ?_, ?_, ?_, ?_⟩
          · rw [chunkPlan]
            simp only [hrem, if_true]
            exact List.Forall₂.cons ⟨_, _, hw⟩ List.Forall₂.nil
          · simp only [List.map_cons, List.map_nil, List.sum_cons, List.sum_nil, Nat.add_zero]
            exact hok.1.symm
          · rw [chunkPlan]
            simp only [hrem, if_true, storeAll]
            exact hok.2.symm
          · rw [chunkPlan]
            simp only [hrem, if_true, afterRead, readsOf_append, hr1, List.map_cons,
              List.map_nil, Chunk.read]
            rfl
        · rw [readLoop_next X len i rest rem fo buf total s s1 u bytes w ho hw hrem] at hok ⊢
          obtain ⟨rs, a1, a2, a3, a4⟩ := ih _ _ _ _ _ r buf'
            (Nat.mod_lt _ (by norm_num)) hok
          have hheap : (afterRead s1 i (calculateLength (s.heap i) fo rem) fo w).heap = s1.heap :=
            rfl
          rw [hheap, chunkPlan_congr len s.heap s1.heap hcfg] at a1 a3 a4
          refine ⟨bytes :: rs, ?_, ?_, ?_, ?_⟩
          · rw [chunkPlan]
            simp only [hrem, if_false]
            exact List.Forall₂.cons ⟨_, _, hw⟩ a1
          · rw [a2]
            simp only [List.map_cons, List.sum_cons]
            omega
          · rw [chunkPlan]
            simp only [hrem, if_false, storeAll]
            exact a3
          · rw [a4]
            conv_rhs => rw [chunkPlan]
            simp only [hrem, if_false, afterRead, readsOf_append, hr1, List.map_cons,
              Chunk.read, List.append_assoc]
            rfl

theorem forall₂_length_sum {plan : List Chunk} {responses : List (List Byte)}
    (h : List.Forall₂ (fun c bytes => List.length bytes = c.length) plan responses) :
    (responses.map List.length).sum = (plan.map (·.length)).sum := by
  induction h with
  | nil => rfl
  | cons h1 _ ih => simp only [List.map_cons, List.sum_cons, ih, h1]

theorem chunkPlan_length_sum (data : List Byte) (len : Nat) (heap : Nat → DiskWriterEntry)
    (l : List Nat) (rem : Nat) (fo : Int) :
    ((chunkPlan len heap l rem fo).map (·.length)).sum =
      ((writePlan data len heap l rem fo).map Call.writeLength).sum := by
  rw [writePlan_eq_chunkPlan, List.map_map]
  rfl

/-- Claim C14. When `readData` returns, it has issued one backend read per round of the
request, and the rounds (entry, offset in the file, requested length, position in the
buffer) are those of `chunksFor`, which are also the rounds of a `writeData` of the same
`(offset, len)` and are computed without looking at anything a backend returned; the bytes
that each read returned are stored at the position of its round, and the value returned is
the number of bytes that the reads returned, added up (as `size_t`, returned as `ssize_t`).
On a tiling of total length below `2 ^ 63`, for `0 ≤ offset < totalLength` and
`len < 2 ^ 63`, the requested lengths add up to `min(len, totalLength - offset)`, which is
the value returned when every read returned as many bytes as requested. -/
theorem readData_counts (X : Ext W) (s : MultiDiskAdaptor W) (buf : List Byte) (len : Nat)
    (offset : Int) (r : Int) (buf' : List Byte)
    (hok : (readData X buf len offset s).1 = .ok (r, buf')) :
    ∃ responses : List (List Byte),
      List.Forall₂ (Answered X) (chunksFor s len offset) responses ∧
      r = toSsize ((responses.map List.length).sum % 2 ^ 64) ∧
      buf' = storeAll buf (chunksFor s len offset) responses ∧
      readsOf (readData X buf len offset s).2.calls =
        readsOf s.calls ++ (chunksFor s len offset).map Chunk.read ∧
      (∀ data, (writeData X data len offset s).1 = .ok () →
        writesOf (writeData X data len offset s).2.calls =
          writesOf s.calls ++ (chunksFor s len offset).map (Chunk.write data)) ∧
      (Tiling 0 (fileEntriesOf s.entries) → totalLength (fileEntriesOf s.entries) < 2 ^ 63 →
        0 ≤ offset → offset < totalLength (fileEntriesOf s.entries) → len < 2 ^ 63 →
        (((chunksFor s len offset).map (·.length)).sum =
          min len (totalLength (fileEntriesOf s.entries) - offset).toNat) ∧
        (List.Forall₂ (fun c bytes => List.length bytes = c.length) (chunksFor s len offset)
            responses →
          r = ((min len (totalLength (fileEntriesOf s.entries) - offset).toNat : Nat) : Int))) := by
  cases hf : findFirstDiskWriterEntry s.entries offset with
  | error e =>
    simp only [readData, hf] at hok
    cases hok
  | ok first =>
    cases hh : s.diskWriterEntries[first]? with
    | none =>
      simp only [readData, hf, hh] at hok
      cases hok
    | some h =>
      have hplan : chunksFor s len offset = chunkPlan len s.heap (s.diskWriterEntries.drop first)
          len (offset - (s.heap h).fileEntry.offset) := by
        simp only [chunksFor, hf, hh]
      rcases hl : readLoop X len (s.diskWriterEntries.drop first) len
        (offset - (s.heap h).fileEntry.offset) buf 0 s with ⟨rl, s1⟩
      cases rl with
      | error e =>
        have hrd : readData X buf len offset s = (.error e, s1) := by
          simp only [readData, hf, hh, hl]
        rw [hrd] at hok
        cases hok
      | ok v =>
        have hrd : readData X buf len offset s = (.ok (toSsize v.1, v.2), s1) := by
          simp only [readData, hf, hh, hl]
        rw [hrd] at hok ⊢
        simp only [Except.ok.injEq, Prod.mk.injEq] at hok
        obtain ⟨rs, a1, a2, a3, a4⟩ := readLoop_chunks X len _ _ _ buf 0 s v.1 v.2
          (by norm_num) (by rw [hl])
        rw [hl] at a4
        rw [← hplan] at a1 a3 a4
        rw [Nat.zero_add] at a2
        have hr : r = toSsize ((rs.map List.length).sum % 2 ^ 64) := by
          rw [← hok.1, a2]
        refine ⟨rs, a1, hr, by rw [← hok.2, a3], a4, ?_, ?_⟩
        · intro data hwok
          have hwd : writeData X data len offset s =
              writeLoop X data len (s.diskWriterEntries.drop first) len
                (offset - (s.heap h).fileEntry.offset) s := by
            simp only [writeData, hf, hh]
          rw [hwd] at hwok ⊢
          rw [writeLoop_writes X data len _ _ _ s hwok, writePlan_eq_chunkPlan, hplan]
        · intro ht hfit h0 h1 hlen
          obtain ⟨i, h', hh', hlo, hhi, hfi, _⟩ :=
            writeData_located X s [] len offset ht (by omega) h0 h1
          rw [hf] at hfi
          cases hfi
          rw [hh] at hh'
          cases hh'
          have hfs := fileEntriesOf_entries s
          rw [hfs] at ht hfit h1 ⊢
          have hfh : (filesOf s.heap s.diskWriterEntries)[first]? = some (s.heap h).fileEntry := by
            simp [filesOf, hh]
          have hoff := (ht.offset_eq hfh).1
          have htd := ht.drop first
          rw [zero_add] at hoff htd
          rw [← hoff, ← filesOf_drop] at htd
          have hsum := writePlan_length_sum [] len s.heap (s.diskWriterEntries.drop first)
            (s.heap h).fileEntry.offset offset len htd (by omega) hlo (by omega)
            (by
              intro j rest hj
              have : (s.diskWriterEntries.drop first)[0]? = some j := by rw [hj]; simp
              rw [List.getElem?_drop, Nat.add_zero, hh] at this
              cases this
              exact hhi)
          have htot := totalLength_take_add_drop (filesOf s.heap s.diskWriterEntries) first
          rw [← filesOf_drop] at htot
          have hsum' : ((chunksFor s len offset).map (·.length)).sum =
              min len (totalLength (filesOf s.heap s.diskWriterEntries) - offset).toNat := by
            rw [hplan, chunkPlan_length_sum [], hsum]
            omega
          refine ⟨hsum', ?_⟩
          intro hex
          rw [hr, forall₂_length_sum hex, hsum']
          have hlt : min len (totalLength (filesOf s.heap s.diskWriterEntries) - offset).toNat
              < 2 ^ 63 := by omega
          rw [Nat.mod_eq_of_lt (by omega), toSsize_of_lt _ hlt]

/-- A miss on a full cache of distinct open entries: one slot is chosen, its entry closed
and the slot given to the entry just opened. -/
theorem openIfNot_full (X : Ext W) (entry : Nat) (m : OpenMethod) (t : String)
    (s : MultiDiskAdaptor W) (hc : CacheOpen s)
    (hfull : s._maxOpenFiles ≤ s._openedDiskWriterEntries.length)
    (hclosed : (s.heap entry)._open = false)
    (hok : (openIfNot X entry m t s).1 = .ok ()) :
    ∃ victim ∈ s._openedDiskWriterEntries,
      victim ≠ entry ∧ (s.heap victim)._open = true ∧
      ((openIfNot X entry m t s).2.heap victim)._open = false ∧
      ((openIfNot X entry m t s).2.heap entry)._open = true ∧
      (∀ h, h ≠ victim → h ≠ entry →
        ((openIfNot X entry m t s).2.heap h)._open = (s.heap h)._open) ∧
      (openIfNot X entry m t s).2._openedDiskWriterEntries.length =
        s._openedDiskWriterEntries.length ∧
      (openIfNot X entry m t s).2._maxOpenFiles = s._maxOpenFiles ∧
      CacheOpen (openIfNot X entry m t s).2 ∧
      victim ∉ (openIfNot X entry m t s).2._openedDiskWriterEntries ∧
      entry ∈ (openIfNot X entry m t s).2._openedDiskWriterEntries := by
  have hco := (openIfNot_cacheOpen X entry m t s hc (by rw [hok]; intro h; cases h)).1
  rcases openIfNot_cases X entry m t s with ⟨ho, _⟩ | ⟨_, h⟩
  · rw [hclosed] at ho; cases ho
  · rcases h with ⟨msg, w, c, e⟩ | ⟨w, c, _, e⟩ | ⟨w, c, hlt, _⟩ | ⟨w, c, idx, victim, _, hv, e⟩
    · rw [e] at hok; cases hok
    · rw [e] at hok; cases hok
    · omega
    · have hvm : victim ∈ s._openedDiskWriterEntries := List.getElem?_mem hv
      have hvo : (s.heap victim)._open = true := hc.2 victim hvm
      have hne : victim ≠ entry := by
        intro h; rw [h, hclosed] at hvo; cases hvo
      have hidx : idx < s._openedDiskWriterEntries.length :=
        (List.getElem?_eq_some_iff.mp hv).1
      rw [e] at hco ⊢
      have hvc : (heapEvicted s entry victim victim)._open = false := by
        by_contra hcon
        have : (heapEvicted s entry victim victim)._open = true := by simpa using hcon
        exact ((heapEvicted_open s entry victim victim).mp this).1 rfl
      refine ⟨victim, hvm, hne, hvo, hvc, ?_, ?_, ?_, rfl, hco, ?_, ?_⟩
      · exact (heapEvicted_open s entry victim entry).mpr ⟨fun h => hne h.symm, Or.inl rfl⟩
      · intro h h1 h2
        have := heapEvicted_open s entry victim h
        simp only [h1, h2, ne_eq, not_false_eq_true, false_or, true_and] at this
        exact Bool.eq_iff_iff.mpr this
      · simp
      · intro hmem
        have := hco.2 victim hmem
        simp only at this
        rw [hvc] at this
        cases this
      · exact List.getElem?_mem (List.getElem?_set_self hidx)

/-- With a capacity of at least one and a randomizer that keeps its contract, `openIfNot`
returns whenever the open method does. -/
theorem openIfNot_returns (X : Ext W) (hrnd : RandomInRange X) (entry : Nat) (m : OpenMethod)
    (t : String) (s : MultiDiskAdaptor W) (hm : 1 ≤ s._maxOpenFiles)
    (hrun : (m.run X entry t s).1 = .ok ()) : (openIfNot X entry m t s).1 = .ok () := by
  by_cases ho : (s.heap entry)._open = true
  · simp [openIfNot, DiskWriterEntry.isOpen, ho]
  · have ho' : (s.heap entry)._open = false := by simpa using ho
    rcases run_shape X m entry t s with ⟨msg, w, c, hr⟩ | ⟨w, c, hr⟩
    · rw [hr] at hrun; cases hrun
    · by_cases hcap : s._maxOpenFiles ≤ s._openedDiskWriterEntries.length
      · have hlt := hrnd w s._openedDiskWriterEntries.length (by omega)
        obtain ⟨victim, hv⟩ : ∃ victim, s._openedDiskWriterEntries[(X.getRandomNumber w
            s._openedDiskWriterEntries.length).1]? = some victim :=
          ⟨_, List.getElem?_eq_getElem hlt⟩
        simp only [openIfNot, DiskWriterEntry.isOpen, ho', hr, Bool.not_false, if_true,
          ge_iff_le, hcap, hv]
      · simp only [openIfNot, DiskWriterEntry.isOpen, ho', hr, Bool.not_false, if_true,
          ge_iff_le, hcap, if_false]

/-- Claim C15. A cache that holds exactly `maxOpenFiles ≥ 1` distinct open entries, `openIfNot`
on a closed entry, an open method that succeeds and any randomizer that keeps its contract:
the call returns; exactly one entry of the cache, the victim, goes from open to closed; the
new entry becomes open and takes the victim's place in the cache; the open flag of every
other entry is unchanged; the cache keeps its size and again holds distinct open entries.
A following `openIfNot` on the victim is a miss again: if its open method succeeds, the
victim is reopened and exactly one other entry of the cache is closed in its place. -/
theorem openIfNot_evicts_one (X : Ext W) (hrnd : RandomInRange X) (entry : Nat)
    (m : OpenMethod) (t : String) (s : MultiDiskAdaptor W) (hc : CacheOpen s)
    (hfull : s._openedDiskWriterEntries.length = s._maxOpenFiles) (hm : 1 ≤ s._maxOpenFiles)
    (hclosed : (s.heap entry)._open = false) (hrun : (m.run X entry t s).1 = .ok ()) :
    (openIfNot X entry m t s).1 = .ok () ∧
    ∃ victim ∈ s._openedDiskWriterEntries,
      victim ≠ entry ∧ (s.heap victim)._open = true ∧
      ((openIfNot X entry m t s).2.heap victim)._open = false ∧
      ((openIfNot X entry m t s).2.heap entry)._open = true ∧
      (∀ h, h ≠ victim → h ≠ entry →
        ((openIfNot X entry m t s).2.heap h)._open = (s.heap h)._open) ∧
      (openIfNot X entry m t s).2._openedDiskWriterEntries.length = s._maxOpenFiles ∧
      CacheOpen (openIfNot X entry m t s).2 ∧
      victim ∉ (openIfNot X entry m t s).2._openedDiskWriterEntries ∧
      entry ∈ (openIfNot X entry m t s).2._openedDiskWriterEntries ∧
      ∀ (m2 : OpenMethod) (t2 : String),
        (m2.run X victim t2 (openIfNot X entry m t s).2).1 = .ok () →
        (openIfNot X victim m2 t2 (openIfNot X entry m t s).2).1 = .ok () ∧
        ∃ victim2 ∈ (openIfNot X entry m t s).2._openedDiskWriterEntries,
          victim2 ≠ victim ∧
          ((openIfNot X entry m t s).2.heap victim2)._open = true ∧
          ((openIfNot X victim m2 t2 (openIfNot X entry m t s).2).2.heap victim2)._open
            = false ∧
          ((openIfNot X victim m2 t2 (openIfNot X entry m t s).2).2.heap victim)._open
            = true ∧
          (∀ h, h ≠ victim2 → h ≠ victim →
            ((openIfNot X victim m2 t2 (openIfNot X entry m t s).2).2.heap h)._open =
              ((openIfNot X entry m t s).2.heap h)._open) ∧
          (openIfNot X victim m2 t2 (openIfNot X entry m t s).2).2._openedDiskWriterEntries.length
            = s._maxOpenFiles := by
  have hok := openIfNot_returns X hrnd entry m t s hm hrun
  refine ⟨hok, ?_⟩
  obtain ⟨victim, a1, a2, a3, a4, a5, a6, a7, a8, a9, a10, a11⟩ :=
    openIfNot_full X entry m t s hc (by omega) hclosed hok
  refine ⟨victim, a1, a2, a3, a4, a5, a6, by rw [a7, hfull], a9, a10, a11, ?_⟩
  intro m2 t2 hrun2
  have hok2 := openIfNot_returns X hrnd victim m2 t2 _ (by rw [a8]; exact hm) hrun2
  refine ⟨hok2, ?_⟩
  obtain ⟨victim2, b1, b2, b3, b4, b5, b6, b7, _⟩ :=
    openIfNot_full X victim m2 t2 _ a9 (by rw [a7, a8]; omega) a4 hok2
  exact ⟨victim2, b1, b2, b3, b4, b5, b6, by rw [b7, a7, hfull]⟩

theorem initsOf_append (a b : List Call) : initsOf (a ++ b) = initsOf a ++ initsOf b := by
  simp [initsOf]

theorem closesOf_append (a b : List Call) : closesOf (a ++ b) = closesOf a ++ closesOf b := by
  simp [closesOf]

/-- The calls of an open method that returns: the backend open, then `enableDirectIO` if
the sticky flag is set. -/
theorem run_calls_ok (X : Ext W) (m : OpenMethod) (h : Nat) (t : String)
    (s : MultiDiskAdaptor W) (hok : (m.run X h t s).1 = .ok ()) :
    (m.run X h t s).2.calls =
      s.calls ++ m.call h ((s.heap h).getFilePath t) (s.heap h).fileEntry.length ::
        (if DiskWriterEntry._directIO (s.heap h) then [Call.enableDirectIO h] else []) := by
  have key : ∀ m : OpenMethod, (DiskWriterEntry.openWith X m h t s).1 = .ok () →
      (DiskWriterEntry.openWith X m h t s).2.calls =
        s.calls ++ m.call h ((s.heap h).getFilePath t) (s.heap h).fileEntry.length ::
          (if DiskWriterEntry._directIO (s.heap h) then [Call.enableDirectIO h] else []) := by
    intro m hok
    rcases hb : m.backend X s.world h ((s.heap h).getFilePath t) (s.heap h).fileEntry.length
      with ⟨r, w⟩
    cases r with
    | error msg =>
      simp only [DiskWriterEntry.openWith, hb] at hok
      cases hok
    | ok u =>
      by_cases hd : DiskWriterEntry._directIO (s.heap h) = true
      · simp only [DiskWriterEntry.openWith, hb, hd, if_true, List.append_assoc,
          List.singleton_append]
      · simp only [DiskWriterEntry.openWith, hb, hd, if_false, Bool.false_eq_true]
  cases m <;> exact key _ hok

theorem closeFile_entry_calls_eq (X : Ext W) (h : Nat) (s : MultiDiskAdaptor W) :
    (DiskWriterEntry.closeFile X h s).calls =
      s.calls ++ (if (s.heap h)._open then [Call.closeFile h] else []) := by
  unfold DiskWriterEntry.closeFile
  by_cases ho : (s.heap h)._open = true
  · simp only [ho, if_true]
  · simp only [ho, if_false, Bool.false_eq_true, List.append_nil]

theorem initsOf_call (m : OpenMethod) (h : Nat) (p : String) (n : Nat) :
    initsOf [m.call h p n] = if m = .initAndOpenFile then [Call.initAndOpenFile h p n] else [] := by
  cases m <;> rfl

/-- The create-and-truncate opens and the backend closes that a miss adds to the record,
on a cache of distinct open entries: the open of the entry, and one close if the cache was
full. -/
theorem openIfNot_miss_calls (X : Ext W) (entry : Nat) (m : OpenMethod) (t : String)
    (s : MultiDiskAdaptor W) (hc : CacheOpen s) (hclosed : (s.heap entry)._open = false)
    (hok : (openIfNot X entry m t s).1 = .ok ()) :
    initsOf (openIfNot X entry m t s).2.calls =
      initsOf s.calls ++ (if m = .initAndOpenFile then
        [Call.initAndOpenFile entry ((s.heap entry).getFilePath t)
          (s.heap entry).fileEntry.length] else []) ∧
    (closesOf (openIfNot X entry m t s).2.calls).length =
      (closesOf s.calls).length +
        (if s._maxOpenFiles ≤ s._openedDiskWriterEntries.length then 1 else 0) := by
  rcases run_shape X m entry t s with ⟨msg, w, c, hr⟩ | ⟨w, c, hr⟩
  · have : openIfNot X entry m t s = (.error (.backend msg), { s with world := w, calls := c }) := by
      simp [openIfNot, DiskWriterEntry.isOpen, hclosed, hr]
    rw [this] at hok
    cases hok
  · have hcalls := run_calls_ok X m entry t s (by rw [hr])
    rw [hr] at hcalls
    simp only at hcalls
    have hi : initsOf c = initsOf s.calls ++ (if m = .initAndOpenFile then
        [Call.initAndOpenFile entry ((s.heap entry).getFilePath t)
          (s.heap entry).fileEntry.length] else []) := by
      rw [hcalls, List.append_cons, initsOf_append, initsOf_append, initsOf_call]
      have : initsOf (if DiskWriterEntry._directIO (s.heap entry) = true then
          [Call.enableDirectIO entry] else []) = [] := by
        split <;> rfl
      rw [this, List.append_nil]
    have hcl : closesOf c = closesOf s.calls := by
      rw [hcalls, List.append_cons, closesOf_append, closesOf_append]
      have h1 : closesOf [m.call entry ((s.heap entry).getFilePath t)
          (s.heap entry).fileEntry.length] = [] := by cases m <;> rfl
      have h2 : closesOf (if DiskWriterEntry._directIO (s.heap entry) = true then
          [Call.enableDirectIO entry] else []) = [] := by
        split <;> rfl
      rw [h1, h2, List.append_nil, List.append_nil]
    by_cases hcap : s._maxOpenFiles ≤ s._openedDiskWriterEntries.length
    · rcases hv : s._openedDiskWriterEntries[(X.getRandomNumber w
          s._openedDiskWriterEntries.length).1]? with _ | victim
      · have : (openIfNot X entry m t s).1 = .error .invalidAccess := by
          simp only [openIfNot, DiskWriterEntry.isOpen, hclosed, hr, Bool.not_false, if_true,
            ge_iff_le, hcap, hv]
        rw [this] at hok
        cases hok
      · have hvo : (s.heap victim)._open = true := hc.2 victim (List.getElem?_mem hv)
        have hne : victim ≠ entry := by
          intro h; rw [h, hclosed] at hvo; cases hvo
        have e : (openIfNot X entry m t s).2.calls =
            (DiskWriterEntry.closeFile X victim
              { s with world := (X.getRandomNumber w s._openedDiskWriterEntries.length).2,
                       calls := c ++ [Call.getRandomNumber s._openedDiskWriterEntries.length],
                       heap := Function.update s.heap entry
                         { s.heap entry with _open := true } }).calls := by
          simp only [openIfNot, DiskWriterEntry.isOpen, hclosed, hr, Bool.not_false, if_true,
            ge_iff_le, hcap, hv]
        rw [e, closeFile_entry_calls_eq]
        simp only [Function.update_noteq hne, hvo, if_true, initsOf_append, closesOf_append,
          hi, hcl, hcap, List.length_append]
        exact ⟨by simp [initsOf, Call.isInit], by simp [closesOf, Call.isCloseFile]⟩
    · have e : (openIfNot X entry m t s).2.calls = c := by
        simp only [openIfNot, DiskWriterEntry.isOpen, hclosed, hr, Bool.not_false, if_true,
          ge_iff_le, hcap, if_false]
      rw [e, hi, hcl]
      simp [hcap]

/-- The cache after a miss that returns: one slot more while there is room, otherwise the
same slots with one of them given to the entry. -/
theorem openIfNot_miss_cache (X : Ext W) (entry : Nat) (m : OpenMethod) (t : String)
    (s : MultiDiskAdaptor W) (hclosed : (s.heap entry)._open = false)
    (hok : (openIfNot X entry m t s).1 = .ok ()) :
    (∀ h ∈ (openIfNot X entry m t s).2._openedDiskWriterEntries,
      h ∈ s._openedDiskWriterEntries ∨ h = entry) ∧
    (openIfNot X entry m t s).2._openedDiskWriterEntries.length =
      if s._maxOpenFiles ≤ s._openedDiskWriterEntries.length then
        s._openedDiskWriterEntries.length
      else s._openedDiskWriterEntries.length + 1 := by
  rcases openIfNot_cases X entry m t s with ⟨ho, _⟩ | ⟨_, h⟩
  · rw [hclosed] at ho; cases ho
  · rcases h with ⟨msg, w, c, e⟩ | ⟨w, c, _, e⟩ | ⟨w, c, hlt, e⟩ | ⟨w, c, idx, victim, hcap, hv, e⟩
    · rw [e] at hok; cases hok
    · rw [e] at hok; cases hok
    · rw [e]
      refine ⟨?_, ?_⟩
      · intro h hh
        simpa using hh
      · simp only [List.length_append, List.length_singleton]
        rw [if_neg (by omega)]
    · rw [e]
      refine ⟨?_, ?_⟩
      · intro h hh
        exact List.mem_or_eq_of_mem_set hh
      · simp only [List.length_set]
        rw [if_pos hcap]

theorem getFilePath_sameConfig {s s' : MultiDiskAdaptor W} (h : SameConfig s s') (x : Nat)
    (t : String) : (s'.heap x).getFilePath t = (s.heap x).getFilePath t := by
  simp only [DiskWriterEntry.getFilePath, h.fileEntry]

/-- The loop of `initAndOpenFile` over entries that are not in the cache yet, `done` being
the entries already visited. -/
theorem initAndOpenLoop_counts (X : Ext W) :
    ∀ (l done : List Nat) (s : MultiDiskAdaptor W),
      CacheOpen s → OpenInCache s → (∀ h ∈ s._openedDiskWriterEntries, h ∈ done) →
      (done ++ l).Nodup →
      s._openedDiskWriterEntries.length = min done.length s._maxOpenFiles →
      (initAndOpenLoop X l s).1 = .ok () →
      CacheOpen (initAndOpenLoop X l s).2 ∧ OpenInCache (initAndOpenLoop X l s).2 ∧
      (∀ h ∈ (initAndOpenLoop X l s).2._openedDiskWriterEntries, h ∈ done ++ l) ∧
      (initAndOpenLoop X l s).2._openedDiskWriterEntries.length =
        min (done.length + l.length) s._maxOpenFiles ∧
      SameConfig s (initAndOpenLoop X l s).2 ∧
      initsOf (initAndOpenLoop X l s).2.calls =
        initsOf s.calls ++ l.map (fun h => Call.initAndOpenFile h
          ((s.heap h).getFilePath s._cachedTopDirPath) (s.heap h).fileEntry.length) ∧
      (closesOf (initAndOpenLoop X l s).2.calls).length + (done.length - s._maxOpenFiles) =
        (closesOf s.calls).length + (done.length + l.length - s._maxOpenFiles) ∧
      (∀ h, l.getLast? = some h → ((initAndOpenLoop X l s).2.heap h)._open = true) := by
  intro l
  induction l with
  | nil =>
    intro done s hc ho hsub _ hlen _
    simp only [initAndOpenLoop, List.append_nil, List.length_nil, Nat.add_zero, List.map_nil,
      List.getLast?_nil]
    exact ⟨hc, ho, hsub, hlen, SameConfig.refl s, trivial, trivial, fun _ h => by cases h⟩
  | cons h rest ih =>
    intro done s hc ho hsub hnd hlen hok
    have hnotin : h ∉ done := by
      intro hd
      have := List.nodup_append.mp hnd
      exact this.2.2 hd (List.mem_cons_self _ _)
    have hclosed : (s.heap h)._open = false := by
      by_contra hcon
      have : (s.heap h)._open = true := by simpa using hcon
      exact hnotin (hsub h (ho h this))
    rcases hop : openIfNot X h .initAndOpenFile s._cachedTopDirPath s with ⟨r, s1⟩
    cases r with
    | error e =>
      simp only [initAndOpenLoop, hop] at hok
      cases hok
    | ok u =>
      have hloop : initAndOpenLoop X (h :: rest) s = initAndOpenLoop X rest s1 := by
        simp only [initAndOpenLoop, hop]
      rw [hloop] at hok ⊢
      have hok1 : (openIfNot X h .initAndOpenFile s._cachedTopDirPath s).1 = .ok () := by
        rw [hop]
      have hub : (openIfNot X h .initAndOpenFile s._cachedTopDirPath s).1 ≠
          .error .invalidAccess := by rw [hok1]; intro hh; cases hh
      have c1 := openIfNot_cacheOpen X h .initAndOpenFile s._cachedTopDirPath s hc hub
      have c2 := openIfNot_openInCache X h .initAndOpenFile s._cachedTopDirPath s ho hub
      have c3 := openIfNot_miss_cache X h .initAndOpenFile s._cachedTopDirPath s hclosed hok1
      have c4 := openIfNot_sameConfig X h .initAndOpenFile s._cachedTopDirPath s
      have c5 := openIfNot_miss_calls X h .initAndOpenFile s._cachedTopDirPath s hc hclosed hok1
      rw [hop] at c1 c2 c3 c4 c5
      simp only at c1 c2 c3 c4 c5
      have hsub1 : ∀ x ∈ s1._openedDiskWriterEntries, x ∈ done ++ [h] := by
        intro x hx
        rcases c3.1 x hx with hx | hx
        · exact List.mem_append_left _ (hsub x hx)
        · exact List.mem_append_right _ (by simp [hx])
      have hlen1 : s1._openedDiskWriterEntries.length =
          min (done ++ [h]).length s1._maxOpenFiles := by
        rw [c3.2, c4.maxOpenFiles, List.length_append, List.length_singleton]
        split <;> omega
      obtain ⟨i1, i2, i3, i4, i5, i6, i7, i8⟩ := ih (done ++ [h]) s1 c1.1 c2 hsub1
        (by rw [List.append_assoc]; exact hnd) hlen1 hok
      refine ⟨i1, i2, ?_, ?_, c4.trans i5, ?_, ?_, ?_⟩
      · intro x hx
        have := i3 x hx
        rw [List.append_assoc] at this
        exact this
      · rw [i4, c4.maxOpenFiles, List.length_append, List.length_singleton, List.length_cons]
        congr 1
        omega
      · rw [i6, c5.1]
        simp only [if_true, List.append_assoc, List.singleton_append, List.map_cons,
          c4.cachedTopDirPath]
        congr 2
        apply List.map_congr_left
        intro x _
        rw [getFilePath_sameConfig c4, c4.fileEntry]
      · rw [c4.maxOpenFiles, List.length_append, List.length_singleton] at i7
        rw [List.length_cons]
        have := c5.2
        split at this <;> omega
      · intro x hx
        cases rest with
        | nil =>
          simp only [List.getLast?_singleton, Option.some.injEq] at hx
          subst hx
          simp only [initAndOpenLoop]
          exact c1.2 trivial
        | cons h2 rest2 =>
          rw [List.getLast?_cons_cons] at hx
          exact i8 x hx

theorem mkdirLoop_calls (X : Ext W) (t : String) :
    ∀ (l : List FileEntry) (s : MultiDiskAdaptor W),
      initsOf (mkdirLoop X t l s).2.calls = initsOf s.calls ∧
      closesOf (mkdirLoop X t l s).2.calls = closesOf s.calls := by
  intro l
  induction l with
  | nil => intro s; exact ⟨rfl, rfl⟩
  | cons fe rest ih =>
    intro s
    rcases hd : X.setupDir s.world fe t with ⟨r, w⟩
    cases r with
    | error msg =>
      simp only [mkdirLoop, hd, initsOf_append, closesOf_append]
      exact ⟨by simp [initsOf, Call.isInit], by simp [closesOf, Call.isCloseFile]⟩
    | ok u =>
      simp only [mkdirLoop, hd]
      obtain ⟨h1, h2⟩ := ih { s with calls := s.calls ++ [Call.setupDir fe t], world := w }
      rw [h1, h2]
      simp only [initsOf_append, closesOf_append]
      exact ⟨by simp [initsOf, Call.isInit], by simp [closesOf, Call.isCloseFile]⟩

theorem resetDiskWriterEntries_calls (X : Ext W) (s : MultiDiskAdaptor W) :
    initsOf (resetDiskWriterEntries X s).calls = initsOf s.calls ∧
    closesOf (resetDiskWriterEntries X s).calls = closesOf s.calls := by
  refine resetDiskWriterEntries_preserves X
    (fun s' => initsOf s'.calls = initsOf s.calls ∧ closesOf s'.calls = closesOf s.calls)
    (fun _ h => h) ?_ s ⟨rfl, rfl⟩
  intro s' fe h
  simp only [pushNewEntry, initsOf_append, closesOf_append, h.1, h.2]
  exact ⟨by simp [initsOf, Call.isInit], by simp [closesOf, Call.isCloseFile]⟩

/-- The handles of a rebuilt entry sequence are the next free addresses, in order. -/
theorem resetDiskWriterEntries_handles (X : Ext W) (s : MultiDiskAdaptor W) :
    (resetDiskWriterEntries X s).diskWriterEntries =
      List.range' s.nextHandle s.fileEntries.length := by
  have key : ∀ (l : List FileEntry) (s' : MultiDiskAdaptor W),
      (l.foldl (pushNewEntry X) s').diskWriterEntries =
        s'.diskWriterEntries ++ List.range' s'.nextHandle l.length := by
    intro l
    induction l with
    | nil => intro s'; simp
    | cons fe rest ih =>
      intro s'
      rw [List.foldl_cons, ih]
      simp only [pushNewEntry, List.length_cons, List.range'_succ, List.append_assoc,
        List.singleton_append]
  unfold resetDiskWriterEntries
  rw [key]
  rfl

/-- On a cache of distinct open entries that holds every open entry and only entries of the
sequence, the open entries of the sequence are as many as the slots of the cache. -/
theorem openCount_eq_cache (s : MultiDiskAdaptor W) (hc : CacheOpen s) (ho : OpenInCache s)
    (hsub : ∀ h ∈ s._openedDiskWriterEntries, h ∈ s.diskWriterEntries)
    (hnd : s.diskWriterEntries.Nodup) :
    openCount s = s._openedDiskWriterEntries.length := by
  unfold openCount
  rw [List.countP_eq_length_filter]
  apply List.Perm.length_eq
  rw [List.perm_ext_iff_of_nodup (hnd.filter _) hc.1]
  intro a
  simp only [List.mem_filter]
  constructor
  · rintro ⟨_, h2⟩
    exact ho a h2
  · intro h
    exact ⟨hsub a h, hc.2 a h⟩

/-- Claim C16. On a newly constructed adaptor over `n` file entries with capacity `m`, when
`initAndOpenFile()` returns: the entry sequence holds the `n` new entries in the order of
the file entries; the create-and-truncate opens recorded are exactly one per entry, in the
order of the sequence, each with the path and the length of its file; `min(n, m)` entries
are open and fill as many slots of the cache; `n - m` backend closes (evictions) have been
made, none if `n ≤ m`; and the last entry of the sequence is open. -/
theorem initAndOpenFile_opens_all (X : Ext W) (DEFAULT_MAX_OPEN_FILES m : Nat)
    (fileEntries : List FileEntry) (storeDir topDir : String) (directIOAllowed : Bool)
    (world : W)
    (hok : (initAndOpenFile X (setMaxOpenFiles m (MultiDiskAdaptor.create
      DEFAULT_MAX_OPEN_FILES fileEntries storeDir topDir directIOAllowed world))).1 = .ok ()) :
    (initAndOpenFile X (setMaxOpenFiles m (MultiDiskAdaptor.create DEFAULT_MAX_OPEN_FILES
      fileEntries storeDir topDir directIOAllowed world))).2.diskWriterEntries =
        List.range fileEntries.length ∧
    filesOf (initAndOpenFile X (setMaxOpenFiles m (MultiDiskAdaptor.create
        DEFAULT_MAX_OPEN_FILES fileEntries storeDir topDir directIOAllowed world))).2.heap
      (List.range fileEntries.length) = fileEntries ∧
    initsOf (initAndOpenFile X (setMaxOpenFiles m (MultiDiskAdaptor.create
        DEFAULT_MAX_OPEN_FILES fileEntries storeDir topDir directIOAllowed world))).2.calls =
      (List.range fileEntries.length).map (fun h => Call.initAndOpenFile h
        (storeDir ++ "/" ++ topDir ++ "/" ++
          ((initAndOpenFile X (setMaxOpenFiles m (MultiDiskAdaptor.create
            DEFAULT_MAX_OPEN_FILES fileEntries storeDir topDir directIOAllowed
            world))).2.heap h).fileEntry.path)
        ((initAndOpenFile X (setMaxOpenFiles m (MultiDiskAdaptor.create
            DEFAULT_MAX_OPEN_FILES fileEntries storeDir topDir directIOAllowed
            world))).2.heap h).fileEntry.length) ∧
    openCount (initAndOpenFile X (setMaxOpenFiles m (MultiDiskAdaptor.create
      DEFAULT_MAX_OPEN_FILES fileEntries storeDir topDir directIOAllowed world))).2 =
        min fileEntries.length m ∧
    (initAndOpenFile X (setMaxOpenFiles m (MultiDiskAdaptor.create DEFAULT_MAX_OPEN_FILES
      fileEntries storeDir topDir directIOAllowed world))).2._openedDiskWriterEntries.length =
        min fileEntries.length m ∧
    (closesOf (initAndOpenFile X (setMaxOpenFiles m (MultiDiskAdaptor.create
      DEFAULT_MAX_OPEN_FILES fileEntries storeDir topDir directIOAllowed world))).2.calls).length
        = fileEntries.length - m ∧
    (∀ h, (List.range fileEntries.length).getLast? = some h →
      ((initAndOpenFile X (setMaxOpenFiles m (MultiDiskAdaptor.create DEFAULT_MAX_OPEN_FILES
        fileEntries storeDir topDir directIOAllowed world))).2.heap h)._open = true) := by
  generalize hs0 : setMaxOpenFiles m (MultiDiskAdaptor.create DEFAULT_MAX_OPEN_FILES
    fileEntries storeDir topDir directIOAllowed world) = s0 at hok ⊢
  have f1 : s0.fileEntries = fileEntries := by rw [← hs0]; rfl
  have f2 : s0.getTopDirPath = storeDir ++ "/" ++ topDir := by rw [← hs0]; rfl
  have f3 : s0._openedDiskWriterEntries = [] := by rw [← hs0]; rfl
  have f4 : ∀ h, (s0.heap h)._open = false := by rw [← hs0]; intro h; rfl
  have f5 : s0.nextHandle = 0 := by rw [← hs0]; rfl
  have f6 : s0._maxOpenFiles = m := by rw [← hs0]; rfl
  have f7 : s0.calls = [] := by rw [← hs0]; rfl
  obtain ⟨w, c, hsh, _⟩ := mkdirLoop_shape X s0.getTopDirPath s0.fileEntries
    { s0 with _cachedTopDirPath := s0.getTopDirPath }
  have hmc := mkdirLoop_calls X s0.getTopDirPath s0.fileEntries
    { s0 with _cachedTopDirPath := s0.getTopDirPath }
  rcases hmk : mkdirLoop X s0.getTopDirPath s0.fileEntries
    { s0 with _cachedTopDirPath := s0.getTopDirPath } with ⟨r, s2⟩
  rw [hmk] at hsh hmc
  simp only at hsh hmc
  cases r with
  | error e =>
    simp only [initAndOpenFile, mkdir, hmk] at hok
    cases hok
  | ok u =>
    have e : initAndOpenFile X s0 = initAndOpenLoop X
        (resetDiskWriterEntries X s2).diskWriterEntries (resetDiskWriterEntries X s2) := by
      simp only [initAndOpenFile, mkdir, hmk]
    rw [e] at hok ⊢
    -- the state after the rebuild
    have g1 : (resetDiskWriterEntries X s2).diskWriterEntries =
        List.range fileEntries.length := by
      rw [resetDiskWriterEntries_handles, hsh, List.range_eq_range']
      simp only [f5, f1]
    have g2 : (resetDiskWriterEntries X s2)._openedDiskWriterEntries = [] := by
      rw [(resetDiskWriterEntries_config X s2).2.2.2, hsh]; exact f3
    have g3 : ∀ h, ((resetDiskWriterEntries X s2).heap h)._open = false := by
      intro h
      by_contra hcon
      have h1 : ((resetDiskWriterEntries X s2).heap h)._open = true := by simpa using hcon
      have h2 := (resetDiskWriterEntries_closed X s2).1 h h1
      rw [hsh] at h2
      simp only at h2
      rw [f4 h] at h2
      cases h2
    have g4 : (resetDiskWriterEntries X s2)._maxOpenFiles = m := by
      rw [(resetDiskWriterEntries_cached X s2).2, hsh]; exact f6
    have g5 : (resetDiskWriterEntries X s2)._cachedTopDirPath = storeDir ++ "/" ++ topDir := by
      rw [(resetDiskWriterEntries_cached X s2).1, hsh]; exact f2
    have g6 : filesOf (resetDiskWriterEntries X s2).heap
        (resetDiskWriterEntries X s2).diskWriterEntries = fileEntries := by
      rw [resetDiskWriterEntries_filesOf, hsh]; exact f1
    have g7 : initsOf (resetDiskWriterEntries X s2).calls = [] ∧
        closesOf (resetDiskWriterEntries X s2).calls = [] := by
      obtain ⟨k1, k2⟩ := resetDiskWriterEntries_calls X s2
      rw [k1, k2, hmc.1, hmc.2, f7]
      exact ⟨rfl, rfl⟩
    generalize resetDiskWriterEntries X s2 = s3 at hok g1 g2 g3 g4 g5 g6 g7 ⊢
    obtain ⟨i1, i2, i3, i4, i5, i6, i7, i8⟩ := initAndOpenLoop_counts X s3.diskWriterEntries []
      s3 ⟨by rw [g2]; exact List.nodup_nil, by rw [g2]; intro h hh; cases hh⟩
      (by intro h hh; rw [g3 h] at hh; cases hh) (by rw [g2]; intro h hh; cases hh)
      (by rw [List.nil_append, g1]; exact List.nodup_range _)
      (by rw [g2]; simp) hok
    have hd : (initAndOpenLoop X s3.diskWriterEntries s3).2.diskWriterEntries =
        List.range fileEntries.length := by rw [i5.diskWriterEntries, g1]
    have hlen : s3.diskWriterEntries.length = fileEntries.length := by
      rw [g1, List.length_range]
    refine ⟨hd, ?_, ?_, ?_, ?_, ?_, ?_⟩
    · rw [← hd, filesOf_sameConfig i5, g6]
    · rw [i6, g7.1, List.nil_append, g1, g5]
      apply List.map_congr_left
      intro x _
      have hfe := i5.fileEntry x
      rw [g1] at hfe
      simp only [DiskWriterEntry.getFilePath, hfe]
    · rw [openCount_eq_cache _ i1 i2 (by
        intro h hh
        have := i3 h hh
        rw [List.nil_append] at this
        rw [i5.diskWriterEntries]
        exact this) (by rw [hd]; exact List.nodup_range _), i4, g4, hlen]
      simp
    · rw [i4, g4, hlen]
      simp
    · rw [g7.2, g4, hlen] at i7
      simp only [List.length_nil, Nat.zero_sub, Nat.add_zero, Nat.zero_add] at i7
      exact i7
    · intro h hh
      rw [← g1] at hh
      exact i8 h hh

theorem openWith_inSync (X : Ext W) (mode : W → Nat → Bool) (hB : DirectIOBackend X mode)
    (m : OpenMethod) (h : Nat) (t : String) (s : MultiDiskAdaptor W) (hs : InSync mode s) :
    InSync mode (DiskWriterEntry.openWith X m h t s).2 := by
  rcases hb : m.backend X s.world h ((s.heap h).getFilePath t) (s.heap h).fileEntry.length
    with ⟨r, w'⟩
  cases r with
  | error msg =>
    have hf := hB.failed m _ _ _ _ _ _ hb
    intro x hx
    simp only [DiskWriterEntry.openWith, hb] at hx ⊢
    rw [hf x]
    exact hs x hx
  | ok u =>
    obtain ⟨ho1, ho2⟩ := hB.opened m _ _ _ _ _ _ hb
    intro x hx
    by_cases hd : DiskWriterEntry._directIO (s.heap h) = true
    · simp only [DiskWriterEntry.openWith, hb, hd, if_true] at hx ⊢
      by_cases hxh : x = h
      · subst hxh
        simp only [Function.update_same]
        rw [(hB.enabled w' x).1]
      · simp only [Function.update_noteq hxh] at hx ⊢
        rw [(hB.enabled w' h).2 x hxh, ho2 x hxh]
        exact hs x hx
    · have hd' : DiskWriterEntry._directIO (s.heap h) = false := by simpa using hd
      simp only [DiskWriterEntry.openWith, hb, hd', if_false, Bool.false_eq_true] at hx ⊢
      by_cases hxh : x = h
      · subst hxh
        simp only [Function.update_same]
        rw [ho1]
      · simp only [Function.update_noteq hxh] at hx ⊢
        rw [ho2 x hxh]
        exact hs x hx

theorem closeFile_entry_inSync (X : Ext W) (mode : W → Nat → Bool)
    (hB : DirectIOBackend X mode) (h : Nat) (s : MultiDiskAdaptor W) (hs : InSync mode s) :
    InSync mode (DiskWriterEntry.closeFile X h s) := by
  intro x hx
  unfold DiskWriterEntry.closeFile at hx ⊢
  by_cases ho : (s.heap h)._open = true
  · simp only [ho, if_true] at hx ⊢
    by_cases hxh : x = h
    · subst hxh
      simp only [Function.update_same] at hx
      cases hx
    · simp only [Function.update_noteq hxh] at hx ⊢
      rw [hB.closed _ h x hxh]
      exact hs x hx
  · simp only [ho, if_false, Bool.false_eq_true] at hx ⊢
    exact hs x hx

/-- What `DiskWriterEntry::enableDirectIO` changes. -/
theorem enableDirectIO_entry (X : Ext W) (mode : W → Nat → Bool) (hB : DirectIOBackend X mode)
    (h : Nat) (s : MultiDiskAdaptor W) :
    (InSync mode s → InSync mode (DiskWriterEntry.enableDirectIO X h s)) ∧
    (∀ x, ((DiskWriterEntry.enableDirectIO X h s).heap x)._open = (s.heap x)._open) ∧
    (∀ x, DiskWriterEntry._directIO ((DiskWriterEntry.enableDirectIO X h s).heap x) =
      if x = h then true else DiskWriterEntry._directIO (s.heap x)) ∧
    (DiskWriterEntry.enableDirectIO X h s).diskWriterEntries = s.diskWriterEntries := by
  have hworld : (DiskWriterEntry.enableDirectIO X h s).world =
      if (s.heap h)._open then X.enableDirectIO s.world h else s.world := by
    by_cases ho : (s.heap h)._open = true <;> simp [DiskWriterEntry.enableDirectIO, ho]
  have hopen : ∀ x, ((DiskWriterEntry.enableDirectIO X h s).heap x)._open = (s.heap x)._open := by
    intro x
    by_cases ho : (s.heap h)._open = true <;> by_cases hxh : x = h <;>
      simp [DiskWriterEntry.enableDirectIO, ho, hxh, Function.update_apply]
  have hflag : ∀ x, DiskWriterEntry._directIO ((DiskWriterEntry.enableDirectIO X h s).heap x) =
      if x = h then true else DiskWriterEntry._directIO (s.heap x) := by
    intro x
    by_cases ho : (s.heap h)._open = true <;> by_cases hxh : x = h <;>
      simp [DiskWriterEntry.enableDirectIO, ho, hxh, Function.update_apply]
  have hseq : (DiskWriterEntry.enableDirectIO X h s).diskWriterEntries = s.diskWriterEntries := by
    by_cases ho : (s.heap h)._open = true <;> simp [DiskWriterEntry.enableDirectIO, ho]
  refine ⟨?_, hopen, hflag, hseq⟩
  intro hs x hx
  rw [hopen x] at hx
  rw [hworld, hflag x]
  by_cases hxh : x = h
  · subst hxh
    rw [hx, if_pos rfl, if_pos rfl]
    exact (hB.enabled _ x).1
  · rw [if_neg hxh]
    by_cases ho : (s.heap h)._open = true
    · rw [ho, if_pos rfl, (hB.enabled _ h).2 x hxh]
      exact hs x hx
    · have ho' : (s.heap h)._open = false := by simpa using ho
      rw [ho']
      exact hs x hx

/-- What `DiskWriterEntry::disableDirectIO` changes. -/
theorem disableDirectIO_entry (X : Ext W) (mode : W → Nat → Bool) (hB : DirectIOBackend X mode)
    (h : Nat) (s : MultiDiskAdaptor W) :
    (InSync mode s → InSync mode (DiskWriterEntry.disableDirectIO X h s)) ∧
    (∀ x, ((DiskWriterEntry.disableDirectIO X h s).heap x)._open = (s.heap x)._open) ∧
    (∀ x, DiskWriterEntry._directIO ((DiskWriterEntry.disableDirectIO X h s).heap x) =
      if x = h then false else DiskWriterEntry._directIO (s.heap x)) ∧
    (DiskWriterEntry.disableDirectIO X h s).diskWriterEntries = s.diskWriterEntries := by
  have hworld : (DiskWriterEntry.disableDirectIO X h s).world =
      if (s.heap h)._open then X.disableDirectIO s.world h else s.world := by
    by_cases ho : (s.heap h)._open = true <;> simp [DiskWriterEntry.disableDirectIO, ho]
  have hopen : ∀ x, ((DiskWriterEntry.disableDirectIO X h s).heap x)._open = (s.heap x)._open := by
    intro x
    by_cases ho : (s.heap h)._open = true <;> by_cases hxh : x = h <;>
      simp [DiskWriterEntry.disableDirectIO, ho, hxh, Function.update_apply]
  have hflag : ∀ x, DiskWriterEntry._directIO ((DiskWriterEntry.disableDirectIO X h s).heap x) =
      if x = h then false else DiskWriterEntry._directIO (s.heap x) := by
    intro x
    by_cases ho : (s.heap h)._open = true <;> by_cases hxh : x = h <;>
      simp [DiskWriterEntry.disableDirectIO, ho, hxh, Function.update_apply]
  have hseq : (DiskWriterEntry.disableDirectIO X h s).diskWriterEntries = s.diskWriterEntries := by
    by_cases ho : (s.heap h)._open = true <;> simp [DiskWriterEntry.disableDirectIO, ho]
  refine ⟨?_, hopen, hflag, hseq⟩
  intro hs x hx
  rw [hopen x] at hx
  rw [hworld, hflag x]
  by_cases hxh : x = h
  · subst hxh
    rw [hx, if_pos rfl, if_pos rfl]
    exact (hB.disabled _ x).1
  · rw [if_neg hxh]
    by_cases ho : (s.heap h)._open = true
    · rw [ho, if_pos rfl, (hB.disabled _ h).2 x hxh]
      exact hs x hx
    · have ho' : (s.heap h)._open = false := by simpa using ho
      rw [ho']
      exact hs x hx

theorem enableDirectIO_loop (X : Ext W) (mode : W → Nat → Bool) (hB : DirectIOBackend X mode) :
    ∀ (l : List Nat) (s : MultiDiskAdaptor W),
      (InSync mode s →
        InSync mode (l.foldl (fun st h => DiskWriterEntry.enableDirectIO X h st) s)) ∧
      (∀ x, ((l.foldl (fun st h => DiskWriterEntry.enableDirectIO X h st) s).heap x)._open =
        (s.heap x)._open) ∧
      (∀ x, DiskWriterEntry._directIO
          ((l.foldl (fun st h => DiskWriterEntry.enableDirectIO X h st) s).heap x) =
        if x ∈ l then true else DiskWriterEntry._directIO (s.heap x)) ∧
      (l.foldl (fun st h => DiskWriterEntry.enableDirectIO X h st) s).diskWriterEntries =
        s.diskWriterEntries := by
  intro l
  induction l with
  | nil => intro s; exact ⟨fun h => h, fun _ => rfl, fun _ => by simp, rfl⟩
  | cons h rest ih =>
    intro s
    obtain ⟨a1, a2, a3, a4⟩ := enableDirectIO_entry X mode hB h s
    obtain ⟨b1, b2, b3, b4⟩ := ih (DiskWriterEntry.enableDirectIO X h s)
    simp only [List.foldl_cons]
    refine ⟨fun hs => b1 (a1 hs), fun x => (b2 x).trans (a2 x), ?_, b4.trans a4⟩
    intro x
    rw [b3 x, a3 x]
    by_cases h1 : x ∈ rest <;> by_cases h2 : x = h <;> simp [h1, h2]

theorem disableDirectIO_loop (X : Ext W) (mode : W → Nat → Bool) (hB : DirectIOBackend X mode) :
    ∀ (l : List Nat) (s : MultiDiskAdaptor W),
      (InSync mode s →
        InSync mode (l.foldl (fun st h => DiskWriterEntry.disableDirectIO X h st) s)) ∧
      (∀ x, ((l.foldl (fun st h => DiskWriterEntry.disableDirectIO X h st) s).heap x)._open =
        (s.heap x)._open) ∧
      (∀ x, DiskWriterEntry._directIO
          ((l.foldl (fun st h => DiskWriterEntry.disableDirectIO X h st) s).heap x) =
        if x ∈ l then false else DiskWriterEntry._directIO (s.heap x)) ∧
      (l.foldl (fun st h => DiskWriterEntry.disableDirectIO X h st) s).diskWriterEntries =
        s.diskWriterEntries := by
  intro l
  induction l with
  | nil => intro s; exact ⟨fun h => h, fun _ => rfl, fun _ => by simp, rfl⟩
  | cons h rest ih =>
    intro s
    obtain ⟨a1, a2, a3, a4⟩ := disableDirectIO_entry X mode hB h s
    obtain ⟨b1, b2, b3, b4⟩ := ih (DiskWriterEntry.disableDirectIO X h s)
    simp only [List.foldl_cons]
    refine ⟨fun hs => b1 (a1 hs), fun x => (b2 x).trans (a2 x), ?_, b4.trans a4⟩
    intro x
    rw [b3 x, a3 x]
    by_cases h1 : x ∈ rest <;> by_cases h2 : x = h <;> simp [h1, h2]

/-- One operation keeps the modes in step with the sticky flags, changes the sticky flags
as requested and leaves the entry sequence alone. -/
theorem directStep_spec (X : Ext W) (mode : W → Nat → Bool) (hB : DirectIOBackend X mode)
    (op : DirectOp) (s : MultiDiskAdaptor W) :
    (InSync mode s → InSync mode (directStep X op s)) ∧
    (∀ x, DiskWriterEntry._directIO ((directStep X op s).heap x) =
      requested s.diskWriterEntries x [op] (DiskWriterEntry._directIO (s.heap x))) ∧
    (directStep X op s).diskWriterEntries = s.diskWriterEntries := by
  refine ⟨?_, ?_, ?_⟩
  · intro hs
    cases op with
    | openWith m h t => cases m <;> exact openWith_inSync X mode hB _ h t s hs
    | closeFile h => exact closeFile_entry_inSync X mode hB h s hs
    | enable h => exact (enableDirectIO_entry X mode hB h s).1 hs
    | disable h => exact (disableDirectIO_entry X mode hB h s).1 hs
    | enableAll => exact (enableDirectIO_loop X mode hB s.diskWriterEntries s).1 hs
    | disableAll => exact (disableDirectIO_loop X mode hB s.diskWriterEntries s).1 hs
  · intro x
    cases op with
    | openWith m h t =>
      simp only [directStep, requested]
      rcases run_shape X m h t s with ⟨msg, w, c, e⟩ | ⟨w, c, e⟩
      · rw [e]
      · rw [e]
        by_cases hxh : x = h
        · subst hxh; simp only [Function.update_same]
        · simp only [Function.update_noteq hxh]
    | closeFile h =>
      simp only [directStep, requested]
      exact SameConfig.directIO (closeFile_entry_sameConfig X h s) x
    | enable h =>
      simp only [directStep, requested]
      rw [(enableDirectIO_entry X mode hB h s).2.2.1 x]
      by_cases hxh : x = h
      · subst hxh; simp
      · simp [hxh, Ne.symm hxh]
    | disable h =>
      simp only [directStep, requested]
      rw [(disableDirectIO_entry X mode hB h s).2.2.1 x]
      by_cases hxh : x = h
      · subst hxh; simp
      · simp [hxh, Ne.symm hxh]
    | enableAll =>
      simp only [directStep, requested]
      exact (enableDirectIO_loop X mode hB s.diskWriterEntries s).2.2.1 x
    | disableAll =>
      simp only [directStep, requested]
      exact (disableDirectIO_loop X mode hB s.diskWriterEntries s).2.2.1 x
  · cases op with
    | openWith m h t =>
      simp only [directStep]
      rcases run_shape X m h t s with ⟨msg, w, c, e⟩ | ⟨w, c, e⟩ <;> rw [e]
    | closeFile h => exact (closeFile_entry_sameConfig X h s).diskWriterEntries
    | enable h => exact (enableDirectIO_entry X mode hB h s).2.2.2
    | disable h => exact (disableDirectIO_entry X mode hB h s).2.2.2
    | enableAll => exact (enableDirectIO_loop X mode hB s.diskWriterEntries s).2.2.2
    | disableAll => exact (disableDirectIO_loop X mode hB s.diskWriterEntries s).2.2.2

theorem requested_cons (entries : List Nat) (h : Nat) (op : DirectOp) (ops : List DirectOp)
    (flag : Bool) :
    requested entries h (op :: ops) flag = requested entries h ops (requested entries h [op] flag) := by
  cases op <;> rfl

theorem modeBackend_directIO : DirectIOBackend modeBackend (fun w h => w h) where
  opened := by
    intro m w h p n w' u hb
    cases m <;>
    · simp only [OpenMethod.backend, modeBackend, Prod.mk.injEq] at hb
      rw [← hb.2]
      exact ⟨by simp, fun h' hne => by simp [Function.update_noteq hne]⟩
  failed := by
    intro m w h p n w' msg hb
    cases m <;> simp [OpenMethod.backend, modeBackend] at hb
  enabled := fun w h => ⟨by simp [modeBackend], fun h' hne => by
    simp [modeBackend, Function.update_noteq hne]⟩
  disabled := fun w h => ⟨by simp [modeBackend], fun h' hne => by
    simp [modeBackend, Function.update_noteq hne]⟩
  closed := fun _ _ _ _ => rfl

/-- Claim C17. With a backend whose objects start every open with direct I/O disabled, from
a state in which the mode of the backend object of every open entry equals the sticky flag
of the entry (as when no entry is open), after every sequence of the entry operations
`initAndOpenFile`, `openFile`, `openExistingFile`, `closeFile`, `enableDirectIO`,
`disableDirectIO` and of the adaptor's `enableDirectIO` / `disableDirectIO`: the mode of
the backend object of every open entry equals the sticky flag of the entry, and the sticky
flag of every entry is the argument of the most recent `enableDirectIO` / `disableDirectIO`
that reached it (its flag at the start if there was none; `resetDiskWriterEntries` creates
every entry with the flag `false`). The adaptor's operations change no open flag. -/
theorem directIO_in_sync (X : Ext W) (mode : W → Nat → Bool) (hB : DirectIOBackend X mode)
    (s : MultiDiskAdaptor W) (hs : InSync mode s) (ops : List DirectOp) :
    InSync mode (directRun X ops s) ∧
    (∀ h, DiskWriterEntry._directIO ((directRun X ops s).heap h) =
      requested s.diskWriterEntries h ops (DiskWriterEntry._directIO (s.heap h))) ∧
    (∀ h, ((MultiDiskAdaptor.enableDirectIO X s).heap h)._open = (s.heap h)._open) ∧
    (∀ h, ((MultiDiskAdaptor.disableDirectIO X s).heap h)._open = (s.heap h)._open) ∧
    (∀ h ∈ (resetDiskWriterEntries X s).diskWriterEntries,
      DiskWriterEntry._directIO ((resetDiskWriterEntries X s).heap h) = false) := by
  have key : ∀ (ops : List DirectOp) (s : MultiDiskAdaptor W), InSync mode s →
      InSync mode (directRun X ops s) ∧
      (∀ h, DiskWriterEntry._directIO ((directRun X ops s).heap h) =
        requested s.diskWriterEntries h ops (DiskWriterEntry._directIO (s.heap h))) := by
    intro ops
    induction ops with
    | nil => intro s hs; exact ⟨hs, fun _ => rfl⟩
    | cons op rest ih =>
      intro s hs
      obtain ⟨a1, a2, a3⟩ := directStep_spec X mode hB op s
      obtain ⟨b1, b2⟩ := ih (directStep X op s) (a1 hs)
      refine ⟨b1, ?_⟩
      intro h
      rw [requested_cons, ← a2 h, ← a3]
      exact b2 h
  refine ⟨(key ops s hs).1, (key ops s hs).2,
    (enableDirectIO_loop X mode hB s.diskWriterEntries s).2.1,
    (disableDirectIO_loop X mode hB s.diskWriterEntries s).2.1, ?_⟩
  have hr := resetDiskWriterEntries_preserves X
    (fun s' => ∀ h ∈ s'.diskWriterEntries,
      DiskWriterEntry._directIO (s'.heap h) = false ∧ h < s'.nextHandle)
    (fun s' _ => fun _ hh => by cases hh)
    (fun s' fe h => by
      intro x hx
      have hx' : x ∈ s'.diskWriterEntries ∨ x = s'.nextHandle := by
        simpa [pushNewEntry] using hx
      rcases hx' with hx' | hx'
      · have := h x hx'
        have hne : x ≠ s'.nextHandle := by omega
        simp only [pushNewEntry, Function.update_noteq hne]
        exact ⟨this.1, by omega⟩
      · subst hx'
        simp only [pushNewEntry, Function.update_same]
        exact ⟨trivial, by omega⟩)
    { s with diskWriterEntries := [] } (fun _ hh => by cases hh)
  intro h hh
  exact (hr h hh).1

/-- Claim C18. On every entry sequence sorted by offset whose first entry has offset 0
(a non-empty sequence), and for every offset `≥ 0`: the position that `std::upper_bound`
returns is at least 1 and at most the length, so that the position before it holds an
entry; that entry is the rightmost one whose offset is `≤ offset`; and
`findFirstDiskWriterEntry` does not run into the dereference of an iterator outside the
sequence: it returns that position or throws `OffsetOutOfRange`. -/
theorem findFirstDiskWriterEntry_step_back (es : List DiskWriterEntry) (offset : Int)
    (hsorted : es.Pairwise (fun a b => a.fileEntry.offset ≤ b.fileEntry.offset))
    (hfirst : ∃ e, es[0]? = some e ∧ e.fileEntry.offset = 0) (h0 : 0 ≤ offset) :
    1 ≤ upper_bound OffsetCompare offset es ∧
    upper_bound OffsetCompare offset es ≤ es.length ∧
    (∃ e, es[upper_bound OffsetCompare offset es - 1]? = some e ∧
      e.fileEntry.offset ≤ offset ∧
      ∀ (j : Nat) (e' : DiskWriterEntry), es[j]? = some e' → e'.fileEntry.offset ≤ offset →
        j ≤ upper_bound OffsetCompare offset es - 1) ∧
    findFirstDiskWriterEntry es offset ≠ .error .invalidAccess ∧
    (findFirstDiskWriterEntry es offset = .ok (upper_bound OffsetCompare offset es - 1) ∨
      findFirstDiskWriterEntry es offset = .error (.offsetOutOfRange offset)) := by
  have hmono : ∀ (i j : Nat) (x y : DiskWriterEntry), i ≤ j → es[i]? = some x →
      es[j]? = some y → OffsetCompare offset x = true → OffsetCompare offset y = true := by
    intro i j x y hij hx hy hc
    simp only [OffsetCompare, decide_eq_true_eq] at hc ⊢
    obtain ⟨hi, hxe⟩ := List.getElem?_eq_some_iff.mp hx
    obtain ⟨hj, hye⟩ := List.getElem?_eq_some_iff.mp hy
    rcases Nat.eq_or_lt_of_le hij with heq | hlt
    · subst heq
      rw [hxe] at hye
      rw [← hye]
      exact hc
    · have := (List.pairwise_iff_getElem.mp hsorted) i j hi hj hlt
      rw [hxe, hye] at this
      omega
  obtain ⟨hle, hlow, hhigh⟩ := upper_bound_spec OffsetCompare offset es hmono
  obtain ⟨e0, he0, hoff0⟩ := hfirst
  have hpos : 1 ≤ upper_bound OffsetCompare offset es := by
    by_contra hcon
    have hz : upper_bound OffsetCompare offset es ≤ 0 := by omega
    have := hhigh 0 e0 hz he0
    simp only [OffsetCompare, decide_eq_true_eq] at this
    omega
  have hlt : upper_bound OffsetCompare offset es - 1 < es.length := by omega
  have hget : es[upper_bound OffsetCompare offset es - 1]? =
      some (es[upper_bound OffsetCompare offset es - 1]) := List.getElem?_eq_getElem hlt
  have hle' : (es[upper_bound OffsetCompare offset es - 1]).fileEntry.offset ≤ offset := by
    have := hlow _ _ (by omega) hget
    simp only [OffsetCompare, decide_eq_false_iff_not] at this
    omega
  refine ⟨hpos, hle, ⟨_, hget, hle', ?_⟩, ?_, ?_⟩
  · intro j e' hj hje
    by_contra hcon
    have := hhigh j e' (by omega) hj
    simp only [OffsetCompare, decide_eq_true_eq] at this
    omega
  · simp only [findFirstDiskWriterEntry, hget]
    rw [if_neg (by omega)]
    split <;> simp
  · simp only [findFirstDiskWriterEntry, hget]
    rw [if_neg (by omega)]
    split <;> simp

/-- A cache with more slots than the capacity keeps its number of slots. -/
theorem stable_overfull (X : Ext W) (c n : Nat) (hn : n < c) :
    Stable X (fun s : MultiDiskAdaptor W =>
      s._openedDiskWriterEntries.length = c ∧ s._maxOpenFiles = n) where
  internal := fun _ _ _ h => h
  cached := fun _ _ h => h
  clear := fun _ h => h
  push := fun _ _ h => h
  access := by
    intro s h m t hs _ hub
    refine ⟨?_, (openIfNot_sameConfig X h m t s).maxOpenFiles.trans hs.2⟩
    rcases openIfNot_cases X h m t s with ⟨_, e⟩ | ⟨_, hc⟩
    · rw [e]; exact hs.1
    · rcases hc with ⟨msg, w, c', e⟩ | ⟨w, c', _, e⟩ | ⟨w, c', hlt, _⟩ | ⟨w, c', idx, v, _, _, e⟩
      · rw [e]; exact hs.1
      · rw [e] at hub; exact absurd rfl hub
      · have := hs.1; have := hs.2; omega
      · rw [e]; simp only [List.length_set]; exact hs.1

/-- On a cache of distinct open entries that holds every open entry, the allocated entries
that are open are as many as the slots of the cache. -/
theorem openEntries_eq_cache (s : MultiDiskAdaptor W) (hc : CacheOpen s) (ho : OpenInCache s)
    (ha : Allocated s) : (openEntries s).length = s._openedDiskWriterEntries.length := by
  apply List.Perm.length_eq
  unfold openEntries
  rw [List.perm_ext_iff_of_nodup (List.Nodup.filter _ (List.nodup_range _)) hc.1]
  intro a
  simp only [List.mem_filter, List.mem_range]
  constructor
  · rintro ⟨_, h2⟩
    exact ho a h2
  · intro h
    exact ⟨ha.2.1 a h, hc.2 a h⟩

/-- Every call keeps the open entries in the cache and the handles allocated. -/
theorem run_safe (X : Ext W) (ops : List Op) (s s' : MultiDiskAdaptor W)
    (hs : OpenInCache s ∧ Allocated s) (hrun : run X ops s = some s') :
    OpenInCache s' ∧ Allocated s' :=
  run_preserves X _ ops s s' (fun op _ s1 hs1 hub =>
    step_preserves X _ (stable_safe X) op s1
      (fun _ s2 h hs2 => ⟨closeFile_entry_openInCache X h s2 hs2.1,
        closeFile_entry_allocated X h s2 hs2.2⟩)
      (fun _ _ => hs1) hs1 hub) hs hrun

/-- Claim C20. In a state reached from a newly constructed adaptor by the public operations,
let the cache hold more slots than the capacity `n` that `setMaxOpenFiles(n)` configures.
Then `setMaxOpenFiles` changes nothing but the capacity (it closes nothing and leaves the
cache as it is); a following miss of `openIfNot` that returns replaces one slot of the
cache; and after any sequence of `readData`, `writeData` and `openIfNot` calls that does not
run into undefined behaviour the cache still has its slots. If the slots held distinct open
entries, the number of open entries is still the number of slots, above `n`. -/
theorem cache_never_drains (X : Ext W) (DEFAULT_MAX_OPEN_FILES : Nat)
    (fileEntries : List FileEntry) (storeDir topDir : String) (directIOAllowed : Bool)
    (world : W) (before : List Op) (s : MultiDiskAdaptor W)
    (hreach : run X before (MultiDiskAdaptor.create DEFAULT_MAX_OPEN_FILES fileEntries storeDir
      topDir directIOAllowed world) = some s) (n : Nat)
    (hlow : n < s._openedDiskWriterEntries.length) (ops : List Op)
    (hops : ∀ op ∈ ops, op.isAccess = true) (s' : MultiDiskAdaptor W)
    (hrun : run X ops (setMaxOpenFiles n s) = some s') :
    ((setMaxOpenFiles n s)._openedDiskWriterEntries = s._openedDiskWriterEntries ∧
      (setMaxOpenFiles n s).heap = s.heap ∧ (setMaxOpenFiles n s).world = s.world ∧
      (setMaxOpenFiles n s).calls = s.calls ∧ (setMaxOpenFiles n s)._maxOpenFiles = n) ∧
    (∀ entry m t, ((setMaxOpenFiles n s).heap entry)._open = false →
      (openIfNot X entry m t (setMaxOpenFiles n s)).1 = .ok () →
      ∃ idx victim, s._openedDiskWriterEntries[idx]? = some victim ∧
        (openIfNot X entry m t (setMaxOpenFiles n s)).2._openedDiskWriterEntries =
          s._openedDiskWriterEntries.set idx entry) ∧
    s'._openedDiskWriterEntries.length = s._openedDiskWriterEntries.length ∧
    s'._maxOpenFiles = n ∧
    (CacheOpen s →
      (openEntries s').length = s._openedDiskWriterEntries.length ∧
      n < (openEntries s').length) := by
  have hacc : ∀ op ∈ ops, op.isClose = false ∧ ∀ k, op ≠ .setMaxOpenFiles k := by
    intro op hop
    have := hops op hop
    cases op <;> simp_all [Op.isAccess, Op.isClose]
  obtain ⟨ho, ha⟩ := run_safe X before _ s
    ⟨fun _ hh => by simp [MultiDiskAdaptor.create] at hh,
      And.intro (fun _ hh => by cases hh)
        (And.intro (fun _ hh => by cases hh) List.nodup_nil)⟩ hreach
  refine ⟨⟨rfl, rfl, rfl, rfl, rfl⟩, ?_, ?_, ?_, ?_⟩
  · intro entry m t hclosed hok
    rcases openIfNot_cases X entry m t (setMaxOpenFiles n s) with ⟨ho, _⟩ | ⟨_, h⟩
    · rw [hclosed] at ho; cases ho
    · rcases h with ⟨msg, w, c, e⟩ | ⟨w, c, _, e⟩ | ⟨w, c, hlt, _⟩ | ⟨w, c, idx, v, _, hv, e⟩
      · rw [e] at hok; cases hok
      · rw [e] at hok; cases hok
      · have h1 : (setMaxOpenFiles n s)._maxOpenFiles = n := rfl
        have h2 : (setMaxOpenFiles n s)._openedDiskWriterEntries =
          s._openedDiskWriterEntries := rfl
        rw [h1, h2] at hlt
        omega
      · exact ⟨idx, v, hv, by rw [e]; rfl⟩
  · exact (run_preserves X _ ops (setMaxOpenFiles n s) s' (fun op hop s1 hs1 hub =>
      step_preserves X _ (stable_overfull X _ n hlow) op s1
        (fun hc => by rw [(hacc op hop).1] at hc; cases hc)
        (fun k hk => absurd hk ((hacc op hop).2 k)) hs1 hub) ⟨rfl, rfl⟩ hrun).1
  · exact (run_preserves X _ ops (setMaxOpenFiles n s) s' (fun op hop s1 hs1 hub =>
      step_preserves X _ (stable_overfull X _ n hlow) op s1
        (fun hc => by rw [(hacc op hop).1] at hc; cases hc)
        (fun k hk => absurd hk ((hacc op hop).2 k)) hs1 hub) ⟨rfl, rfl⟩ hrun).2
  · intro hc
    have hinv := run_preserves X _ ops (setMaxOpenFiles n s) s' (fun op hop s1 hs1 hub =>
      step_preserves X _
        (((stable_overfull X _ n hlow).and_stable (stable_safe X)).and_stable
          (stable_cacheOpen X)) op s1
        (fun hcl => by rw [(hacc op hop).1] at hcl; cases hcl)
        (fun k hk => absurd hk ((hacc op hop).2 k)) hs1 hub)
      (show ((_ ∧ _) ∧ (OpenInCache (setMaxOpenFiles n s) ∧ Allocated (setMaxOpenFiles n s))) ∧
          (CacheOpen (setMaxOpenFiles n s) ∧ Allocated (setMaxOpenFiles n s)) from
        ⟨⟨⟨rfl, rfl⟩, ho, ha⟩, hc, ha⟩) hrun
    obtain ⟨⟨⟨h1, _⟩, h2, h3⟩, h4, _⟩ := hinv
    have := openEntries_eq_cache s' h4 h2 h3
    rw [h1] at this
    exact ⟨this, by omega⟩

theorem MultiDiskAdaptor.SameConfig.symm {W : Type} {s s' : MultiDiskAdaptor W} (h : SameConfig s s') :
    SameConfig s' s :=
  ⟨h.fileEntries.symm, h.storeDir.symm, h.topDir.symm, h.cachedTopDirPath.symm,
    h.directIOAllowed.symm, h.maxOpenFiles.symm, h.diskWriterEntries.symm, h.nextHandle.symm,
    fun x => (h.fileEntry x).symm, fun x => Eq.symm ( SameConfig.directIO h x)⟩

theorem faithful_writeData_eq (rnd : Nat → Nat → Nat) (w : Disk) (h : Nat) (p : String)
    (chunk : List Byte) (n : Nat) (fo : Int) (hopen : w.opened h = some p) :
    (faithful rnd).writeData w h chunk n fo =
      if fo < 0 then (.error "invalid offset", w)
      else (.ok (), { w with
        files := Function.update w.files p
          (some (writeFileAt (w.content p) fo.toNat (chunk.take n))) }) := by
  simp only [faithful, hopen, Disk.content]

theorem faithful_readData_eq (rnd : Nat → Nat → Nat) (w : Disk) (h : Nat) (p : String)
    (n : Nat) (fo : Int) (hopen : w.opened h = some p) :
    (faithful rnd).readData w h n fo =
      if fo < 0 then (.error "invalid offset", w)
      else (.ok (((w.content p).drop fo.toNat).take n), w) := by
  simp only [faithful, hopen, Disk.content]

/-- A change of the external world that leaves alone which files are open keeps the adaptor
ready. -/
theorem Ready.of_world {s : MultiDiskAdaptor Disk} (hs : Ready s) (w : Disk) (c : List Call)
    (hw : w.opened = s.world.opened) : Ready { s with world := w, calls := c } := by
  obtain ⟨h1, h2, h3⟩ := hs
  refine ⟨h1, ?_, h3⟩
  intro h hh
  have := h2 h hh
  simp only [pathOf] at this ⊢
  rw [hw]
  exact this

/-- A change of the files that removes none keeps the files of the open entries in place. -/
theorem Present.of_files {s : MultiDiskAdaptor Disk} (hs : Present s) (w : Disk) (c : List Call)
    (hw : ∀ p, (s.world.files p).isSome = true → (w.files p).isSome = true) :
    Present { s with world := w, calls := c } := by
  intro h hh
  exact hw _ (hs h hh)

theorem isSome_update (f : String → Option (List Byte)) (p q : String) (c : List Byte)
    (h : (f q).isSome = true) : (Function.update f p (some c) q).isSome = true := by
  by_cases e : q = p
  · subst e; simp
  · rw [Function.update_noteq e]; exact h

/-- The files after an open method ran through the faithful backend, for the two methods
that create the file: the file of the entry holds its old bytes, cut or zero-filled to
the length of the entry by the create-and-truncate open. -/
theorem run_files (rnd : Nat → Nat → Nat) (m : OpenMethod) (h : Nat) (t : String)
    (s : MultiDiskAdaptor Disk) (hm : m ≠ .openExistingFile) :
    (m.run (faithful rnd) h t s).2.world.files =
      Function.update s.world.files ((s.heap h).getFilePath t)
        (some (if m = .initAndOpenFile then
          resizeFile (s.world.content ((s.heap h).getFilePath t)) (s.heap h).fileEntry.length
          else s.world.content ((s.heap h).getFilePath t))) := by
  cases m with
  | initAndOpenFile =>
    by_cases hd : DiskWriterEntry._directIO (s.heap h) = true <;>
      simp [OpenMethod.run, DiskWriterEntry.initAndOpenFile, DiskWriterEntry.openWith,
        OpenMethod.backend, faithful, hd, Disk.content]
  | openFile =>
    by_cases hd : DiskWriterEntry._directIO (s.heap h) = true <;>
      simp [OpenMethod.run, DiskWriterEntry.openFile, DiskWriterEntry.openWith,
        OpenMethod.backend, faithful, hd, Disk.content]
  | openExistingFile => exact absurd rfl hm

/-- A miss of `openIfNot` through the faithful backend changes the files as its open method
does: the choice and the closing of a victim leave them alone. -/
theorem openIfNot_files (rnd : Nat → Nat → Nat) (entry : Nat) (m : OpenMethod) (t : String)
    (s : MultiDiskAdaptor Disk) (hclosed : (s.heap entry)._open = false) :
    (openIfNot (faithful rnd) entry m t s).2.world.files =
      (m.run (faithful rnd) entry t s).2.world.files := by
  obtain ⟨f1, f2, _⟩ := run_faithful rnd m entry t s
  rcases hr : m.run (faithful rnd) entry t s with ⟨r0, s1⟩
  rw [hr] at f1 f2
  simp only at f1 f2
  cases r0 with
  | error e =>
    simp only [openIfNot, DiskWriterEntry.isOpen, hclosed, hr, Bool.not_false, if_true]
  | ok u =>
    by_cases hcap : s._maxOpenFiles ≤ s._openedDiskWriterEntries.length
    · rcases hv : s._openedDiskWriterEntries[(rnd s1.world.draws
          s._openedDiskWriterEntries.length)]? with _ | victim
      · simp only [openIfNot, DiskWriterEntry.isOpen, hclosed, hr, f2, hcap, f1,
          faithful_getRandomNumber, hv, Bool.not_false, if_true, ge_iff_le]
      · simp only [openIfNot, DiskWriterEntry.isOpen, hclosed, hr, f2, hcap, f1,
          faithful_getRandomNumber, hv, Bool.not_false, if_true, ge_iff_le]
        rw [(closeFile_entry_faithful rnd victim _).1]
    · simp only [openIfNot, DiskWriterEntry.isOpen, hclosed, hr, f2, hcap, Bool.not_false,
        if_true, ge_iff_le, if_false]

/-- An entry that is open after `openIfNot` is the entry of the call or was open before. -/
theorem openIfNot_open_sub {W : Type} (X : Ext W) (entry : Nat) (m : OpenMethod) (t : String)
    (s : MultiDiskAdaptor W) (h : Nat)
    (hh : ((openIfNot X entry m t s).2.heap h)._open = true) :
    h = entry ∨ (s.heap h)._open = true := by
  rcases openIfNot_cases X entry m t s with ⟨_, e⟩ | ⟨_, hc⟩
  · rw [e] at hh; exact Or.inr hh
  · rcases hc with ⟨msg, w, c, e⟩ | ⟨w, c, _, e⟩ | ⟨w, c, _, e⟩ | ⟨w, c, idx, v, _, _, e⟩
    · rw [e] at hh; exact Or.inr hh
    · rw [e] at hh; exact (heapOpened_open s entry h).mp hh
    · rw [e] at hh; exact (heapOpened_open s entry h).mp hh
    · rw [e] at hh; exact ((heapEvicted_open s entry v h).mp hh).2

/-- `openIfNot` with a method that creates the file, through the faithful backend, on a
ready state in which the files of the open entries exist (for the create-and-truncate open:
on a closed entry): the call returns, the entry is open, and the files are the old ones
with the file of the entry in place: with its old bytes, or cut or zero-filled to the
length of the entry. The randomizer has no part in this. -/
theorem openIfNot_sound (rnd : Nat → Nat → Nat) (hv : ValidRandom rnd) (entry : Nat)
    (m : OpenMethod) (hm : m ≠ .openExistingFile) (s : MultiDiskAdaptor Disk) (hr : Ready s)
    (hp : Present s) (hinit : m = .initAndOpenFile → (s.heap entry)._open = false) :
    (openIfNot (faithful rnd) entry m s._cachedTopDirPath s).1 = .ok () ∧
    Ready (openIfNot (faithful rnd) entry m s._cachedTopDirPath s).2 ∧
    Present (openIfNot (faithful rnd) entry m s._cachedTopDirPath s).2 ∧
    SameConfig s (openIfNot (faithful rnd) entry m s._cachedTopDirPath s).2 ∧
    ((openIfNot (faithful rnd) entry m s._cachedTopDirPath s).2.heap entry)._open = true ∧
    (openIfNot (faithful rnd) entry m s._cachedTopDirPath s).2.world.files =
      Function.update s.world.files (pathOf s entry)
        (some (if m = .initAndOpenFile then
          resizeFile (s.world.content (pathOf s entry)) (s.heap entry).fileEntry.length
          else s.world.content (pathOf s entry))) := by
  obtain ⟨_, a2, a3, _, a5⟩ := openIfNot_ready rnd hv entry m s hr
  obtain ⟨a5, a6⟩ := a5 hm
  have hfiles : (openIfNot (faithful rnd) entry m s._cachedTopDirPath s).2.world.files =
      Function.update s.world.files (pathOf s entry)
        (some (if m = .initAndOpenFile then
          resizeFile (s.world.content (pathOf s entry)) (s.heap entry).fileEntry.length
          else s.world.content (pathOf s entry))) := by
    by_cases ho : (s.heap entry)._open = true
    · have hni : m ≠ .initAndOpenFile := by
        intro e
        rw [hinit e] at ho
        cases ho
      have e : openIfNot (faithful rnd) entry m s._cachedTopDirPath s = (.ok (), s) := by
        simp [openIfNot, DiskWriterEntry.isOpen, ho]
      rw [e, if_neg hni]
      have hsome := hp entry ho
      symm
      apply Function.update_eq_self_iff.mpr
      cases hf : s.world.files (pathOf s entry) with
      | none => rw [hf] at hsome; cases hsome
      | some c => simp [Disk.content, hf]
    · have ho' : (s.heap entry)._open = false := by simpa using ho
      rw [openIfNot_files rnd entry m s._cachedTopDirPath s ho', run_files rnd m entry _ s hm]
      rfl
  refine ⟨a5, a2, ?_, a3, a6, hfiles⟩
  intro h hh
  rw [hfiles, pathOf_sameConfig a3]
  rcases openIfNot_open_sub (faithful rnd) entry m s._cachedTopDirPath s h hh with e | e
  · subst e
    simp
  · exact isSome_update _ _ _ _ (hp h e)

theorem content_congr {wA wB : Disk} (h : wA.files = wB.files) (q : String) :
    wA.content q = wB.content q := by
  simp only [Disk.content, h]

theorem faithful_writeData_files (rnd : Nat → Nat → Nat) (w : Disk) (h : Nat) (p : String)
    (chunk : List Byte) (n : Nat) (fo : Int) (hopen : w.opened h = some p) (hfo : 0 ≤ fo) :
    ((faithful rnd).writeData w h chunk n fo).1 = .ok () ∧
    ((faithful rnd).writeData w h chunk n fo).2.opened = w.opened ∧
    ((faithful rnd).writeData w h chunk n fo).2.files =
      Function.update w.files p (some (writeFileAt (w.content p) fo.toNat (chunk.take n))) := by
  rw [faithful_writeData rnd w h p chunk n fo hopen hfo]
  exact ⟨rfl, rfl, rfl⟩

/-- `openIfNot` with the open-or-create method on twin states: both calls return, the entry
is open in both results, and the results are twins again. -/
theorem openIfNot_twin (rndA rndB : Nat → Nat → Nat) (hvA : ValidRandom rndA)
    (hvB : ValidRandom rndB) (i : Nat) (sA sB : MultiDiskAdaptor Disk) (ht : Twin sA sB) :
    (openIfNot (faithful rndA) i .openFile sA._cachedTopDirPath sA).1 = .ok () ∧
    (openIfNot (faithful rndB) i .openFile sB._cachedTopDirPath sB).1 = .ok () ∧
    Twin (openIfNot (faithful rndA) i .openFile sA._cachedTopDirPath sA).2
      (openIfNot (faithful rndB) i .openFile sB._cachedTopDirPath sB).2 ∧
    (openIfNot (faithful rndA) i .openFile sA._cachedTopDirPath sA).2.world.opened i =
      some (pathOf sA i) ∧
    (openIfNot (faithful rndB) i .openFile sB._cachedTopDirPath sB).2.world.opened i =
      some (pathOf sA i) := by
  obtain ⟨hcfg, hfiles, ⟨hrA, hpA⟩, ⟨hrB, hpB⟩⟩ := ht
  obtain ⟨a1, a2, a3, a4, a5, a6⟩ :=
    openIfNot_sound rndA hvA i .openFile (by simp) sA hrA hpA (by simp)
  obtain ⟨b1, b2, b3, b4, b5, b6⟩ :=
    openIfNot_sound rndB hvB i .openFile (by simp) sB hrB hpB (by simp)
  refine ⟨a1, b1, ⟨(a4.symm.trans hcfg).trans b4, ?_, ⟨a2, a3⟩, ⟨b2, b3⟩⟩, ?_, ?_⟩
  · rw [a6, b6, pathOf_sameConfig hcfg, hfiles, if_neg (by simp), if_neg (by simp),
      content_congr hfiles]
  · rw [a2.2.1 i a5, pathOf_sameConfig a4]
  · rw [b2.2.1 i b5, pathOf_sameConfig b4, pathOf_sameConfig hcfg]

theorem Twin.after_transfer {sA sB : MultiDiskAdaptor Disk} (ht : Twin sA sB) (wA wB : Disk)
    (cA cB : List Call) (hA : wA.opened = sA.world.opened) (hB : wB.opened = sB.world.opened)
    (hf : wA.files = wB.files)
    (hmA : ∀ p, (sA.world.files p).isSome = true → (wA.files p).isSome = true)
    (hmB : ∀ p, (sB.world.files p).isSome = true → (wB.files p).isSome = true) :
    Twin { sA with calls := cA, world := wA } { sB with calls := cB, world := wB } := by
  have hd := SameConfig.directIO ht.1
  exact ⟨⟨ht.1.fileEntries, ht.1.storeDir, ht.1.topDir, ht.1.cachedTopDirPath,
      ht.1.directIOAllowed, ht.1.maxOpenFiles, ht.1.diskWriterEntries, ht.1.nextHandle,
      ht.1.fileEntry, hd⟩, hf,
    ⟨ht.2.2.1.1.of_world wA cA hA, ht.2.2.1.2.of_files wA cA hmA⟩,
    ⟨ht.2.2.2.1.of_world wB cB hB, ht.2.2.2.2.of_files wB cB hmB⟩⟩

/-- The loop of `writeData` on twin states: the same outcome, and twins again. -/
theorem writeLoop_twin (rndA rndB : Nat → Nat → Nat) (hvA : ValidRandom rndA)
    (hvB : ValidRandom rndB) (data : List Byte) (len : Nat) :
    ∀ (l : List Nat) (rem : Nat) (fo : Int) (sA sB : MultiDiskAdaptor Disk), Twin sA sB →
      (writeLoop (faithful rndA) data len l rem fo sA).1 =
        (writeLoop (faithful rndB) data len l rem fo sB).1 ∧
      Twin (writeLoop (faithful rndA) data len l rem fo sA).2
        (writeLoop (faithful rndB) data len l rem fo sB).2 := by
  intro l
  induction l with
  | nil => intro rem fo sA sB ht; exact ⟨rfl, ht⟩
  | cons i rest ih =>
    intro rem fo sA sB ht
    obtain ⟨o1, o2, o3, o4, o5⟩ := openIfNot_twin rndA rndB hvA hvB i sA sB ht
    rcases hoA : openIfNot (faithful rndA) i .openFile sA._cachedTopDirPath sA with ⟨rA, sA1⟩
    rcases hoB : openIfNot (faithful rndB) i .openFile sB._cachedTopDirPath sB with ⟨rB, sB1⟩
    rw [hoA] at o1 o3 o4
    rw [hoB] at o2 o3 o5
    simp only at o1 o2 o3 o4 o5
    subst o1
    subst o2
    have hlen : calculateLength (sB.heap i) fo rem = calculateLength (sA.heap i) fo rem :=
      calculateLength_congr _ _ (ht.1.fileEntry i) fo rem
    by_cases hfo : fo < 0
    · have hwA := faithful_writeData_eq rndA sA1.world i (pathOf sA i)
        ((data.drop ((len + 2 ^ 64 - rem) % 2 ^ 64)).take (calculateLength (sA.heap i) fo rem))
        (calculateLength (sA.heap i) fo rem) fo o4
      have hwB := faithful_writeData_eq rndB sB1.world i (pathOf sA i)
        ((data.drop ((len + 2 ^ 64 - rem) % 2 ^ 64)).take (calculateLength (sB.heap i) fo rem))
        (calculateLength (sB.heap i) fo rem) fo o5
      rw [if_pos hfo] at hwA hwB
      rw [writeLoop_write_error (faithful rndA) data len i rest rem fo sA sA1 () _ _ hoA hwA,
        writeLoop_write_error (faithful rndB) data len i rest rem fo sB sB1 () _ _ hoB hwB]
      exact ⟨rfl, o3.after_transfer _ _ _ _ rfl rfl o3.2.1 (fun _ h => h) (fun _ h => h)⟩
    · obtain ⟨fa1, fa2, fa3⟩ := faithful_writeData_files rndA sA1.world i (pathOf sA i)
        ((data.drop ((len + 2 ^ 64 - rem) % 2 ^ 64)).take (calculateLength (sA.heap i) fo rem))
        (calculateLength (sA.heap i) fo rem) fo o4 (by omega)
      obtain ⟨fb1, fb2, fb3⟩ := faithful_writeData_files rndB sB1.world i (pathOf sA i)
        ((data.drop ((len + 2 ^ 64 - rem) % 2 ^ 64)).take (calculateLength (sB.heap i) fo rem))
        (calculateLength (sB.heap i) fo rem) fo o5 (by omega)
      rcases hwA : (faithful rndA).writeData sA1.world i
        ((data.drop ((len + 2 ^ 64 - rem) % 2 ^ 64)).take (calculateLength (sA.heap i) fo rem))
        (calculateLength (sA.heap i) fo rem) fo with ⟨ra, wA⟩
      rcases hwB : (faithful rndB).writeData sB1.world i
        ((data.drop ((len + 2 ^ 64 - rem) % 2 ^ 64)).take (calculateLength (sB.heap i) fo rem))
        (calculateLength (sB.heap i) fo rem) fo with ⟨rb, wB⟩
      rw [hwA] at fa1 fa2 fa3
      rw [hwB] at fb1 fb2 fb3
      simp only at fa1 fa2 fa3 fb1 fb2 fb3
      subst fa1
      subst fb1
      have hfl : wA.files = wB.files := by
        rw [fa3, fb3, hlen, content_congr o3.2.1, o3.2.1]
      have htw := o3.after_transfer wA wB
        (sA1.calls ++ [Call.writeData i
          ((data.drop ((len + 2 ^ 64 - rem) % 2 ^ 64)).take (calculateLength (sA.heap i) fo rem))
          (calculateLength (sA.heap i) fo rem) fo])
        (sB1.calls ++ [Call.writeData i
          ((data.drop ((len + 2 ^ 64 - rem) % 2 ^ 64)).take (calculateLength (sB.heap i) fo rem))
          (calculateLength (sB.heap i) fo rem) fo]) fa2 fb2 hfl
        (fun p hp => by rw [fa3]; exact isSome_update _ _ _ _ hp)
        (fun p hp => by rw [fb3]; exact isSome_update _ _ _ _ hp)
      by_cases hrem : (rem + 2 ^ 64 - calculateLength (sA.heap i) fo rem) % 2 ^ 64 = 0
      · rw [writeLoop_last (faithful rndA) data len i rest rem fo sA sA1 () () _ hoA hwA hrem,
          writeLoop_last (faithful rndB) data len i rest rem fo sB sB1 () () _ hoB hwB
            (by rw [hlen]; exact hrem)]
        exact ⟨rfl, htw⟩
      · rw [writeLoop_next (faithful rndA) data len i rest rem fo sA sA1 () () _ hoA hwA hrem,
          writeLoop_next (faithful rndB) data len i rest rem fo sB sB1 () () _ hoB hwB
            (by rw [hlen]; exact hrem), hlen]
        exact ih _ _ _ _ (by rw [hlen] at htw; exact htw)

/-- The loop of `readData` on twin states: the same outcome (count and buffer), and twins
again. -/
theorem readLoop_twin (rndA rndB : Nat → Nat → Nat) (hvA : ValidRandom rndA)
    (hvB : ValidRandom rndB) (len : Nat) :
    ∀ (l : List Nat) (rem : Nat) (fo : Int) (buf : List Byte) (total : Nat)
      (sA sB : MultiDiskAdaptor Disk), Twin sA sB →
      (readLoop (faithful rndA) len l rem fo buf total sA).1 =
        (readLoop (faithful rndB) len l rem fo buf total sB).1 ∧
      Twin (readLoop (faithful rndA) len l rem fo buf total sA).2
        (readLoop (faithful rndB) len l rem fo buf total sB).2 := by
  intro l
  induction l with
  | nil => intro rem fo buf total sA sB ht; exact ⟨rfl, ht⟩
  | cons i rest ih =>
    intro rem fo buf total sA sB ht
    obtain ⟨o1, o2, o3, o4, o5⟩ := openIfNot_twin rndA rndB hvA hvB i sA sB ht
    rcases hoA : openIfNot (faithful rndA) i .openFile sA._cachedTopDirPath sA with ⟨rA, sA1⟩
    rcases hoB : openIfNot (faithful rndB) i .openFile sB._cachedTopDirPath sB with ⟨rB, sB1⟩
    rw [hoA] at o1 o3 o4
    rw [hoB] at o2 o3 o5
    simp only at o1 o2 o3 o4 o5
    subst o1
    subst o2
    have hlen : calculateLength (sB.heap i) fo rem = calculateLength (sA.heap i) fo rem :=
      calculateLength_congr _ _ (ht.1.fileEntry i) fo rem
    have hwA := faithful_readData_eq rndA sA1.world i (pathOf sA i)
      (calculateLength (sA.heap i) fo rem) fo o4
    have hwB := faithful_readData_eq rndB sB1.world i (pathOf sA i)
      (calculateLength (sB.heap i) fo rem) fo o5
    have htw := o3.after_transfer sA1.world sB1.world
      (sA1.calls ++ [Call.readData i (calculateLength (sA.heap i) fo rem) fo])
      (sB1.calls ++ [Call.readData i (calculateLength (sB.heap i) fo rem) fo]) rfl rfl o3.2.1
      (fun _ h => h) (fun _ h => h)
    by_cases hfo : fo < 0
    · rw [if_pos hfo] at hwA hwB
      rw [readLoop_read_error (faithful rndA) len i rest rem fo buf total sA sA1 () _ _ hoA hwA,
        readLoop_read_error (faithful rndB) len i rest rem fo buf total sB sB1 () _ _ hoB hwB]
      exact ⟨rfl, htw⟩
    · rw [if_neg hfo] at hwA hwB
      rw [hlen, ← content_congr o3.2.1 (pathOf sA i)] at hwB
      by_cases hrem : (rem + 2 ^ 64 - calculateLength (sA.heap i) fo rem) % 2 ^ 64 = 0
      · rw [readLoop_last (faithful rndA) len i rest rem fo buf total sA sA1 () _ _ hoA hwA hrem,
          readLoop_last (faithful rndB) len i rest rem fo buf total sB sB1 () _ _ hoB
            (by rw [hlen]; exact hwB) (by rw [hlen]; exact hrem)]
        exact ⟨rfl, htw⟩
      · rw [readLoop_next (faithful rndA) len i rest rem fo buf total sA sA1 () _ _ hoA hwA hrem,
          readLoop_next (faithful rndB) len i rest rem fo buf total sB sB1 () _ _ hoB
            (by rw [hlen]; exact hwB) (by rw [hlen]; exact hrem), hlen]
        exact ih _ _ _ _ _ _ (by rw [hlen] at htw; exact htw)

theorem upperBoundLoop_congr {α β γ : Type} (comp : α → β → Bool) (comp' : α → γ → Bool)
    (value : α) (xs : List β) (ys : List γ)
    (h : ∀ i : Nat, (xs[i]?).map (comp value) = (ys[i]?).map (comp' value)) :
    ∀ fuel first len, upperBoundLoop comp value xs fuel first len =
      upperBoundLoop comp' value ys fuel first len := by
  intro fuel
  induction fuel with
  | zero => intro first len; rfl
  | succ n ih =>
    intro first len
    simp only [upperBoundLoop]
    by_cases hl : len = 0
    · simp only [hl, if_true]
    · simp only [hl, if_false]
      have := h (first + len / 2)
      cases hx : xs[first + len / 2]? with
      | none =>
        rw [hx] at this
        cases hy : ys[first + len / 2]? with
        | none => rfl
        | some y => rw [hy] at this; cases this
      | some x =>
        rw [hx] at this
        cases hy : ys[first + len / 2]? with
        | none => rw [hy] at this; cases this
        | some y =>
          rw [hy] at this
          simp only [Option.map_some', Option.some.injEq] at this
          simp only [this, ih]

/-- The located position depends on the file entries only. -/
theorem findFirstDiskWriterEntry_congr (es es' : List DiskWriterEntry) (offset : Int)
    (h : fileEntriesOf es = fileEntriesOf es') :
    findFirstDiskWriterEntry es offset = findFirstDiskWriterEntry es' offset := by
  have hlen : es.length = es'.length := by
    have := congrArg List.length h
    simpa [fileEntriesOf] using this
  have hget : ∀ i : Nat, (es[i]?).map (·.fileEntry) = (es'[i]?).map (·.fileEntry) := by
    intro i
    have := congrArg (fun l => l[i]?) h
    simpa [fileEntriesOf] using this
  have hub : upper_bound OffsetCompare offset es = upper_bound OffsetCompare offset es' := by
    unfold upper_bound
    rw [hlen]
    apply upperBoundLoop_congr
    intro i
    have := hget i
    cases hx : es[i]? <;> cases hy : es'[i]? <;> rw [hx, hy] at this <;>
      simp_all [OffsetCompare]
  unfold findFirstDiskWriterEntry
  simp only [hub]
  split
  · rfl
  · have := hget (upper_bound OffsetCompare offset es' - 1)
    cases hx : es[upper_bound OffsetCompare offset es' - 1]? <;>
      cases hy : es'[upper_bound OffsetCompare offset es' - 1]? <;> rw [hx, hy] at this <;>
      simp_all [isInRange]

theorem Twin.locate {sA sB : MultiDiskAdaptor Disk} (ht : Twin sA sB) (offset : Int) :
    findFirstDiskWriterEntry sB.entries offset = findFirstDiskWriterEntry sA.entries offset :=
  findFirstDiskWriterEntry_congr _ _ offset (by
    rw [fileEntriesOf_entries, fileEntriesOf_entries, filesOf_sameConfig ht.1])

theorem writeData_twin (rndA rndB : Nat → Nat → Nat) (hvA : ValidRandom rndA)
    (hvB : ValidRandom rndB) (data : List Byte) (len : Nat) (offset : Int)
    (sA sB : MultiDiskAdaptor Disk) (ht : Twin sA sB) :
    (writeData (faithful rndA) data len offset sA).1 =
      (writeData (faithful rndB) data len offset sB).1 ∧
    Twin (writeData (faithful rndA) data len offset sA).2
      (writeData (faithful rndB) data len offset sB).2 := by
  have hloc := ht.locate offset
  have hseq := ht.1.diskWriterEntries
  cases hf : findFirstDiskWriterEntry sA.entries offset with
  | error e =>
    have eA : writeData (faithful rndA) data len offset sA = (.error e, sA) := by
      simp only [writeData, hf]
    have eB : writeData (faithful rndB) data len offset sB = (.error e, sB) := by
      simp only [writeData, hloc, hf]
    rw [eA, eB]
    exact ⟨rfl, ht⟩
  | ok first =>
    cases hh : sA.diskWriterEntries[first]? with
    | none =>
      have eA : writeData (faithful rndA) data len offset sA = (.error .invalidAccess, sA) := by
        simp only [writeData, hf, hh]
      have eB : writeData (faithful rndB) data len offset sB = (.error .invalidAccess, sB) := by
        simp only [writeData, hloc, hf, hseq, hh]
      rw [eA, eB]
      exact ⟨rfl, ht⟩
    | some h =>
      have eA : writeData (faithful rndA) data len offset sA =
          writeLoop (faithful rndA) data len (sA.diskWriterEntries.drop first) len
            (offset - (sA.heap h).fileEntry.offset) sA := by
        simp only [writeData, hf, hh]
      have eB : writeData (faithful rndB) data len offset sB =
          writeLoop (faithful rndB) data len (sA.diskWriterEntries.drop first) len
            (offset - (sA.heap h).fileEntry.offset) sB := by
        simp only [writeData, hloc, hf, hseq, hh, ht.1.fileEntry]
      rw [eA, eB]
      exact writeLoop_twin rndA rndB hvA hvB data len _ _ _ sA sB ht

theorem readData_twin (rndA rndB : Nat → Nat → Nat) (hvA : ValidRandom rndA)
    (hvB : ValidRandom rndB) (data : List Byte) (len : Nat) (offset : Int)
    (sA sB : MultiDiskAdaptor Disk) (ht : Twin sA sB) :
    (readData (faithful rndA) data len offset sA).1 =
      (readData (faithful rndB) data len offset sB).1 ∧
    Twin (readData (faithful rndA) data len offset sA).2
      (readData (faithful rndB) data len offset sB).2 := by
  have hloc := ht.locate offset
  have hseq := ht.1.diskWriterEntries
  cases hf : findFirstDiskWriterEntry sA.entries offset with
  | error e =>
    have eA : readData (faithful rndA) data len offset sA = (.error e, sA) := by
      simp only [readData, hf]
    have eB : readData (faithful rndB) data len offset sB = (.error e, sB) := by
      simp only [readData, hloc, hf]
    rw [eA, eB]
    exact ⟨rfl, ht⟩
  | ok first =>
    cases hh : sA.diskWriterEntries[first]? with
    | none =>
      have eA : readData (faithful rndA) data len offset sA = (.error .invalidAccess, sA) := by
        simp only [readData, hf, hh]
      have eB : readData (faithful rndB) data len offset sB = (.error .invalidAccess, sB) := by
        simp only [readData, hloc, hf, hseq, hh]
      rw [eA, eB]
      exact ⟨rfl, ht⟩
    | some h =>
      obtain ⟨h1, h2⟩ := readLoop_twin rndA rndB hvA hvB len
        (sA.diskWriterEntries.drop first) len (offset - (sA.heap h).fileEntry.offset) data 0
        sA sB ht
      rcases hA : readLoop (faithful rndA) len (sA.diskWriterEntries.drop first) len
        (offset - (sA.heap h).fileEntry.offset) data 0 sA with ⟨rA, sA1⟩
      rcases hB : readLoop (faithful rndB) len (sA.diskWriterEntries.drop first) len
        (offset - (sA.heap h).fileEntry.offset) data 0 sB with ⟨rB, sB1⟩
      rw [hA, hB] at h1 h2
      simp only at h1 h2
      subst h1
      cases rA with
      | error e =>
        have eA : readData (faithful rndA) data len offset sA = (.error e, sA1) := by
          simp only [readData, hf, hh, hA]
        have eB : readData (faithful rndB) data len offset sB = (.error e, sB1) := by
          simp only [readData, hloc, hf, hseq, hh, ht.1.fileEntry, hB]
        rw [eA, eB]
        exact ⟨rfl, h2⟩
      | ok v =>
        have eA : readData (faithful rndA) data len offset sA =
            (.ok (toSsize v.1, v.2), sA1) := by
          simp only [readData, hf, hh, hA]
        have eB : readData (faithful rndB) data len offset sB =
            (.ok (toSsize v.1, v.2), sB1) := by
          simp only [readData, hloc, hf, hseq, hh, ht.1.fileEntry, hB]
        rw [eA, eB]
        exact ⟨rfl, h2⟩

theorem serve_twin (rndA rndB : Nat → Nat → Nat) (hvA : ValidRandom rndA)
    (hvB : ValidRandom rndB) (q : Request) (sA sB : MultiDiskAdaptor Disk) (ht : Twin sA sB) :
    (serve (faithful rndA) q sA).1 = (serve (faithful rndB) q sB).1 ∧
    Twin (serve (faithful rndA) q sA).2 (serve (faithful rndB) q sB).2 := by
  cases q with
  | write data len offset =>
    obtain ⟨h1, h2⟩ := writeData_twin rndA rndB hvA hvB data len offset sA sB ht
    rcases hA : writeData (faithful rndA) data len offset sA with ⟨rA, sA1⟩
    rcases hB : writeData (faithful rndB) data len offset sB with ⟨rB, sB1⟩
    rw [hA, hB] at h1 h2
    simp only at h1 h2
    subst h1
    simp only [serve, hA, hB]
    cases rA <;> exact ⟨rfl, h2⟩
  | read data len offset =>
    obtain ⟨h1, h2⟩ := readData_twin rndA rndB hvA hvB data len offset sA sB ht
    rcases hA : readData (faithful rndA) data len offset sA with ⟨rA, sA1⟩
    rcases hB : readData (faithful rndB) data len offset sB with ⟨rB, sB1⟩
    rw [hA, hB] at h1 h2
    simp only at h1 h2
    subst h1
    simp only [serve, hA, hB]
    cases rA <;> exact ⟨rfl, h2⟩

theorem serveAll_twin (rndA rndB : Nat → Nat → Nat) (hvA : ValidRandom rndA)
    (hvB : ValidRandom rndB) :
    ∀ (qs : List Request) (sA sB : MultiDiskAdaptor Disk), Twin sA sB →
      (serveAll (faithful rndA) qs sA).1 = (serveAll (faithful rndB) qs sB).1 ∧
      Twin (serveAll (faithful rndA) qs sA).2 (serveAll (faithful rndB) qs sB).2 := by
  intro qs
  induction qs with
  | nil => intro sA sB ht; exact ⟨rfl, ht⟩
  | cons q rest ih =>
    intro sA sB ht
    obtain ⟨h1, h2⟩ := serve_twin rndA rndB hvA hvB q sA sB ht
    obtain ⟨h3, h4⟩ := ih _ _ h2
    simp only [serveAll]
    exact ⟨by rw [h1, h3], h4⟩

theorem Twin.refl_of_ready {s : MultiDiskAdaptor Disk} (hs : Ready s) (hp : Present s) :
    Twin s s :=
  ⟨SameConfig.refl s, rfl, ⟨hs, hp⟩, ⟨hs, hp⟩⟩

theorem AllClosed.present {s : MultiDiskAdaptor Disk} (hs : AllClosed s) : Present s := by
  intro h hh
  rw [hs.1 h] at hh
  cases hh

/-- The loop of `initAndOpenFile` on twin states, over entries that are not in the cache
yet: both loops return, and the results are twins. -/
theorem initAndOpenLoop_twin (rndA rndB : Nat → Nat → Nat) (hvA : ValidRandom rndA)
    (hvB : ValidRandom rndB) :
    ∀ (l done : List Nat) (sA sB : MultiDiskAdaptor Disk), Twin sA sB →
      OpenInCache sA → OpenInCache sB →
      (∀ h ∈ sA._openedDiskWriterEntries, h ∈ done) →
      (∀ h ∈ sB._openedDiskWriterEntries, h ∈ done) → (done ++ l).Nodup →
      (initAndOpenLoop (faithful rndA) l sA).1 = .ok () ∧
      (initAndOpenLoop (faithful rndB) l sB).1 = .ok () ∧
      Twin (initAndOpenLoop (faithful rndA) l sA).2 (initAndOpenLoop (faithful rndB) l sB).2 := by
  intro l
  induction l with
  | nil => intro done sA sB ht _ _ _ _ _; exact ⟨rfl, rfl, ht⟩
  | cons h rest ih =>
    intro done sA sB ht hoA hoB hsA hsB hnd
    have hnotin : h ∉ done := by
      intro hd
      exact (List.nodup_append.mp hnd).2.2 hd (List.mem_cons_self _ _)
    have hcA : (sA.heap h)._open = false := by
      by_contra hcon
      have : (sA.heap h)._open = true := by simpa using hcon
      exact hnotin (hsA h (hoA h this))
    have hcB : (sB.heap h)._open = false := by
      by_contra hcon
      have : (sB.heap h)._open = true := by simpa using hcon
      exact hnotin (hsB h (hoB h this))
    obtain ⟨hcfg, hfiles, ⟨hrA, hpA⟩, ⟨hrB, hpB⟩⟩ := ht
    obtain ⟨a5, a2, a2p, a3, _, a8⟩ :=
      openIfNot_sound rndA hvA h .initAndOpenFile (by simp) sA hrA hpA (fun _ => hcA)
    obtain ⟨b5, b2, b2p, b3, _, b8⟩ :=
      openIfNot_sound rndB hvB h .initAndOpenFile (by simp) sB hrB hpB (fun _ => hcB)
    have a1 : (openIfNot (faithful rndA) h .initAndOpenFile sA._cachedTopDirPath sA).1 ≠
        .error .invalidAccess := by rw [a5]; intro hh; cases hh
    have b1 : (openIfNot (faithful rndB) h .initAndOpenFile sB._cachedTopDirPath sB).1 ≠
        .error .invalidAccess := by rw [b5]; intro hh; cases hh
    have a6 := openIfNot_openInCache (faithful rndA) h .initAndOpenFile sA._cachedTopDirPath sA
      hoA a1
    have b6 := openIfNot_openInCache (faithful rndB) h .initAndOpenFile sB._cachedTopDirPath sB
      hoB b1
    have a7 := (openIfNot_miss_cache (faithful rndA) h .initAndOpenFile sA._cachedTopDirPath sA
      hcA a5).1
    have b7 := (openIfNot_miss_cache (faithful rndB) h .initAndOpenFile sB._cachedTopDirPath sB
      hcB b5).1
    have hcont :
        (openIfNot (faithful rndA) h .initAndOpenFile sA._cachedTopDirPath sA).2.world.files
          = (openIfNot (faithful rndB) h .initAndOpenFile sB._cachedTopDirPath
              sB).2.world.files := by
      rw [a8, b8, pathOf_sameConfig hcfg, hfiles, hcfg.fileEntry, content_congr hfiles]
    rcases hopA : openIfNot (faithful rndA) h .initAndOpenFile sA._cachedTopDirPath sA
      with ⟨rA, sA1⟩
    rcases hopB : openIfNot (faithful rndB) h .initAndOpenFile sB._cachedTopDirPath sB
      with ⟨rB, sB1⟩
    rw [hopA] at a2 a2p a3 a5 a6 a7 hcont
    rw [hopB] at b2 b2p b3 b5 b6 b7 hcont
    simp only at a2 a2p a3 a5 a6 a7 b2 b2p b3 b5 b6 b7 hcont
    subst a5
    subst b5
    have hlA : initAndOpenLoop (faithful rndA) (h :: rest) sA =
        initAndOpenLoop (faithful rndA) rest sA1 := by
      simp only [initAndOpenLoop, hopA]
    have hlB : initAndOpenLoop (faithful rndB) (h :: rest) sB =
        initAndOpenLoop (faithful rndB) rest sB1 := by
      simp only [initAndOpenLoop, hopB]
    rw [hlA, hlB]
    refine ih (done ++ [h]) sA1 sB1
      ⟨(a3.symm.trans hcfg).trans b3, hcont, ⟨a2, a2p⟩, ⟨b2, b2p⟩⟩ a6 b6 ?_ ?_
      (by rw [List.append_assoc]; exact hnd)
    · intro x hx
      rcases a7 x hx with hx | hx
      · exact List.mem_append_left _ (hsA x hx)
      · exact List.mem_append_right _ (by simp [hx])
    · intro x hx
      rcases b7 x hx with hx | hx
      · exact List.mem_append_left _ (hsB x hx)
      · exact List.mem_append_right _ (by simp [hx])

theorem mkdirLoop_faithful_eq (rndA rndB : Nat → Nat → Nat) (t : String) :
    ∀ (l : List FileEntry) (s : MultiDiskAdaptor Disk),
      mkdirLoop (faithful rndA) t l s = mkdirLoop (faithful rndB) t l s := by
  intro l
  induction l with
  | nil => intro s; rfl
  | cons fe rest ih =>
    intro s
    have hA : (faithful rndA).setupDir s.world fe t = (.ok (), s.world) := rfl
    have hB : (faithful rndB).setupDir s.world fe t = (.ok (), s.world) := rfl
    simp only [mkdirLoop, hA, hB]
    exact ih _

theorem resetDiskWriterEntries_faithful_eq (rndA rndB : Nat → Nat → Nat)
    (s : MultiDiskAdaptor Disk) :
    resetDiskWriterEntries (faithful rndA) s = resetDiskWriterEntries (faithful rndB) s := by
  have hp : pushNewEntry (faithful rndA) = pushNewEntry (faithful rndB) := rfl
  unfold resetDiskWriterEntries
  rw [hp]

/-- Building a newly constructed adaptor with two randomizers gives twin states. -/
theorem build_twin (rndA rndB : Nat → Nat → Nat) (hvA : ValidRandom rndA)
    (hvB : ValidRandom rndB) (build : Op) (hb : build.isBuild = true)
    (s : MultiDiskAdaptor Disk) (hs : AllClosed s) (hm : 1 ≤ s._maxOpenFiles) :
    Twin (step (faithful rndA) build s).2 (step (faithful rndB) build s).2 := by
  have hmk := mkdirLoop_faithful rndA s.getTopDirPath s.fileEntries
    { s with _cachedTopDirPath := s.getTopDirPath }
  obtain ⟨w, c, hsh, _⟩ := mkdirLoop_shape (faithful rndA) s.getTopDirPath s.fileEntries
    { s with _cachedTopDirPath := s.getTopDirPath }
  rcases hmkA : mkdirLoop (faithful rndA) s.getTopDirPath s.fileEntries
    { s with _cachedTopDirPath := s.getTopDirPath } with ⟨r, s2⟩
  have hmkB : mkdirLoop (faithful rndB) s.getTopDirPath s.fileEntries
      { s with _cachedTopDirPath := s.getTopDirPath } = (r, s2) := by
    rw [mkdirLoop_faithful_eq rndB rndA, hmkA]
  rw [hmkA] at hmk hsh
  simp only at hmk hsh
  subst hmk
  have hcl2 : AllClosed s2 := by
    rw [hsh]
    exact hs
  have hcl3 := resetDiskWriterEntries_allClosed rndA s2 hcl2
  have hm3 : 1 ≤ (resetDiskWriterEntries (faithful rndA) s2)._maxOpenFiles := by
    rw [(resetDiskWriterEntries_cached (faithful rndA) s2).2, hsh]
    exact hm
  cases build with
  | openFile =>
    have eA : (step (faithful rndA) .openFile s).2 = resetDiskWriterEntries (faithful rndA) s2 := by
      simp only [step, openFile, mkdir, hmkA]
    have eB : (step (faithful rndB) .openFile s).2 = resetDiskWriterEntries (faithful rndA) s2 := by
      simp only [step, openFile, mkdir, hmkB, resetDiskWriterEntries_faithful_eq rndB rndA]
    rw [eA, eB]
    exact Twin.refl_of_ready (hcl3.ready hm3) hcl3.present
  | openExistingFile =>
    have hcl := resetDiskWriterEntries_allClosed rndA
      { s with _cachedTopDirPath := s.getTopDirPath } hs
    have eB : (step (faithful rndB) .openExistingFile s).2 =
        (step (faithful rndA) .openExistingFile s).2 := by
      simp only [step, openExistingFile, resetDiskWriterEntries_faithful_eq rndB rndA]
    rw [eB]
    have eA : (step (faithful rndA) .openExistingFile s).2 =
        resetDiskWriterEntries (faithful rndA) { s with _cachedTopDirPath := s.getTopDirPath } := by
      simp only [step, openExistingFile]
    rw [eA]
    exact Twin.refl_of_ready
      (hcl.ready (by rw [(resetDiskWriterEntries_cached (faithful rndA) _).2]; exact hm))
      hcl.present
  | initAndOpenFile =>
    have eA : (step (faithful rndA) .initAndOpenFile s).2 =
        (initAndOpenLoop (faithful rndA) (resetDiskWriterEntries (faithful rndA) s2).diskWriterEntries
          (resetDiskWriterEntries (faithful rndA) s2)).2 := by
      simp only [step, initAndOpenFile, mkdir, hmkA]
    have eB : (step (faithful rndB) .initAndOpenFile s).2 =
        (initAndOpenLoop (faithful rndB) (resetDiskWriterEntries (faithful rndA) s2).diskWriterEntries
          (resetDiskWriterEntries (faithful rndA) s2)).2 := by
      simp only [step, initAndOpenFile, mkdir, hmkB,
        resetDiskWriterEntries_faithful_eq rndB rndA]
    rw [eA, eB]
    have hoc : OpenInCache (resetDiskWriterEntries (faithful rndA) s2) := by
      intro h hh
      rw [hcl3.1 h] at hh
      cases hh
    have hsub : ∀ h ∈ (resetDiskWriterEntries (faithful rndA) s2)._openedDiskWriterEntries,
        h ∈ ([] : List Nat) := by
      intro h hh
      rw [hcl3.2] at hh
      cases hh
    exact (initAndOpenLoop_twin rndA rndB hvA hvB _ [] _ _
      (Twin.refl_of_ready (hcl3.ready hm3) hcl3.present) hoc hoc hsub hsub
      (by
        rw [List.nil_append, resetDiskWriterEntries_handles]
        exact List.nodup_range' _ _)).2.2
  | closeFile => cases hb
  | onDownloadComplete => cases hb
  | writeData _ _ _ => cases hb
  | readData _ _ _ => cases hb
  | setMaxOpenFiles _ => cases hb
  | openIfNot _ _ => cases hb

/-- Claim C19. Two adaptors are constructed alike (any file entries, any disk, capacity
`maxOpenFiles ≥ 1`), built by the same build operation and given the same finite sequence of
`writeData` / `readData` requests, through the faithful backend with two randomizers that
keep their contract. Then the callers get the same back from every request (the same
exception, or the same count and the same bytes in the read buffer), the disks hold the
same files with the same content at the end, and the two adaptors have the same
configuration and entries; the randomizers decide only which entries are open. -/
theorem eviction_choice_irrelevant (rndA rndB : Nat → Nat → Nat) (hvA : ValidRandom rndA)
    (hvB : ValidRandom rndB) (DEFAULT_MAX_OPEN_FILES maxOpenFiles : Nat)
    (hm : 1 ≤ maxOpenFiles) (fileEntries : List FileEntry) (storeDir topDir : String)
    (directIOAllowed : Bool) (disk : Disk) (build : Op) (hb : build.isBuild = true)
    (requests : List Request) :
    (serveAll (faithful rndA) requests
      (step (faithful rndA) build (setMaxOpenFiles maxOpenFiles
        (MultiDiskAdaptor.create DEFAULT_MAX_OPEN_FILES fileEntries storeDir topDir
          directIOAllowed disk))).2).1 =
    (serveAll (faithful rndB) requests
      (step (faithful rndB) build (setMaxOpenFiles maxOpenFiles
        (MultiDiskAdaptor.create DEFAULT_MAX_OPEN_FILES fileEntries storeDir topDir
          directIOAllowed disk))).2).1 ∧
    (serveAll (faithful rndA) requests
      (step (faithful rndA) build (setMaxOpenFiles maxOpenFiles
        (MultiDiskAdaptor.create DEFAULT_MAX_OPEN_FILES fileEntries storeDir topDir
          directIOAllowed disk))).2).2.world.files =
    (serveAll (faithful rndB) requests
      (step (faithful rndB) build (setMaxOpenFiles maxOpenFiles
        (MultiDiskAdaptor.create DEFAULT_MAX_OPEN_FILES fileEntries storeDir topDir
          directIOAllowed disk))).2).2.world.files ∧
    SameConfig
      (serveAll (faithful rndA) requests
        (step (faithful rndA) build (setMaxOpenFiles maxOpenFiles
          (MultiDiskAdaptor.create DEFAULT_MAX_OPEN_FILES fileEntries storeDir topDir
            directIOAllowed disk))).2).2
      (serveAll (faithful rndB) requests
        (step (faithful rndB) build (setMaxOpenFiles maxOpenFiles
          (MultiDiskAdaptor.create DEFAULT_MAX_OPEN_FILES fileEntries storeDir topDir
            directIOAllowed disk))).2).2 := by
  have hcl : AllClosed (setMaxOpenFiles maxOpenFiles
      (MultiDiskAdaptor.create DEFAULT_MAX_OPEN_FILES fileEntries storeDir topDir
        directIOAllowed disk)) := ⟨fun _ => rfl, rfl⟩
  have h0 := build_twin rndA rndB hvA hvB build hb _ hcl hm
  obtain ⟨h1, h2, h3, _⟩ := serveAll_twin rndA rndB hvA hvB requests _ _ h0
  exact ⟨h1, h3, h2⟩

/-- Claim C19 on the three files with one slot, built by `openFile()`, with a write over two
files and a read of the same range (three evictions): the randomizers `k % n` and
constant `0` give the same answers. -/
theorem eviction_choice_irrelevant_witness :
    ValidRandom sampleRandom ∧ ValidRandom (fun _ _ => 0) ∧
    (serveAll (faithful sampleRandom)
      [.write sampleData 15 8, .read (List.replicate 15 0) 15 8]
      (step (faithful sampleRandom) .openFile (setMaxOpenFiles 1
        (MultiDiskAdaptor.create 100 threeFiles "/dl" "top" false Disk.empty))).2).1 =
    (serveAll (faithful (fun _ _ => 0))
      [.write sampleData 15 8, .read (List.replicate 15 0) 15 8]
      (step (faithful (fun _ _ => 0)) .openFile (setMaxOpenFiles 1
        (MultiDiskAdaptor.create 100 threeFiles "/dl" "top" false Disk.empty))).2).1 ∧
    (serveAll (faithful sampleRandom)
      [.write sampleData 15 8, .read (List.replicate 15 0) 15 8]
      (step (faithful sampleRandom) .openFile (setMaxOpenFiles 1
        (MultiDiskAdaptor.create 100 threeFiles "/dl" "top" false Disk.empty))).2).1 =
      [.ok none, .ok (some (15, sampleData))] :=
  have hA : ValidRandom sampleRandom := fun _ _ hn => Nat.mod_lt _ hn
  have hB : ValidRandom (fun _ _ => 0) := fun _ _ hn => hn
  ⟨hA, hB,
    (eviction_choice_irrelevant sampleRandom (fun _ _ => 0) hA hB 100 1 (by decide) threeFiles
      "/dl" "top" false Disk.empty .openFile rfl
      [.write sampleData 15 8, .read (List.replicate 15 0) 15 8]).1, by decide⟩

/-- Claim C14 on the three files after fifteen bytes were written at offset 8: a read of the
same range is split like the write, and returns 15 and the bytes written. -/
theorem readData_counts_witness :
    (readData (faithful sampleRandom) (List.replicate 15 0) 15 8
      (sampleRun 2 [.openFile, .writeData sampleData 15 8])).1 = .ok (15, sampleData) ∧
    chunksFor (sampleRun 2 [.openFile, .writeData sampleData 15 8]) 15 8 =
      [{ entry := 0, fileOffset := 8, length := 2, position := 0 },
        { entry := 1, fileOffset := 0, length := 13, position := 2 }] ∧
    ∃ responses : List (List Byte),
      List.Forall₂ (Answered (faithful sampleRandom))
        (chunksFor (sampleRun 2 [.openFile, .writeData sampleData 15 8]) 15 8) responses ∧
      (15 : Int) = toSsize ((responses.map List.length).sum % 2 ^ 64) ∧
      sampleData = storeAll (List.replicate 15 0)
        (chunksFor (sampleRun 2 [.openFile, .writeData sampleData 15 8]) 15 8) responses :=
  ⟨by decide, by decide,
    (readData_counts (faithful sampleRandom)
      (sampleRun 2 [.openFile, .writeData sampleData 15 8]) (List.replicate 15 0) 15 8 15
      sampleData (by decide)).imp (fun _ h => ⟨h.1, h.2.1, h.2.2.1⟩)⟩

theorem faithful_randomInRange (rnd : Nat → Nat → Nat) (hv : ValidRandom rnd) :
    RandomInRange (faithful rnd) := fun w n hn => hv w.draws n hn

/-- Claim C15 in scenario B: touching the third file evicts exactly one of the first two,
and the cache keeps its two slots. -/
theorem openIfNot_evicts_one_witness :
    (CacheOpen scenarioB ∧ scenarioB._openedDiskWriterEntries = [0, 1] ∧
      scenarioB._maxOpenFiles = 2 ∧ (scenarioB.heap 2)._open = false) ∧
    (openIfNot (faithful sampleRandom) 2 .openFile "/dl/top" scenarioB).1 = .ok () ∧
    ∃ victim ∈ scenarioB._openedDiskWriterEntries,
      victim ≠ 2 ∧ (scenarioB.heap victim)._open = true ∧
      ((openIfNot (faithful sampleRandom) 2 .openFile "/dl/top" scenarioB).2.heap victim)._open
        = false ∧
      ((openIfNot (faithful sampleRandom) 2 .openFile "/dl/top" scenarioB).2.heap 2)._open
        = true ∧
      (∀ h, h ≠ victim → h ≠ 2 →
        ((openIfNot (faithful sampleRandom) 2 .openFile "/dl/top" scenarioB).2.heap h)._open =
          (scenarioB.heap h)._open) ∧
      (openIfNot (faithful sampleRandom) 2 .openFile "/dl/top"
        scenarioB).2._openedDiskWriterEntries.length = scenarioB._maxOpenFiles :=
  have hc : CacheOpen scenarioB := by unfold CacheOpen; decide
  have h := openIfNot_evicts_one (faithful sampleRandom)
    (faithful_randomInRange sampleRandom (fun _ _ hn => Nat.mod_lt _ hn)) 2 .openFile "/dl/top"
    scenarioB hc (by decide) (by decide) (by decide) (by decide)
  ⟨⟨hc, by decide, by decide, by decide⟩, h.1,
    h.2.imp (fun _ h => ⟨h.1, h.2.1, h.2.2.1, h.2.2.2.1, h.2.2.2.2.1, h.2.2.2.2.2.1,
      h.2.2.2.2.2.2.1⟩)⟩

/-- Claim C16 on the three files with two slots: three create-and-truncate opens in order,
two entries open, one eviction, and the last entry open. -/
theorem initAndOpenFile_opens_all_witness :
    (initAndOpenFile (faithful sampleRandom) (setMaxOpenFiles 2 (MultiDiskAdaptor.create 100
      threeFiles "/dl" "top" false Disk.empty))).1 = .ok () ∧
    initsOf (initAndOpenFile (faithful sampleRandom) (setMaxOpenFiles 2
      (MultiDiskAdaptor.create 100 threeFiles "/dl" "top" false Disk.empty))).2.calls =
        [Call.initAndOpenFile 0 "/dl/top/a" 10, Call.initAndOpenFile 1 "/dl/top/b" 20,
          Call.initAndOpenFile 2 "/dl/top/c" 5] ∧
    openCount (initAndOpenFile (faithful sampleRandom) (setMaxOpenFiles 2
      (MultiDiskAdaptor.create 100 threeFiles "/dl" "top" false Disk.empty))).2 =
        min threeFiles.length 2 ∧
    (closesOf (initAndOpenFile (faithful sampleRandom) (setMaxOpenFiles 2
      (MultiDiskAdaptor.create 100 threeFiles "/dl" "top" false Disk.empty))).2.calls).length =
        threeFiles.length - 2 ∧
    ((initAndOpenFile (faithful sampleRandom) (setMaxOpenFiles 2 (MultiDiskAdaptor.create 100
      threeFiles "/dl" "top" false Disk.empty))).2.heap 2)._open = true :=
  have h := initAndOpenFile_opens_all (faithful sampleRandom) 100 2 threeFiles "/dl" "top"
    false Disk.empty (by decide)
  ⟨by decide, by decide, h.2.2.2.1, h.2.2.2.2.2.1, h.2.2.2.2.2.2 2 (by decide)⟩

/-- Claim C17 on the three files: the flag of the first entry is set while it is closed and
takes effect at its open, is cleared while it is open, and then the adaptor sets the flag
of every entry; an entry opened afterwards starts with direct I/O enabled. -/
theorem directIO_in_sync_witness :
    InSync (fun w h => w h) directSample ∧
    InSync (fun w h => w h) (directRun modeBackend
      [.enable 0, .openWith .openFile 0 "/dl/top", .disable 0, .enableAll,
        .openWith .initAndOpenFile 1 "/dl/top", .closeFile 0] directSample) ∧
    (directRun modeBackend [.enable 0, .openWith .openFile 0 "/dl/top"] directSample).world 0
      = true ∧
    (directRun modeBackend [.enable 0, .openWith .openFile 0 "/dl/top", .disable 0]
      directSample).world 0 = false ∧
    (directRun modeBackend
      [.enable 0, .openWith .openFile 0 "/dl/top", .disable 0, .enableAll,
        .openWith .initAndOpenFile 1 "/dl/top", .closeFile 0] directSample).world 1 = true ∧
    DiskWriterEntry._directIO ((directRun modeBackend
      [.enable 0, .openWith .openFile 0 "/dl/top", .disable 0, .enableAll,
        .openWith .initAndOpenFile 1 "/dl/top", .closeFile 0] directSample).heap 2) = true :=
  have hs : InSync (fun w h => w h) directSample := fun h hh =>
    absurd ((resetDiskWriterEntries_closed modeBackend _).1 h hh) (by simp [MultiDiskAdaptor.create])
  ⟨hs, (directIO_in_sync modeBackend (fun w h => w h) modeBackend_directIO directSample hs
      [.enable 0, .openWith .openFile 0 "/dl/top", .disable 0, .enableAll,
        .openWith .initAndOpenFile 1 "/dl/top", .closeFile 0]).1,
    by decide, by decide, by decide, by decide⟩

/-- Claim C18 at the three files of lengths 10, 20, 5 and the offset 12. -/
theorem findFirstDiskWriterEntry_step_back_witness :
    threeEntries.Pairwise (fun a b => a.fileEntry.offset ≤ b.fileEntry.offset) ∧
    upper_bound OffsetCompare 12 threeEntries = 2 ∧
    1 ≤ upper_bound OffsetCompare 12 threeEntries ∧
    upper_bound OffsetCompare 12 threeEntries ≤ threeEntries.length ∧
    (∃ e, threeEntries[upper_bound OffsetCompare 12 threeEntries - 1]? = some e ∧
      e.fileEntry.offset ≤ 12 ∧
      ∀ (j : Nat) (e' : DiskWriterEntry), threeEntries[j]? = some e' →
        e'.fileEntry.offset ≤ 12 → j ≤ upper_bound OffsetCompare 12 threeEntries - 1) ∧
    findFirstDiskWriterEntry threeEntries 12 ≠ .error .invalidAccess ∧
    (findFirstDiskWriterEntry threeEntries 12 =
        .ok (upper_bound OffsetCompare 12 threeEntries - 1) ∨
      findFirstDiskWriterEntry threeEntries 12 = .error (.offsetOutOfRange 12)) :=
  ⟨by decide, by decide,
    findFirstDiskWriterEntry_step_back threeEntries 12 (by decide) ⟨_, rfl, rfl⟩ (by decide)⟩

/-- Claim C20 on the three files: two slots are filled, the capacity is lowered to one, and
after a read over two files and a touch of the third file the cache still has two slots
and two entries are open. -/
theorem cache_never_drains_witness :
    (sampleRun 2 [.openFile, .writeData sampleData 15 8])._openedDiskWriterEntries.length
      = 2 ∧
    (sampleRun 2 [.openFile, .writeData sampleData 15 8, .setMaxOpenFiles 1,
      .readData (List.replicate 15 0) 15 8,
      .openIfNot 2 .openFile])._openedDiskWriterEntries.length = 2 ∧
    (sampleRun 2 [.openFile, .writeData sampleData 15 8, .setMaxOpenFiles 1,
      .readData (List.replicate 15 0) 15 8, .openIfNot 2 .openFile])._maxOpenFiles = 1 ∧
    (openEntries (sampleRun 2 [.openFile, .writeData sampleData 15 8, .setMaxOpenFiles 1,
      .readData (List.replicate 15 0) 15 8, .openIfNot 2 .openFile])).length = 2 :=
  have h := cache_never_drains (faithful sampleRandom) 2 threeFiles "/dl" "top" false
    Disk.empty [.openFile, .writeData sampleData 15 8]
    (sampleRun 2 [.openFile, .writeData sampleData 15 8]) rfl 1 (by decide)
    [.readData (List.replicate 15 0) 15 8, .openIfNot 2 .openFile] (by decide)
    (sampleRun 2 [.openFile, .writeData sampleData 15 8, .setMaxOpenFiles 1,
      .readData (List.replicate 15 0) 15 8, .openIfNot 2 .openFile]) rfl
  ⟨by decide, h.2.2.1, h.2.2.2.1, (h.2.2.2.2 (by unfold CacheOpen; decide)).1⟩

/-- On an empty entry sequence `upper_bound` returns `begin()`, and `findFirstDiskWriterEntry`
steps back from it: undefined behaviour, whatever the offset. -/
theorem findFirstDiskWriterEntry_nil (offset : Int) :
    findFirstDiskWriterEntry [] offset = .error .invalidAccess := by
  simp [findFirstDiskWriterEntry, upper_bound, upperBoundLoop]

/-- An exception of `findFirstDiskWriterEntry` ends `writeData` and `readData` at once, the
adaptor unchanged. -/
theorem transfer_not_located (X : Ext W) (s : MultiDiskAdaptor W) (data buf : List Byte)
    (len : Nat) (offset : Int) (e : Failure)
    (hf : findFirstDiskWriterEntry s.entries offset = .error e) :
    writeData X data len offset s = (.error e, s) ∧
      readData X buf len offset s = (.error e, s) := by
  simp only [writeData, readData, hf, and_self]

/-- Claim C3, amended. Construct an adaptor over a tiling of total length below `2 ^ 63`
whose files have distinct paths, set any capacity `maxOpenFiles ≥ 1`, build it with
`openFile()`, `initAndOpenFile()` or `openExistingFile()` on any disk, with the faithful
backend and a randomizer that honours its bound; take an offset `≥ 0`, a `len` with
`offset + len ≤ totalLength`, a byte string `data` and a buffer of length `len`.
Round trip, for `offset < totalLength`: `writeData(data, len, offset)` returns, and the
following `readData(buf, len, offset)` returns `len` and leaves the buffer equal to `data`;
the range may span any number of files, more than `maxOpenFiles` included.
For `offset = totalLength` (then `len = 0`) over at least one file, `writeData` and
`readData` both throw `OffsetOutOfRange` and leave the adaptor as it was; over no file at
all both step back from `begin()` of the empty sequence, which is undefined behaviour. -/
theorem write_then_read (rnd : Nat → Nat → Nat) (hv : ValidRandom rnd)
    (DEFAULT_MAX_OPEN_FILES maxOpenFiles : Nat) (hm : 1 ≤ maxOpenFiles)
    (fileEntries : List FileEntry) (storeDir topDir : String) (directIOAllowed : Bool)
    (disk : Disk) (build : Op) (hb : build.isBuild = true) (ht : Tiling 0 fileEntries)
    (hfit : totalLength fileEntries < 2 ^ 63) (hpaths : (fileEntries.map (·.path)).Nodup)
    (data buf : List Byte) (len : Nat) (offset : Int) (hdata : data.length = len)
    (hbuf : buf.length = len) (h0 : 0 ≤ offset)
    (hend : offset + len ≤ totalLength fileEntries) :
    (offset < totalLength fileEntries →
      (writeData (faithful rnd) data len offset
        (step (faithful rnd) build (setMaxOpenFiles maxOpenFiles
          (MultiDiskAdaptor.create DEFAULT_MAX_OPEN_FILES fileEntries storeDir topDir
            directIOAllowed disk))).2).1 = .ok () ∧
      (readData (faithful rnd) buf len offset
        (writeData (faithful rnd) data len offset
          (step (faithful rnd) build (setMaxOpenFiles maxOpenFiles
            (MultiDiskAdaptor.create DEFAULT_MAX_OPEN_FILES fileEntries storeDir topDir
              directIOAllowed disk))).2).2).1 = .ok ((len : Int), data)) ∧
    (offset = totalLength fileEntries → fileEntries ≠ [] →
      writeData (faithful rnd) data len offset
        (step (faithful rnd) build (setMaxOpenFiles maxOpenFiles
          (MultiDiskAdaptor.create DEFAULT_MAX_OPEN_FILES fileEntries storeDir topDir
            directIOAllowed disk))).2 =
        (.error (.offsetOutOfRange offset),
          (step (faithful rnd) build (setMaxOpenFiles maxOpenFiles
            (MultiDiskAdaptor.create DEFAULT_MAX_OPEN_FILES fileEntries storeDir topDir
              directIOAllowed disk))).2) ∧
      readData (faithful rnd) buf len offset
        (step (faithful rnd) build (setMaxOpenFiles maxOpenFiles
          (MultiDiskAdaptor.create DEFAULT_MAX_OPEN_FILES fileEntries storeDir topDir
            directIOAllowed disk))).2 =
        (.error (.offsetOutOfRange offset),
          (step (faithful rnd) build (setMaxOpenFiles maxOpenFiles
            (MultiDiskAdaptor.create DEFAULT_MAX_OPEN_FILES fileEntries storeDir topDir
              directIOAllowed disk))).2)) ∧
    (fileEntries = [] →
      writeData (faithful rnd) data len offset
        (step (faithful rnd) build (setMaxOpenFiles maxOpenFiles
          (MultiDiskAdaptor.create DEFAULT_MAX_OPEN_FILES fileEntries storeDir topDir
            directIOAllowed disk))).2 =
        (.error .invalidAccess,
          (step (faithful rnd) build (setMaxOpenFiles maxOpenFiles
            (MultiDiskAdaptor.create DEFAULT_MAX_OPEN_FILES fileEntries storeDir topDir
              directIOAllowed disk))).2) ∧
      readData (faithful rnd) buf len offset
        (step (faithful rnd) build (setMaxOpenFiles maxOpenFiles
          (MultiDiskAdaptor.create DEFAULT_MAX_OPEN_FILES fileEntries storeDir topDir
            directIOAllowed disk))).2 =
        (.error .invalidAccess,
          (step (faithful rnd) build (setMaxOpenFiles maxOpenFiles
            (MultiDiskAdaptor.create DEFAULT_MAX_OPEN_FILES fileEntries storeDir topDir
              directIOAllowed disk))).2)) := by
  have hcl : AllClosed (setMaxOpenFiles maxOpenFiles
      (MultiDiskAdaptor.create DEFAULT_MAX_OPEN_FILES fileEntries storeDir topDir
        directIOAllowed disk)) := ⟨fun _ => rfl, rfl⟩
  obtain ⟨hr, hf, _⟩ := build_ready rnd hv build hb _ hcl hm
  have hfe := (fileEntriesOf_entries _).trans hf
  have hfe2 : fileEntriesOf (step (faithful rnd) build (setMaxOpenFiles maxOpenFiles
      (MultiDiskAdaptor.create DEFAULT_MAX_OPEN_FILES fileEntries storeDir topDir
        directIOAllowed disk))).2.entries = fileEntries := hfe
  generalize (step (faithful rnd) build (setMaxOpenFiles maxOpenFiles
      (MultiDiskAdaptor.create DEFAULT_MAX_OPEN_FILES fileEntries storeDir topDir
        directIOAllowed disk))).2 = B at hr hfe2 ⊢
  refine ⟨?_, ?_, ?_⟩
  · intro h1
    exact write_then_read_ready rnd hv B hr (by rw [hfe2]; exact ht) (by rw [hfe2]; exact hfit)
      (by rw [hfe2]; exact hpaths) data buf len offset hdata hbuf h0 (by rw [hfe2]; exact h1)
      (by rw [hfe2]; exact hend)
  · intro htop hne
    apply transfer_not_located
    apply findFirstDiskWriterEntry_past_end
    · intro hnil
      rw [hnil] at hfe2
      exact hne hfe2.symm
    · rw [hfe2]; exact ht
    · rw [hfe2]; omega
    · rw [hfe2]; omega
    · omega
  · intro hnil
    apply transfer_not_located
    have hes : B.entries = [] := by
      rw [hnil] at hfe2
      exact List.map_eq_nil_iff.mp hfe2
    rw [hes]
    exact findFirstDiskWriterEntry_nil offset

/-- The round trip of fifteen bytes at offset 8 over the three files of lengths 10, 20 and
5 with `maxOpenFiles = 1`: the range spans two files, more than the capacity. -/
theorem write_then_read_witness :
    ValidRandom sampleRandom ∧ Tiling 0 threeFiles ∧
    (writeData (faithful sampleRandom) sampleData 15 8
      (step (faithful sampleRandom) .openFile (setMaxOpenFiles 1
        (MultiDiskAdaptor.create 100 threeFiles "/dl" "top" false Disk.empty))).2).1 = .ok () ∧
    (readData (faithful sampleRandom) (List.replicate 15 0) 15 8
      (writeData (faithful sampleRandom) sampleData 15 8
        (step (faithful sampleRandom) .openFile (setMaxOpenFiles 1
          (MultiDiskAdaptor.create 100 threeFiles "/dl" "top" false Disk.empty))).2).2).1 =
      .ok (((15 : Nat) : Int), sampleData) :=
  have hv : ValidRandom sampleRandom := fun _ _ hn => Nat.mod_lt _ hn
  ⟨hv, by decide,
    (write_then_read sampleRandom hv 100 1 (by decide) threeFiles "/dl" "top" false Disk.empty
      .openFile rfl (by decide) (by decide) (by decide) sampleData (List.replicate 15 0) 15 8
      (by decide) (by decide) (by decide) (by decide)).1 (by decide)⟩

/-- With a capacity of at least one and a randomizer that keeps its contract, `openIfNot`
returns or passes on the exception of its open method: it has no exception of its own and
never leaves the cache. -/
theorem openIfNot_outcome (X : Ext W) (hrnd : RandomInRange X) (entry : Nat) (m : OpenMethod)
    (t : String) (s : MultiDiskAdaptor W) (hm : 1 ≤ s._maxOpenFiles) :
    (openIfNot X entry m t s).1 = .ok () ∨
      ∃ msg, (openIfNot X entry m t s).1 = .error (.backend msg) := by
  by_cases ho : (s.heap entry)._open = true
  · left
    simp [openIfNot, DiskWriterEntry.isOpen, ho]
  · have ho' : (s.heap entry)._open = false := by simpa using ho
    rcases run_shape X m entry t s with ⟨msg, w, c, hr⟩ | ⟨w, c, hr⟩
    · right
      refine ⟨msg, ?_⟩
      simp [openIfNot, DiskWriterEntry.isOpen, ho', hr]
    · left
      exact openIfNot_returns X hrnd entry m t s hm (by rw [hr])

/-- With a capacity of at least one and a randomizer that keeps its contract, the loop of
`writeData` returns or passes on the exception of a backend call. -/
theorem writeLoop_outcome (X : Ext W) (hrnd : RandomInRange X) (data : List Byte) (len : Nat) :
    ∀ (l : List Nat) (rem : Nat) (fo : Int) (s : MultiDiskAdaptor W), 1 ≤ s._maxOpenFiles →
      (writeLoop X data len l rem fo s).1 = .ok () ∨
        ∃ msg, (writeLoop X data len l rem fo s).1 = .error (.backend msg) := by
  intro l
  induction l with
  | nil =>
    intro rem fo s _
    left
    rfl
  | cons i rest ih =>
    intro rem fo s hm
    have hout := openIfNot_outcome X hrnd i .openFile s._cachedTopDirPath s hm
    have hcfg := openIfNot_sameConfig X i .openFile s._cachedTopDirPath s
    rcases ho : openIfNot X i .openFile s._cachedTopDirPath s with ⟨r, s1⟩
    rw [ho] at hout hcfg
    simp only at hout hcfg
    cases r with
    | error e =>
      rcases hout with hout | ⟨msg, hout⟩
      · cases hout
      · right
        refine ⟨msg, ?_⟩
        rw [writeLoop_open_error X data len i rest rem fo s s1 e ho]
        exact hout
    | ok u =>
      rcases hw : X.writeData s1.world i
        ((data.drop ((len + 2 ^ 64 - rem) % 2 ^ 64)).take (calculateLength (s.heap i) fo rem))
        (calculateLength (s.heap i) fo rem) fo with ⟨rw, w⟩
      cases rw with
      | error msg =>
        right
        refine ⟨msg, ?_⟩
        rw [writeLoop_write_error X data len i rest rem fo s s1 u msg w ho hw]
      | ok u' =>
        by_cases hrem : (rem + 2 ^ 64 - calculateLength (s.heap i) fo rem) % 2 ^ 64 = 0
        · left
          rw [writeLoop_last X data len i rest rem fo s s1 u u' w ho hw hrem]
        · rw [writeLoop_next X data len i rest rem fo s s1 u u' w ho hw hrem]
          apply ih
          show 1 ≤ s1._maxOpenFiles
          have := hcfg.maxOpenFiles
          omega

/-- Claim C7, amended. On a tiling (total length a `uint64_t` value), for every `len` and
every offset with `0 ≤ offset < totalLength` and `offset + len < 2 ^ 64`. When `writeData`
returns normally, the lengths of the chunks it has handed to backend writes sum to
`min(len, totalLength - offset)`: to all `len` bytes when `offset + len ≤ totalLength`,
and to only the `totalLength - offset < len` bytes up to the end of the last file when
`offset + len > totalLength`. With a capacity of at least one and a randomizer that keeps
its bound, `writeData` returns normally or passes on the exception of a backend call; so
when no backend call fails it returns normally. -/
theorem writeData_consumes (X : Ext W) (s : MultiDiskAdaptor W) (data : List Byte) (len : Nat)
    (offset : Int) (ht : Tiling 0 (fileEntriesOf s.entries))
    (hfit : totalLength (fileEntriesOf s.entries) < 2 ^ 64) (h0 : 0 ≤ offset)
    (h1 : offset < totalLength (fileEntriesOf s.entries)) (hfit2 : offset + len < 2 ^ 64) :
    ((writeData X data len offset s).1 = .ok () →
      ((writesOf (writeData X data len offset s).2.calls).map Call.writeLength).sum =
          ((writesOf s.calls).map Call.writeLength).sum +
            min len (totalLength (fileEntriesOf s.entries) - offset).toNat ∧
        (offset + len ≤ totalLength (fileEntriesOf s.entries) →
          ((writesOf (writeData X data len offset s).2.calls).map Call.writeLength).sum =
            ((writesOf s.calls).map Call.writeLength).sum + len) ∧
        ((totalLength (fileEntriesOf s.entries) : Int) < offset + len →
          ((writesOf (writeData X data len offset s).2.calls).map Call.writeLength).sum =
            ((writesOf s.calls).map Call.writeLength).sum +
              (totalLength (fileEntriesOf s.entries) - offset).toNat ∧
          (totalLength (fileEntriesOf s.entries) - offset).toNat < len)) ∧
    (RandomInRange X → 1 ≤ s._maxOpenFiles →
      ((writeData X data len offset s).1 = .ok () ∨
        ∃ msg, (writeData X data len offset s).1 = .error (.backend msg)) ∧
      ((∀ msg, (writeData X data len offset s).1 ≠ .error (.backend msg)) →
        (writeData X data len offset s).1 = .ok ())) := by
  constructor
  · intro hok
    obtain ⟨hsum, hall⟩ := writeData_sum X s data len offset ht hfit h0 h1 hfit2 hok
    refine ⟨hsum, hall, ?_⟩
    intro hover
    have hlt : (totalLength (fileEntriesOf s.entries) - offset).toNat < len := by omega
    refine ⟨?_, hlt⟩
    rw [hsum, Nat.min_eq_right (Nat.le_of_lt hlt)]
  · intro hrnd hm
    obtain ⟨i, h, _, _, _, _, hw⟩ := writeData_located X s data len offset ht hfit h0 h1
    have hout := writeLoop_outcome X hrnd data len (s.diskWriterEntries.drop i) len
      (offset - (s.heap h).fileEntry.offset) s hm
    rw [← hw] at hout
    refine ⟨hout, ?_⟩
    intro hno
    rcases hout with hout | ⟨msg, hout⟩
    · exact hout
    · exact absurd hout (hno msg)

/-- Claim C7, amended, at scenario A: the write of 15 bytes at offset 8
returns and hands all 15 bytes to backend writes. -/
theorem writeData_consumes_witness :
    (writeData (faithful sampleRandom) sampleData 15 8 (sampleRun 2 [.openFile])).1 = .ok () ∧
    ((writesOf (writeData (faithful sampleRandom) sampleData 15 8
        (sampleRun 2 [.openFile])).2.calls).map Call.writeLength).sum =
      ((writesOf (sampleRun 2 [.openFile]).calls).map Call.writeLength).sum + 15 :=
  have hok : (writeData (faithful sampleRandom) sampleData 15 8
      (sampleRun 2 [.openFile])).1 = .ok () := by decide
  ⟨hok,
    ((writeData_consumes (faithful sampleRandom) (sampleRun 2 [.openFile]) sampleData 15 8
      (by decide) (by decide) (by decide) (by decide) (by decide)).1 hok).2.1 (by decide)⟩

end aria2
